import Mathlib

/-!
# Matrix-Operations: verification of `ProgramFiles/Matrix.c`

A shallow embedding of the matrix object of `Matrix.c` and of its operations,
followed by theorems about them.

Modelling conventions
* `double` entries are exact rationals (`ℚ`): the theorems are statements in
  exact arithmetic. Where the rounding of `double` arithmetic matters, the section
  "Double-precision arithmetic" repeats the operation with every arithmetic result
  rounded to the nearest `double`.
* `int` values are `Int`; sizes are assumed to fit an `int` (signed overflow is
  undefined behaviour in C and is not modelled).
* A matrix object is the value `Mx`; its `entries` list is the allocated buffer,
  whose length is the capacity of the allocation. `Mx.Shaped m r c` says that `m`
  has `r` rows, `c` columns and a buffer of at least `r * c` entries.
* A handle (`MATRIX`, a pointer that may be `NULL`) is an `Option Mx`.
  Operands and the result handle are distinct objects (no aliasing), except in the
  definitions named `_self`, where the result handle holds the first operand.
* The allocator is the explicit state `Heap`: every `malloc`/`calloc` request
  consumes one outcome from `oracle` (a request made after the oracle is
  exhausted succeeds), `live` counts the blocks currently allocated and
  `failed` counts the requests that have failed so far.
* Reading or writing a buffer outside its allocation is undefined behaviour in
  C; `rd` reads `0` there and `wr` writes nothing. The section "Checked execution"
  repeats the operations with every such index checked: there a run that would
  leave a buffer yields `none`.
-/

/-- Status.h: `typedef enum status { FAILURE, SUCCESS } Status;` -/
inductive Status where
  | FAILURE
  | SUCCESS
deriving DecidableEq, Repr

/-- Status.h: `typedef enum boolean { FALSE, TRUE } Boolean;` -/
inductive Boolean where
  | FALSE
  | TRUE
deriving DecidableEq, Repr

/-- Allocator state: outcomes of the coming allocation requests, number of live
blocks, number of failed requests so far. -/
structure Heap where
  oracle : List Bool
  live : Int
  failed : Nat
deriving DecidableEq, Repr

/-- One allocation request (`malloc` or `calloc`): returns whether it succeeded. -/
def Heap.malloc (h : Heap) : Bool × Heap :=
  match h.oracle with
  | [] => (true, { h with live := h.live + 1 })
  | true :: rest => (true, { oracle := rest, live := h.live + 1, failed := h.failed })
  | false :: rest => (false, { oracle := rest, live := h.live, failed := h.failed + 1 })

/-- One call of `free` on an allocated block. -/
def Heap.free (h : Heap) : Heap :=
  { h with live := h.live - 1 }

/-- Every coming allocation request succeeds. -/
def Heap.ok (h : Heap) : Prop :=
  ∀ b ∈ h.oracle, b = true

instance (h : Heap) : Decidable h.ok :=
  inferInstanceAs (Decidable (∀ b ∈ h.oracle, b = true))

/-- Matrix.c: `struct matrix` (the C typedef `Matrix`; named `Mx` here because
`Matrix` is the mathematical matrix type of the library). -/
structure Mx where
  entries : List ℚ
  rows : Int
  cols : Int
  maxLength : Int
deriving DecidableEq, Repr

/-- Read `buf[idx]`. -/
def rd (buf : List ℚ) (idx : Int) : ℚ :=
  if idx < 0 then 0 else buf.getD idx.toNat 0

/-- Write `buf[idx] = v`. -/
def wr (buf : List ℚ) (idx : Int) (v : ℚ) : List ℚ :=
  if idx < 0 then buf else buf.set idx.toNat v

/-- A block of `n` zeroed doubles, as `calloc(n, sizeof(double))` returns it. -/
def zeroBuf (n : Int) : List ℚ :=
  List.replicate n.toNat 0

/-- Matrix.c: `getSize`. -/
def getSize (rows cols : Int) : Int :=
  rows * cols

/-- Matrix.c: `at`. -/
def at_ (pMx : Mx) (row col : Int) : Int :=
  if row ≥ pMx.rows ∨ col ≥ pMx.cols then -1 else row * pMx.cols + col

/-- Matrix.c: `at2`. -/
def at2 (rows cols row col : Int) : Int :=
  if row ≥ rows ∨ col ≥ cols then -1 else row * cols + col

/-- The characters `sprintf("%d", z)` produces. -/
def fmtD (z : Int) : List Char :=
  (toString z).toList

/-- Left-pad a digit list with `0` up to `n` characters. -/
def padZeros (n : Nat) (ds : List Char) : List Char :=
  List.replicate (n - ds.length) '0' ++ ds

/-- Round a non-negative rational to the nearest natural, ties to even. -/
def roundHalfEven (q : ℚ) : Nat :=
  let f := q.floor.toNat
  let r := q - (f : ℚ)
  if r < 1 / 2 then f
  else if 1 / 2 < r then f + 1
  else if f % 2 = 0 then f else f + 1

/-- The characters `sprintf("%f", q)` produces: sign, integer part, `.`, six
decimals, the value rounded to the nearest millionth. -/
def fmtF (q : ℚ) : List Char :=
  let n := roundHalfEven (|q| * 1000000)
  (if q < 0 then ['-'] else []) ++ (Nat.toDigits 10 (n / 1000000))
    ++ ['.'] ++ padZeros 6 (Nat.toDigits 10 (n % 1000000))

/-- Matrix.c: `calcEntryLength`. The backwards scan stops at the start of the
string. -/
def calcEntryLength (entry : ℚ) : Int :=
  let entryInt : Int := entry.floor
  if (entryInt : ℚ) = entry then
    ((fmtD entryInt).length : Int)
  else
    let entryStr := fmtF entry
    (entryStr.length : Int)
      - ((entryStr.reverse.takeWhile (fun c => c = '0' ∨ c = '.')).length : Int)

/-- Matrix.c: `matrix_initDims`. -/
def matrix_initDims (rows cols : Int) (h : Heap) : Option Mx × Heap :=
  match h.malloc with
  | (false, h1) => (none, h1)
  | (true, h1) =>
    match h1.malloc with
    | (false, h2) => (none, h2.free)
    | (true, h2) =>
      (some { entries := zeroBuf (getSize rows cols), rows := rows, cols := cols,
              maxLength := 1 }, h2)

/-- Matrix.c: `matrix_destroy`. -/
def matrix_destroy (phMx : Option Mx) (h : Heap) : Status × Option Mx × Heap :=
  match phMx with
  | some _ => (Status.SUCCESS, none, h.free.free)
  | none => (Status.FAILURE, none, h)

/-- Matrix.c: `matrix_getEntry`. -/
def matrix_getEntry (hMx : Mx) (row col : Int) : Status × ℚ :=
  let idx := at_ hMx row col
  if idx ≠ -1 then (Status.SUCCESS, rd hMx.entries idx) else (Status.FAILURE, 0)

/-- Matrix.c: `adjustMatrixDims`. -/
def adjustMatrixDims (ppMx : Option Mx) (rows cols : Int) (h : Heap) :
    Status × Option Mx × Heap :=
  match ppMx with
  | none =>
    match matrix_initDims rows cols h with
    | (none, h1) => (Status.FAILURE, none, h1)
    | (some m, h1) => (Status.SUCCESS, some m, h1)
  | some pMx =>
    if getSize pMx.rows pMx.cols < getSize rows cols then
      match h.malloc with
      | (false, h1) => (Status.FAILURE, some pMx, h1)
      | (true, h1) =>
        (Status.SUCCESS,
          some { entries := zeroBuf (getSize rows cols), rows := rows, cols := cols,
                 maxLength := 1 },
          h1.free)
    else
      let size := getSize rows cols
      let entries := (List.range size.toNat).foldl (fun es (i : Nat) => wr es (i : Int) 0) pMx.entries
      (Status.SUCCESS, some { entries := entries, rows := rows, cols := cols, maxLength := 1 }, h)

/-- Matrix.c: `matrix_copy`. -/
def matrix_copy (phMxDest : Option Mx) (hMxSrc : Mx) (h : Heap) : Status × Option Mx × Heap :=
  let copyEntries := fun (dest : List ℚ) =>
    (List.range (getSize hMxSrc.rows hMxSrc.cols).toNat).foldl
      (fun es (i : Nat) => wr es (i : Int) (rd hMxSrc.entries (i : Int))) dest
  match phMxDest with
  | none =>
    match matrix_initDims hMxSrc.rows hMxSrc.cols h with
    | (none, h1) => (Status.FAILURE, none, h1)
    | (some pMxDest, h1) =>
      (Status.SUCCESS,
        some { pMxDest with maxLength := hMxSrc.maxLength,
                            entries := copyEntries pMxDest.entries }, h1)
  | some pMxDest =>
    if getSize pMxDest.rows pMxDest.cols < getSize hMxSrc.rows hMxSrc.cols then
      match h.malloc with
      | (false, h1) => (Status.FAILURE, some pMxDest, h1)
      | (true, h1) =>
        (Status.SUCCESS,
          some { entries := copyEntries (zeroBuf (getSize hMxSrc.rows hMxSrc.cols)),
                 rows := hMxSrc.rows, cols := hMxSrc.cols, maxLength := hMxSrc.maxLength },
          h1.free)
    else
      (Status.SUCCESS,
        some { entries := copyEntries pMxDest.entries,
               rows := hMxSrc.rows, cols := hMxSrc.cols, maxLength := hMxSrc.maxLength }, h)

/-- Matrix.c: `matrix_move`; returns the status, the destination handle and the
source handle. -/
def matrix_move (phMxDest phMxSrc : Option Mx) (h : Heap) :
    Status × Option Mx × Option Mx × Heap :=
  match phMxSrc with
  | none => (Status.FAILURE, phMxDest, none, h)
  | some src => (Status.SUCCESS, some src, none, (matrix_destroy phMxDest h).2.2)

/-- Running state of the loops that compute a result matrix: the result matrix,
the running `maxLength` and the `isFirstNewEntry` flag. -/
structure ResSt where
  pMxRes : Mx
  maxLength : Int
  isFirstNewEntry : Boolean
deriving DecidableEq, Repr

/-- The statements shared by the result loops of `matrix_opAdd`, `matrix_opSub`
and `matrix_opMult`: update the running `maxLength` with the length of `sum`
and store `sum` at `(resRow, resCol)` of the result. -/
def storeEntry (st : ResSt) (resRow resCol : Int) (sum : ℚ) : ResSt :=
  let numLength := calcEntryLength sum
  { pMxRes := { st.pMxRes with
                entries := wr st.pMxRes.entries (at_ st.pMxRes resRow resCol) sum },
    maxLength :=
      if st.isFirstNewEntry = Boolean.TRUE then numLength
      else if numLength > st.maxLength then numLength else st.maxLength,
    isFirstNewEntry := Boolean.FALSE }

/-- The operand `hMxs[i]`; reading past the end of the array is undefined behaviour
in C and yields an empty matrix object here. -/
def operand (hMxs : List Mx) (i : Nat) : Mx :=
  hMxs.getD i { entries := [], rows := 0, cols := 0, maxLength := 0 }

/-- Matrix.c: inner loop of `matrix_opAdd`, the sum of the operands at one
coordinate. -/
def opAddSum (hMxs : List Mx) (hMxsSize : Int) (resRow resCol : Int) : ℚ :=
  (List.range hMxsSize.toNat).foldl
    (fun sum (i : Nat) => sum + rd (operand hMxs i).entries (at_ (operand hMxs i) resRow resCol)) 0

/-- Matrix.c: `matrix_opAdd`. The loop bounds are read through `pMxToAdd`, which
the inner loop points at operands of (by precondition) the same dimensions. -/
def matrix_opAdd (hMxs : List Mx) (hMxsSize : Int) (phMxRes : Option Mx) (h : Heap) :
    Status × Option Mx × Heap :=
  let pMxToAdd := operand hMxs 0
  match adjustMatrixDims phMxRes pMxToAdd.rows pMxToAdd.cols h with
  | (Status.SUCCESS, some pMxRes, h1) =>
    let st := (List.range pMxToAdd.rows.toNat).foldl
      (fun st (resRow : Nat) => (List.range pMxToAdd.cols.toNat).foldl
        (fun st (resCol : Nat) =>
          storeEntry st resRow resCol (opAddSum hMxs hMxsSize resRow resCol)) st)
      { pMxRes := pMxRes, maxLength := 1, isFirstNewEntry := Boolean.TRUE }
    (Status.SUCCESS, some { st.pMxRes with maxLength := st.maxLength }, h1)
  | (_, res, h1) => (Status.FAILURE, res, h1)

/-- Matrix.c: inner loop of `matrix_opSub`. -/
def opSubSum (hMxs : List Mx) (hMxsSize : Int) (resRow resCol : Int) : ℚ :=
  (List.range hMxsSize.toNat).foldl
    (fun sum (i : Nat) =>
      if i = 0 then sum + rd (operand hMxs i).entries (at_ (operand hMxs i) resRow resCol)
      else sum - rd (operand hMxs i).entries (at_ (operand hMxs i) resRow resCol)) 0

/-- Matrix.c: `matrix_opSub`. The loop bounds are read through `pMxToSub`, which
the inner loop points at operands of (by precondition) the same dimensions. -/
def matrix_opSub (hMxs : List Mx) (hMxsSize : Int) (phMxRes : Option Mx) (h : Heap) :
    Status × Option Mx × Heap :=
  let pMxToSub := operand hMxs 0
  match adjustMatrixDims phMxRes pMxToSub.rows pMxToSub.cols h with
  | (Status.SUCCESS, some pMxRes, h1) =>
    let st := (List.range pMxToSub.rows.toNat).foldl
      (fun st (resRow : Nat) => (List.range pMxToSub.cols.toNat).foldl
        (fun st (resCol : Nat) =>
          storeEntry st resRow resCol (opSubSum hMxs hMxsSize resRow resCol)) st)
      { pMxRes := pMxRes, maxLength := 1, isFirstNewEntry := Boolean.TRUE }
    (Status.SUCCESS, some { st.pMxRes with maxLength := st.maxLength }, h1)
  | (_, res, h1) => (Status.FAILURE, res, h1)

/-- Loop state of `matrix_opMult`: the result state and the index trackers
`resRow`, `resCol`. -/
structure MultSt where
  res : ResSt
  resRow : Int
  resCol : Int
deriving DecidableEq, Repr

/-- Matrix.c: innermost loop of `matrix_opMult` (`m1col` and `m2row` advance
together). -/
def opMultSum (pMx1 pMx2 : Mx) (m1row m2col : Int) : ℚ :=
  (List.range pMx1.cols.toNat).foldl
    (fun sum (m1col : Nat) =>
      sum + rd pMx1.entries (at_ pMx1 m1row m1col) * rd pMx2.entries (at_ pMx2 m1col m2col)) 0

/-- Matrix.c: body of the `m2col` loop of `matrix_opMult`. -/
def opMultCol (pMx1 pMx2 : Mx) (m1row : Int) (st : MultSt) (m2col : Nat) : MultSt :=
  { res := storeEntry st.res st.resRow st.resCol (opMultSum pMx1 pMx2 m1row m2col),
    resRow := st.resRow,
    resCol := st.resCol + 1 }

/-- Matrix.c: body of the `m1row` loop of `matrix_opMult`. -/
def opMultRow (pMx1 pMx2 : Mx) (st : MultSt) (m1row : Nat) : MultSt :=
  let st1 := (List.range pMx2.cols.toNat).foldl (opMultCol pMx1 pMx2 m1row)
    { st with resCol := 0 }
  { st1 with resRow := st1.resRow + 1 }

/-- Matrix.c: `matrix_opMult`. -/
def matrix_opMult (hMx1 hMx2 : Mx) (phMxRes : Option Mx) (h : Heap) :
    Status × Option Mx × Heap :=
  match adjustMatrixDims phMxRes hMx1.rows hMx2.cols h with
  | (Status.SUCCESS, some pMxRes, h1) =>
    let st := (List.range hMx1.rows.toNat).foldl (opMultRow hMx1 hMx2)
      { res := { pMxRes := pMxRes, maxLength := 1, isFirstNewEntry := Boolean.TRUE },
        resRow := 0, resCol := 0 }
    (Status.SUCCESS, some { st.res.pMxRes with maxLength := st.res.maxLength }, h1)
  | (_, res, h1) => (Status.FAILURE, res, h1)

/-- Matrix.c: the `for (i = 3; i <= power; ++i)` loop of `matrix_opPow`, run for
the given number of iterations on the accumulator `hMxToMult`; `hMxResTemp` is
`NULL` at the start of every iteration. Returns the final accumulator, or `none`
when the loop returned `FAILURE`. -/
def opPowLoop (hMx : Mx) : Nat → Mx → Heap → Option Mx × Heap
  | 0, pMxToMult, h => (some pMxToMult, h)
  | n + 1, pMxToMult, h =>
    match matrix_opMult hMx pMxToMult none h with
    | (Status.SUCCESS, some pMxResTemp, h1) =>
      opPowLoop hMx n pMxResTemp (matrix_destroy (some pMxToMult) h1).2.2
    | (_, _, h1) => (none, (matrix_destroy (some pMxToMult) h1).2.2)

/-- Matrix.c: `matrix_opPow`. -/
def matrix_opPow (hMx : Mx) (power : Int) (phMxRes : Option Mx) (h : Heap) :
    Status × Option Mx × Heap :=
  if power = 1 then
    matrix_copy phMxRes hMx h
  else if power = 2 then
    matrix_opMult hMx hMx phMxRes h
  else
    match matrix_opMult hMx hMx none h with
    | (Status.SUCCESS, some pMxToMult, h1) =>
      match opPowLoop hMx (power - 2).toNat pMxToMult h1 with
      | (some pMxToMult1, h2) =>
        let r := matrix_move phMxRes (some pMxToMult1) h2
        (Status.SUCCESS, r.2.1, r.2.2.2)
      | (none, h2) => (Status.FAILURE, phMxRes, h2)
    | (_, _, h1) => (Status.FAILURE, phMxRes, h1)

/-- Matrix.c: `matrix_opTrans`. -/
def matrix_opTrans (hMx : Mx) (phMxRes : Option Mx) (h : Heap) : Status × Option Mx × Heap :=
  match adjustMatrixDims phMxRes hMx.cols hMx.rows h with
  | (Status.SUCCESS, some pMxRes, h1) =>
    let res := (List.range hMx.rows.toNat).foldl
      (fun (res : Mx) (i : Nat) => (List.range hMx.cols.toNat).foldl
        (fun (res : Mx) (j : Nat) =>
          { res with entries := wr res.entries (at_ res j i) (rd hMx.entries (at_ hMx i j)) })
        res)
      pMxRes
    (Status.SUCCESS, some { res with maxLength := hMx.maxLength }, h1)
  | (_, res, h1) => (Status.FAILURE, res, h1)

/-- Matrix.c: `opDet2x2`. -/
def opDet2x2 (a11 a12 a21 a22 : ℚ) : ℚ :=
  a11 * a22 - a21 * a12

/-- Loop state while a recursive submatrix is filled: the submatrix and the
index trackers `mxSub_row`, `mxSub_col`. -/
structure SubSt where
  pMxSub : Mx
  mxSub_row : Int
  mxSub_col : Int
deriving DecidableEq, Repr

/-- Matrix.c: body of the `_col` loop that fills a submatrix (the same in
`opDet` and `opAdjugate`): skip column `col`, otherwise copy the entry
`(row, _col)` of `pMx` to `(mxSub_row, mxSub_col)`. -/
def subFillCol (pMx : Mx) (col row : Int) (st : SubSt) (_col : Nat) : SubSt :=
  if (_col : Int) = col then st
  else
    { st with
      pMxSub := { st.pMxSub with
                  entries := wr st.pMxSub.entries (at_ st.pMxSub st.mxSub_row st.mxSub_col)
                    (rd pMx.entries (at_ pMx row _col)) },
      mxSub_col := st.mxSub_col + 1 }

/-- Matrix.c: the statements of one source row while a submatrix is filled:
reset `mxSub_col`, run the `_col` loop, advance `mxSub_row`. -/
def subFillRow (pMx : Mx) (col : Int) (st : SubSt) (row : Int) : SubSt :=
  let st1 := (List.range pMx.cols.toNat).foldl (subFillCol pMx col row)
    { st with mxSub_col := 0 }
  { st1 with mxSub_row := st1.mxSub_row + 1 }

/-- Matrix.c: the `for (row = 1; row < pMx->rows; ++row)` loop of `opDet`, which
fills the submatrix without row 0 and column `col`. -/
def opDetSub (pMx : Mx) (col : Int) (pMxSub : Mx) : Mx :=
  ((List.range (pMx.rows.toNat - 1)).foldl
    (fun st (k : Nat) => subFillRow pMx col st ((k : Int) + 1))
    { pMxSub := pMxSub, mxSub_row := 0, mxSub_col := 0 }).pMxSub

/-- Matrix.c: the `col` loop of `opDet` over the remaining columns, with the
recursive call passed as `opDetRec`. Returns the value, `*pMem` and the heap. -/
def opDetCols (opDetRec : Mx → Status → Heap → ℚ × Status × Heap) (pMx : Mx) :
    List Nat → ℚ → Status → Heap → ℚ × Status × Heap
  | [], sum, mem, h => (sum, mem, h)
  | col :: rest, sum, mem, h =>
    match matrix_initDims (pMx.rows - 1) (pMx.cols - 1) h with
    | (none, h1) => (0, Status.FAILURE, h1)
    | (some hMxSub, h1) =>
      let entry := rd pMx.entries (at_ pMx 0 col)
      let pMxSub := opDetSub pMx col hMxSub
      let r := opDetRec pMxSub mem h1
      let sum1 := if (col : Int) % 2 = 0 then sum + entry * r.1 else sum - entry * r.1
      opDetCols opDetRec pMx rest sum1 r.2.1 (matrix_destroy (some pMxSub) r.2.2).2.2

/-- Matrix.c: `opDet`, by recursion on the number of columns of `pMx` (each
recursive call is on a submatrix with one column less; a matrix without
columns has an empty `col` loop and yields the sum 0). -/
def opDetAux : Nat → Mx → Status → Heap → ℚ × Status × Heap
  | 0, _, mem, h => (0, mem, h)
  | n + 1, pMx, mem, h =>
    if pMx.rows = 2 ∧ pMx.cols = 2 then
      let a11 := rd pMx.entries (at_ pMx 0 0)
      let a21 := rd pMx.entries (at_ pMx 0 1)
      let a12 := rd pMx.entries (at_ pMx 1 0)
      let a22 := rd pMx.entries (at_ pMx 1 1)
      (opDet2x2 a11 a12 a21 a22, mem, h)
    else
      opDetCols (opDetAux n) pMx (List.range pMx.cols.toNat) 0 mem h

/-- Matrix.c: `opDet`. -/
def opDet (pMx : Mx) (mem : Status) (h : Heap) : ℚ × Status × Heap :=
  opDetAux pMx.cols.toNat pMx mem h

/-- Matrix.c: `matrix_opDet`; returns the value, `*pMem` and the heap. -/
def matrix_opDet (hMx : Mx) (h : Heap) : ℚ × Status × Heap :=
  if hMx.rows = 1 ∧ hMx.cols = 1 then (rd hMx.entries 0, Status.SUCCESS, h)
  else opDet hMx Status.SUCCESS h

/-- Matrix.c: the `_row` loop of `opAdjugate`, which fills the submatrix without
row `row` and column `col`. -/
def opAdjSub (pMx : Mx) (row col : Int) (pMxSub : Mx) : Mx :=
  ((List.range pMx.rows.toNat).foldl
    (fun st (_row : Nat) => if (_row : Int) = row then st else subFillRow pMx col st _row)
    { pMxSub := pMxSub, mxSub_row := 0, mxSub_col := 0 }).pMxSub

/-- Loop state of the cofactor loops of `opAdjugate`: the matrix of cofactors,
the running `maxLength` and the `firstNewNum` flag. -/
structure CofSt where
  pMxOfCofactors : Mx
  maxLength : Int
  firstNewNum : Boolean
deriving DecidableEq, Repr

/-- Matrix.c: the `col` loop of `opAdjugate` for one `row`, over the remaining
columns. Returns `none` when the function returned `FAILURE` from inside the
loop. -/
def opAdjCols (pMx : Mx) (row : Nat) : List Nat → CofSt → Heap → Option CofSt × Heap
  | [], st, h => (some st, h)
  | col :: rest, st, h =>
    match matrix_initDims (pMx.rows - 1) (pMx.cols - 1) h with
    | (none, h1) => (none, (matrix_destroy (some st.pMxOfCofactors) h1).2.2)
    | (some hMxSub, h1) =>
      let pMxSub := opAdjSub pMx row col hMxSub
      let r := opDet pMxSub Status.SUCCESS h1
      if r.2.1 = Status.FAILURE then
        (none, (matrix_destroy (some st.pMxOfCofactors) r.2.2).2.2)
      else
        let newTerm :=
          if r.1 ≠ 0 ∧ ((row : Int) + (col : Int)) % 2 ≠ 0 then r.1 * -1 else r.1
        let numLength := calcEntryLength newTerm
        let st1 : CofSt :=
          { pMxOfCofactors := { st.pMxOfCofactors with
              entries := wr st.pMxOfCofactors.entries (at_ st.pMxOfCofactors row col) newTerm },
            maxLength :=
              if st.firstNewNum = Boolean.TRUE then numLength
              else if numLength > st.maxLength then numLength else st.maxLength,
            firstNewNum := Boolean.FALSE }
        opAdjCols pMx row rest st1 (matrix_destroy (some pMxSub) r.2.2).2.2

/-- Matrix.c: the `row` loop of `opAdjugate` over the remaining rows. -/
def opAdjRows (pMx : Mx) : List Nat → CofSt → Heap → Option CofSt × Heap
  | [], st, h => (some st, h)
  | row :: rest, st, h =>
    match opAdjCols pMx row (List.range pMx.cols.toNat) st h with
    | (none, h1) => (none, h1)
    | (some st1, h1) => opAdjRows pMx rest st1 h1

/-- Matrix.c: the 2 x 2 case of `opAdjugate`, applied to the prepared result. -/
def opAdjugate2x2 (pMx pMxRes : Mx) : Mx :=
  let size := getSize pMxRes.rows pMxRes.cols
  let e0 := (List.range size.toNat).foldl
    (fun es (i : Nat) => wr es (i : Int) (rd pMx.entries (i : Int))) pMxRes.entries
  let e1 := wr e0 (at_ pMxRes 0 1) (rd e0 (at_ pMxRes 0 1) * -1)
  let e2 := wr e1 (at_ pMxRes 1 0) (rd e1 (at_ pMxRes 1 0) * -1)
  let temp := rd e2 (at_ pMxRes 0 0)
  let e3 := wr e2 (at_ pMxRes 0 0) (rd e2 (at_ pMxRes 1 1))
  let e4 := wr e3 (at_ pMxRes 1 1) temp
  let length1 := calcEntryLength (rd e4 (at_ pMxRes 0 0))
  let length2 := calcEntryLength (rd e4 (at_ pMxRes 0 1))
  let length3 := calcEntryLength (rd e4 (at_ pMxRes 1 0))
  let length4 := calcEntryLength (rd e4 (at_ pMxRes 1 1))
  let maxLength1 := length1
  let maxLength2 := if length2 > maxLength1 then length2 else maxLength1
  let maxLength3 := if length3 > maxLength2 then length3 else maxLength2
  let maxLength4 := if length4 > maxLength3 then length4 else maxLength3
  { pMxRes with entries := e4, maxLength := maxLength4 }

/-- Matrix.c: `opAdjugate`. -/
def opAdjugate (pMx : Mx) (ppMxRes : Option Mx) (h : Heap) : Status × Option Mx × Heap :=
  match adjustMatrixDims ppMxRes pMx.rows pMx.cols h with
  | (Status.SUCCESS, some pMxRes, h1) =>
    if pMxRes.rows = 1 ∧ pMxRes.cols = 1 then
      (Status.SUCCESS,
        some { pMxRes with
               entries := wr pMxRes.entries 0 (if rd pMx.entries 0 ≠ 0 then 1 else 0) }, h1)
    else if pMxRes.rows = 2 ∧ pMxRes.cols = 2 then
      (Status.SUCCESS, some (opAdjugate2x2 pMx pMxRes), h1)
    else
      match matrix_initDims pMx.cols pMx.rows h1 with
      | (none, h2) => (Status.FAILURE, some pMxRes, h2)
      | (some hMxOfCofactors, h2) =>
        match opAdjRows pMx (List.range pMx.rows.toNat)
            { pMxOfCofactors := hMxOfCofactors, maxLength := 1, firstNewNum := Boolean.TRUE }
            h2 with
        | (none, h3) => (Status.FAILURE, some pMxRes, h3)
        | (some st, h3) =>
          let pMxOfCofactors := { st.pMxOfCofactors with maxLength := st.maxLength }
          match matrix_opTrans pMxOfCofactors (some pMxRes) h3 with
          | (Status.SUCCESS, res, h4) =>
            (Status.SUCCESS, res, (matrix_destroy (some pMxOfCofactors) h4).2.2)
          | (Status.FAILURE, res, h4) =>
            (Status.FAILURE, res, (matrix_destroy (some pMxOfCofactors) h4).2.2)
  | (_, res, h1) => (Status.FAILURE, res, h1)

/-- Matrix.c: the scaling loop of `matrix_opInv`: divide every entry of the
adjugate by `det` and recompute `maxLength`. -/
def opInvScale (pMxRes : Mx) (det : ℚ) : Mx :=
  let size := getSize pMxRes.rows pMxRes.cols
  let st := (List.range size.toNat).foldl
    (fun (st : List ℚ × Int) (i : Nat) =>
      let newEntry := rd st.1 (i : Int) / det
      let numLength := calcEntryLength newEntry
      (wr st.1 (i : Int) newEntry,
        if i = 0 then numLength else if numLength > st.2 then numLength else st.2))
    (pMxRes.entries, 1)
  { pMxRes with entries := st.1, maxLength := st.2 }

/-- Matrix.c: `matrix_opInv`; returns the status, `*pMxIsInvertible`, the result
handle and the heap. -/
def matrix_opInv (hMx : Mx) (phMxRes : Option Mx) (h : Heap) :
    Status × Boolean × Option Mx × Heap :=
  match adjustMatrixDims phMxRes hMx.rows hMx.cols h with
  | (Status.SUCCESS, some pMxRes, h1) =>
    let d := matrix_opDet hMx h1
    if d.2.1 = Status.FAILURE then
      (Status.FAILURE, Boolean.FALSE, some pMxRes, d.2.2)
    else if d.1 = 0 then
      (Status.FAILURE, Boolean.TRUE, some pMxRes, d.2.2)
    else
      match opAdjugate hMx (some pMxRes) d.2.2 with
      | (Status.SUCCESS, some pMxRes1, h2) =>
        (Status.SUCCESS, Boolean.FALSE, some (opInvScale pMxRes1 d.1), h2)
      | (_, res, h2) => (Status.FAILURE, Boolean.FALSE, res, h2)
  | (_, res, h1) => (Status.FAILURE, Boolean.FALSE, res, h1)

/-- Matrix.c: `matrix_setEntry`; returns the status and the matrix object after the
call. -/
def matrix_setEntry (hMx : Mx) (row col : Int) (entry : ℚ) : Status × Mx :=
  let idx := at_ hMx row col
  if idx ≠ -1 then (Status.SUCCESS, { hMx with entries := wr hMx.entries idx entry })
  else (Status.FAILURE, hMx)

/-- Matrix.c: `matrix_canBeInv`; returns the Boolean, `*pMem` and the heap. -/
def matrix_canBeInv (hMx : Mx) (h : Heap) : Boolean × Status × Heap :=
  let d := matrix_opDet hMx h
  (if d.2.1 = Status.SUCCESS then (if d.1 ≠ 0 then Boolean.TRUE else Boolean.FALSE)
    else Boolean.FALSE,
   d.2.1, d.2.2)

/-- Matrix.c: the copy loops of `matrix_newMatrix` followed by the assignments of
`rows`, `cols` and `maxLength`. The destination index is `at(pMx, i, j)`, computed
with the dimensions the matrix object has during the loops; the source index is
`at2(rows, cols, i, j)`. When `rows` exceeds the rows or `cols` the columns the object
has, `at` returns `-1` and the C code stores to `entries[-1]`, outside the buffer
(undefined behaviour); `wr` drops that store, so this definition is exact only when no
dimension grows. `newMatrixCopyChk` below reports such a store. -/
def newMatrixCopy (pMx : Mx) (entries : List ℚ) (rows cols : Int) : Mx :=
  let st := (List.range rows.toNat).foldl
    (fun st (i : Nat) => (List.range cols.toNat).foldl
      (fun (st : Mx × Int) (j : Nat) =>
        let numLength := calcEntryLength (rd entries (at2 rows cols i j))
        ({ st.1 with
           entries := wr st.1.entries (at_ st.1 i j) (rd entries (at2 rows cols i j)) },
         if i = 0 ∧ j = 0 then numLength
         else if numLength > st.2 then numLength else st.2))
      st)
    (pMx, 1)
  { entries := st.1.entries, rows := rows, cols := cols, maxLength := st.2 }

/-- Matrix.c: `matrix_newMatrix`; returns the status, the matrix object after the
call and the heap. The block `malloc` returns has indeterminate contents, modelled
as zeros. -/
def matrix_newMatrix (hMx : Mx) (entries : List ℚ) (rows cols : Int) (h : Heap) :
    Status × Mx × Heap :=
  if getSize hMx.rows hMx.cols < getSize rows cols then
    match h.malloc with
    | (false, h1) => (Status.FAILURE, hMx, h1)
    | (true, h1) =>
      (Status.SUCCESS,
        newMatrixCopy { hMx with entries := zeroBuf (getSize rows cols) } entries rows cols,
        h1.free)
  else
    (Status.SUCCESS, newMatrixCopy hMx entries rows cols, h)

/-- Matrix.c: `matrix_canBeAdd`. -/
def matrix_canBeAdd (hMx1 hMx2 : Mx) : Boolean :=
  if hMx1.rows = hMx2.rows ∧ hMx1.cols = hMx2.cols then Boolean.TRUE else Boolean.FALSE

/-- Matrix.c: `matrix_canBeMult`. -/
def matrix_canBeMult (hMx1 hMx2 : Mx) : Boolean :=
  if hMx1.cols = hMx2.rows then Boolean.TRUE else Boolean.FALSE

/-- Matrix.c: `matrix_canBeSub`. -/
def matrix_canBeSub (hMx1 hMx2 : Mx) : Boolean :=
  if hMx1.rows = hMx2.rows ∧ hMx1.cols = hMx2.cols then Boolean.TRUE else Boolean.FALSE

/-- Matrix.c: `matrix_initCopy`. -/
def matrix_initCopy (hMxSrc : Mx) (h : Heap) : Option Mx × Heap :=
  match h.malloc with
  | (false, h1) => (none, h1)
  | (true, h1) =>
    let srcSize := getSize hMxSrc.rows hMxSrc.cols
    match h1.malloc with
    | (false, h2) => (none, h2.free)
    | (true, h2) =>
      (some { entries := (List.range srcSize.toNat).foldl
                (fun es (i : Nat) => wr es (i : Int) (rd hMxSrc.entries (i : Int)))
                (zeroBuf srcSize),
              rows := hMxSrc.rows, cols := hMxSrc.cols, maxLength := hMxSrc.maxLength }, h2)

/-- Matrix.c: `matrix_initMove`; returns the handle handed over and the source
handle after the call. -/
def matrix_initMove (phMxSrc : Option Mx) : Option Mx × Option Mx :=
  match phMxSrc with
  | some pMx => (some pMx, none)
  | none => (none, none)

/-- Matrix.c: the loop of `removeTrailingZeroes`, run on the reversed string: the
list holds the characters from index `i` down to index 0. Writing the terminator at
index `i` drops that character. -/
def removeTrailingZeroesLoop : List Char → Boolean → List Char
  | [], _ => []
  | c :: rest, reachedDecimalPoint =>
    if c = '0' ∨ c = '.' then
      if reachedDecimalPoint = Boolean.TRUE then c :: rest
      else removeTrailingZeroesLoop rest (if c = '.' then Boolean.TRUE else reachedDecimalPoint)
    else c :: rest

/-- Matrix.c: `removeTrailingZeroes`. -/
def removeTrailingZeroes (entryStr : List Char) : List Char :=
  (removeTrailingZeroesLoop entryStr.reverse Boolean.FALSE).reverse

/-- Matrix.c: the string `matrix_print` shows for an entry: `sprintf("%f", entry)`
followed by `removeTrailingZeroes`. -/
def printedEntry (entry : ℚ) : List Char :=
  removeTrailingZeroes (fmtF entry)

/-- Matrix.c: the `col` loop of `opDet` when the nesting depth of the calls is
bounded: the recursive call `opDetRec` yields `none` when it would exceed the bound. -/
def opDetColsBounded (opDetRec : Mx → Status → Heap → Option (ℚ × Status × Heap)) (pMx : Mx) :
    List Nat → ℚ → Status → Heap → Option (ℚ × Status × Heap)
  | [], sum, mem, h => some (sum, mem, h)
  | col :: rest, sum, mem, h =>
    match matrix_initDims (pMx.rows - 1) (pMx.cols - 1) h with
    | (none, h1) => some (0, Status.FAILURE, h1)
    | (some hMxSub, h1) =>
      let entry := rd pMx.entries (at_ pMx 0 col)
      let pMxSub := opDetSub pMx col hMxSub
      match opDetRec pMxSub mem h1 with
      | none => none
      | some r =>
        let sum1 := if (col : Int) % 2 = 0 then sum + entry * r.1 else sum - entry * r.1
        opDetColsBounded opDetRec pMx rest sum1 r.2.1 (matrix_destroy (some pMxSub) r.2.2).2.2

/-- Matrix.c: `opDet`, run with at most `depth` nested calls of `opDet` (the call
itself included): `none` when a call would be nested deeper. -/
def opDetBounded : Nat → Mx → Status → Heap → Option (ℚ × Status × Heap)
  | 0, _, _, _ => none
  | depth + 1, pMx, mem, h =>
    if pMx.rows = 2 ∧ pMx.cols = 2 then
      let a11 := rd pMx.entries (at_ pMx 0 0)
      let a21 := rd pMx.entries (at_ pMx 0 1)
      let a12 := rd pMx.entries (at_ pMx 1 0)
      let a22 := rd pMx.entries (at_ pMx 1 1)
      some (opDet2x2 a11 a12 a21 a22, mem, h)
    else
      opDetColsBounded (opDetBounded depth) pMx (List.range pMx.cols.toNat) 0 mem h

/-- Matrix.c: `matrix_opDet`, run with at most `depth` nested calls (the call of
`matrix_opDet` included). -/
def matrix_opDetBounded : Nat → Mx → Heap → Option (ℚ × Status × Heap)
  | 0, _, _ => none
  | depth + 1, hMx, h =>
    if hMx.rows = 1 ∧ hMx.cols = 1 then some (rd hMx.entries 0, Status.SUCCESS, h)
    else opDetBounded depth hMx Status.SUCCESS h

/-- Matrix.c: `matrix_opMult(a, a, &a)`: both operands and the result handle are the
one matrix object `hMx`, so `pMx1`, `pMx2` and `pMxRes` all point to the object the
loops write to, and the operand entries are read from its current state. -/
def matrix_opMult_self (hMx : Mx) (h : Heap) : Status × Option Mx × Heap :=
  match adjustMatrixDims (some hMx) hMx.rows hMx.cols h with
  | (Status.SUCCESS, some pMx, h1) =>
    let st := (List.range pMx.rows.toNat).foldl
      (fun (st : MultSt) (m1row : Nat) =>
        let st1 := (List.range st.res.pMxRes.cols.toNat).foldl
          (fun (st : MultSt) (m2col : Nat) =>
            opMultCol st.res.pMxRes st.res.pMxRes m1row st m2col)
          { st with resCol := 0 }
        { st1 with resRow := st1.resRow + 1 })
      { res := { pMxRes := pMx, maxLength := 1, isFirstNewEntry := Boolean.TRUE },
        resRow := 0, resCol := 0 }
    (Status.SUCCESS, some { st.res.pMxRes with maxLength := st.res.maxLength }, h1)
  | (_, res, h1) => (Status.FAILURE, res, h1)

/-- Matrix.c: `matrix_opAdd(hMxs, hMxsSize, &hMxs[0])`: the first operand `hMx` is the
matrix object of the result handle and `others` are the remaining operands, so the
entries of the first operand are read from the current state of the result. -/
def matrix_opAdd_self (hMx : Mx) (others : List Mx) (hMxsSize : Int) (h : Heap) :
    Status × Option Mx × Heap :=
  match adjustMatrixDims (some hMx) hMx.rows hMx.cols h with
  | (Status.SUCCESS, some pMx, h1) =>
    let st := (List.range pMx.rows.toNat).foldl
      (fun st (resRow : Nat) => (List.range pMx.cols.toNat).foldl
        (fun (st : ResSt) (resCol : Nat) =>
          storeEntry st resRow resCol (opAddSum (st.pMxRes :: others) hMxsSize resRow resCol))
        st)
      { pMxRes := pMx, maxLength := 1, isFirstNewEntry := Boolean.TRUE }
    (Status.SUCCESS, some { st.pMxRes with maxLength := st.maxLength }, h1)
  | (_, res, h1) => (Status.FAILURE, res, h1)

/-- Matrix.c: `matrix_opSub(hMxs, hMxsSize, &hMxs[0])`: the first operand `hMx` is the
matrix object of the result handle and `others` are the remaining operands, so the
entries of the first operand are read from the current state of the result. -/
def matrix_opSub_self (hMx : Mx) (others : List Mx) (hMxsSize : Int) (h : Heap) :
    Status × Option Mx × Heap :=
  match adjustMatrixDims (some hMx) hMx.rows hMx.cols h with
  | (Status.SUCCESS, some pMx, h1) =>
    let st := (List.range pMx.rows.toNat).foldl
      (fun st (resRow : Nat) => (List.range pMx.cols.toNat).foldl
        (fun (st : ResSt) (resCol : Nat) =>
          storeEntry st resRow resCol (opSubSum (st.pMxRes :: others) hMxsSize resRow resCol))
        st)
      { pMxRes := pMx, maxLength := 1, isFirstNewEntry := Boolean.TRUE }
    (Status.SUCCESS, some { st.pMxRes with maxLength := st.maxLength }, h1)
  | (_, res, h1) => (Status.FAILURE, res, h1)

/-! ## Checked execution

The operations once more, with every index that comes from `at()` checked before it is
used: a checked run yields `none` as soon as such an index is the sentinel `-1` or lies
outside the buffer it is used on, and otherwise the result of the unchecked run. -/

/-- The index `at(pMx, row, col)` can be used on the buffer of `pMx`: it is not the
sentinel `-1`, it lies in `[0, rows*cols)`, and inside the allocated buffer. -/
def atInBounds (pMx : Mx) (row col : Int) : Prop :=
  at_ pMx row col ≠ -1 ∧ 0 ≤ at_ pMx row col ∧ at_ pMx row col < getSize pMx.rows pMx.cols
    ∧ at_ pMx row col < (pMx.entries.length : Int)

instance (pMx : Mx) (row col : Int) : Decidable (atInBounds pMx row col) :=
  inferInstanceAs (Decidable (_ ∧ _ ∧ _ ∧ _))

/-- Checked `storeEntry`: the write `pMxRes->entries[at(pMxRes, resRow, resCol)] = sum`. -/
def storeEntryChk (st : ResSt) (resRow resCol : Int) (sum : ℚ) : Option ResSt :=
  if atInBounds st.pMxRes resRow resCol then some (storeEntry st resRow resCol sum) else none

/-- Checked inner loop of `matrix_opAdd`: the reads
`pMxToAdd->entries[at(pMxToAdd, resRow, resCol)]`. -/
def opAddSumChk (hMxs : List Mx) (hMxsSize : Int) (resRow resCol : Int) : Option ℚ :=
  (List.range hMxsSize.toNat).foldlM
    (fun sum (i : Nat) =>
      if atInBounds (operand hMxs i) resRow resCol then
        some (sum + rd (operand hMxs i).entries (at_ (operand hMxs i) resRow resCol))
      else none) 0

/-- Checked `matrix_opAdd`. -/
def matrix_opAddChk (hMxs : List Mx) (hMxsSize : Int) (phMxRes : Option Mx) (h : Heap) :
    Option (Status × Option Mx × Heap) :=
  let pMxToAdd := operand hMxs 0
  match adjustMatrixDims phMxRes pMxToAdd.rows pMxToAdd.cols h with
  | (Status.SUCCESS, some pMxRes, h1) =>
    ((List.range pMxToAdd.rows.toNat).foldlM
      (fun st (resRow : Nat) => (List.range pMxToAdd.cols.toNat).foldlM
        (fun st (resCol : Nat) =>
          (opAddSumChk hMxs hMxsSize resRow resCol).bind
            (fun sum => storeEntryChk st resRow resCol sum)) st)
      { pMxRes := pMxRes, maxLength := 1, isFirstNewEntry := Boolean.TRUE }).map
      (fun st => (Status.SUCCESS, some { st.pMxRes with maxLength := st.maxLength }, h1))
  | (_, res, h1) => some (Status.FAILURE, res, h1)

/-- Checked inner loop of `matrix_opSub`. -/
def opSubSumChk (hMxs : List Mx) (hMxsSize : Int) (resRow resCol : Int) : Option ℚ :=
  (List.range hMxsSize.toNat).foldlM
    (fun sum (i : Nat) =>
      if atInBounds (operand hMxs i) resRow resCol then
        some (if i = 0 then sum + rd (operand hMxs i).entries (at_ (operand hMxs i) resRow resCol)
          else sum - rd (operand hMxs i).entries (at_ (operand hMxs i) resRow resCol))
      else none) 0

/-- Checked `matrix_opSub`. -/
def matrix_opSubChk (hMxs : List Mx) (hMxsSize : Int) (phMxRes : Option Mx) (h : Heap) :
    Option (Status × Option Mx × Heap) :=
  let pMxToSub := operand hMxs 0
  match adjustMatrixDims phMxRes pMxToSub.rows pMxToSub.cols h with
  | (Status.SUCCESS, some pMxRes, h1) =>
    ((List.range pMxToSub.rows.toNat).foldlM
      (fun st (resRow : Nat) => (List.range pMxToSub.cols.toNat).foldlM
        (fun st (resCol : Nat) =>
          (opSubSumChk hMxs hMxsSize resRow resCol).bind
            (fun sum => storeEntryChk st resRow resCol sum)) st)
      { pMxRes := pMxRes, maxLength := 1, isFirstNewEntry := Boolean.TRUE }).map
      (fun st => (Status.SUCCESS, some { st.pMxRes with maxLength := st.maxLength }, h1))
  | (_, res, h1) => some (Status.FAILURE, res, h1)

/-- Checked innermost loop of `matrix_opMult`: the reads
`pMx1->entries[at(pMx1, m1row, m1col)]` and `pMx2->entries[at(pMx2, m2row, m2col)]`. -/
def opMultSumChk (pMx1 pMx2 : Mx) (m1row m2col : Int) : Option ℚ :=
  (List.range pMx1.cols.toNat).foldlM
    (fun sum (m1col : Nat) =>
      if atInBounds pMx1 m1row m1col ∧ atInBounds pMx2 m1col m2col then
        some (sum + rd pMx1.entries (at_ pMx1 m1row m1col) * rd pMx2.entries (at_ pMx2 m1col m2col))
      else none) 0

/-- Checked body of the `m2col` loop of `matrix_opMult`. -/
def opMultColChk (pMx1 pMx2 : Mx) (m1row : Int) (st : MultSt) (m2col : Nat) : Option MultSt :=
  (opMultSumChk pMx1 pMx2 m1row m2col).bind (fun sum =>
    (storeEntryChk st.res st.resRow st.resCol sum).map (fun res =>
      { res := res, resRow := st.resRow, resCol := st.resCol + 1 }))

/-- Checked body of the `m1row` loop of `matrix_opMult`. -/
def opMultRowChk (pMx1 pMx2 : Mx) (st : MultSt) (m1row : Nat) : Option MultSt :=
  ((List.range pMx2.cols.toNat).foldlM (opMultColChk pMx1 pMx2 m1row)
    { st with resCol := 0 }).map (fun st1 => { st1 with resRow := st1.resRow + 1 })

/-- Checked `matrix_opMult`. -/
def matrix_opMultChk (hMx1 hMx2 : Mx) (phMxRes : Option Mx) (h : Heap) :
    Option (Status × Option Mx × Heap) :=
  match adjustMatrixDims phMxRes hMx1.rows hMx2.cols h with
  | (Status.SUCCESS, some pMxRes, h1) =>
    ((List.range hMx1.rows.toNat).foldlM (opMultRowChk hMx1 hMx2)
      { res := { pMxRes := pMxRes, maxLength := 1, isFirstNewEntry := Boolean.TRUE },
        resRow := 0, resCol := 0 }).map
      (fun st => (Status.SUCCESS, some { st.res.pMxRes with maxLength := st.res.maxLength }, h1))
  | (_, res, h1) => some (Status.FAILURE, res, h1)

/-- Checked `matrix_opTrans`: the write `pMxRes->entries[at(pMxRes, j, i)]` and the read
`pMx->entries[at(pMx, i, j)]`. -/
def matrix_opTransChk (hMx : Mx) (phMxRes : Option Mx) (h : Heap) :
    Option (Status × Option Mx × Heap) :=
  match adjustMatrixDims phMxRes hMx.cols hMx.rows h with
  | (Status.SUCCESS, some pMxRes, h1) =>
    ((List.range hMx.rows.toNat).foldlM
      (fun (res : Mx) (i : Nat) => (List.range hMx.cols.toNat).foldlM
        (fun (res : Mx) (j : Nat) =>
          if atInBounds res j i ∧ atInBounds hMx i j then
            some { res with entries := wr res.entries (at_ res j i) (rd hMx.entries (at_ hMx i j)) }
          else none)
        res)
      pMxRes).map
      (fun res => (Status.SUCCESS, some { res with maxLength := hMx.maxLength }, h1))
  | (_, res, h1) => some (Status.FAILURE, res, h1)

/-- Checked body of the `_col` loop that fills a submatrix: the write
`pMxSub->entries[at(pMxSub, mxSub_row, mxSub_col)]` and the read
`pMx->entries[at(pMx, row, _col)]`. -/
def subFillColChk (pMx : Mx) (col row : Int) (st : SubSt) (_col : Nat) : Option SubSt :=
  if (_col : Int) = col then some st
  else if atInBounds st.pMxSub st.mxSub_row st.mxSub_col ∧ atInBounds pMx row _col then
    some (subFillCol pMx col row st _col)
  else none

/-- Checked statements of one source row while a submatrix is filled. -/
def subFillRowChk (pMx : Mx) (col : Int) (st : SubSt) (row : Int) : Option SubSt :=
  ((List.range pMx.cols.toNat).foldlM (subFillColChk pMx col row)
    { st with mxSub_col := 0 }).map (fun st1 => { st1 with mxSub_row := st1.mxSub_row + 1 })

/-- Checked `row` loop of `opDet`, which fills the submatrix. -/
def opDetSubChk (pMx : Mx) (col : Int) (pMxSub : Mx) : Option Mx :=
  ((List.range (pMx.rows.toNat - 1)).foldlM
    (fun st (k : Nat) => subFillRowChk pMx col st ((k : Int) + 1))
    { pMxSub := pMxSub, mxSub_row := 0, mxSub_col := 0 }).map (fun st => st.pMxSub)

/-- Checked `col` loop of `opDet`: the read `pMx->entries[at(pMx, 0, col)]`, the checked
filling of the submatrix and the checked recursive call. -/
def opDetColsChk (opDetRec : Mx → Status → Heap → Option (ℚ × Status × Heap)) (pMx : Mx) :
    List Nat → ℚ → Status → Heap → Option (ℚ × Status × Heap)
  | [], sum, mem, h => some (sum, mem, h)
  | col :: rest, sum, mem, h =>
    match matrix_initDims (pMx.rows - 1) (pMx.cols - 1) h with
    | (none, h1) => some (0, Status.FAILURE, h1)
    | (some hMxSub, h1) =>
      if atInBounds pMx 0 col then
        let entry := rd pMx.entries (at_ pMx 0 col)
        match opDetSubChk pMx col hMxSub with
        | none => none
        | some pMxSub =>
          match opDetRec pMxSub mem h1 with
          | none => none
          | some r =>
            let sum1 := if (col : Int) % 2 = 0 then sum + entry * r.1 else sum - entry * r.1
            opDetColsChk opDetRec pMx rest sum1 r.2.1 (matrix_destroy (some pMxSub) r.2.2).2.2
      else none

/-- Checked `opDet`, by recursion on the number of columns as `opDetAux`. -/
def opDetAuxChk : Nat → Mx → Status → Heap → Option (ℚ × Status × Heap)
  | 0, _, mem, h => some (0, mem, h)
  | n + 1, pMx, mem, h =>
    if pMx.rows = 2 ∧ pMx.cols = 2 then
      if atInBounds pMx 0 0 ∧ atInBounds pMx 0 1 ∧ atInBounds pMx 1 0 ∧ atInBounds pMx 1 1 then
        let a11 := rd pMx.entries (at_ pMx 0 0)
        let a21 := rd pMx.entries (at_ pMx 0 1)
        let a12 := rd pMx.entries (at_ pMx 1 0)
        let a22 := rd pMx.entries (at_ pMx 1 1)
        some (opDet2x2 a11 a12 a21 a22, mem, h)
      else none
    else
      opDetColsChk (opDetAuxChk n) pMx (List.range pMx.cols.toNat) 0 mem h

/-- Checked `opDet`. -/
def opDetChk (pMx : Mx) (mem : Status) (h : Heap) : Option (ℚ × Status × Heap) :=
  opDetAuxChk pMx.cols.toNat pMx mem h

/-- Checked `matrix_opDet`: the 1x1 case reads `entries[0]` without `at`, every other
case is the checked `opDet`. -/
def matrix_opDetChk (hMx : Mx) (h : Heap) : Option (ℚ × Status × Heap) :=
  if hMx.rows = 1 ∧ hMx.cols = 1 then some (rd hMx.entries 0, Status.SUCCESS, h)
  else opDetChk hMx Status.SUCCESS h

/-- Checked `_row` loop of `opAdjugate`, which fills the submatrix. -/
def opAdjSubChk (pMx : Mx) (row col : Int) (pMxSub : Mx) : Option Mx :=
  ((List.range pMx.rows.toNat).foldlM
    (fun st (_row : Nat) =>
      if (_row : Int) = row then some st else subFillRowChk pMx col st _row)
    { pMxSub := pMxSub, mxSub_row := 0, mxSub_col := 0 }).map (fun st => st.pMxSub)

/-- Checked `col` loop of `opAdjugate` for one `row`: the checked filling of the
submatrix, the checked `opDet` and the write
`pMxOfCofactors->entries[at(pMxOfCofactors, row, col)]`. The inner `Option` is the one
of `opAdjCols`. -/
def opAdjColsChk (pMx : Mx) (row : Nat) :
    List Nat → CofSt → Heap → Option (Option CofSt × Heap)
  | [], st, h => some (some st, h)
  | col :: rest, st, h =>
    match matrix_initDims (pMx.rows - 1) (pMx.cols - 1) h with
    | (none, h1) => some (none, (matrix_destroy (some st.pMxOfCofactors) h1).2.2)
    | (some hMxSub, h1) =>
      match opAdjSubChk pMx row col hMxSub with
      | none => none
      | some pMxSub =>
        match opDetChk pMxSub Status.SUCCESS h1 with
        | none => none
        | some r =>
          if r.2.1 = Status.FAILURE then
            some (none, (matrix_destroy (some st.pMxOfCofactors) r.2.2).2.2)
          else if atInBounds st.pMxOfCofactors row col then
            let newTerm :=
              if r.1 ≠ 0 ∧ ((row : Int) + (col : Int)) % 2 ≠ 0 then r.1 * -1 else r.1
            let numLength := calcEntryLength newTerm
            let st1 : CofSt :=
              { pMxOfCofactors := { st.pMxOfCofactors with
                  entries :=
                    wr st.pMxOfCofactors.entries (at_ st.pMxOfCofactors row col) newTerm },
                maxLength :=
                  if st.firstNewNum = Boolean.TRUE then numLength
                  else if numLength > st.maxLength then numLength else st.maxLength,
                firstNewNum := Boolean.FALSE }
            opAdjColsChk pMx row rest st1 (matrix_destroy (some pMxSub) r.2.2).2.2
          else none

/-- Checked `row` loop of `opAdjugate`. -/
def opAdjRowsChk (pMx : Mx) : List Nat → CofSt → Heap → Option (Option CofSt × Heap)
  | [], st, h => some (some st, h)
  | row :: rest, st, h =>
    match opAdjColsChk pMx row (List.range pMx.cols.toNat) st h with
    | none => none
    | some (none, h1) => some (none, h1)
    | some (some st1, h1) => opAdjRowsChk pMx rest st1 h1

/-- Checked `opAdjugate`: the `2 x 2` case uses `at(pMxRes, 0, 1)`, `at(pMxRes, 1, 0)`,
`at(pMxRes, 0, 0)` and `at(pMxRes, 1, 1)`; the general case runs the checked cofactor
loops and the checked transpose. -/
def opAdjugateChk (pMx : Mx) (ppMxRes : Option Mx) (h : Heap) :
    Option (Status × Option Mx × Heap) :=
  match adjustMatrixDims ppMxRes pMx.rows pMx.cols h with
  | (Status.SUCCESS, some pMxRes, h1) =>
    if pMxRes.rows = 1 ∧ pMxRes.cols = 1 then
      some (Status.SUCCESS,
        some { pMxRes with
               entries := wr pMxRes.entries 0 (if rd pMx.entries 0 ≠ 0 then 1 else 0) }, h1)
    else if pMxRes.rows = 2 ∧ pMxRes.cols = 2 then
      if atInBounds pMxRes 0 1 ∧ atInBounds pMxRes 1 0 ∧ atInBounds pMxRes 0 0
          ∧ atInBounds pMxRes 1 1 then
        some (Status.SUCCESS, some (opAdjugate2x2 pMx pMxRes), h1)
      else none
    else
      match matrix_initDims pMx.cols pMx.rows h1 with
      | (none, h2) => some (Status.FAILURE, some pMxRes, h2)
      | (some hMxOfCofactors, h2) =>
        match opAdjRowsChk pMx (List.range pMx.rows.toNat)
            { pMxOfCofactors := hMxOfCofactors, maxLength := 1, firstNewNum := Boolean.TRUE }
            h2 with
        | none => none
        | some (none, h3) => some (Status.FAILURE, some pMxRes, h3)
        | some (some st, h3) =>
          let pMxOfCofactors := { st.pMxOfCofactors with maxLength := st.maxLength }
          match matrix_opTransChk pMxOfCofactors (some pMxRes) h3 with
          | none => none
          | some (Status.SUCCESS, res, h4) =>
            some (Status.SUCCESS, res, (matrix_destroy (some pMxOfCofactors) h4).2.2)
          | some (Status.FAILURE, res, h4) =>
            some (Status.FAILURE, res, (matrix_destroy (some pMxOfCofactors) h4).2.2)
  | (_, res, h1) => some (Status.FAILURE, res, h1)

/-- Checked copy loops of `matrix_newMatrix`: the store
`pMx->entries[at(pMx, i, j)]` and the read `entries[at2(rows, cols, i, j)]` from the
array of new entries. -/
def newMatrixCopyChk (pMx : Mx) (entries : List ℚ) (rows cols : Int) : Option Mx :=
  ((List.range rows.toNat).foldlM
    (fun st (i : Nat) => (List.range cols.toNat).foldlM
      (fun (st : Mx × Int) (j : Nat) =>
        if atInBounds st.1 i j ∧ 0 ≤ at2 rows cols i j
            ∧ at2 rows cols i j < (entries.length : Int) then
          let numLength := calcEntryLength (rd entries (at2 rows cols i j))
          some ({ st.1 with
                  entries := wr st.1.entries (at_ st.1 i j) (rd entries (at2 rows cols i j)) },
                if i = 0 ∧ j = 0 then numLength
                else if numLength > st.2 then numLength else st.2)
        else none)
      st)
    (pMx, 1)).map
    (fun st => { entries := st.1.entries, rows := rows, cols := cols, maxLength := st.2 })

/-- Checked `matrix_newMatrix`. -/
def matrix_newMatrixChk (hMx : Mx) (entries : List ℚ) (rows cols : Int) (h : Heap) :
    Option (Status × Mx × Heap) :=
  if getSize hMx.rows hMx.cols < getSize rows cols then
    match h.malloc with
    | (false, h1) => some (Status.FAILURE, hMx, h1)
    | (true, h1) =>
      (newMatrixCopyChk { hMx with entries := zeroBuf (getSize rows cols) } entries rows cols).map
        (fun m => (Status.SUCCESS, m, h1.free))
  else
    (newMatrixCopyChk hMx entries rows cols).map (fun m => (Status.SUCCESS, m, h))

/-! ## Double-precision arithmetic

The entries are `double`s. Below, `matrix_opMult` and `matrix_opPow` once more with the
result of every multiplication and of every addition passed through a rounding function
`rnd`. With `rnd = id` these are the exact operations above; with `rnd = roundDouble`
every operation is rounded to the nearest `double`, as IEEE 754 arithmetic does. -/

/-- Number of binary digits of `n` (`0` for `0`), by halving at most `fuel` times. -/
def bitLengthAux : Nat → Nat → Nat
  | 0, _ => 0
  | fuel + 1, n => if n = 0 then 0 else bitLengthAux fuel (n / 2) + 1

/-- Number of binary digits of `n`. -/
def bitLength (n : Nat) : Nat :=
  bitLengthAux n n

/-- The power `2 ^ e` for an integer exponent. -/
def pow2 (e : Int) : ℚ :=
  if 0 ≤ e then ((2 ^ e.toNat : Nat) : ℚ) else 1 / ((2 ^ (-e).toNat : Nat) : ℚ)

/-- For `a > 0`, the exponent `e` with `2 ^ e ≤ a < 2 ^ (e + 1)`. -/
def floorLog2 (a : ℚ) : Int :=
  let e0 : Int := (bitLength a.num.toNat : Int) - (bitLength a.den : Int)
  if pow2 e0 ≤ a then e0 else e0 - 1

/-- The `double` nearest to `q`: a significand of 53 binary digits, ties to the even
significand (IEEE 754 binary64, round to nearest even). The exponent range is not
bounded: overflow and subnormal numbers are not modelled. -/
def roundDouble (q : ℚ) : ℚ :=
  if q = 0 then 0
  else
    let a := |q|
    let ulp := pow2 (floorLog2 a - 52)
    let m := roundHalfEven (a / ulp)
    (if q < 0 then -1 else 1) * ((m : ℚ) * ulp)

/-- Matrix.c: innermost loop of `matrix_opMult`, `sum += a * b` with the product and
the sum rounded by `rnd`. -/
def opMultSumRnd (rnd : ℚ → ℚ) (pMx1 pMx2 : Mx) (m1row m2col : Int) : ℚ :=
  (List.range pMx1.cols.toNat).foldl
    (fun sum (m1col : Nat) =>
      rnd (sum + rnd (rd pMx1.entries (at_ pMx1 m1row m1col)
        * rd pMx2.entries (at_ pMx2 m1col m2col)))) 0

/-- Matrix.c: body of the `m2col` loop of `matrix_opMult`, rounding by `rnd`. -/
def opMultColRnd (rnd : ℚ → ℚ) (pMx1 pMx2 : Mx) (m1row : Int) (st : MultSt) (m2col : Nat) :
    MultSt :=
  { res := storeEntry st.res st.resRow st.resCol (opMultSumRnd rnd pMx1 pMx2 m1row m2col),
    resRow := st.resRow,
    resCol := st.resCol + 1 }

/-- Matrix.c: body of the `m1row` loop of `matrix_opMult`, rounding by `rnd`. -/
def opMultRowRnd (rnd : ℚ → ℚ) (pMx1 pMx2 : Mx) (st : MultSt) (m1row : Nat) : MultSt :=
  let st1 := (List.range pMx2.cols.toNat).foldl (opMultColRnd rnd pMx1 pMx2 m1row)
    { st with resCol := 0 }
  { st1 with resRow := st1.resRow + 1 }

/-- Matrix.c: `matrix_opMult`, rounding by `rnd`. -/
def matrix_opMultRnd (rnd : ℚ → ℚ) (hMx1 hMx2 : Mx) (phMxRes : Option Mx) (h : Heap) :
    Status × Option Mx × Heap :=
  match adjustMatrixDims phMxRes hMx1.rows hMx2.cols h with
  | (Status.SUCCESS, some pMxRes, h1) =>
    let st := (List.range hMx1.rows.toNat).foldl (opMultRowRnd rnd hMx1 hMx2)
      { res := { pMxRes := pMxRes, maxLength := 1, isFirstNewEntry := Boolean.TRUE },
        resRow := 0, resCol := 0 }
    (Status.SUCCESS, some { st.res.pMxRes with maxLength := st.res.maxLength }, h1)
  | (_, res, h1) => (Status.FAILURE, res, h1)

/-- Matrix.c: the `for (i = 3; i <= power; ++i)` loop of `matrix_opPow`, rounding by
`rnd`: every iteration calls `matrix_opMult(hMx, hMxToMult, &hMxResTemp)`. -/
def opPowLoopRnd (rnd : ℚ → ℚ) (hMx : Mx) : Nat → Mx → Heap → Option Mx × Heap
  | 0, pMxToMult, h => (some pMxToMult, h)
  | n + 1, pMxToMult, h =>
    match matrix_opMultRnd rnd hMx pMxToMult none h with
    | (Status.SUCCESS, some pMxResTemp, h1) =>
      opPowLoopRnd rnd hMx n pMxResTemp (matrix_destroy (some pMxToMult) h1).2.2
    | (_, _, h1) => (none, (matrix_destroy (some pMxToMult) h1).2.2)

/-- Matrix.c: `matrix_opPow`, rounding by `rnd`. -/
def matrix_opPowRnd (rnd : ℚ → ℚ) (hMx : Mx) (power : Int) (phMxRes : Option Mx) (h : Heap) :
    Status × Option Mx × Heap :=
  if power = 1 then
    matrix_copy phMxRes hMx h
  else if power = 2 then
    matrix_opMultRnd rnd hMx hMx phMxRes h
  else
    match matrix_opMultRnd rnd hMx hMx none h with
    | (Status.SUCCESS, some pMxToMult, h1) =>
      match opPowLoopRnd rnd hMx (power - 2).toNat pMxToMult h1 with
      | (some pMxToMult1, h2) =>
        let r := matrix_move phMxRes (some pMxToMult1) h2
        (Status.SUCCESS, r.2.1, r.2.2.2)
      | (none, h2) => (Status.FAILURE, phMxRes, h2)
    | (_, _, h1) => (Status.FAILURE, phMxRes, h1)

/-- The matrix `matrix_opMultRnd` stores in an empty result handle when the allocation
succeeds: the product loops run on a fresh zeroed matrix. -/
def multRndFresh (rnd : ℚ → ℚ) (hMx1 hMx2 : Mx) : Mx :=
  let st := (List.range hMx1.rows.toNat).foldl (opMultRowRnd rnd hMx1 hMx2)
    { res := { pMxRes := { entries := zeroBuf (getSize hMx1.rows hMx2.cols),
                           rows := hMx1.rows, cols := hMx2.cols, maxLength := 1 },
               maxLength := 1, isFirstNewEntry := Boolean.TRUE },
      resRow := 0, resCol := 0 }
  { st.res.pMxRes with maxLength := st.res.maxLength }

/-! ## Specification vocabulary -/

/-- A matrix object of logical shape `r x c` whose buffer holds at least `r * c` entries. -/
def Mx.Shaped (m : Mx) (r c : Nat) : Prop :=
  m.rows = (r : Int) ∧ m.cols = (c : Int) ∧ r * c ≤ m.entries.length

instance (m : Mx) (r c : Nat) : Decidable (m.Shaped r c) :=
  inferInstanceAs (Decidable (_ ∧ _ ∧ _))

/-- A handle is valid when it is `NULL` or points to a matrix object of any shape
whose buffer holds its logical size. -/
def ValidHandle (ph : Option Mx) : Prop :=
  match ph with
  | none => True
  | some p => p.Shaped p.rows.toNat p.cols.toNat

instance (ph : Option Mx) : Decidable (ValidHandle ph) :=
  match ph with
  | none => isTrue trivial
  | some p => inferInstanceAs (Decidable (p.Shaped p.rows.toNat p.cols.toNat))

/-- Entry `(i, j)` of a matrix as `matrix_getEntry` reports it. -/
def Mx.entry (m : Mx) (i j : Nat) : ℚ :=
  (matrix_getEntry m (i : Int) (j : Int)).2

/-- The mathematical matrix a matrix object of shape `r x c` holds. -/
def Mx.toMatrix (m : Mx) (r c : Nat) : Matrix (Fin r) (Fin c) ℚ :=
  Matrix.of fun i j => m.entry i.val j.val

/-- Entries `(i', j')` before position `(i, k)` in iteration order hold `val i' j'`. -/
def FilledTo (buf : List ℚ) (idx : Nat → Nat → Nat) (val : Nat → Nat → ℚ) (c i k : Nat) : Prop :=
  ∀ i' j', j' < c → (i' < i ∨ (i' = i ∧ j' < k)) → buf.getD (idx i' j') 0 = val i' j'

/-- The nested result loop shared by `matrix_opAdd`, `matrix_opSub` and (after
eliminating its index trackers) `matrix_opMult`. -/
def resLoop (val : Nat → Nat → ℚ) (r c : Nat) (st0 : ResSt) : ResSt :=
  (List.range r).foldl
    (fun st (resRow : Nat) => (List.range c).foldl
      (fun st (resCol : Nat) => storeEntry st (resRow : Int) (resCol : Int) (val resRow resCol))
      st) st0

/-- Index `j` of a sequence from which position `p` was removed, as an index of
the original sequence. -/
def skipIdx (p j : Nat) : Nat :=
  if j < p then j else j + 1

/-- Invariant of the loops that fill a `tr x tc` submatrix: shape, buffer
length, the row tracker, and the entries written before position `(i, k)`. -/
def SubInv (tr tc L : Nat) (val : Nat → Nat → ℚ) (i k : Nat) (st : SubSt) : Prop :=
  st.pMxSub.rows = (tr : Int) ∧ st.pMxSub.cols = (tc : Int) ∧ st.pMxSub.entries.length = L
    ∧ st.mxSub_row = (i : Int)
    ∧ FilledTo st.pMxSub.entries (fun a b => a * tc + b) val tc i k

/-- The minor of an `(n+1) x (n+1)` matrix object obtained by deleting row 0 and
column `col`. -/
def minorMat (m : Mx) (n col : Nat) : Matrix (Fin n) (Fin n) ℚ :=
  Matrix.of fun i j => m.entry (i.val + 1) (skipIdx col j.val)

/-- Postcondition of the determinant routines, which return a value, `*pMem`
and the heap: requests only ever add failures; when no request of the call
failed the value is `val` and `*pMem` is untouched; when one failed `*pMem` is
`FAILURE`. -/
def DetPost (val : ℚ) (mem : Status) (h : Heap) (out : ℚ × Status × Heap) : Prop :=
  h.failed ≤ out.2.2.failed
    ∧ (out.2.2.failed = h.failed → out.1 = val ∧ out.2.1 = mem)
    ∧ (h.failed < out.2.2.failed → out.2.1 = Status.FAILURE ∧ ¬ h.ok)
    ∧ (h.ok → out.2.2.ok)

/-- The minor of an `(n+1) x (n+1)` matrix object obtained by deleting row `row`
and column `col`. -/
def minorMat2 (m : Mx) (n row col : Nat) : Matrix (Fin n) (Fin n) ℚ :=
  Matrix.of fun i j => m.entry (skipIdx row i.val) (skipIdx col j.val)

/-- The cofactor `(row, col)` of an `(n+1) x (n+1)` matrix object. -/
def cofactor (m : Mx) (n row col : Nat) : ℚ :=
  (-1) ^ (row + col) * Matrix.det (minorMat2 m n row col)

/-- Invariant of the cofactor loops of `opAdjugate` on an `(n+1) x (n+1)`
matrix: shape and buffer length of the matrix of cofactors, and the cofactors
written before position `(i, k)`. -/
def CofInv (m : Mx) (n L i k : Nat) (st : CofSt) : Prop :=
  st.pMxOfCofactors.rows = ((n + 1 : Nat) : Int) ∧ st.pMxOfCofactors.cols = ((n + 1 : Nat) : Int)
    ∧ st.pMxOfCofactors.entries.length = L
    ∧ FilledTo st.pMxOfCofactors.entries (fun a b => a * (n + 1) + b) (cofactor m n) (n + 1) i k

/-- The size invariant of a live matrix object: at least one row and one column, and a
buffer that holds at least `rows * cols` entries. -/
def Mx.WellSized (m : Mx) : Prop :=
  1 ≤ m.rows ∧ 1 ≤ m.cols ∧ m.rows * m.cols ≤ (m.entries.length : Int)

instance (m : Mx) : Decidable m.WellSized :=
  inferInstanceAs (Decidable (_ ∧ _ ∧ _))

/-- A handle that is `NULL` or points to a matrix object satisfying the size invariant. -/
def WellSizedHandle (ph : Option Mx) : Prop :=
  match ph with
  | none => True
  | some p => p.WellSized

instance (ph : Option Mx) : Decidable (WellSizedHandle ph) :=
  match ph with
  | none => isTrue trivial
  | some p => inferInstanceAs (Decidable p.WellSized)
/-! ## Supporting lemmas: buffers, loops, the allocator and the operations -/

theorem rd_natCast (buf : List ℚ) (k : Nat) : rd buf (k : Int) = buf.getD k 0 := by
  simp [rd]

theorem wr_natCast (buf : List ℚ) (k : Nat) (v : ℚ) : wr buf (k : Int) v = buf.set k v := by
  simp [wr]

theorem getD_set_self (buf : List ℚ) (k : Nat) (v : ℚ) (hk : k < buf.length) :
    (buf.set k v).getD k 0 = v := by
  simp [List.getD_eq_getElem?_getD, List.getElem?_set, hk]

theorem getD_set_ne (buf : List ℚ) (k k' : Nat) (v : ℚ) (hk : k ≠ k') :
    (buf.set k v).getD k' 0 = buf.getD k' 0 := by
  simp [List.getD_eq_getElem?_getD, List.getElem?_set, hk]

theorem idx_lt {r c i j : Nat} (hi : i < r) (hj : j < c) : i * c + j < r * c := by
  have h1 : (i + 1) * c ≤ r * c := Nat.mul_le_mul_right c hi
  have h2 : (i + 1) * c = i * c + c := by ring
  omega

theorem idx_inj {c i j i' j' : Nat} (hj : j < c) (hj' : j' < c)
    (h : i * c + j = i' * c + j') : i = i' ∧ j = j' := by
  have h1 : (i * c + j) / c = i := by
    rw [Nat.add_comm, Nat.add_mul_div_right _ _ (by omega : 0 < c), Nat.div_eq_of_lt hj]; simp
  have h2 : (i' * c + j') / c = i' := by
    rw [Nat.add_comm, Nat.add_mul_div_right _ _ (by omega : 0 < c), Nat.div_eq_of_lt hj']; simp
  have hi : i = i' := by rw [← h1, ← h2, h]
  subst hi
  exact ⟨rfl, by omega⟩

theorem at_natCast (m : Mx) {r c i j : Nat} (hr : m.rows = (r : Int)) (hc : m.cols = (c : Int))
    (hi : i < r) (hj : j < c) : at_ m (i : Int) (j : Int) = ((i * c + j : Nat) : Int) := by
  unfold at_
  rw [hr, hc, if_neg (by omega)]
  push_cast
  ring

theorem entry_eq (m : Mx) {r c i j : Nat} (hr : m.rows = (r : Int)) (hc : m.cols = (c : Int))
    (hi : i < r) (hj : j < c) : m.entry i j = m.entries.getD (i * c + j) 0 := by
  unfold Mx.entry matrix_getEntry
  simp only [at_natCast m hr hc hi hj]
  rw [if_pos (by omega), rd_natCast]

theorem getEntry_eq (m : Mx) {r c i j : Nat} (hr : m.rows = (r : Int)) (hc : m.cols = (c : Int))
    (hi : i < r) (hj : j < c) :
    matrix_getEntry m (i : Int) (j : Int) = (Status.SUCCESS, m.entry i j) := by
  unfold Mx.entry matrix_getEntry
  simp only [at_natCast m hr hc hi hj]
  rw [if_pos (by omega)]

theorem foldl_range_inv {σ : Type} (f : σ → Nat → σ) (P : Nat → σ → Prop) (s0 : σ) (n : Nat)
    (h0 : P 0 s0) (hstep : ∀ k s, k < n → P k s → P (k + 1) (f s k)) :
    P n ((List.range n).foldl f s0) := by
  induction n with
  | zero => simpa using h0
  | succ n ih =>
    rw [List.range_succ, List.foldl_append]
    simp only [List.foldl_cons, List.foldl_nil]
    exact hstep n _ (Nat.lt_succ_self n)
      (ih (fun k s hk hP => hstep k s (Nat.lt_succ_of_lt hk) hP))

theorem foldl_range_sum (f : Nat → ℚ) (n : Nat) :
    (List.range n).foldl (fun s t => s + f t) 0 = ∑ t in Finset.range n, f t := by
  induction n with
  | zero => simp
  | succ n ih =>
    rw [List.range_succ, List.foldl_append, ih, Finset.sum_range_succ]
    simp

/-- Heap facts -/
theorem malloc_ok (h : Heap) (hok : h.ok) :
    ∃ h1, h.malloc = (true, h1) ∧ h1.ok ∧ h1.failed = h.failed := by
  unfold Heap.malloc
  rcases h with ⟨o, l, f⟩
  cases o with
  | nil => exact ⟨_, rfl, hok, rfl⟩
  | cons b rest =>
    have hb : b = true := hok b (by simp)
    subst hb
    refine ⟨_, rfl, ?_, rfl⟩
    intro b hb
    exact hok b (by simp at hb ⊢; exact Or.inr hb)

theorem malloc_cases (h : Heap) :
    (∃ h1, h.malloc = (true, h1) ∧ h1.failed = h.failed ∧ (h.ok → h1.ok)) ∨
    (∃ h1, h.malloc = (false, h1) ∧ h1.failed = h.failed + 1 ∧ ¬ h.ok) := by
  unfold Heap.malloc
  rcases h with ⟨o, l, f⟩
  cases o with
  | nil => exact Or.inl ⟨_, rfl, rfl, fun hk => hk⟩
  | cons b rest =>
    cases b with
    | true =>
      refine Or.inl ⟨_, rfl, rfl, ?_⟩
      intro hok b hb
      exact hok b (by simp at hb ⊢; exact Or.inr hb)
    | false =>
      refine Or.inr ⟨_, rfl, rfl, ?_⟩
      intro hok
      have := hok false (by simp)
      simp at this

theorem free_failed (h : Heap) : h.free.failed = h.failed := rfl

theorem free_ok (h : Heap) : h.free.ok ↔ h.ok := Iff.rfl

theorem matrix_initDims_cases (rows cols : Int) (h : Heap) :
    (∃ h1, matrix_initDims rows cols h
        = (some { entries := zeroBuf (getSize rows cols), rows := rows, cols := cols,
                  maxLength := 1 }, h1)
      ∧ h1.failed = h.failed ∧ (h.ok → h1.ok)) ∨
    (∃ h1, matrix_initDims rows cols h = (none, h1) ∧ h.failed < h1.failed ∧ ¬ h.ok) := by
  unfold matrix_initDims
  rcases malloc_cases h with ⟨h1, e1, f1, k1⟩ | ⟨h1, e1, f1, k1⟩
  · simp only [e1]
    rcases malloc_cases h1 with ⟨h2, e2, f2, k2⟩ | ⟨h2, e2, f2, k2⟩
    · simp only [e2]
      exact Or.inl ⟨h2, rfl, by omega, fun hk => k2 (k1 hk)⟩
    · simp only [e2]
      refine Or.inr ⟨h2.free, rfl, ?_, fun hk => k2 (k1 hk)⟩
      rw [free_failed]; omega
  · simp only [e1]
    exact Or.inr ⟨h1, rfl, by omega, k1⟩

theorem matrix_destroy_failed (p : Option Mx) (h : Heap) :
    (matrix_destroy p h).2.2.failed = h.failed := by
  cases p <;> rfl

theorem matrix_destroy_ok (p : Option Mx) (h : Heap) (hok : h.ok) :
    (matrix_destroy p h).2.2.ok := by
  cases p <;> exact hok

theorem wr_length (buf : List ℚ) (idx : Int) (v : ℚ) : (wr buf idx v).length = buf.length := by
  unfold wr
  split <;> simp

theorem zeroBuf_length (r c : Nat) : (zeroBuf (getSize (r : Int) (c : Int))).length = r * c := by
  unfold zeroBuf getSize
  rw [List.length_replicate, ← Nat.cast_mul, Int.toNat_natCast]

theorem foldl_wr_length (n : Nat) (f : List ℚ → Nat → ℚ) (buf : List ℚ) :
    ((List.range n).foldl (fun es (i : Nat) => wr es (i : Int) (f es i)) buf).length = buf.length := by
  refine foldl_range_inv _ (fun _ es => es.length = buf.length) buf n rfl ?_
  intro k s _ hs
  rw [wr_length, hs]

theorem validHandle_some (R : Mx) {r c : Nat} (hR : R.Shaped r c) : ValidHandle (some R) := by
  show R.Shaped R.rows.toNat R.cols.toNat
  have hr : R.rows.toNat = r := by rw [hR.1, Int.toNat_natCast]
  have hc : R.cols.toNat = c := by rw [hR.2.1, Int.toNat_natCast]
  rw [hr, hc]
  exact hR

theorem validHandle_none : ValidHandle none :=
  trivial

theorem ValidHandle.shaped {p : Mx} (hv : ValidHandle (some p)) : ∃ r c : Nat, p.Shaped r c :=
  ⟨_, _, hv⟩

theorem adjustMatrixDims_cases (pp : Option Mx) (hv : ValidHandle pp) (r c : Nat) (h : Heap) :
    (∃ m h1, adjustMatrixDims pp (r : Int) (c : Int) h = (Status.SUCCESS, some m, h1)
      ∧ m.Shaped r c ∧ h1.failed = h.failed ∧ (h.ok → h1.ok)) ∨
    (∃ h1, adjustMatrixDims pp (r : Int) (c : Int) h = (Status.FAILURE, pp, h1)
      ∧ h.failed < h1.failed ∧ ¬ h.ok) := by
  unfold adjustMatrixDims
  cases pp with
  | none =>
    rcases matrix_initDims_cases r c h with ⟨h1, e1, f1, k1⟩ | ⟨h1, e1, f1, k1⟩
    · simp only [e1]
      exact Or.inl ⟨_, h1, rfl, ⟨rfl, rfl, by simp [zeroBuf_length]⟩, f1, k1⟩
    · simp only [e1]
      exact Or.inr ⟨h1, rfl, f1, k1⟩
  | some p =>
    simp only
    split
    · rcases malloc_cases h with ⟨h1, e1, f1, k1⟩ | ⟨h1, e1, f1, k1⟩
      · simp only [e1]
        exact Or.inl ⟨_, h1.free, rfl, ⟨rfl, rfl, by simp [zeroBuf_length]⟩, f1, k1⟩
      · simp only [e1]
        exact Or.inr ⟨h1, rfl, by omega, k1⟩
    · rename_i hsz
      obtain ⟨r', c', hr', hc', hlen⟩ := hv.shaped
      refine Or.inl ⟨_, h, rfl, ⟨rfl, rfl, ?_⟩, rfl, fun hk => hk⟩
      simp only
      rw [foldl_wr_length _ (fun _ _ => 0)]
      unfold getSize at hsz
      rw [hr', hc'] at hsz
      have : (r : Int) * c ≤ (r' : Int) * c' := by omega
      have : r * c ≤ r' * c' := by exact_mod_cast this
      omega

theorem FilledTo.step {buf : List ℚ} {idx : Nat → Nat → Nat} {val : Nat → Nat → ℚ} {c i k : Nat}
    (hf : FilledTo buf idx val c i k) (hlen : idx i k < buf.length)
    (hinj : ∀ i' j', j' < c → (i' < i ∨ (i' = i ∧ j' < k)) → idx i' j' ≠ idx i k)
    (v : ℚ) (hv : v = val i k) :
    FilledTo (buf.set (idx i k) v) idx val c i (k + 1) := by
  intro i' j' hj' hpos
  by_cases hcur : i' = i ∧ j' = k
  · obtain ⟨rfl, rfl⟩ := hcur
    rw [getD_set_self _ _ _ hlen, hv]
  · have hprev : i' < i ∨ (i' = i ∧ j' < k) := by
      rcases hpos with h | ⟨h1, h2⟩
      · exact Or.inl h
      · refine Or.inr ⟨h1, ?_⟩
        by_contra hge
        exact hcur ⟨h1, by omega⟩
    rw [getD_set_ne _ _ _ _ (fun e => hinj i' j' hj' hprev e.symm)]
    exact hf i' j' hj' hprev

theorem FilledTo.nextRow {buf : List ℚ} {idx : Nat → Nat → Nat} {val : Nat → Nat → ℚ} {c i : Nat}
    (hf : FilledTo buf idx val c i c) : FilledTo buf idx val c (i + 1) 0 := by
  intro i' j' hj' hpos
  rcases hpos with h | ⟨_, h2⟩
  · rcases Nat.lt_succ_iff_lt_or_eq.mp h with h | h
    · exact hf i' j' hj' (Or.inl h)
    · exact hf i' j' hj' (Or.inr ⟨h, hj'⟩)
  · omega

theorem FilledTo.zero (buf : List ℚ) (idx : Nat → Nat → Nat) (val : Nat → Nat → ℚ) (c : Nat) :
    FilledTo buf idx val c 0 0 := by
  intro i' j' _ hpos
  rcases hpos with h | ⟨_, h2⟩ <;> omega

theorem resLoop_spec (val : Nat → Nat → ℚ) (r c : Nat) (st0 : ResSt)
    (hS : st0.pMxRes.Shaped r c) :
    (resLoop val r c st0).pMxRes.Shaped r c ∧
    ∀ i j, i < r → j < c → (resLoop val r c st0).pMxRes.entry i j = val i j := by
  obtain ⟨hr, hc, hlen⟩ := hS
  have key : (fun (st : ResSt) => st.pMxRes.rows = (r : Int) ∧ st.pMxRes.cols = (c : Int)
      ∧ st.pMxRes.entries.length = st0.pMxRes.entries.length
      ∧ FilledTo st.pMxRes.entries (fun i j => i * c + j) val c r 0) (resLoop val r c st0) := by
    unfold resLoop
    refine foldl_range_inv _ (fun i (st : ResSt) => st.pMxRes.rows = (r : Int)
      ∧ st.pMxRes.cols = (c : Int)
      ∧ st.pMxRes.entries.length = st0.pMxRes.entries.length
      ∧ FilledTo st.pMxRes.entries (fun i j => i * c + j) val c i 0) st0 r
      ⟨hr, hc, rfl, FilledTo.zero _ _ _ _⟩ ?_
    intro i st hi ⟨h1, h2, h3, h4⟩
    have inner := foldl_range_inv
      (fun (st : ResSt) (resCol : Nat) => storeEntry st (i : Int) (resCol : Int) (val i resCol))
      (fun k (st : ResSt) => st.pMxRes.rows = (r : Int)
        ∧ st.pMxRes.cols = (c : Int)
        ∧ st.pMxRes.entries.length = st0.pMxRes.entries.length
        ∧ FilledTo st.pMxRes.entries (fun i j => i * c + j) val c i k) st c
      ⟨h1, h2, h3, h4⟩ ?_
    · obtain ⟨g1, g2, g3, g4⟩ := inner
      exact ⟨g1, g2, g3, g4.nextRow⟩
    · intro k s hk ⟨g1, g2, g3, g4⟩
      refine ⟨g1, g2, ?_, ?_⟩
      · simp only [storeEntry, wr_length, g3]
      · simp only [storeEntry, at_natCast s.pMxRes g1 g2 hi hk, wr_natCast]
        refine FilledTo.step g4 ?_ ?_ _ rfl
        · have := idx_lt hi hk
          omega
        · intro i' j' hj' hpos e
          have := idx_inj hj' hk e
          omega
  obtain ⟨k1, k2, k3, k4⟩ := key
  refine ⟨⟨k1, k2, by omega⟩, ?_⟩
  intro i j hi hj
  rw [entry_eq _ k1 k2 hi hj]
  exact k4 i j hj (Or.inl hi)

theorem rd_at (m : Mx) {r c i j : Nat} (hr : m.rows = (r : Int)) (hc : m.cols = (c : Int))
    (hi : i < r) (hj : j < c) : rd m.entries (at_ m (i : Int) (j : Int)) = m.entry i j := by
  rw [entry_eq m hr hc hi hj, at_natCast m hr hc hi hj, rd_natCast]

theorem resLoop_succ (val : Nat → Nat → ℚ) (r c : Nat) (st0 : ResSt) :
    resLoop val (r + 1) c st0 = (List.range c).foldl
      (fun st (resCol : Nat) => storeEntry st (r : Int) (resCol : Int) (val r resCol))
      (resLoop val r c st0) := by
  unfold resLoop
  rw [List.range_succ, List.foldl_append]
  rfl

theorem opMult_loop_res (a b : Mx) (r c : Nat) (hc : b.cols = (c : Int)) (st0 : ResSt) :
    ((List.range r).foldl (opMultRow a b) { res := st0, resRow := 0, resCol := 0 }).res
      = resLoop (fun i j => opMultSum a b (i : Int) (j : Int)) r c st0 := by
  have key := foldl_range_inv (opMultRow a b)
    (fun i (st : MultSt) => st.resRow = (i : Int)
      ∧ st.res = resLoop (fun i j => opMultSum a b (i : Int) (j : Int)) i c st0)
    { res := st0, resRow := 0, resCol := 0 } r ⟨rfl, rfl⟩ ?_
  · exact key.2
  · intro i st _ ⟨h1, h2⟩
    unfold opMultRow
    rw [hc, Int.toNat_natCast]
    have inner := foldl_range_inv (opMultCol a b (i : Int))
      (fun k (s : MultSt) => s.resRow = (i : Int) ∧ s.resCol = (k : Int)
        ∧ s.res = (List.range k).foldl
          (fun st (resCol : Nat) => storeEntry st (i : Int) (resCol : Int)
            (opMultSum a b (i : Int) (resCol : Int))) st.res)
      { st with resCol := 0 } c ⟨h1, rfl, rfl⟩ ?_
    · obtain ⟨g1, _, g3⟩ := inner
      refine ⟨?_, ?_⟩
      · simp only [g1]; push_cast; ring
      · rw [resLoop_succ, ← h2]
        exact g3
    · intro k s _ ⟨g1, g2, g3⟩
      refine ⟨g1, ?_, ?_⟩
      · simp only [opMultCol, g2]; push_cast; ring
      · rw [List.range_succ, List.foldl_append, ← g3]
        simp only [opMultCol, g1, g2, List.foldl_cons, List.foldl_nil]

theorem opMultSum_eq (a b : Mx) {r k c i j : Nat} (ha : a.Shaped r k) (hb : b.Shaped k c)
    (hi : i < r) (hj : j < c) :
    opMultSum a b (i : Int) (j : Int) = ∑ t in Finset.range k, a.entry i t * b.entry t j := by
  unfold opMultSum
  rw [ha.2.1, Int.toNat_natCast,
    foldl_range_sum (fun t => rd a.entries (at_ a (i : Int) (t : Int))
      * rd b.entries (at_ b (t : Int) (j : Int)))]
  refine Finset.sum_congr rfl ?_
  intro t ht
  have ht' : t < k := Finset.mem_range.mp ht
  rw [rd_at a ha.1 ha.2.1 hi ht', rd_at b hb.1 hb.2.1 ht' hj]

/-- Full functional description of a successful `matrix_opMult`. -/
theorem matrix_opMult_ok (a b : Mx) {r k c : Nat} (ha : a.Shaped r k) (hb : b.Shaped k c)
    (res : Option Mx) (hres : ValidHandle res) (h : Heap) (hok : h.ok) :
    ∃ R h1, matrix_opMult a b res h = (Status.SUCCESS, some R, h1) ∧ h1.ok
      ∧ h1.failed = h.failed ∧ R.Shaped r c
      ∧ ∀ i j, i < r → j < c →
          R.entry i j = ∑ t in Finset.range k, a.entry i t * b.entry t j := by
  unfold matrix_opMult
  rw [ha.1, hb.2.1]
  rcases adjustMatrixDims_cases res hres r c h with ⟨m, h1, e, hm, hf, hk⟩ | ⟨h1, _, _, hk⟩
  · simp only [e, Int.toNat_natCast]
    rw [opMult_loop_res a b r c hb.2.1]
    have spec := resLoop_spec (fun i j => opMultSum a b (i : Int) (j : Int)) r c
      { pMxRes := m, maxLength := 1, isFirstNewEntry := Boolean.TRUE } hm
    refine ⟨_, h1, rfl, hk hok, hf, ⟨spec.1.1, spec.1.2.1, spec.1.2.2⟩, ?_⟩
    intro i j hi hj
    exact (spec.2 i j hi hj).trans (opMultSum_eq a b ha hb hi hj)
  · exact absurd hok hk

theorem foldl_range_getD {α β : Type} (F : β → α → β) (d : α) (l : List α) (s0 : β) :
    (List.range l.length).foldl (fun s (t : Nat) => F s (l.getD t d)) s0 = l.foldl F s0 := by
  induction l generalizing s0 with
  | nil => rfl
  | cons x xs ih =>
    rw [List.length_cons, List.range_succ_eq_map, List.foldl_cons, List.foldl_map]
    simp only [List.getD_cons_zero, List.getD_cons_succ, List.foldl_cons]
    exact ih (F s0 x)

theorem foldl_add_eq_sum {α : Type} (g : α → ℚ) (l : List α) (a : ℚ) :
    l.foldl (fun s m => s + g m) a = a + (l.map g).sum := by
  induction l generalizing a with
  | nil => simp
  | cons x xs ih =>
    rw [List.foldl_cons, ih, List.map_cons, List.sum_cons]
    ring

theorem opAddSum_eq (ops : List Mx) {r c i j : Nat} (hall : ∀ m ∈ ops, m.Shaped r c)
    (hi : i < r) (hj : j < c) :
    opAddSum ops (ops.length : Int) (i : Int) (j : Int)
      = (ops.map (fun m => m.entry i j)).sum := by
  unfold opAddSum operand
  rw [Int.toNat_natCast,
    foldl_range_getD (fun (s : ℚ) (m : Mx) => s + rd m.entries (at_ m (i : Int) (j : Int))),
    foldl_add_eq_sum, zero_add]
  congr 1
  refine List.map_congr_left ?_
  intro m hm
  exact rd_at m (hall m hm).1 (hall m hm).2.1 hi hj

theorem operand_zero_shaped (ops : List Mx) {r c : Nat} (hne : ops ≠ [])
    (hall : ∀ m ∈ ops, m.Shaped r c) : (operand ops 0).Shaped r c := by
  cases ops with
  | nil => exact absurd rfl hne
  | cons m rest => exact hall m (by simp)

/-- Full functional description of a successful `matrix_opAdd`. -/
theorem matrix_opAdd_ok (ops : List Mx) {r c : Nat} (hne : ops ≠ [])
    (hall : ∀ m ∈ ops, m.Shaped r c)
    (res : Option Mx) (hres : ValidHandle res) (h : Heap) (hok : h.ok) :
    ∃ R h1, matrix_opAdd ops (ops.length : Int) res h = (Status.SUCCESS, some R, h1) ∧ h1.ok
      ∧ R.Shaped r c
      ∧ ∀ i j, i < r → j < c → R.entry i j = (ops.map (fun m => m.entry i j)).sum := by
  have h0 := operand_zero_shaped ops hne hall
  unfold matrix_opAdd
  simp only [h0.1, h0.2.1]
  rcases adjustMatrixDims_cases res hres r c h with ⟨m, h1, e, hm, _, hk⟩ | ⟨h1, _, _, hk⟩
  · simp only [e, Int.toNat_natCast]
    have spec := resLoop_spec (fun i j => opAddSum ops (ops.length : Int) (i : Int) (j : Int)) r c
      { pMxRes := m, maxLength := 1, isFirstNewEntry := Boolean.TRUE } hm
    refine ⟨_, h1, rfl, hk hok, ⟨spec.1.1, spec.1.2.1, spec.1.2.2⟩, ?_⟩
    intro i j hi hj
    exact (spec.2 i j hi hj).trans (opAddSum_eq ops hall hi hj)
  · exact absurd hok hk

theorem opSubSum_eq (m0 : Mx) (rest : List Mx) {r c i j : Nat}
    (hall : ∀ m ∈ m0 :: rest, m.Shaped r c) (hi : i < r) (hj : j < c) :
    opSubSum (m0 :: rest) ((m0 :: rest).length : Int) (i : Int) (j : Int)
      = rest.foldl (fun acc m => acc - m.entry i j) (m0.entry i j) := by
  unfold opSubSum operand
  rw [Int.toNat_natCast, List.length_cons, List.range_succ_eq_map, List.foldl_cons,
    List.foldl_map]
  simp only [List.getD_cons_zero, List.getD_cons_succ, if_true, Nat.succ_ne_zero, if_false,
    zero_add]
  rw [foldl_range_getD (fun (s : ℚ) (m : Mx) => s - rd m.entries (at_ m (i : Int) (j : Int))),
    rd_at m0 (hall m0 (by simp)).1 (hall m0 (by simp)).2.1 hi hj]
  have aux : ∀ (l : List Mx) (a : ℚ), (∀ m ∈ l, m.Shaped r c) →
      l.foldl (fun (s : ℚ) (m : Mx) => s - rd m.entries (at_ m (i : Int) (j : Int))) a
        = l.foldl (fun acc m => acc - m.entry i j) a := by
    intro l
    induction l with
    | nil => intro a _; rfl
    | cons x xs ih =>
      intro a hl
      rw [List.foldl_cons, List.foldl_cons, rd_at x (hl x (by simp)).1 (hl x (by simp)).2.1 hi hj]
      exact ih _ (fun m hm => hl m (by simp [hm]))
  exact aux rest _ (fun m hm => hall m (by simp [hm]))

/-- Full functional description of a successful `matrix_opSub`. -/
theorem matrix_opSub_ok (m0 : Mx) (rest : List Mx) {r c : Nat}
    (hall : ∀ m ∈ m0 :: rest, m.Shaped r c)
    (res : Option Mx) (hres : ValidHandle res) (h : Heap) (hok : h.ok) :
    ∃ R h1, matrix_opSub (m0 :: rest) ((m0 :: rest).length : Int) res h
        = (Status.SUCCESS, some R, h1) ∧ h1.ok ∧ R.Shaped r c
      ∧ ∀ i j, i < r → j < c →
          R.entry i j = rest.foldl (fun acc m => acc - m.entry i j) (m0.entry i j) := by
  have h0 := operand_zero_shaped (m0 :: rest) (by simp) hall
  unfold matrix_opSub
  simp only [h0.1, h0.2.1]
  rcases adjustMatrixDims_cases res hres r c h with ⟨m, h1, e, hm, _, hk⟩ | ⟨h1, _, _, hk⟩
  · simp only [e, Int.toNat_natCast]
    have spec := resLoop_spec
      (fun i j => opSubSum (m0 :: rest) ((m0 :: rest).length : Int) (i : Int) (j : Int)) r c
      { pMxRes := m, maxLength := 1, isFirstNewEntry := Boolean.TRUE } hm
    refine ⟨_, h1, rfl, hk hok, ⟨spec.1.1, spec.1.2.1, spec.1.2.2⟩, ?_⟩
    intro i j hi hj
    exact (spec.2 i j hi hj).trans (opSubSum_eq m0 rest hall hi hj)
  · exact absurd hok hk

theorem subFillRow_spec (pMx : Mx) {N M : Nat} (hp : pMx.Shaped N M) (col row : Nat)
    (hcol : col < M) (hrow : row < N) (val : Nat → Nat → ℚ) (tr i L : Nat) (hi : i < tr)
    (hL : tr * (M - 1) ≤ L)
    (hval : ∀ j, j < M - 1 → val i j = pMx.entry row (skipIdx col j))
    (st : SubSt) (hst : SubInv tr (M - 1) L val i 0 st) :
    SubInv tr (M - 1) L val (i + 1) 0 (subFillRow pMx (col : Int) st (row : Int)) := by
  obtain ⟨h1, h2, h3, h4, h5⟩ := hst
  unfold subFillRow
  rw [hp.2.1, Int.toNat_natCast]
  have inner := foldl_range_inv (subFillCol pMx (col : Int) (row : Int))
    (fun c' (s : SubSt) =>
      s.mxSub_col = ((if c' ≤ col then c' else c' - 1 : Nat) : Int)
      ∧ SubInv tr (M - 1) L val i (if c' ≤ col then c' else c' - 1) s)
    { st with mxSub_col := 0 } M ⟨by simp, h1, h2, h3, h4, by simpa using h5⟩ ?_
  · obtain ⟨_, g1, g2, g3, g4, g5⟩ := inner
    refine ⟨g1, g2, g3, ?_, ?_⟩
    · simp only [g4]; push_cast; ring
    · rw [if_neg (by omega)] at g5
      exact g5.nextRow
  · intro c' s hc' ⟨gc, g1, g2, g3, g4, g5⟩
    unfold subFillCol
    by_cases hcc : c' = col
    · rw [if_pos (by rw [hcc])]
      subst hcc
      rw [if_pos (le_refl _)] at gc g5
      rw [if_neg (by omega)]
      exact ⟨by simpa using gc, g1, g2, g3, g4, by simpa using g5⟩
    · rw [if_neg (by intro e; exact hcc (by exact_mod_cast e))]
      by_cases hlt : c' < col
      · rw [if_pos (by omega)] at gc g5
        rw [if_pos (by omega)]
        have hk : c' < M - 1 := by omega
        refine ⟨by simp only [gc]; push_cast; ring, g1, g2, ?_, g4, ?_⟩
        · simp only [wr_length, g3]
        · simp only [g4, gc, at_natCast s.pMxSub g1 g2 hi hk, wr_natCast]
          refine FilledTo.step g5 ?_ ?_ _ ?_
          · have := idx_lt hi hk
            omega
          · intro i' j' hj' hpos e
            have := idx_inj hj' hk e
            omega
          · rw [hval c' hk, rd_at pMx hp.1 hp.2.1 hrow hc']
            unfold skipIdx
            rw [if_pos hlt]
      · have hgt : col < c' := by omega
        rw [if_neg (by omega)] at gc g5
        rw [if_neg (by omega)]
        have hk : c' - 1 < M - 1 := by omega
        have e1 : c' + 1 - 1 = (c' - 1) + 1 := by omega
        rw [e1]
        refine ⟨by simp only [gc]; push_cast; ring, g1, g2, ?_, g4, ?_⟩
        · simp only [wr_length, g3]
        · simp only [g4, gc, at_natCast s.pMxSub g1 g2 hi hk, wr_natCast]
          refine FilledTo.step g5 ?_ ?_ _ ?_
          · have := idx_lt hi hk
            omega
          · intro i' j' hj' hpos e
            have := idx_inj hj' hk e
            omega
          · rw [hval (c' - 1) hk, rd_at pMx hp.1 hp.2.1 hrow hc']
            unfold skipIdx
            rw [if_neg (by omega), Nat.sub_add_cancel (by omega)]

theorem opDetSub_spec (pMx : Mx) {N M : Nat} (hp : pMx.Shaped N M) (col : Nat) (hcol : col < M)
    (sub0 : Mx) (hs : sub0.Shaped (N - 1) (M - 1)) :
    (opDetSub pMx (col : Int) sub0).Shaped (N - 1) (M - 1) ∧
    ∀ i j, i < N - 1 → j < M - 1 →
      (opDetSub pMx (col : Int) sub0).entry i j = pMx.entry (i + 1) (skipIdx col j) := by
  unfold opDetSub
  rw [hp.1, Int.toNat_natCast]
  have key := foldl_range_inv
    (fun st (k : Nat) => subFillRow pMx (col : Int) st ((k : Int) + 1))
    (fun k (st : SubSt) => SubInv (N - 1) (M - 1) sub0.entries.length
      (fun a b => pMx.entry (a + 1) (skipIdx col b)) k 0 st)
    { pMxSub := sub0, mxSub_row := 0, mxSub_col := 0 } (N - 1)
    ⟨hs.1, hs.2.1, rfl, rfl, FilledTo.zero _ _ _ _⟩ ?_
  · obtain ⟨g1, g2, g3, _, g5⟩ := key
    refine ⟨⟨g1, g2, by rw [g3]; exact hs.2.2⟩, ?_⟩
    intro i j hi hj
    rw [entry_eq _ g1 g2 hi hj]
    exact g5 i j hj (Or.inl hi)
  · intro k st hk hst
    have := subFillRow_spec pMx hp col (k + 1) hcol (by omega)
      (fun a b => pMx.entry (a + 1) (skipIdx col b)) (N - 1) k sub0.entries.length hk hs.2.2
      (fun j _ => rfl) st hst
    rw [Nat.cast_add, Nat.cast_one] at this
    exact this

theorem opAdjSub_spec (pMx : Mx) {N M : Nat} (hp : pMx.Shaped N M) (row col : Nat)
    (hrow : row < N) (hcol : col < M) (sub0 : Mx) (hs : sub0.Shaped (N - 1) (M - 1)) :
    (opAdjSub pMx (row : Int) (col : Int) sub0).Shaped (N - 1) (M - 1) ∧
    ∀ i j, i < N - 1 → j < M - 1 →
      (opAdjSub pMx (row : Int) (col : Int) sub0).entry i j
        = pMx.entry (skipIdx row i) (skipIdx col j) := by
  unfold opAdjSub
  rw [hp.1, Int.toNat_natCast]
  have key := foldl_range_inv
    (fun st (_row : Nat) =>
      if (_row : Int) = (row : Int) then st else subFillRow pMx (col : Int) st (_row : Int))
    (fun k (st : SubSt) => SubInv (N - 1) (M - 1) sub0.entries.length
      (fun a b => pMx.entry (skipIdx row a) (skipIdx col b)) (if k ≤ row then k else k - 1) 0 st)
    { pMxSub := sub0, mxSub_row := 0, mxSub_col := 0 } N
    ⟨hs.1, hs.2.1, rfl, by simp, by simpa using FilledTo.zero _ _ _ _⟩ ?_
  · beta_reduce at key
    rw [if_neg (show ¬ N ≤ row by omega)] at key
    obtain ⟨g1, g2, g3, _, g5⟩ := key
    refine ⟨⟨g1, g2, by rw [g3]; exact hs.2.2⟩, ?_⟩
    intro i j hi hj
    rw [entry_eq _ g1 g2 hi hj]
    exact g5 i j hj (Or.inl hi)
  · intro k st hk hst
    beta_reduce
    by_cases hkr : k = row
    · rw [if_neg (show ¬ k + 1 ≤ row by omega), if_pos (show (k : Int) = (row : Int) by rw [hkr])]
      rw [if_pos (show k ≤ row by omega)] at hst
      simpa using hst
    · rw [if_neg (show ¬ (k : Int) = (row : Int) by intro e; exact hkr (by exact_mod_cast e))]
      by_cases hlt : k < row
      · rw [if_pos (show k ≤ row by omega)] at hst
        rw [if_pos (show k + 1 ≤ row by omega)]
        refine subFillRow_spec pMx hp col k hcol hk _ (N - 1) k sub0.entries.length (by omega)
          hs.2.2 ?_ st hst
        intro j _
        simp only [skipIdx, if_pos hlt]
      · rw [if_neg (show ¬ k ≤ row by omega)] at hst
        rw [if_neg (show ¬ k + 1 ≤ row by omega)]
        have e1 : k + 1 - 1 = (k - 1) + 1 := by omega
        rw [e1]
        refine subFillRow_spec pMx hp col k hcol hk _ (N - 1) (k - 1) sub0.entries.length
          (by omega) hs.2.2 ?_ st hst
        intro j _
        have e2 : skipIdx row (k - 1) = k := by
          unfold skipIdx
          rw [if_neg (by omega)]
          omega
        simp only [e2]

theorem list_range_map_sum (g : Nat → ℚ) (n : Nat) :
    ((List.range n).map g).sum = ∑ t in Finset.range n, g t := by
  rw [← foldl_range_sum, foldl_add_eq_sum, zero_add]

theorem opDetSub_toMatrix (m : Mx) {n : Nat} (hm : m.Shaped (n + 1) (n + 1)) (col : Nat)
    (hcol : col < n + 1) (sub0 : Mx) (hs : sub0.Shaped n n) :
    (opDetSub m (col : Int) sub0).Shaped n n ∧
    (opDetSub m (col : Int) sub0).toMatrix n n = minorMat m n col := by
  have spec := opDetSub_spec m hm col hcol sub0 hs
  refine ⟨spec.1, ?_⟩
  ext i j
  simp only [Mx.toMatrix, minorMat, Matrix.of_apply]
  exact spec.2 i.val j.val i.isLt j.isLt

theorem initDims_shaped (r c : Nat) :
    ({ entries := zeroBuf (getSize (r : Int) (c : Int)), rows := (r : Int), cols := (c : Int),
       maxLength := 1 } : Mx).Shaped r c :=
  ⟨rfl, rfl, by simp [zeroBuf_length]⟩

theorem opDetCols_spec (opDetRec : Mx → Status → Heap → ℚ × Status × Heap) (n : Nat) (m : Mx)
    (hm : m.Shaped (n + 1) (n + 1))
    (hrec : ∀ sub : Mx, sub.Shaped n n → ∀ mem h,
      DetPost (Matrix.det (sub.toMatrix n n)) mem h (opDetRec sub mem h))
    (l : List Nat) (hl : ∀ col ∈ l, col < n + 1) :
    ∀ sum mem h,
      DetPost
        (sum + (l.map (fun col => (-1) ^ col * m.entry 0 col * Matrix.det (minorMat m n col))).sum)
        mem h (opDetCols opDetRec m l sum mem h) := by
  induction l with
  | nil =>
    intro sum mem h
    simp only [opDetCols, List.map_nil, List.sum_nil, add_zero]
    exact ⟨le_refl _, fun _ => ⟨rfl, rfl⟩, fun hlt => absurd hlt (lt_irrefl _), fun hk => hk⟩
  | cons col rest ih =>
    intro sum mem h
    have hcol : col < n + 1 := hl col (by simp)
    have ih' := ih (fun c hc => hl c (by simp [hc]))
    have e1 : m.rows - 1 = (n : Int) := by rw [hm.1]; push_cast; ring
    have e2 : m.cols - 1 = (n : Int) := by rw [hm.2.1]; push_cast; ring
    simp only [opDetCols, e1, e2]
    rcases matrix_initDims_cases n n h with ⟨h1, e, f1, k1⟩ | ⟨h1, e, f1, k1⟩
    · simp only [e]
      obtain ⟨hsub, hmat⟩ := opDetSub_toMatrix m hm col hcol _ (initDims_shaped n n)
      generalize opDetSub m (col : Int)
        { entries := zeroBuf (getSize (n : Int) (n : Int)), rows := (n : Int), cols := (n : Int),
          maxLength := 1 } = sub at hsub hmat ⊢
      have hr := hrec sub hsub mem h1
      rw [hmat] at hr
      generalize opDetRec sub mem h1 = r at hr ⊢
      obtain ⟨r1, r2, r3, r4⟩ := hr
      have hnext := ih'
        (if (col : Int) % 2 = 0 then sum + rd m.entries (at_ m 0 (col : Int)) * r.1
          else sum - rd m.entries (at_ m 0 (col : Int)) * r.1)
        r.2.1 (matrix_destroy (some sub) r.2.2).2.2
      generalize opDetCols opDetRec m rest
        (if (col : Int) % 2 = 0 then sum + rd m.entries (at_ m 0 (col : Int)) * r.1
          else sum - rd m.entries (at_ m 0 (col : Int)) * r.1)
        r.2.1 (matrix_destroy (some sub) r.2.2).2.2 = out at hnext ⊢
      obtain ⟨q1, q2, q3, q4⟩ := hnext
      rw [matrix_destroy_failed] at q1 q2 q3
      refine ⟨by omega, ?_, ?_, ?_⟩
      · intro hf
        obtain ⟨v1, v2⟩ := r2 (by omega)
        obtain ⟨w1, w2⟩ := q2 (by omega)
        refine ⟨?_, by rw [w2, v2]⟩
        rw [w1, v1, List.map_cons, List.sum_cons]
        have hent : rd m.entries (at_ m 0 (col : Int)) = m.entry 0 col :=
          rd_at m hm.1 hm.2.1 (Nat.succ_pos n) hcol
        rw [hent]
        have hpar : ((col : Int) % 2 = 0) ↔ Even col := by
          rw [Nat.even_iff]; omega
        by_cases hev : Even col
        · rw [if_pos (hpar.mpr hev), hev.neg_one_pow]; ring
        · rw [if_neg (fun hh => hev (hpar.mp hh)), (Nat.not_even_iff_odd.mp hev).neg_one_pow]; ring
      · intro hf
        refine ⟨?_, fun hk => ?_⟩
        · by_cases hrf : r.2.2.failed = h1.failed
          · exact (q3 (by omega)).1
          · have hF := (r3 (by omega)).1
            by_cases hqf : out.2.2.failed = r.2.2.failed
            · rw [(q2 hqf).2, hF]
            · exact (q3 (by omega)).1
        · have hk1 := k1 hk
          have hk2 := r4 hk1
          have a1 : ¬ (h1.failed < r.2.2.failed) := fun hh => (r3 hh).2 hk1
          have a2 : ¬ (r.2.2.failed < out.2.2.failed) :=
            fun hh => (q3 hh).2 (matrix_destroy_ok _ _ hk2)
          omega
      · intro hk
        exact q4 (matrix_destroy_ok _ _ (r4 (k1 hk)))
    · simp only [e]
      refine ⟨?_, ?_, ?_, ?_⟩
      · show h.failed ≤ h1.failed
        omega
      · intro hf
        have : h1.failed = h.failed := hf
        omega
      · intro _
        exact ⟨rfl, k1⟩
      · intro hk
        exact absurd hk k1

theorem succAbove_val {n : Nat} (p : Fin (n + 1)) (j : Fin n) :
    (p.succAbove j).val = skipIdx p.val j.val := by
  unfold skipIdx Fin.succAbove
  by_cases h : j.val < p.val
  · rw [if_pos h, if_pos (by rw [Fin.lt_def]; simpa using h)]
    rfl
  · rw [if_neg h, if_neg (by rw [Fin.lt_def]; simpa using h)]
    rfl

theorem minorMat_eq_submatrix (m : Mx) (n : Nat) (j : Fin (n + 1)) :
    minorMat m n j.val = (m.toMatrix (n + 1) (n + 1)).submatrix Fin.succ j.succAbove := by
  ext i k
  simp only [minorMat, Mx.toMatrix, Matrix.of_apply, Matrix.submatrix_apply, Fin.val_succ,
    succAbove_val]

theorem laplace_row_zero (m : Mx) (n : Nat) :
    ((List.range (n + 1)).map
      (fun col => (-1) ^ col * m.entry 0 col * Matrix.det (minorMat m n col))).sum
      = Matrix.det (m.toMatrix (n + 1) (n + 1)) := by
  rw [list_range_map_sum, Matrix.det_succ_row_zero,
    Finset.sum_range (fun col => (-1) ^ col * m.entry 0 col * Matrix.det (minorMat m n col))]
  refine Finset.sum_congr rfl ?_
  intro j _
  rw [minorMat_eq_submatrix]
  simp only [Mx.toMatrix, Matrix.of_apply, Fin.val_zero]

theorem opDetAux_spec : ∀ n, 2 ≤ n → ∀ m : Mx, m.Shaped n n → ∀ mem h,
    DetPost (Matrix.det (m.toMatrix n n)) mem h (opDetAux n m mem h) := by
  intro n
  induction n with
  | zero => intro hn; omega
  | succ n ih =>
    intro hn m hm mem h
    by_cases h2 : n + 1 = 2
    · have hn1 : n = 1 := by omega
      subst hn1
      have hr : m.rows = 2 := by rw [hm.1]; rfl
      have hc : m.cols = 2 := by rw [hm.2.1]; rfl
      simp only [opDetAux, hr, hc, and_self, if_true]
      refine ⟨le_refl _, fun _ => ⟨?_, rfl⟩, fun hlt => absurd hlt (lt_irrefl _), fun hk => hk⟩
      have e00 := rd_at m hm.1 hm.2.1 (show 0 < 2 by omega) (show 0 < 2 by omega)
      have e01 := rd_at m hm.1 hm.2.1 (show 0 < 2 by omega) (show 1 < 2 by omega)
      have e10 := rd_at m hm.1 hm.2.1 (show 1 < 2 by omega) (show 0 < 2 by omega)
      have e11 := rd_at m hm.1 hm.2.1 (show 1 < 2 by omega) (show 1 < 2 by omega)
      simp only [Nat.cast_zero, Nat.cast_one] at e00 e01 e10 e11
      show opDet2x2 _ _ _ _ = _
      rw [e00, e01, e10, e11, Matrix.det_fin_two]
      simp only [opDet2x2, Mx.toMatrix, Matrix.of_apply, Fin.val_zero, Fin.val_one]
    · have hn2 : 2 ≤ n := by omega
      have hr : ¬ (m.rows = 2 ∧ m.cols = 2) := by
        rw [hm.1]
        intro hh
        have := hh.1
        omega
      simp only [opDetAux, hr, if_false]
      rw [hm.2.1, Int.toNat_natCast]
      have key := opDetCols_spec (opDetAux n) n m hm (fun sub hs mem h => ih hn2 sub hs mem h)
        (List.range (n + 1)) (fun col hc => List.mem_range.mp hc) 0 mem h
      rw [laplace_row_zero, zero_add] at key
      exact key

theorem opDet_spec (n : Nat) (hn : 2 ≤ n) (m : Mx) (hm : m.Shaped n n) (mem : Status) (h : Heap) :
    DetPost (Matrix.det (m.toMatrix n n)) mem h (opDet m mem h) := by
  unfold opDet
  rw [hm.2.1, Int.toNat_natCast]
  exact opDetAux_spec n hn m hm mem h

theorem matrix_opDet_spec (n : Nat) (hn : 1 ≤ n) (m : Mx) (hm : m.Shaped n n) (h : Heap) :
    DetPost (Matrix.det (m.toMatrix n n)) Status.SUCCESS h (matrix_opDet m h) := by
  unfold matrix_opDet
  by_cases h1 : n = 1
  · subst h1
    have hr : m.rows = 1 := by rw [hm.1]; rfl
    have hc : m.cols = 1 := by rw [hm.2.1]; rfl
    rw [if_pos ⟨hr, hc⟩]
    refine ⟨le_refl _, fun _ => ⟨?_, rfl⟩, fun hlt => absurd hlt (lt_irrefl _), fun hk => hk⟩
    have e00 := rd_at m hm.1 hm.2.1 (show 0 < 1 by omega) (show 0 < 1 by omega)
    have e0 : at_ m 0 0 = 0 := by simp [at_, hr, hc]
    simp only [Nat.cast_zero, e0] at e00
    show rd m.entries 0 = _
    rw [e00, Matrix.det_fin_one]
    simp only [Mx.toMatrix, Matrix.of_apply, Fin.val_zero]
  · have hr : ¬ (m.rows = 1 ∧ m.cols = 1) := by
      rw [hm.1]
      intro hh
      have := hh.1
      omega
    rw [if_neg hr]
    exact opDet_spec n (by omega) m hm Status.SUCCESS h

theorem matrix_opTrans_cases (src : Mx) {r c : Nat} (hs : src.Shaped r c)
    (res : Option Mx) (hres : ValidHandle res) (h : Heap) :
    (∃ R h1, matrix_opTrans src res h = (Status.SUCCESS, some R, h1) ∧ R.Shaped c r
      ∧ (∀ i j, i < r → j < c → R.entry j i = src.entry i j)
      ∧ h1.failed = h.failed ∧ (h.ok → h1.ok)) ∨
    (∃ h1, matrix_opTrans src res h = (Status.FAILURE, res, h1)
      ∧ h.failed < h1.failed ∧ ¬ h.ok) := by
  unfold matrix_opTrans
  rw [hs.1, hs.2.1]
  rcases adjustMatrixDims_cases res hres c r h with ⟨m, h1, e, hm, hf, hk⟩ | ⟨h1, e, hf, hk⟩
  · simp only [e, Int.toNat_natCast]
    left
    have key := foldl_range_inv
      (fun (res : Mx) (i : Nat) => (List.range c).foldl
        (fun (res : Mx) (j : Nat) =>
          { res with
            entries := wr res.entries (at_ res (j : Int) (i : Int))
              (rd src.entries (at_ src (i : Int) (j : Int))) }) res)
      (fun i (res : Mx) => res.rows = (c : Int) ∧ res.cols = (r : Int)
        ∧ res.entries.length = m.entries.length
        ∧ FilledTo res.entries (fun a b => b * r + a) (fun a b => src.entry a b) c i 0)
      m r ⟨hm.1, hm.2.1, rfl, FilledTo.zero _ _ _ _⟩ ?_
    · obtain ⟨g1, g2, g3, g4⟩ := key
      refine ⟨_, h1, rfl, ⟨g1, g2, by rw [g3]; exact hm.2.2⟩, ?_, hf, hk⟩
      intro i j hi hj
      have := entry_eq _ g1 g2 hj hi
      exact this.trans (g4 i j hj (Or.inl hi))
    · intro i s hi ⟨g1, g2, g3, g4⟩
      have inner := foldl_range_inv
        (fun (res : Mx) (j : Nat) =>
          { res with
            entries := wr res.entries (at_ res (j : Int) (i : Int))
              (rd src.entries (at_ src (i : Int) (j : Int))) })
        (fun k (res : Mx) => res.rows = (c : Int) ∧ res.cols = (r : Int)
          ∧ res.entries.length = m.entries.length
          ∧ FilledTo res.entries (fun a b => b * r + a) (fun a b => src.entry a b) c i k)
        s c ⟨g1, g2, g3, g4⟩ ?_
      · obtain ⟨q1, q2, q3, q4⟩ := inner
        exact ⟨q1, q2, q3, q4.nextRow⟩
      · intro k t hk ⟨q1, q2, q3, q4⟩
        refine ⟨q1, q2, ?_, ?_⟩
        · simp only [wr_length, q3]
        · simp only [at_natCast t q1 q2 hk hi, wr_natCast]
          refine FilledTo.step q4 ?_ ?_ _ (rd_at src hs.1 hs.2.1 hi hk)
          · have := idx_lt hk hi
            have := hm.2.2
            show k * r + i < t.entries.length
            omega
          · intro i' j' hj' hpos e
            have hi' : i' < r := by omega
            have := idx_inj hi' hi e
            omega
  · simp only [e]
    exact Or.inr ⟨h1, rfl, hf, hk⟩

theorem opInvScale_spec (R : Mx) {r c : Nat} (hR : R.Shaped r c) (det : ℚ) :
    (opInvScale R det).Shaped r c ∧
    ∀ i j, i < r → j < c → (opInvScale R det).entry i j = R.entry i j / det := by
  have hsz : (getSize R.rows R.cols).toNat = r * c := by
    unfold getSize
    rw [hR.1, hR.2.1, ← Nat.cast_mul, Int.toNat_natCast]
  unfold opInvScale
  simp only [hsz]
  have key := foldl_range_inv
    (fun (st : List ℚ × Int) (i : Nat) =>
      (wr st.1 (i : Int) (rd st.1 (i : Int) / det),
        if i = 0 then calcEntryLength (rd st.1 (i : Int) / det)
        else if calcEntryLength (rd st.1 (i : Int) / det) > st.2
          then calcEntryLength (rd st.1 (i : Int) / det) else st.2))
    (fun k (st : List ℚ × Int) => st.1.length = R.entries.length
      ∧ (∀ idx, idx < k → st.1.getD idx 0 = R.entries.getD idx 0 / det)
      ∧ (∀ idx, k ≤ idx → st.1.getD idx 0 = R.entries.getD idx 0))
    (R.entries, 1) (r * c) ⟨rfl, fun _ hh => absurd hh (Nat.not_lt_zero _), fun _ _ => rfl⟩ ?_
  · obtain ⟨g1, g2, _⟩ := key
    refine ⟨⟨hR.1, hR.2.1, by rw [g1]; exact hR.2.2⟩, ?_⟩
    intro i j hi hj
    rw [entry_eq R hR.1 hR.2.1 hi hj]
    refine Eq.trans (entry_eq _ ?_ ?_ hi hj) (g2 _ (idx_lt hi hj))
    · exact hR.1
    · exact hR.2.1
  · intro k st hk ⟨g1, g2, g3⟩
    have hlen : k < st.1.length := by have := hR.2.2; omega
    refine ⟨by simp only [wr_length, g1], ?_, ?_⟩
    · intro idx hidx
      simp only [wr_natCast, rd_natCast]
      by_cases he : idx = k
      · subst he
        rw [getD_set_self _ _ _ hlen, g3 idx (le_refl _)]
      · rw [getD_set_ne _ _ _ _ (fun e => he e.symm)]
        exact g2 idx (by omega)
    · intro idx hidx
      simp only [wr_natCast]
      rw [getD_set_ne _ _ _ _ (by omega)]
      exact g3 idx (by omega)

theorem opAdjSub_toMatrix (m : Mx) {n : Nat} (hm : m.Shaped (n + 1) (n + 1)) (row col : Nat)
    (hrow : row < n + 1) (hcol : col < n + 1) (sub0 : Mx) (hs : sub0.Shaped n n) :
    (opAdjSub m (row : Int) (col : Int) sub0).Shaped n n ∧
    (opAdjSub m (row : Int) (col : Int) sub0).toMatrix n n = minorMat2 m n row col := by
  have spec := opAdjSub_spec m hm row col hrow hcol sub0 hs
  refine ⟨spec.1, ?_⟩
  ext i j
  simp only [Mx.toMatrix, minorMat2, Matrix.of_apply]
  exact spec.2 i.val j.val i.isLt j.isLt

theorem cofactor_sign (d : ℚ) (row col : Nat) :
    (if d ≠ 0 ∧ ((row : Int) + (col : Int)) % 2 ≠ 0 then d * -1 else d)
      = (-1) ^ (row + col) * d := by
  have hpar : (((row : Int) + (col : Int)) % 2 = 0) ↔ Even (row + col) := by
    rw [Nat.even_iff]; omega
  by_cases hev : Even (row + col)
  · rw [if_neg (fun hh => hh.2 (hpar.mpr hev)), hev.neg_one_pow]; ring
  · rw [(Nat.not_even_iff_odd.mp hev).neg_one_pow]
    by_cases hd : d = 0
    · rw [if_neg (fun hh => hh.1 hd), hd]; ring
    · rw [if_pos ⟨hd, fun hh => hev (hpar.mp hh)⟩]; ring

theorem opAdjCols_spec (m : Mx) (n : Nat) (hn : 2 ≤ n) (hm : m.Shaped (n + 1) (n + 1))
    (row : Nat) (hrow : row < n + 1) (L : Nat) (hL : (n + 1) * (n + 1) ≤ L) :
    ∀ (len k : Nat), k + len = n + 1 → ∀ st h, CofInv m n L row k st →
      (∃ st1 h1, opAdjCols m row (List.range' k len) st h = (some st1, h1)
        ∧ CofInv m n L row (n + 1) st1 ∧ h1.failed = h.failed ∧ (h.ok → h1.ok)) ∨
      (∃ h1, opAdjCols m row (List.range' k len) st h = (none, h1)
        ∧ h.failed < h1.failed ∧ ¬ h.ok) := by
  intro len
  induction len with
  | zero =>
    intro k hk st h hst
    have : k = n + 1 := by omega
    subst this
    exact Or.inl ⟨st, h, rfl, hst, rfl, fun hh => hh⟩
  | succ len ih =>
    intro k hk st h hst
    have hcol : k < n + 1 := by omega
    have e1 : m.rows - 1 = (n : Int) := by rw [hm.1]; push_cast; ring
    have e2 : m.cols - 1 = (n : Int) := by rw [hm.2.1]; push_cast; ring
    rw [List.range'_succ]
    simp only [opAdjCols, e1, e2]
    rcases matrix_initDims_cases n n h with ⟨h1, e, f1, k1⟩ | ⟨h1, e, f1, k1⟩
    · simp only [e]
      obtain ⟨hsub, hmat⟩ := opAdjSub_toMatrix m hm row k hrow hcol _ (initDims_shaped n n)
      generalize opAdjSub m (row : Int) (k : Int)
        { entries := zeroBuf (getSize (n : Int) (n : Int)), rows := (n : Int), cols := (n : Int),
          maxLength := 1 } = sub at hsub hmat ⊢
      have hr := opDet_spec n hn sub hsub Status.SUCCESS h1
      rw [hmat] at hr
      generalize opDet sub Status.SUCCESS h1 = r at hr ⊢
      obtain ⟨r1, r2, r3, r4⟩ := hr
      by_cases hF : r.2.1 = Status.FAILURE
      · rw [if_pos hF]
        right
        have hlt : h1.failed < r.2.2.failed := by
          rcases Nat.lt_or_ge h1.failed r.2.2.failed with hh | hh
          · exact hh
          · have := (r2 (by omega)).2
            rw [hF] at this
            cases this
        refine ⟨_, rfl, ?_, fun hk => (r3 hlt).2 (k1 hk)⟩
        rw [matrix_destroy_failed]
        omega
      · rw [if_neg hF]
        have hsame : r.2.2.failed = h1.failed := by
          rcases Nat.lt_or_ge h1.failed r.2.2.failed with hh | hh
          · exact absurd (r3 hh).1 hF
          · omega
        have hval := (r2 hsame).1
        obtain ⟨c1, c2, c3, c4⟩ := hst
        have hnew : CofInv m n L row (k + 1)
            { pMxOfCofactors := { st.pMxOfCofactors with
                entries := wr st.pMxOfCofactors.entries
                  (at_ st.pMxOfCofactors (row : Int) (k : Int))
                  (if r.1 ≠ 0 ∧ ((row : Int) + (k : Int)) % 2 ≠ 0 then r.1 * -1 else r.1) },
              maxLength :=
                if st.firstNewNum = Boolean.TRUE then
                  calcEntryLength
                    (if r.1 ≠ 0 ∧ ((row : Int) + (k : Int)) % 2 ≠ 0 then r.1 * -1 else r.1)
                else if calcEntryLength
                    (if r.1 ≠ 0 ∧ ((row : Int) + (k : Int)) % 2 ≠ 0 then r.1 * -1 else r.1)
                      > st.maxLength then
                  calcEntryLength
                    (if r.1 ≠ 0 ∧ ((row : Int) + (k : Int)) % 2 ≠ 0 then r.1 * -1 else r.1)
                else st.maxLength,
              firstNewNum := Boolean.FALSE } := by
          refine ⟨c1, c2, by simp only [wr_length, c3], ?_⟩
          simp only [at_natCast st.pMxOfCofactors c1 c2 hrow hcol, wr_natCast]
          refine FilledTo.step c4 ?_ ?_ _ ?_
          · have := idx_lt hrow hcol
            omega
          · intro i' j' hj' hpos e
            have := idx_inj hj' hcol e
            omega
          · rw [cofactor_sign, hval]
            rfl
        rcases ih (k + 1) (by omega) _ (matrix_destroy (some sub) r.2.2).2.2 hnew with
          ⟨st1, h2, e3, i1, i2, i3⟩ | ⟨h2, e3, i2, i3⟩
        · rw [matrix_destroy_failed] at i2
          exact Or.inl ⟨st1, h2, e3, i1, by omega,
            fun hk => i3 (matrix_destroy_ok _ _ (r4 (k1 hk)))⟩
        · rw [matrix_destroy_failed] at i2
          exact Or.inr ⟨h2, e3, by omega,
            fun hk => i3 (matrix_destroy_ok _ _ (r4 (k1 hk)))⟩
    · simp only [e]
      refine Or.inr ⟨_, rfl, ?_, k1⟩
      rw [matrix_destroy_failed]
      exact f1

theorem opAdjRows_spec (m : Mx) (n : Nat) (hn : 2 ≤ n) (hm : m.Shaped (n + 1) (n + 1))
    (L : Nat) (hL : (n + 1) * (n + 1) ≤ L) :
    ∀ (len i : Nat), i + len = n + 1 → ∀ st h, CofInv m n L i 0 st →
      (∃ st1 h1, opAdjRows m (List.range' i len) st h = (some st1, h1)
        ∧ CofInv m n L (n + 1) 0 st1 ∧ h1.failed = h.failed ∧ (h.ok → h1.ok)) ∨
      (∃ h1, opAdjRows m (List.range' i len) st h = (none, h1)
        ∧ h.failed < h1.failed ∧ ¬ h.ok) := by
  intro len
  induction len with
  | zero =>
    intro i hi st h hst
    have : i = n + 1 := by omega
    subst this
    exact Or.inl ⟨st, h, rfl, hst, rfl, fun hh => hh⟩
  | succ len ih =>
    intro i hi st h hst
    rw [List.range'_succ]
    simp only [opAdjRows, hm.2.1, Int.toNat_natCast, List.range_eq_range']
    rcases opAdjCols_spec m n hn hm i (by omega) L hL (n + 1) 0 (by omega) st h hst with
      ⟨st1, h1, e, c1, c2, c3⟩ | ⟨h1, e, c2, c3⟩
    · simp only [e]
      have hnext : CofInv m n L (i + 1) 0 st1 := ⟨c1.1, c1.2.1, c1.2.2.1, c1.2.2.2.nextRow⟩
      rcases ih (i + 1) (by omega) st1 h1 hnext with ⟨st2, h2, e3, i1, i2, i3⟩ | ⟨h2, e3, i2, i3⟩
      · exact Or.inl ⟨st2, h2, e3, i1, by omega, fun hk => i3 (c3 hk)⟩
      · exact Or.inr ⟨h2, e3, by omega, fun hk => i3 (c3 hk)⟩
    · simp only [e]
      exact Or.inr ⟨h1, rfl, c2, c3⟩

theorem copyLoop_spec (src dest : List ℚ) (n : Nat) (hn : n ≤ dest.length) :
    ((List.range n).foldl (fun es (i : Nat) => wr es (i : Int) (rd src (i : Int))) dest).length
      = dest.length ∧
    ∀ idx, idx < n →
      ((List.range n).foldl (fun es (i : Nat) => wr es (i : Int) (rd src (i : Int))) dest).getD idx 0
        = src.getD idx 0 := by
  have key := foldl_range_inv
    (fun es (i : Nat) => wr es (i : Int) (rd src (i : Int)))
    (fun k (es : List ℚ) => es.length = dest.length
      ∧ ∀ idx, idx < k → es.getD idx 0 = src.getD idx 0)
    dest n ⟨rfl, fun _ hh => absurd hh (Nat.not_lt_zero _)⟩ ?_
  · exact key
  · intro k es hk ⟨g1, g2⟩
    refine ⟨by simp only [wr_length, g1], ?_⟩
    intro idx hidx
    simp only [wr_natCast, rd_natCast]
    by_cases he : idx = k
    · subst he
      rw [getD_set_self _ _ _ (by omega)]
    · rw [getD_set_ne _ _ _ _ (fun e => he e.symm)]
      exact g2 idx (by omega)

theorem getD_set (buf : List ℚ) (k k' : Nat) (v : ℚ) :
    (buf.set k v).getD k' 0 = if k = k' ∧ k < buf.length then v else buf.getD k' 0 := by
  by_cases h : k = k'
  · subst h
    by_cases hl : k < buf.length
    · rw [if_pos ⟨rfl, hl⟩, getD_set_self _ _ _ hl]
    · rw [if_neg (fun hh => hl hh.2), List.set_eq_of_length_le (by omega)]
  · rw [if_neg (fun hh => h hh.1), getD_set_ne _ _ _ _ h]

theorem opAdjugate2x2_spec (m R : Mx) (hm : m.Shaped 2 2) (hR : R.Shaped 2 2) :
    (opAdjugate2x2 m R).Shaped 2 2 ∧
    (opAdjugate2x2 m R).toMatrix 2 2 = Matrix.adjugate (m.toMatrix 2 2) := by
  have hr : R.rows = 2 := hR.1
  have hc : R.cols = 2 := hR.2.1
  have hlen : 4 ≤ R.entries.length := hR.2.2
  have a01 : at_ R 0 1 = ((1 : Nat) : Int) := by simp [at_, hr, hc]
  have a10 : at_ R 1 0 = ((2 : Nat) : Int) := by simp [at_, hr, hc]
  have a00 : at_ R 0 0 = ((0 : Nat) : Int) := by simp [at_, hr, hc]
  have a11 : at_ R 1 1 = ((3 : Nat) : Int) := by simp [at_, hr, hc]
  have hsz : (getSize R.rows R.cols).toNat = 4 := by simp [getSize, hr, hc]
  obtain ⟨cl, cv⟩ := copyLoop_spec m.entries R.entries 4 hlen
  have m00 := entry_eq m hm.1 hm.2.1 (show 0 < 2 by omega) (show 0 < 2 by omega)
  have m01 := entry_eq m hm.1 hm.2.1 (show 0 < 2 by omega) (show 1 < 2 by omega)
  have m10 := entry_eq m hm.1 hm.2.1 (show 1 < 2 by omega) (show 0 < 2 by omega)
  have m11 := entry_eq m hm.1 hm.2.1 (show 1 < 2 by omega) (show 1 < 2 by omega)
  simp only [Nat.zero_mul, Nat.one_mul, Nat.zero_add, Nat.reduceAdd] at m00 m01 m10 m11
  unfold opAdjugate2x2
  simp only [hsz, a00, a01, a10, a11]
  generalize (List.range 4).foldl (fun es (i : Nat) => wr es (i : Int) (rd m.entries (i : Int)))
    R.entries = e0 at cl cv ⊢
  have v0 := cv 0 (by omega)
  have v1 := cv 1 (by omega)
  have v2 := cv 2 (by omega)
  have v3 := cv 3 (by omega)
  have l0 : 0 < e0.length := by omega
  have l1 : 1 < e0.length := by omega
  have l2 : 2 < e0.length := by omega
  have l3 : 3 < e0.length := by omega
  simp only [rd_natCast, wr_natCast]
  refine ⟨⟨hr, hc, by simp only [List.length_set]; omega⟩, ?_⟩
  rw [Matrix.adjugate_fin_two]
  ext i j
  simp only [Mx.toMatrix, Matrix.of_apply]
  fin_cases i <;> fin_cases j
  · refine Eq.trans (entry_eq _ hR.1 hR.2.1 (show 0 < 2 by omega) (show 0 < 2 by omega)) ?_
    simp only [getD_set, List.length_set, l0, l1, l2, l3, v0, v1, v2, v3, m00, m01, m10, m11,
      Nat.reduceEqDiff, Nat.reduceAdd, Nat.reduceMul, Fin.val_zero, Fin.val_one,
      Matrix.vecHead, Fin.isValue, and_true, and_false, false_and, if_true,
      if_false, OfNat.ofNat_ne_zero, OfNat.zero_ne_ofNat, one_ne_zero, zero_ne_one,
      Matrix.of_apply, Matrix.cons_val', Matrix.cons_val_zero, Matrix.cons_val_one,
      Matrix.head_cons, Matrix.empty_val', Matrix.cons_val_fin_one, Fin.zero_eta, Fin.mk_one,
      mul_neg, mul_one]
  · refine Eq.trans (entry_eq _ hR.1 hR.2.1 (show 0 < 2 by omega) (show 1 < 2 by omega)) ?_
    simp only [getD_set, List.length_set, l0, l1, l2, l3, v0, v1, v2, v3, m00, m01, m10, m11,
      Nat.reduceEqDiff, Nat.reduceAdd, Nat.reduceMul, Fin.val_zero, Fin.val_one,
      Matrix.vecHead, Fin.isValue, and_true, and_false, false_and, if_true,
      if_false, OfNat.ofNat_ne_zero, OfNat.zero_ne_ofNat, one_ne_zero, zero_ne_one,
      Matrix.of_apply, Matrix.cons_val', Matrix.cons_val_zero, Matrix.cons_val_one,
      Matrix.head_cons, Matrix.empty_val', Matrix.cons_val_fin_one, Fin.zero_eta, Fin.mk_one,
      mul_neg, mul_one]
  · refine Eq.trans (entry_eq _ hR.1 hR.2.1 (show 1 < 2 by omega) (show 0 < 2 by omega)) ?_
    simp only [getD_set, List.length_set, l0, l1, l2, l3, v0, v1, v2, v3, m00, m01, m10, m11,
      Nat.reduceEqDiff, Nat.reduceAdd, Nat.reduceMul, Fin.val_zero, Fin.val_one,
      Matrix.vecHead, Fin.isValue, and_true, and_false, false_and, if_true,
      if_false, OfNat.ofNat_ne_zero, OfNat.zero_ne_ofNat, one_ne_zero, zero_ne_one,
      Matrix.of_apply, Matrix.cons_val', Matrix.cons_val_zero, Matrix.cons_val_one,
      Matrix.head_cons, Matrix.empty_val', Matrix.cons_val_fin_one, Fin.zero_eta, Fin.mk_one,
      mul_neg, mul_one]
  · refine Eq.trans (entry_eq _ hR.1 hR.2.1 (show 1 < 2 by omega) (show 1 < 2 by omega)) ?_
    simp only [getD_set, List.length_set, l0, l1, l2, l3, v0, v1, v2, v3, m00, m01, m10, m11,
      Nat.reduceEqDiff, Nat.reduceAdd, Nat.reduceMul, Fin.val_zero, Fin.val_one,
      Matrix.vecHead, Fin.isValue, and_true, and_false, false_and, if_true,
      if_false, OfNat.ofNat_ne_zero, OfNat.zero_ne_ofNat, one_ne_zero, zero_ne_one,
      Matrix.of_apply, Matrix.cons_val', Matrix.cons_val_zero, Matrix.cons_val_one,
      Matrix.head_cons, Matrix.empty_val', Matrix.cons_val_fin_one, Fin.zero_eta, Fin.mk_one,
      mul_neg, mul_one]

theorem minorMat2_eq_submatrix (m : Mx) (n : Nat) (i j : Fin (n + 1)) :
    minorMat2 m n i.val j.val
      = (m.toMatrix (n + 1) (n + 1)).submatrix i.succAbove j.succAbove := by
  ext a b
  simp only [minorMat2, Mx.toMatrix, Matrix.of_apply, Matrix.submatrix_apply, succAbove_val]

theorem opAdjugate_cases (m : Mx) (n : Nat) (hn : 1 ≤ n) (hm : m.Shaped n n)
    (hdet : Matrix.det (m.toMatrix n n) ≠ 0)
    (res : Option Mx) (hres : ValidHandle res) (h : Heap) :
    (∃ R h1, opAdjugate m res h = (Status.SUCCESS, some R, h1) ∧ R.Shaped n n
      ∧ R.toMatrix n n = Matrix.adjugate (m.toMatrix n n)
      ∧ h1.failed = h.failed ∧ (h.ok → h1.ok)) ∨
    (∃ R h1, opAdjugate m res h = (Status.FAILURE, R, h1) ∧ h.failed < h1.failed ∧ ¬ h.ok) := by
  unfold opAdjugate
  rw [hm.1, hm.2.1]
  rcases adjustMatrixDims_cases res hres n n h with ⟨R0, h1, e, hR0, hf, hk⟩ | ⟨h1, e, hf, hk⟩
  swap
  · simp only [e]
    exact Or.inr ⟨_, h1, rfl, hf, hk⟩
  simp only [e, hR0.1, hR0.2.1]
  by_cases h1n : n = 1
  · subst h1n
    left
    rw [if_pos ⟨rfl, rfl⟩]
    have hx : rd m.entries 0 ≠ 0 := by
      have e00 := rd_at m hm.1 hm.2.1 (show 0 < 1 by omega) (show 0 < 1 by omega)
      have e0 : at_ m 0 0 = 0 := by simp [at_, hm.1, hm.2.1]
      simp only [Nat.cast_zero, e0] at e00
      rw [e00]
      rw [Matrix.det_fin_one] at hdet
      simpa [Mx.toMatrix] using hdet
    rw [if_pos hx]
    have hlen : 0 < R0.entries.length := by have := hR0.2.2; omega
    refine ⟨_, h1, rfl, ⟨rfl, rfl, by simp only [wr_length]; exact hR0.2.2⟩, ?_, hf, hk⟩
    rw [Matrix.adjugate_fin_one]
    ext i j
    have hi : i = 0 := Subsingleton.elim _ _
    have hj : j = 0 := Subsingleton.elim _ _
    subst hi hj
    simp only [Mx.toMatrix, Matrix.of_apply, Fin.val_zero, Matrix.one_apply_eq]
    refine Eq.trans (entry_eq _ rfl rfl (show 0 < 1 by omega) (show 0 < 1 by omega)) ?_
    have : wr R0.entries 0 1 = R0.entries.set 0 1 := wr_natCast R0.entries 0 1
    simp only [this]
    exact getD_set_self _ _ _ hlen
  have hne1 : ¬ ((n : Int) = 1 ∧ (n : Int) = 1) := fun hh => h1n (by exact_mod_cast hh.1)
  rw [if_neg hne1]
  by_cases h2n : n = 2
  · subst h2n
    left
    rw [if_pos ⟨rfl, rfl⟩]
    obtain ⟨s1, s2⟩ := opAdjugate2x2_spec m R0 hm hR0
    exact ⟨_, h1, rfl, s1, s2, hf, hk⟩
  have hne2 : ¬ ((n : Int) = 2 ∧ (n : Int) = 2) := fun hh => h2n (by exact_mod_cast hh.1)
  rw [if_neg hne2]
  obtain ⟨n', rfl⟩ : ∃ n', n = n' + 1 := ⟨n - 1, by omega⟩
  have hn' : 2 ≤ n' := by omega
  rcases matrix_initDims_cases ((n' + 1 : Nat) : Int) ((n' + 1 : Nat) : Int) h1 with
    ⟨h2, e2, f2, k2⟩ | ⟨h2, e2, f2, k2⟩
  swap
  · simp only [e2]
    exact Or.inr ⟨_, h2, rfl, by omega, fun hh => k2 (hk hh)⟩
  simp only [e2, Int.toNat_natCast, List.range_eq_range']
  have hcof0 : CofInv m n' ((n' + 1) * (n' + 1)) 0 0
      { pMxOfCofactors := { entries := zeroBuf (getSize ((n' + 1 : Nat) : Int) ((n' + 1 : Nat) : Int)),
                            rows := ((n' + 1 : Nat) : Int), cols := ((n' + 1 : Nat) : Int),
                            maxLength := 1 },
        maxLength := 1, firstNewNum := Boolean.TRUE } :=
    ⟨rfl, rfl, zeroBuf_length _ _, FilledTo.zero _ _ _ _⟩
  rcases opAdjRows_spec m n' hn' hm _ (le_refl _) (n' + 1) 0 (by omega) _ h2 hcof0 with
    ⟨st, h3, e3, c1, c2, c3⟩ | ⟨h3, e3, c2, c3⟩
  swap
  · simp only [e3]
    exact Or.inr ⟨_, h3, rfl, by omega, fun hh => c3 (k2 (hk hh))⟩
  simp only [e3]
  have hcofS : ({ st.pMxOfCofactors with maxLength := st.maxLength } : Mx).Shaped (n' + 1) (n' + 1) :=
    ⟨c1.1, c1.2.1, by rw [c1.2.2.1]⟩
  have hvalid : ValidHandle (some R0) := validHandle_some R0 hR0
  rcases matrix_opTrans_cases _ hcofS (some R0) hvalid h3 with
    ⟨R, h4, e4, t1, t2, t3, t4⟩ | ⟨h4, e4, t3, t4⟩
  · simp only [e4]
    left
    refine ⟨R, _, rfl, t1, ?_, ?_, fun hh => matrix_destroy_ok _ _ (t4 (c3 (k2 (hk hh))))⟩
    · ext i j
      rw [Matrix.adjugate_fin_succ_eq_det_submatrix, ← minorMat2_eq_submatrix]
      simp only [Mx.toMatrix, Matrix.of_apply]
      rw [t2 j.val i.val j.isLt i.isLt]
      refine Eq.trans (entry_eq _ c1.1 c1.2.1 j.isLt i.isLt) ?_
      exact c1.2.2.2 j.val i.val i.isLt (Or.inl j.isLt)
    · rw [matrix_destroy_failed]
      omega
  · simp only [e4]
    right
    refine ⟨_, _, rfl, ?_, fun hh => t4 (c3 (k2 (hk hh)))⟩
    rw [matrix_destroy_failed]
    omega

/-- The three outcomes of `matrix_opInv` on a square matrix. -/
theorem matrix_opInv_cases (m : Mx) (n : Nat) (hn : 1 ≤ n) (hm : m.Shaped n n)
    (res : Option Mx) (hres : ValidHandle res) (h : Heap) :
    (h.failed < (matrix_opInv m res h).2.2.2.failed
      ∧ (matrix_opInv m res h).1 = Status.FAILURE
      ∧ (matrix_opInv m res h).2.1 = Boolean.FALSE ∧ ¬ h.ok) ∨
    ((matrix_opInv m res h).2.2.2.failed = h.failed
      ∧ Matrix.det (m.toMatrix n n) = 0
      ∧ (matrix_opInv m res h).1 = Status.FAILURE
      ∧ (matrix_opInv m res h).2.1 = Boolean.TRUE
      ∧ (h.ok → (matrix_opInv m res h).2.2.2.ok)) ∨
    ((matrix_opInv m res h).2.2.2.failed = h.failed
      ∧ Matrix.det (m.toMatrix n n) ≠ 0
      ∧ (matrix_opInv m res h).1 = Status.SUCCESS
      ∧ (matrix_opInv m res h).2.1 = Boolean.FALSE
      ∧ (h.ok → (matrix_opInv m res h).2.2.2.ok)
      ∧ ∃ R, (matrix_opInv m res h).2.2.1 = some R ∧ R.Shaped n n
        ∧ ∀ i j, i < n → j < n → R.entry i j
            = Matrix.adjugate (m.toMatrix n n) ⟨i % n, Nat.mod_lt _ hn⟩ ⟨j % n, Nat.mod_lt _ hn⟩
              / Matrix.det (m.toMatrix n n)) := by
  rcases adjustMatrixDims_cases res hres n n h with ⟨R0, h1, e, hR0, hf, hk⟩ | ⟨h1, e, hf, hk⟩
  swap
  · have eq : matrix_opInv m res h = (Status.FAILURE, Boolean.FALSE, res, h1) := by
      unfold matrix_opInv
      rw [hm.1, hm.2.1]
      simp only [e]
    rw [eq]
    exact Or.inl ⟨hf, rfl, rfl, hk⟩
  have hd := matrix_opDet_spec n hn m hm h1
  obtain ⟨d1, d2, d3, d4⟩ := hd
  by_cases hF : (matrix_opDet m h1).2.1 = Status.FAILURE
  · have eq : matrix_opInv m res h
        = (Status.FAILURE, Boolean.FALSE, some R0, (matrix_opDet m h1).2.2) := by
      unfold matrix_opInv
      rw [hm.1, hm.2.1]
      simp only [e, hF, if_true]
    rw [eq]
    left
    have hlt : h1.failed < (matrix_opDet m h1).2.2.failed := by
      rcases Nat.lt_or_ge h1.failed (matrix_opDet m h1).2.2.failed with hh | hh
      · exact hh
      · have := (d2 (by omega)).2
        rw [hF] at this
        cases this
    exact ⟨by show h.failed < (matrix_opDet m h1).2.2.failed; omega, rfl, rfl,
      fun hh => (d3 hlt).2 (hk hh)⟩
  have hsame : (matrix_opDet m h1).2.2.failed = h1.failed := by
    rcases Nat.lt_or_ge h1.failed (matrix_opDet m h1).2.2.failed with hh | hh
    · exact absurd (d3 hh).1 hF
    · omega
  have hval := (d2 hsame).1
  by_cases hz : (matrix_opDet m h1).1 = 0
  · have eq : matrix_opInv m res h
        = (Status.FAILURE, Boolean.TRUE, some R0, (matrix_opDet m h1).2.2) := by
      unfold matrix_opInv
      rw [hm.1, hm.2.1]
      simp only [e, hF, hz, if_true, if_false]
    rw [eq]
    right; left
    exact ⟨by show (matrix_opDet m h1).2.2.failed = h.failed; omega, by rw [← hval, hz], rfl, rfl,
      fun hh => d4 (hk hh)⟩
  have hdet : Matrix.det (m.toMatrix n n) ≠ 0 := by rw [← hval]; exact hz
  rcases opAdjugate_cases m n hn hm hdet (some R0) (validHandle_some R0 hR0)
      (matrix_opDet m h1).2.2 with ⟨R, h2, e2, a1, a2, a3, a4⟩ | ⟨R, h2, e2, a3, a4⟩
  · have eq : matrix_opInv m res h
        = (Status.SUCCESS, Boolean.FALSE, some (opInvScale R (matrix_opDet m h1).1), h2) := by
      unfold matrix_opInv
      rw [hm.1, hm.2.1]
      simp only [e, hF, hz, if_false, e2]
    rw [eq]
    right; right
    obtain ⟨s1, s2⟩ := opInvScale_spec R a1 (matrix_opDet m h1).1
    refine ⟨by show h2.failed = h.failed; omega, hdet, rfl, rfl, fun hh => a4 (d4 (hk hh)),
      _, rfl, s1, ?_⟩
    intro i j hi hj
    rw [s2 i j hi hj, hval, ← a2]
    simp only [Mx.toMatrix, Matrix.of_apply, Nat.mod_eq_of_lt hi, Nat.mod_eq_of_lt hj]
  · have eq : matrix_opInv m res h = (Status.FAILURE, Boolean.FALSE, R, h2) := by
      unfold matrix_opInv
      rw [hm.1, hm.2.1]
      simp only [e, hF, hz, if_false, e2]
    rw [eq]
    left
    exact ⟨by show h.failed < h2.failed; omega, rfl, rfl, fun hh => a4 (d4 (hk hh))⟩

theorem toMatrix_ext {R S : Mx} {r c : Nat}
    (hent : ∀ i j, i < r → j < c → R.entry i j = S.entry i j) :
    R.toMatrix r c = S.toMatrix r c := by
  ext i j
  simp only [Mx.toMatrix, Matrix.of_apply]
  exact hent i.val j.val i.isLt j.isLt

/-- A successful `matrix_opMult` computes the matrix product. -/
theorem matrix_opMult_toMatrix (a b : Mx) {r k c : Nat} (ha : a.Shaped r k) (hb : b.Shaped k c)
    (res : Option Mx) (hres : ValidHandle res) (h : Heap) (hok : h.ok) :
    ∃ R h1, matrix_opMult a b res h = (Status.SUCCESS, some R, h1) ∧ h1.ok ∧ R.Shaped r c
      ∧ R.toMatrix r c = a.toMatrix r k * b.toMatrix k c := by
  obtain ⟨R, h1, e, k1, _, s, hent⟩ := matrix_opMult_ok a b ha hb res hres h hok
  refine ⟨R, h1, e, k1, s, ?_⟩
  ext i j
  simp only [Mx.toMatrix, Matrix.of_apply, Matrix.mul_apply]
  rw [hent i.val j.val i.isLt j.isLt,
    Finset.sum_range (fun t => a.entry i.val t * b.entry t j.val)]

theorem matrix_copy_ok (src : Mx) {r c : Nat} (hs : src.Shaped r c)
    (dest : Option Mx) (hdest : ValidHandle dest) (h : Heap) (hok : h.ok) :
    ∃ R h1, matrix_copy dest src h = (Status.SUCCESS, some R, h1) ∧ h1.ok ∧ R.Shaped r c
      ∧ R.maxLength = src.maxLength
      ∧ ∀ i j, i < r → j < c → R.entry i j = src.entry i j := by
  have hsz : (getSize src.rows src.cols).toNat = r * c := by
    unfold getSize
    rw [hs.1, hs.2.1, ← Nat.cast_mul, Int.toNat_natCast]
  have fin : ∀ (buf : List ℚ) (ml : Int), r * c ≤ buf.length →
      ∀ es : List ℚ, es = (List.range (r * c)).foldl
        (fun es (i : Nat) => wr es (i : Int) (rd src.entries (i : Int))) buf →
      ({ entries := es, rows := src.rows, cols := src.cols, maxLength := ml } : Mx).Shaped r c
      ∧ ∀ i j, i < r → j < c →
        ({ entries := es, rows := src.rows, cols := src.cols, maxLength := ml } : Mx).entry i j
          = src.entry i j := by
    intro buf ml hbuf es hes
    obtain ⟨cl, cv⟩ := copyLoop_spec src.entries buf (r * c) hbuf
    subst hes
    refine ⟨⟨hs.1, hs.2.1, by rw [cl]; exact hbuf⟩, ?_⟩
    intro i j hi hj
    rw [entry_eq src hs.1 hs.2.1 hi hj]
    refine Eq.trans (entry_eq _ hs.1 hs.2.1 hi hj) ?_
    exact cv _ (idx_lt hi hj)
  unfold matrix_copy
  cases dest with
  | none =>
    rw [hs.1, hs.2.1] at *
    rcases matrix_initDims_cases r c h with ⟨h1, e, _, k1⟩ | ⟨h1, _, _, k1⟩
    · simp only [e, hsz]
      obtain ⟨f1, f2⟩ := fin (zeroBuf (getSize (r : Int) (c : Int))) src.maxLength
        (by rw [zeroBuf_length]) _ rfl
      exact ⟨_, h1, rfl, k1 hok, f1, rfl, f2⟩
    · exact absurd hok k1
  | some p =>
    simp only [hsz]
    split
    · rcases malloc_cases h with ⟨h1, e, _, k1⟩ | ⟨h1, _, _, k1⟩
      · simp only [e]
        obtain ⟨f1, f2⟩ := fin (zeroBuf (getSize src.rows src.cols)) src.maxLength
          (by rw [hs.1, hs.2.1, zeroBuf_length]) _ rfl
        exact ⟨_, h1.free, rfl, k1 hok, f1, rfl, f2⟩
      · exact absurd hok k1
    · rename_i hlt
      obtain ⟨r', c', hr', hc', hlen⟩ := hdest.shaped
      have hbuf : r * c ≤ p.entries.length := by
        unfold getSize at hlt
        rw [hr', hc', hs.1, hs.2.1] at hlt
        have : (r : Int) * c ≤ (r' : Int) * c' := by omega
        have : r * c ≤ r' * c' := by exact_mod_cast this
        omega
      obtain ⟨f1, f2⟩ := fin p.entries src.maxLength hbuf _ rfl
      exact ⟨_, h, rfl, hok, f1, rfl, f2⟩

theorem opPowLoop_ok (A : Mx) {n : Nat} (hA : A.Shaped n n) :
    ∀ (iters j : Nat) (acc : Mx) (h : Heap), acc.Shaped n n →
      acc.toMatrix n n = (A.toMatrix n n) ^ j → h.ok →
      ∃ R h1, opPowLoop A iters acc h = (some R, h1) ∧ h1.ok ∧ R.Shaped n n
        ∧ R.toMatrix n n = (A.toMatrix n n) ^ (j + iters) := by
  intro iters
  induction iters with
  | zero =>
    intro j acc h hacc hj hok
    exact ⟨acc, h, rfl, hok, hacc, hj⟩
  | succ iters ih =>
    intro j acc h hacc hj hok
    obtain ⟨T, h1, e, k1, sT, mT⟩ :=
      matrix_opMult_toMatrix A acc hA hacc none validHandle_none h hok
    simp only [opPowLoop, e]
    have hT : T.toMatrix n n = (A.toMatrix n n) ^ (j + 1) := by
      rw [mT, hj, pow_succ']
    obtain ⟨R, h2, e2, k2, sR, mR⟩ := ih (j + 1) T _ sT hT (matrix_destroy_ok (some acc) h1 k1)
    refine ⟨R, h2, e2, k2, sR, ?_⟩
    rw [mR]
    congr 1
    omega

/-- A successful `matrix_opPow` computes the matrix power. -/
theorem matrix_opPow_ok (A : Mx) {n : Nat} (hA : A.Shaped n n) (k : Nat) (hk : 1 ≤ k)
    (res : Option Mx) (hres : ValidHandle res) (h : Heap) (hok : h.ok) :
    ∃ R h1, matrix_opPow A (k : Int) res h = (Status.SUCCESS, some R, h1) ∧ h1.ok
      ∧ R.Shaped n n ∧ R.toMatrix n n = (A.toMatrix n n) ^ k := by
  unfold matrix_opPow
  by_cases h1k : k = 1
  · subst h1k
    rw [if_pos (show ((1 : Nat) : Int) = 1 from rfl)]
    obtain ⟨R, h1, e, k1, s, _, hent⟩ := matrix_copy_ok A hA res hres h hok
    exact ⟨R, h1, e, k1, s, by rw [pow_one]; exact toMatrix_ext hent⟩
  rw [if_neg (by intro hh; exact h1k (by exact_mod_cast hh))]
  by_cases h2k : k = 2
  · subst h2k
    rw [if_pos (show ((2 : Nat) : Int) = 2 from rfl)]
    obtain ⟨R, h1, e, k1, s, mR⟩ := matrix_opMult_toMatrix A A hA hA res hres h hok
    exact ⟨R, h1, e, k1, s, by rw [mR, pow_two]⟩
  rw [if_neg (by intro hh; exact h2k (by exact_mod_cast hh))]
  obtain ⟨T, h1, e, k1, sT, mT⟩ := matrix_opMult_toMatrix A A hA hA none validHandle_none h hok
  simp only [e]
  have hT : T.toMatrix n n = (A.toMatrix n n) ^ 2 := by rw [mT, pow_two]
  have hiters : ((k : Int) - 2).toNat = k - 2 := by omega
  obtain ⟨R, h2, e2, k2, sR, mR⟩ := opPowLoop_ok A hA (k - 2) 2 T h1 sT hT k1
  rw [hiters]
  simp only [e2, matrix_move]
  refine ⟨R, _, rfl, matrix_destroy_ok _ _ k2, sR, ?_⟩
  rw [mR]
  congr 1
  omega

theorem DetPost.of_ok {v : ℚ} {mem : Status} {h : Heap} {out : ℚ × Status × Heap}
    (hp : DetPost v mem h out) (hok : h.ok) :
    out.1 = v ∧ out.2.1 = mem ∧ out.2.2.ok ∧ out.2.2.failed = h.failed := by
  obtain ⟨p1, p2, p3, p4⟩ := hp
  have hsame : out.2.2.failed = h.failed := by
    rcases Nat.lt_or_ge h.failed out.2.2.failed with hh | hh
    · exact absurd hok (p3 hh).2
    · omega
  exact ⟨(p2 hsame).1, (p2 hsame).2, p4 hok, hsame⟩

theorem entry_of_toMatrix {R : Mx} {r c : Nat} {X : Matrix (Fin r) (Fin c) ℚ}
    (hX : R.toMatrix r c = X) {i j : Nat} (hi : i < r) (hj : j < c) :
    R.entry i j = X ⟨i, hi⟩ ⟨j, hj⟩ := by
  rw [← hX]
  rfl

/-- A successful `matrix_opInv` on a matrix with non-zero determinant stores the
inverse matrix. -/
theorem matrix_opInv_ok (A : Mx) (n : Nat) (hn : 1 ≤ n) (hA : A.Shaped n n)
    (hdet : Matrix.det (A.toMatrix n n) ≠ 0)
    (res : Option Mx) (hres : ValidHandle res) (h : Heap) (hok : h.ok) :
    ∃ R h1, matrix_opInv A res h = (Status.SUCCESS, Boolean.FALSE, some R, h1) ∧ h1.ok
      ∧ R.Shaped n n
      ∧ R.toMatrix n n = (Matrix.det (A.toMatrix n n))⁻¹ • Matrix.adjugate (A.toMatrix n n) := by
  rcases matrix_opInv_cases A n hn hA res hres h with
    ⟨_, _, _, c4⟩ | ⟨_, c2, _⟩ | ⟨_, _, c3, c4, c5, R, c6, c7, c8⟩
  · exact absurd hok c4
  · exact absurd c2 hdet
  · refine ⟨R, (matrix_opInv A res h).2.2.2, ?_, c5 hok, c7, ?_⟩
    · rw [← c3, ← c4, ← c6]
    · ext i j
      simp only [Mx.toMatrix, Matrix.of_apply, Matrix.smul_apply, smul_eq_mul]
      rw [c8 i.val j.val i.isLt j.isLt, div_eq_inv_mul]
      congr 2
      · exact Fin.ext (Nat.mod_eq_of_lt i.isLt)
      · exact Fin.ext (Nat.mod_eq_of_lt j.isLt)

theorem entry_eq_of_toMatrix_eq {R S : Mx} {r c : Nat}
    (hRS : R.toMatrix r c = S.toMatrix r c) {i j : Nat} (hi : i < r) (hj : j < c) :
    R.entry i j = S.entry i j := by
  rw [entry_of_toMatrix hRS hi hj]
  rfl

theorem subFillRow_cols (pMx : Mx) (col : Int) (st : SubSt) (row : Int) :
    (subFillRow pMx col st row).pMxSub.cols = st.pMxSub.cols := by
  unfold subFillRow
  exact foldl_range_inv (subFillCol pMx col row)
    (fun _ (s : SubSt) => s.pMxSub.cols = st.pMxSub.cols) { st with mxSub_col := 0 } _ rfl
    (fun k s _ hs => by
      unfold subFillCol
      split
      · exact hs
      · exact hs)

theorem opDetSub_cols (pMx : Mx) (col : Int) (sub0 : Mx) :
    (opDetSub pMx col sub0).cols = sub0.cols := by
  unfold opDetSub
  exact foldl_range_inv (fun st (k : Nat) => subFillRow pMx col st ((k : Int) + 1))
    (fun _ (s : SubSt) => s.pMxSub.cols = sub0.cols)
    { pMxSub := sub0, mxSub_row := 0, mxSub_col := 0 } _ rfl
    (fun k s _ hs => (subFillRow_cols pMx col s _).trans hs)

theorem opDetCols_congr (rec1 rec2 : Mx → Status → Heap → ℚ × Status × Heap) (pMx : Mx)
    (hrec : ∀ sub mem h, sub.cols = pMx.cols - 1 → rec1 sub mem h = rec2 sub mem h)
    (l : List Nat) :
    ∀ sum mem h, opDetCols rec1 pMx l sum mem h = opDetCols rec2 pMx l sum mem h := by
  induction l with
  | nil => intro sum mem h; rfl
  | cons col rest ih =>
    intro sum mem h
    simp only [opDetCols]
    rcases matrix_initDims_cases (pMx.rows - 1) (pMx.cols - 1) h with
      ⟨h1, e, _, _⟩ | ⟨h1, e, _, _⟩
    · simp only [e]
      rw [hrec _ mem h1 (by rw [opDetSub_cols])]
      exact ih _ _ _
    · simp only [e]

/-- The recursion bound of `opDetAux` is immaterial once it reaches the number of
columns: `opDet` is a total function whose value does not depend on the bound. -/
theorem opDetAux_fuel : ∀ (k : Nat) (pMx : Mx) (mem : Status) (h : Heap),
    pMx.cols.toNat ≤ k → opDetAux k pMx mem h = opDet pMx mem h := by
  intro k
  induction k with
  | zero =>
    intro pMx mem h hk
    unfold opDet
    rw [Nat.le_zero.mp hk]
  | succ k ih =>
    intro pMx mem h hk
    unfold opDet
    by_cases h22 : pMx.rows = 2 ∧ pMx.cols = 2
    · have hc : pMx.cols.toNat = 1 + 1 := by rw [h22.2]; rfl
      rw [hc]
      simp only [opDetAux, h22, and_self, if_true]
    · cases hc : pMx.cols.toNat with
      | zero => simp only [opDetAux, h22, if_false, hc, List.range_zero, opDetCols]
      | succ c =>
        simp only [opDetAux, h22, if_false, hc]
        refine opDetCols_congr _ _ pMx ?_ _ 0 mem h
        intro sub mem1 h1 hsub
        have hsc : sub.cols.toNat = c := by omega
        rw [ih sub mem1 h1 (by omega)]
        unfold opDet
        rw [hsc]

/-- A successful `matrix_opTrans` copies `maxLength` from the source. -/
theorem matrix_opTrans_maxLength (src : Mx) (res : Option Mx) (h : Heap) (R : Mx) (h1 : Heap)
    (e : matrix_opTrans src res h = (Status.SUCCESS, some R, h1)) :
    R.maxLength = src.maxLength := by
  unfold matrix_opTrans at e
  split at e
  · simp only [Prod.mk.injEq, Option.some.injEq, true_and] at e
    rw [← e.1]
  · simp only [Prod.mk.injEq] at e
    exact absurd e.1 (by decide)

/-- A successful `matrix_opTrans`, for any allocator state. -/
theorem matrix_opTrans_success (src : Mx) {r c : Nat} (hs : src.Shaped r c)
    (res : Option Mx) (hres : ValidHandle res) (h : Heap) (R : Mx) (h1 : Heap)
    (e : matrix_opTrans src res h = (Status.SUCCESS, some R, h1)) :
    R.Shaped c r ∧ R.maxLength = src.maxLength
      ∧ ∀ i j, i < r → j < c → R.entry j i = src.entry i j := by
  rcases matrix_opTrans_cases src hs res hres h with ⟨R', h1', e', s, hent, _, _⟩ | ⟨h1', e', _, _⟩
  · rw [e] at e'
    simp only [Prod.mk.injEq, Option.some.injEq, true_and] at e'
    obtain ⟨rfl, rfl⟩ := e'
    exact ⟨s, matrix_opTrans_maxLength src res h R h1 e, hent⟩
  · rw [e] at e'
    simp only [Prod.mk.injEq] at e'
    exact absurd e'.1 (by decide)

theorem getEntry_getD (m : Mx) {r c i j : Nat} (hr : m.rows = (r : Int))
    (hc : m.cols = (c : Int)) (hi : i < r) (hj : j < c) :
    matrix_getEntry m (i : Int) (j : Int) = (Status.SUCCESS, m.entries.getD (i * c + j) 0) := by
  rw [getEntry_eq m hr hc hi hj, entry_eq m hr hc hi hj]

/-- In range, `at2` is the row-major index. -/
theorem at2_natCast {r c i j : Nat} (hi : i < r) (hj : j < c) :
    at2 (r : Int) (c : Int) (i : Int) (j : Int) = ((i * c + j : Nat) : Int) := by
  unfold at2
  rw [if_neg (show ¬ ((i : Int) ≥ (r : Int) ∨ (j : Int) ≥ (c : Int)) by omega)]
  push_cast
  ring

/-- The copy loop of `matrix_newMatrix` on a matrix that already has the given shape. -/
theorem newMatrixCopy_same_dims (pMx : Mx) {r c : Nat} (hp : pMx.Shaped r c)
    (entries : List ℚ) :
    (newMatrixCopy pMx entries (r : Int) (c : Int)).Shaped r c ∧
    ∀ i j, i < r → j < c →
      (newMatrixCopy pMx entries (r : Int) (c : Int)).entry i j = entries.getD (i * c + j) 0 := by
  unfold newMatrixCopy
  simp only [Int.toNat_natCast]
  have key := foldl_range_inv
    (fun st (i : Nat) => (List.range c).foldl
      (fun (st : Mx × Int) (j : Nat) =>
        ({ st.1 with
           entries := wr st.1.entries (at_ st.1 i j)
             (rd entries (at2 (r : Int) (c : Int) i j)) },
         if i = 0 ∧ j = 0 then calcEntryLength (rd entries (at2 (r : Int) (c : Int) i j))
         else if calcEntryLength (rd entries (at2 (r : Int) (c : Int) i j)) > st.2
           then calcEntryLength (rd entries (at2 (r : Int) (c : Int) i j)) else st.2))
      st)
    (fun i (st : Mx × Int) => st.1.rows = (r : Int) ∧ st.1.cols = (c : Int)
      ∧ st.1.entries.length = pMx.entries.length
      ∧ FilledTo st.1.entries (fun a b => a * c + b) (fun a b => entries.getD (a * c + b) 0) c i 0)
    (pMx, 1) r ⟨hp.1, hp.2.1, rfl, FilledTo.zero _ _ _ _⟩ ?_
  · obtain ⟨_, _, g3, g4⟩ := key
    refine ⟨⟨rfl, rfl, by rw [g3]; exact hp.2.2⟩, ?_⟩
    intro i j hi hj
    refine Eq.trans (entry_eq _ rfl rfl hi hj) ?_
    exact g4 i j hj (Or.inl hi)
  · intro i st hi ⟨g1, g2, g3, g4⟩
    have inner := foldl_range_inv
      (fun (st : Mx × Int) (j : Nat) =>
        ({ st.1 with
           entries := wr st.1.entries (at_ st.1 i j)
             (rd entries (at2 (r : Int) (c : Int) i j)) },
         if i = 0 ∧ j = 0 then calcEntryLength (rd entries (at2 (r : Int) (c : Int) i j))
         else if calcEntryLength (rd entries (at2 (r : Int) (c : Int) i j)) > st.2
           then calcEntryLength (rd entries (at2 (r : Int) (c : Int) i j)) else st.2))
      (fun k (st : Mx × Int) => st.1.rows = (r : Int) ∧ st.1.cols = (c : Int)
        ∧ st.1.entries.length = pMx.entries.length
        ∧ FilledTo st.1.entries (fun a b => a * c + b)
            (fun a b => entries.getD (a * c + b) 0) c i k)
      st c ⟨g1, g2, g3, g4⟩ ?_
    · obtain ⟨q1, q2, q3, q4⟩ := inner
      exact ⟨q1, q2, q3, q4.nextRow⟩
    · intro k t hk ⟨q1, q2, q3, q4⟩
      refine ⟨q1, q2, ?_, ?_⟩
      · simp only [wr_length, q3]
      · simp only [at_natCast t.1 q1 q2 hi hk, at2_natCast hi hk, wr_natCast, rd_natCast]
        refine FilledTo.step q4 ?_ ?_ _ rfl
        · have := idx_lt hi hk
          have := hp.2.2
          show i * c + k < t.1.entries.length
          omega
        · intro i' j' hj' hpos e
          have := idx_inj hj' hk e
          omega

/-- Every position of a zeroed block reads 0. -/
theorem zeroBuf_getD (n : Int) (k : Nat) : (zeroBuf n).getD k 0 = 0 := by
  unfold zeroBuf
  rw [List.getD_eq_getElem?_getD, List.getElem?_replicate]
  split <;> rfl

/-- The zeroing loop of `adjustMatrixDims`: the first `n` positions read 0. -/
theorem zeroLoop_getD (n : Nat) (buf : List ℚ) (hn : n ≤ buf.length) (k : Nat) (hk : k < n) :
    ((List.range n).foldl (fun es (i : Nat) => wr es (i : Int) 0) buf).getD k 0 = 0 := by
  have key := foldl_range_inv (fun es (i : Nat) => wr es (i : Int) 0)
    (fun i (es : List ℚ) => es.length = buf.length ∧ ∀ k, k < i → es.getD k 0 = 0)
    buf n ⟨rfl, fun k hk => absurd hk (Nat.not_lt_zero k)⟩ ?_
  · exact key.2 k hk
  · intro i es hi ⟨g1, g2⟩
    refine ⟨by rw [wr_length, g1], ?_⟩
    intro k hk
    show (wr es (i : Int) 0).getD k 0 = 0
    rw [wr_natCast]
    by_cases e : k = i
    · subst e
      exact getD_set_self _ _ _ (by omega)
    · rw [getD_set_ne _ _ _ _ (fun q => e q.symm)]
      exact g2 k (by omega)

/-- A successful `adjustMatrixDims`, for any allocator state: the shape, `maxLength` 1 and zero entries. -/
theorem adjustMatrixDims_zero (pp : Option Mx) (hv : ValidHandle pp) (r c : Nat) (h : Heap)
    (m : Mx) (h1 : Heap)
    (e : adjustMatrixDims pp (r : Int) (c : Int) h = (Status.SUCCESS, some m, h1)) :
    m.Shaped r c ∧ m.maxLength = 1 ∧ ∀ i j, i < r → j < c → m.entry i j = 0 := by
  unfold adjustMatrixDims at e
  cases pp with
  | none =>
    rcases matrix_initDims_cases r c h with ⟨h2, e1, _, _⟩ | ⟨h2, e1, _, _⟩
    · simp only [e1, Prod.mk.injEq, Option.some.injEq, true_and] at e
      obtain ⟨rfl, _⟩ := e
      refine ⟨initDims_shaped r c, rfl, fun i j hi hj => ?_⟩
      refine Eq.trans (entry_eq _ rfl rfl hi hj) ?_
      exact zeroBuf_getD _ _
    · simp only [e1, Prod.mk.injEq] at e
      exact absurd e.1 (by decide)
  | some p =>
    simp only at e
    split at e
    · rcases malloc_cases h with ⟨h2, e1, _, _⟩ | ⟨h2, e1, _, _⟩
      · simp only [e1, Prod.mk.injEq, Option.some.injEq, true_and] at e
        obtain ⟨rfl, _⟩ := e
        refine ⟨initDims_shaped r c, rfl, fun i j hi hj => ?_⟩
        refine Eq.trans (entry_eq _ rfl rfl hi hj) ?_
        exact zeroBuf_getD _ _
      · simp only [e1, Prod.mk.injEq] at e
        exact absurd e.1 (by decide)
    · rename_i hsz
      simp only [Prod.mk.injEq, Option.some.injEq, true_and] at e
      obtain ⟨rfl, _⟩ := e
      obtain ⟨r', c', hr', hc', hlen⟩ := hv.shaped
      have hle : r * c ≤ p.entries.length := by
        unfold getSize at hsz
        rw [hr', hc'] at hsz
        have h3 : (r : Int) * c ≤ (r' : Int) * c' := by omega
        have h4 : r * c ≤ r' * c' := by exact_mod_cast h3
        omega
      have hsize : (getSize (r : Int) (c : Int)).toNat = r * c := by
        unfold getSize
        rw [← Nat.cast_mul, Int.toNat_natCast]
      refine ⟨⟨rfl, rfl, ?_⟩, rfl, fun i j hi hj => ?_⟩
      · simp only
        rw [foldl_wr_length _ (fun _ _ => 0)]
        exact hle
      · refine Eq.trans (entry_eq _ rfl rfl hi hj) ?_
        simp only [hsize]
        exact zeroLoop_getD (r * c) p.entries hle _ (idx_lt hi hj)

/-- A successful `matrix_initCopy`, which happens when no allocation fails: the new
matrix has the shape, `maxLength` and entries of the source. -/
theorem matrix_initCopy_ok (src : Mx) {r c : Nat} (hs : src.Shaped r c) (h : Heap) (hok : h.ok) :
    ∃ R h1, matrix_initCopy src h = (some R, h1) ∧ h1.ok ∧ R.Shaped r c
      ∧ R.maxLength = src.maxLength
      ∧ ∀ i j, i < r → j < c → R.entry i j = src.entry i j := by
  obtain ⟨h1, e1, k1, _⟩ := malloc_ok h hok
  obtain ⟨h2, e2, k2, _⟩ := malloc_ok h1 k1
  have hsize : (getSize src.rows src.cols).toNat = r * c := by
    unfold getSize
    rw [hs.1, hs.2.1, ← Nat.cast_mul, Int.toNat_natCast]
  have hz : (zeroBuf (getSize src.rows src.cols)).length = r * c := by
    rw [hs.1, hs.2.1]
    exact zeroBuf_length r c
  obtain ⟨hl, hg⟩ := copyLoop_spec src.entries (zeroBuf (getSize src.rows src.cols)) (r * c)
    (le_of_eq hz.symm)
  refine ⟨{ entries := (List.range (getSize src.rows src.cols).toNat).foldl
              (fun es (i : Nat) => wr es (i : Int) (rd src.entries (i : Int)))
              (zeroBuf (getSize src.rows src.cols)),
            rows := src.rows, cols := src.cols, maxLength := src.maxLength },
    h2, ?_, k2, ⟨hs.1, hs.2.1, ?_⟩, rfl, ?_⟩
  · unfold matrix_initCopy
    simp only [e1, e2]
  · simp only [hsize, hl, hz]
    exact le_refl _
  · intro i j hi hj
    refine Eq.trans (entry_eq _ hs.1 hs.2.1 hi hj) ?_
    simp only [hsize]
    rw [hg _ (idx_lt hi hj), entry_eq src hs.1 hs.2.1 hi hj]

/-- The two outcomes of `adjustMatrixDims`: success with a matrix in the handle, or
failure with the handle as it was. -/
theorem adjustMatrixDims_status (pp : Option Mx) (rows cols : Int) (h : Heap) :
    (∃ m h1, adjustMatrixDims pp rows cols h = (Status.SUCCESS, some m, h1)) ∨
    (∃ h1, adjustMatrixDims pp rows cols h = (Status.FAILURE, pp, h1)) := by
  unfold adjustMatrixDims
  cases pp with
  | none =>
    rcases matrix_initDims_cases rows cols h with ⟨h1, e1, _, _⟩ | ⟨h1, e1, _, _⟩
    · simp only [e1]
      exact Or.inl ⟨_, h1, rfl⟩
    · simp only [e1]
      exact Or.inr ⟨h1, rfl⟩
  | some p =>
    simp only
    split
    · rcases malloc_cases h with ⟨h1, e1, _, _⟩ | ⟨h1, e1, _, _⟩
      · simp only [e1]
        exact Or.inl ⟨_, h1.free, rfl⟩
      · simp only [e1]
        exact Or.inr ⟨h1, rfl⟩
    · exact Or.inl ⟨_, h, rfl⟩

/-- A failed `matrix_opAdd` leaves the result handle as it was. -/
theorem matrix_opAdd_failure (hMxs : List Mx) (hMxsSize : Int) (res : Option Mx) (h : Heap)
    (hf : (matrix_opAdd hMxs hMxsSize res h).1 = Status.FAILURE) :
    (matrix_opAdd hMxs hMxsSize res h).2.1 = res := by
  unfold matrix_opAdd at hf ⊢
  rcases adjustMatrixDims_status res (operand hMxs 0).rows (operand hMxs 0).cols h with
    ⟨m, h1, e⟩ | ⟨h1, e⟩
  · simp only [e] at hf
    exact absurd hf (by decide)
  · simp only [e]

/-- A failed `matrix_opSub` leaves the result handle as it was. -/
theorem matrix_opSub_failure (hMxs : List Mx) (hMxsSize : Int) (res : Option Mx) (h : Heap)
    (hf : (matrix_opSub hMxs hMxsSize res h).1 = Status.FAILURE) :
    (matrix_opSub hMxs hMxsSize res h).2.1 = res := by
  unfold matrix_opSub at hf ⊢
  rcases adjustMatrixDims_status res (operand hMxs 0).rows (operand hMxs 0).cols h with
    ⟨m, h1, e⟩ | ⟨h1, e⟩
  · simp only [e] at hf
    exact absurd hf (by decide)
  · simp only [e]

/-- A failed `matrix_opMult` leaves the result handle as it was. -/
theorem matrix_opMult_failure (hMx1 hMx2 : Mx) (res : Option Mx) (h : Heap)
    (hf : (matrix_opMult hMx1 hMx2 res h).1 = Status.FAILURE) :
    (matrix_opMult hMx1 hMx2 res h).2.1 = res := by
  unfold matrix_opMult at hf ⊢
  rcases adjustMatrixDims_status res hMx1.rows hMx2.cols h with ⟨m, h1, e⟩ | ⟨h1, e⟩
  · simp only [e] at hf
    exact absurd hf (by decide)
  · simp only [e]

/-- A failed `matrix_opTrans` leaves the result handle as it was. -/
theorem matrix_opTrans_failure (hMx : Mx) (res : Option Mx) (h : Heap)
    (hf : (matrix_opTrans hMx res h).1 = Status.FAILURE) :
    (matrix_opTrans hMx res h).2.1 = res := by
  unfold matrix_opTrans at hf ⊢
  rcases adjustMatrixDims_status res hMx.cols hMx.rows h with ⟨m, h1, e⟩ | ⟨h1, e⟩
  · simp only [e] at hf
    exact absurd hf (by decide)
  · simp only [e]

/-- A failed `matrix_copy` leaves the destination handle as it was. -/
theorem matrix_copy_failure (dest : Option Mx) (src : Mx) (h : Heap)
    (hf : (matrix_copy dest src h).1 = Status.FAILURE) :
    (matrix_copy dest src h).2.1 = dest := by
  unfold matrix_copy at hf ⊢
  cases dest with
  | none =>
    rcases matrix_initDims_cases src.rows src.cols h with ⟨h1, e1, _, _⟩ | ⟨h1, e1, _, _⟩
    · simp only [e1] at hf
      exact absurd hf (by decide)
    · simp only [e1]
  | some p =>
    simp only at hf ⊢
    split
    · rename_i hsz
      rw [if_pos hsz] at hf
      rcases malloc_cases h with ⟨h1, e1, _, _⟩ | ⟨h1, e1, _, _⟩
      · simp only [e1] at hf
        exact absurd hf (by decide)
      · simp only [e1]
    · rename_i hsz
      rw [if_neg hsz] at hf
      simp only at hf
      exact absurd hf (by decide)

/-- A failed `matrix_opPow` leaves the result handle as it was. -/
theorem matrix_opPow_failure (hMx : Mx) (power : Int) (res : Option Mx) (h : Heap)
    (hf : (matrix_opPow hMx power res h).1 = Status.FAILURE) :
    (matrix_opPow hMx power res h).2.1 = res := by
  unfold matrix_opPow at hf ⊢
  by_cases h1 : power = 1
  · rw [if_pos h1] at hf ⊢
    exact matrix_copy_failure res hMx h hf
  · rw [if_neg h1] at hf ⊢
    by_cases h2 : power = 2
    · rw [if_pos h2] at hf ⊢
      exact matrix_opMult_failure hMx hMx res h hf
    · rw [if_neg h2] at hf ⊢
      split
      · rename_i pMxToMult hA e
        rw [e] at hf
        simp only at hf
        split
        · rename_i pMxToMult1 hB e2
          rw [e2] at hf
          simp only at hf
          exact absurd hf (by decide)
        · rfl
      · rfl

/-- The copy loops of `matrix_newMatrix` keep the buffer they write to. -/
theorem newMatrixCopy_length (pMx : Mx) (entries : List ℚ) (rows cols : Int) :
    (newMatrixCopy pMx entries rows cols).entries.length = pMx.entries.length := by
  unfold newMatrixCopy
  simp only
  refine foldl_range_inv _ (fun _ (st : Mx × Int) => st.1.entries.length = pMx.entries.length)
    (pMx, 1) rows.toNat rfl ?_
  intro i st _ hst
  refine foldl_range_inv _ (fun _ (st : Mx × Int) => st.1.entries.length = pMx.entries.length)
    st cols.toNat hst ?_
  intro j t _ ht
  show (wr t.1.entries _ _).length = pMx.entries.length
  rw [wr_length, ht]

/-- Capacity after `adjustMatrixDims` on an existing matrix: the requested size when the
call had to grow the buffer and succeeded, the old capacity otherwise. -/
theorem adjustMatrixDims_capacity (p : Mx) (rows cols : Int) (h : Heap) :
    ∃ m, (adjustMatrixDims (some p) rows cols h).2.1 = some m
      ∧ m.entries.length
          = if getSize p.rows p.cols < getSize rows cols
              ∧ (adjustMatrixDims (some p) rows cols h).1 = Status.SUCCESS
            then (getSize rows cols).toNat else p.entries.length := by
  unfold adjustMatrixDims
  simp only
  by_cases hsz : getSize p.rows p.cols < getSize rows cols
  · rw [if_pos hsz]
    rcases malloc_cases h with ⟨h1, e1, _, _⟩ | ⟨h1, e1, _, _⟩
    · simp only [e1]
      refine ⟨_, rfl, ?_⟩
      rw [if_pos ⟨hsz, trivial⟩]
      unfold zeroBuf
      exact List.length_replicate _ _
    · simp only [e1]
      refine ⟨_, rfl, ?_⟩
      rw [if_neg (fun q => absurd q.2 (by decide))]
  · rw [if_neg hsz]
    refine ⟨_, rfl, ?_⟩
    rw [if_neg (fun q => hsz q.1)]
    exact foldl_wr_length _ (fun _ _ => 0) _

/-- Capacity after `matrix_copy` into an existing matrix: the size of the source when
the call had to grow the buffer and succeeded, the old capacity otherwise. -/
theorem matrix_copy_capacity (p src : Mx) (h : Heap) :
    ∃ m, (matrix_copy (some p) src h).2.1 = some m
      ∧ m.entries.length
          = if getSize p.rows p.cols < getSize src.rows src.cols
              ∧ (matrix_copy (some p) src h).1 = Status.SUCCESS
            then (getSize src.rows src.cols).toNat else p.entries.length := by
  unfold matrix_copy
  simp only
  by_cases hsz : getSize p.rows p.cols < getSize src.rows src.cols
  · rw [if_pos hsz]
    rcases malloc_cases h with ⟨h1, e1, _, _⟩ | ⟨h1, e1, _, _⟩
    · simp only [e1]
      refine ⟨_, rfl, ?_⟩
      rw [if_pos ⟨hsz, trivial⟩]
      refine Eq.trans (foldl_wr_length _ (fun _ i => rd src.entries (i : Int)) _) ?_
      unfold zeroBuf
      exact List.length_replicate _ _
    · simp only [e1]
      refine ⟨_, rfl, ?_⟩
      rw [if_neg (fun q => absurd q.2 (by decide))]
  · rw [if_neg hsz]
    refine ⟨_, rfl, ?_⟩
    rw [if_neg (fun q => hsz q.1)]
    exact foldl_wr_length _ (fun _ i => rd src.entries (i : Int)) _

/-- Capacity after `matrix_newMatrix`: the requested size when the call had to grow the
buffer and succeeded, the old capacity otherwise. -/
theorem matrix_newMatrix_capacity (p : Mx) (entries : List ℚ) (rows cols : Int) (h : Heap) :
    (matrix_newMatrix p entries rows cols h).2.1.entries.length
      = if getSize p.rows p.cols < getSize rows cols
          ∧ (matrix_newMatrix p entries rows cols h).1 = Status.SUCCESS
        then (getSize rows cols).toNat else p.entries.length := by
  unfold matrix_newMatrix
  by_cases hsz : getSize p.rows p.cols < getSize rows cols
  · rw [if_pos hsz]
    rcases malloc_cases h with ⟨h1, e1, _, _⟩ | ⟨h1, e1, _, _⟩
    · simp only [e1]
      rw [if_pos ⟨hsz, trivial⟩, newMatrixCopy_length]
      unfold zeroBuf
      exact List.length_replicate _ _
    · simp only [e1]
      rw [if_neg (fun q => absurd q.2 (by decide))]
  · rw [if_neg hsz]
    simp only
    rw [if_neg (fun q => hsz q.1), newMatrixCopy_length]

/-- Entry `(i, j)` of the mathematical matrix of a matrix object. -/
theorem toMatrix_apply (m : Mx) (r c : Nat) (i : Fin r) (j : Fin c) :
    m.toMatrix r c i j = m.entry i.val j.val := rfl

/-- The sign `(-1)^c` is `+1` for even `c` and `-1` for odd `c`. -/
theorem neg_one_pow_ite (c : Nat) : ((-1 : ℚ)) ^ c = if c % 2 = 0 then 1 else -1 := by
  rcases Nat.even_or_odd c with he | ho
  · rw [he.neg_one_pow, if_pos (Nat.even_iff.mp he)]
  · rw [ho.neg_one_pow, if_neg (by rw [Nat.odd_iff.mp ho]; decide)]

/-- The depth-bounded `col` loop agrees with the `col` loop of `opDet` when the bounded
recursive call returns on every `n x n` minor. -/
theorem opDetColsBounded_eq (recB : Mx → Status → Heap → Option (ℚ × Status × Heap))
    (rec : Mx → Status → Heap → ℚ × Status × Heap) (n : Nat) (m : Mx)
    (hm : m.Shaped (n + 1) (n + 1))
    (hrec : ∀ sub : Mx, sub.Shaped n n → ∀ mem h, recB sub mem h = some (rec sub mem h))
    (l : List Nat) (hl : ∀ col ∈ l, col < n + 1) :
    ∀ sum mem h, opDetColsBounded recB m l sum mem h = some (opDetCols rec m l sum mem h) := by
  induction l with
  | nil =>
    intro sum mem h
    rfl
  | cons col rest ih =>
    intro sum mem h
    have hcol : col < n + 1 := hl col (List.mem_cons_self _ _)
    have hrest : ∀ c ∈ rest, c < n + 1 := fun c hc => hl c (List.mem_cons_of_mem _ hc)
    have hr1 : m.rows - 1 = (n : Int) := by rw [hm.1]; push_cast; ring
    have hc1 : m.cols - 1 = (n : Int) := by rw [hm.2.1]; push_cast; ring
    unfold opDetColsBounded opDetCols
    rw [hr1, hc1]
    rcases matrix_initDims_cases (n : Int) (n : Int) h with ⟨h1, e1, _, _⟩ | ⟨h1, e1, _, _⟩
    · simp only [e1]
      obtain ⟨ss, _⟩ := opDetSub_toMatrix m hm col hcol _ (initDims_shaped n n)
      rw [hrec _ ss mem h1]
      exact ih hrest _ _ _
    · simp only [e1]

/-- A run of `opDet` on an `n x n` matrix (`n ≥ 2`) needs at most `n - 1` nested calls. -/
theorem opDetBounded_eq : ∀ n, 2 ≤ n → ∀ m : Mx, m.Shaped n n → ∀ d, n - 1 ≤ d → ∀ mem h,
    opDetBounded d m mem h = some (opDetAux n m mem h) := by
  intro n
  induction n with
  | zero => intro hn; omega
  | succ n ih =>
    intro hn m hm d hd mem h
    obtain ⟨d', rfl⟩ : ∃ d', d = d' + 1 := ⟨d - 1, by omega⟩
    by_cases h2 : n + 1 = 2
    · have hn1 : n = 1 := by omega
      subst hn1
      have hr : m.rows = 2 := by rw [hm.1]; rfl
      have hc : m.cols = 2 := by rw [hm.2.1]; rfl
      simp only [opDetBounded, opDetAux, hr, hc, and_self, if_true]
    · have hn2 : 2 ≤ n := by omega
      have hr : ¬ (m.rows = 2 ∧ m.cols = 2) := by
        rw [hm.1]
        intro hh
        have := hh.1
        omega
      simp only [opDetBounded, opDetAux, hr, if_false]
      exact opDetColsBounded_eq (opDetBounded d') (opDetAux n) n m hm
        (fun sub hs mem h => ih hn2 sub hs d' (by omega) mem h)
        (List.range m.cols.toNat)
        (fun col hc => by
          rw [hm.2.1, Int.toNat_natCast] at hc
          exact List.mem_range.mp hc) 0 mem h

/-- A matrix satisfying the size invariant is shaped by its own dimensions. -/
theorem Mx.WellSized.toShaped {m : Mx} (hw : m.WellSized) :
    m.Shaped m.rows.toNat m.cols.toNat ∧ 1 ≤ m.rows.toNat ∧ 1 ≤ m.cols.toNat := by
  obtain ⟨h1, h2, h3⟩ := hw
  have e1 : ((m.rows.toNat : Nat) : Int) = m.rows := Int.toNat_of_nonneg (by omega)
  have e2 : ((m.cols.toNat : Nat) : Int) = m.cols := Int.toNat_of_nonneg (by omega)
  refine ⟨⟨e1.symm, e2.symm, ?_⟩, by omega, by omega⟩
  have : ((m.rows.toNat * m.cols.toNat : Nat) : Int) ≤ (m.entries.length : Int) := by
    rw [Nat.cast_mul, e1, e2]
    exact h3
  exact_mod_cast this

/-- A shaped matrix with at least one row and one column satisfies the size invariant. -/
theorem Mx.Shaped.wellSized {m : Mx} {r c : Nat} (hs : m.Shaped r c) (hr : 1 ≤ r) (hc : 1 ≤ c) :
    m.WellSized := by
  refine ⟨by rw [hs.1]; exact_mod_cast hr, by rw [hs.2.1]; exact_mod_cast hc, ?_⟩
  rw [hs.1, hs.2.1]
  exact_mod_cast hs.2.2

/-- A handle satisfying the size invariant is a valid handle. -/
theorem WellSizedHandle.valid {ph : Option Mx} (hw : WellSizedHandle ph) : ValidHandle ph := by
  cases ph with
  | none => trivial
  | some p => exact (Mx.WellSized.toShaped hw).1

/-- The matrix of a successful `matrix_initCopy` has the shape of its source. -/
theorem matrix_initCopy_shaped (src : Mx) {r c : Nat} (hs : src.Shaped r c) (h : Heap)
    (m : Mx) (h1 : Heap) (e : matrix_initCopy src h = (some m, h1)) : m.Shaped r c := by
  have hsize : (getSize src.rows src.cols).toNat = r * c := by
    unfold getSize
    rw [hs.1, hs.2.1, ← Nat.cast_mul, Int.toNat_natCast]
  have hz : (zeroBuf (getSize src.rows src.cols)).length = r * c := by
    rw [hs.1, hs.2.1]
    exact zeroBuf_length r c
  unfold matrix_initCopy at e
  rcases malloc_cases h with ⟨h2, e1, _, _⟩ | ⟨h2, e1, _, _⟩
  · rcases malloc_cases h2 with ⟨h3, e2, _, _⟩ | ⟨h3, e2, _, _⟩
    · simp only [e1, e2, Prod.mk.injEq, Option.some.injEq] at e
      obtain ⟨rfl, _⟩ := e
      refine ⟨hs.1, hs.2.1, ?_⟩
      show r * c ≤ List.length (List.foldl _ _ _)
      rw [foldl_wr_length _ (fun _ i => rd src.entries (i : Int)), hz]
    · simp only [e1, e2, Prod.mk.injEq] at e
      exact absurd e.1 (by simp)
  · simp only [e1, Prod.mk.injEq] at e
    exact absurd e.1 (by simp)

/-- The matrix of a successful `matrix_copy` has the shape of its source. -/
theorem matrix_copy_shaped (src : Mx) {r c : Nat} (hs : src.Shaped r c)
    (dest : Option Mx) (hdest : ValidHandle dest) (h : Heap) (m : Mx) (h1 : Heap)
    (e : matrix_copy dest src h = (Status.SUCCESS, some m, h1)) : m.Shaped r c := by
  have hsize : (getSize src.rows src.cols).toNat = r * c := by
    unfold getSize
    rw [hs.1, hs.2.1, ← Nat.cast_mul, Int.toNat_natCast]
  have hz : (zeroBuf (getSize src.rows src.cols)).length = r * c := by
    rw [hs.1, hs.2.1]
    exact zeroBuf_length r c
  unfold matrix_copy at e
  cases dest with
  | none =>
    rcases matrix_initDims_cases src.rows src.cols h with ⟨h2, e1, _, _⟩ | ⟨h2, e1, _, _⟩
    · simp only [e1, Prod.mk.injEq, Option.some.injEq, true_and] at e
      obtain ⟨rfl, _⟩ := e
      refine ⟨hs.1, hs.2.1, ?_⟩
      show r * c ≤ List.length (List.foldl _ _ _)
      rw [foldl_wr_length _ (fun _ i => rd src.entries (i : Int)), hz]
    · simp only [e1, Prod.mk.injEq] at e
      exact absurd e.1 (by decide)
  | some p =>
    simp only at e
    split at e
    · rcases malloc_cases h with ⟨h2, e1, _, _⟩ | ⟨h2, e1, _, _⟩
      · simp only [e1, Prod.mk.injEq, Option.some.injEq, true_and] at e
        obtain ⟨rfl, _⟩ := e
        refine ⟨hs.1, hs.2.1, ?_⟩
        show r * c ≤ List.length (List.foldl _ _ _)
        rw [foldl_wr_length _ (fun _ i => rd src.entries (i : Int)), hz]
      · simp only [e1, Prod.mk.injEq] at e
        exact absurd e.1 (by decide)
    · rename_i hsz
      simp only [Prod.mk.injEq, Option.some.injEq, true_and] at e
      obtain ⟨rfl, _⟩ := e
      obtain ⟨r', c', hr', hc', hlen⟩ := hdest.shaped
      refine ⟨hs.1, hs.2.1, ?_⟩
      show r * c ≤ List.length (List.foldl _ _ _)
      rw [foldl_wr_length _ (fun _ i => rd src.entries (i : Int))]
      unfold getSize at hsz
      rw [hr', hc', hs.1, hs.2.1] at hsz
      have h3 : (r : Int) * c ≤ (r' : Int) * c' := by omega
      have h4 : r * c ≤ r' * c' := by exact_mod_cast h3
      omega

/-- The matrix of a successful `matrix_newMatrix` has the requested shape. -/
theorem matrix_newMatrix_shaped (p : Mx) (hp : ValidHandle (some p)) (entries : List ℚ)
    (r c : Nat) (h : Heap)
    (e : (matrix_newMatrix p entries (r : Int) (c : Int) h).1 = Status.SUCCESS) :
    (matrix_newMatrix p entries (r : Int) (c : Int) h).2.1.Shaped r c := by
  have hcap := matrix_newMatrix_capacity p entries (r : Int) (c : Int) h
  have hsize : (getSize (r : Int) (c : Int)).toNat = r * c := by
    unfold getSize
    rw [← Nat.cast_mul, Int.toNat_natCast]
  have hdims : (matrix_newMatrix p entries (r : Int) (c : Int) h).2.1.rows = (r : Int)
      ∧ (matrix_newMatrix p entries (r : Int) (c : Int) h).2.1.cols = (c : Int) := by
    unfold matrix_newMatrix at e ⊢
    split
    · rename_i hsz
      rw [if_pos hsz] at e
      rcases malloc_cases h with ⟨h2, e1, _, _⟩ | ⟨h2, e1, _, _⟩
      · simp only [e1]
        exact ⟨rfl, rfl⟩
      · simp only [e1] at e
        exact absurd e (by decide)
    · exact ⟨rfl, rfl⟩
  refine ⟨hdims.1, hdims.2, ?_⟩
  rw [hcap]
  by_cases hsz : getSize p.rows p.cols < getSize (r : Int) (c : Int)
  · rw [if_pos ⟨hsz, e⟩, hsize]
  · rw [if_neg (fun q => hsz q.1)]
    obtain ⟨r', c', hr', hc', hlen⟩ := hp.shaped
    unfold getSize at hsz
    rw [hr', hc'] at hsz
    have h3 : (r : Int) * c ≤ (r' : Int) * c' := by omega
    have h4 : r * c ≤ r' * c' := by exact_mod_cast h3
    omega

/-- The result of a successful `matrix_opAdd` has the shape of the first operand. -/
theorem matrix_opAdd_shaped (ops : List Mx) (n : Int) {r c : Nat}
    (h0 : (operand ops 0).Shaped r c) (res : Option Mx) (hres : ValidHandle res) (h : Heap)
    (m : Mx) (h1 : Heap) (e : matrix_opAdd ops n res h = (Status.SUCCESS, some m, h1)) :
    m.Shaped r c := by
  unfold matrix_opAdd at e
  simp only [h0.1, h0.2.1] at e
  rcases adjustMatrixDims_cases res hres r c h with ⟨m0, h2, e0, hm, _, _⟩ | ⟨h2, e0, _, _⟩
  · simp only [e0, Int.toNat_natCast, Prod.mk.injEq, Option.some.injEq, true_and] at e
    have spec := resLoop_spec (fun i j => opAddSum ops n (i : Int) (j : Int)) r c
      { pMxRes := m0, maxLength := 1, isFirstNewEntry := Boolean.TRUE } hm
    rw [← e.1]
    exact ⟨spec.1.1, spec.1.2.1, spec.1.2.2⟩
  · simp only [e0, Prod.mk.injEq] at e
    exact absurd e.1 (by decide)

/-- The result of a successful `matrix_opSub` has the shape of the first operand. -/
theorem matrix_opSub_shaped (ops : List Mx) (n : Int) {r c : Nat}
    (h0 : (operand ops 0).Shaped r c) (res : Option Mx) (hres : ValidHandle res) (h : Heap)
    (m : Mx) (h1 : Heap) (e : matrix_opSub ops n res h = (Status.SUCCESS, some m, h1)) :
    m.Shaped r c := by
  unfold matrix_opSub at e
  simp only [h0.1, h0.2.1] at e
  rcases adjustMatrixDims_cases res hres r c h with ⟨m0, h2, e0, hm, _, _⟩ | ⟨h2, e0, _, _⟩
  · simp only [e0, Int.toNat_natCast, Prod.mk.injEq, Option.some.injEq, true_and] at e
    have spec := resLoop_spec (fun i j => opSubSum ops n (i : Int) (j : Int)) r c
      { pMxRes := m0, maxLength := 1, isFirstNewEntry := Boolean.TRUE } hm
    rw [← e.1]
    exact ⟨spec.1.1, spec.1.2.1, spec.1.2.2⟩
  · simp only [e0, Prod.mk.injEq] at e
    exact absurd e.1 (by decide)

/-- The result of a successful `matrix_opMult` has the rows of the first operand and
the columns of the second. -/
theorem matrix_opMult_shaped (a b : Mx) {r c : Nat} (ha : a.rows = (r : Int))
    (hb : b.cols = (c : Int)) (res : Option Mx) (hres : ValidHandle res) (h : Heap)
    (m : Mx) (h1 : Heap) (e : matrix_opMult a b res h = (Status.SUCCESS, some m, h1)) :
    m.Shaped r c := by
  unfold matrix_opMult at e
  rw [ha, hb] at e
  rcases adjustMatrixDims_cases res hres r c h with ⟨m0, h2, e0, hm, _, _⟩ | ⟨h2, e0, _, _⟩
  · simp only [e0, Int.toNat_natCast, Prod.mk.injEq, Option.some.injEq, true_and] at e
    rw [opMult_loop_res a b r c hb] at e
    have spec := resLoop_spec (fun i j => opMultSum a b (i : Int) (j : Int)) r c
      { pMxRes := m0, maxLength := 1, isFirstNewEntry := Boolean.TRUE } hm
    rw [← e.1]
    exact ⟨spec.1.1, spec.1.2.1, spec.1.2.2⟩
  · simp only [e0, Prod.mk.injEq] at e
    exact absurd e.1 (by decide)

/-- The accumulator of a successful run of the loop of `matrix_opPow` keeps its shape. -/
theorem opPowLoop_shaped (A : Mx) {r c : Nat} (hA : A.rows = (r : Int)) :
    ∀ (iters : Nat) (acc : Mx) (h : Heap) (R : Mx) (h1 : Heap), acc.Shaped r c →
      opPowLoop A iters acc h = (some R, h1) → R.Shaped r c := by
  intro iters
  induction iters with
  | zero =>
    intro acc h R h1 hacc e
    simp only [opPowLoop, Prod.mk.injEq, Option.some.injEq] at e
    rw [← e.1]
    exact hacc
  | succ iters ih =>
    intro acc h R h1 hacc e
    unfold opPowLoop at e
    split at e
    · rename_i T h2 eT
      exact ih T _ R h1
        (matrix_opMult_shaped A acc hA hacc.2.1 none validHandle_none h T h2 eT) e
    · simp only [Prod.mk.injEq] at e
      exact absurd e.1 (by simp)

/-- The result of a successful `matrix_opPow` has the rows and columns of the operand. -/
theorem matrix_opPow_shaped (A : Mx) {r c : Nat} (hA : A.Shaped r c) (power : Int)
    (res : Option Mx) (hres : ValidHandle res) (h : Heap) (m : Mx) (h1 : Heap)
    (e : matrix_opPow A power res h = (Status.SUCCESS, some m, h1)) : m.Shaped r c := by
  unfold matrix_opPow at e
  split at e
  · exact matrix_copy_shaped A hA res hres h m h1 e
  · split at e
    · exact matrix_opMult_shaped A A hA.1 hA.2.1 res hres h m h1 e
    · split at e
      · rename_i T h2 eT
        have hT := matrix_opMult_shaped A A hA.1 hA.2.1 none validHandle_none h T h2 eT
        simp only at e
        split at e
        · rename_i R h3 eR
          have hR := opPowLoop_shaped A hA.1 _ T h2 R h3 hT eR
          simp only [matrix_move, Prod.mk.injEq, Option.some.injEq, true_and] at e
          rw [← e.1]
          exact hR
        · simp only [Prod.mk.injEq] at e
          exact absurd e.1 (by decide)
      · simp only [Prod.mk.injEq] at e
        exact absurd e.1 (by decide)

/-- `adjustMatrixDims` on a matrix for its own dimensions allocates nothing. -/
theorem adjustMatrixDims_self (a : Mx) (h : Heap) :
    adjustMatrixDims (some a) a.rows a.cols h
      = (Status.SUCCESS,
          some { entries := (List.range (getSize a.rows a.cols).toNat).foldl
                   (fun es (i : Nat) => wr es (i : Int) 0) a.entries,
                 rows := a.rows, cols := a.cols, maxLength := 1 }, h) := by
  unfold adjustMatrixDims
  simp only
  rw [if_neg (lt_irrefl _)]

/-- `matrix_opMult(a, a, &a)` on an `n x n` matrix: the operand is zeroed by
`adjustMatrixDims` before the loops read it, so every entry of the result is 0. -/
theorem matrix_opMult_self_zero (a : Mx) {n : Nat} (ha : a.Shaped n n) (h : Heap) :
    ∃ R, matrix_opMult_self a h = (Status.SUCCESS, some R, h) ∧ R.Shaped n n
      ∧ ∀ i j, i < n → j < n → R.entry i j = 0 := by
  have hsize : (getSize a.rows a.cols).toNat = n * n := by
    unfold getSize
    rw [ha.1, ha.2.1, ← Nat.cast_mul, Int.toNat_natCast]
  have hrn : a.rows.toNat = n := by rw [ha.1, Int.toNat_natCast]
  have key := foldl_range_inv
    (fun (st : MultSt) (m1row : Nat) =>
      let st1 := (List.range st.res.pMxRes.cols.toNat).foldl
        (fun (st : MultSt) (m2col : Nat) =>
          opMultCol st.res.pMxRes st.res.pMxRes m1row st m2col)
        { st with resCol := 0 }
      { st1 with resRow := st1.resRow + 1 })
    (fun i (st : MultSt) => st.res.pMxRes.rows = (n : Int) ∧ st.res.pMxRes.cols = (n : Int)
      ∧ n * n ≤ st.res.pMxRes.entries.length
      ∧ (∀ idx, idx < n * n → st.res.pMxRes.entries.getD idx 0 = 0)
      ∧ st.resRow = (i : Int))
    ⟨⟨⟨(List.range (n * n)).foldl (fun es (i : Nat) => wr es (i : Int) 0) a.entries,
        a.rows, a.cols, 1⟩, 1, Boolean.TRUE⟩, 0, 0⟩ n
    ⟨ha.1, ha.2.1, by
        show n * n ≤ List.length (List.foldl _ _ _)
        rw [foldl_wr_length _ (fun _ _ => 0)]
        exact ha.2.2,
      fun idx hidx => zeroLoop_getD (n * n) a.entries ha.2.2 idx hidx, rfl⟩ ?_
  · obtain ⟨k1, k2, k3, k4, _⟩ := key
    apply Exists.intro
    refine ⟨?_, ?_, ?_⟩
    · unfold matrix_opMult_self
      rw [adjustMatrixDims_self]
    · exact ⟨by simpa only [hsize, hrn] using k1, by simpa only [hsize, hrn] using k2,
        by simpa only [hsize, hrn] using k3⟩
    · intro i j hi hj
      refine Eq.trans (entry_eq _ (by simpa only [hsize, hrn] using k1)
        (by simpa only [hsize, hrn] using k2) hi hj) ?_
      simpa only [hsize, hrn] using k4 _ (idx_lt hi hj)
  · intro i st hi ⟨g1, g2, g3, g4, g5⟩
    simp only [g2, Int.toNat_natCast]
    have inner := foldl_range_inv
      (fun (st : MultSt) (m2col : Nat) => opMultCol st.res.pMxRes st.res.pMxRes (i : Int) st m2col)
      (fun k (s : MultSt) => s.res.pMxRes.rows = (n : Int) ∧ s.res.pMxRes.cols = (n : Int)
        ∧ n * n ≤ s.res.pMxRes.entries.length
        ∧ (∀ idx, idx < n * n → s.res.pMxRes.entries.getD idx 0 = 0)
        ∧ s.resRow = (i : Int) ∧ s.resCol = (k : Int))
      { st with resCol := 0 } n ⟨g1, g2, g3, g4, g5, rfl⟩ ?_
    · obtain ⟨q1, q2, q3, q4, q5, _⟩ := inner
      refine ⟨q1, q2, q3, q4, ?_⟩
      simp only [q5]
      push_cast
      ring
    · intro k s hk ⟨q1, q2, q3, q4, q5, q6⟩
      have hsum : opMultSum s.res.pMxRes s.res.pMxRes (i : Int) (k : Int) = 0 := by
        rw [opMultSum_eq s.res.pMxRes s.res.pMxRes ⟨q1, q2, q3⟩ ⟨q1, q2, q3⟩ hi hk]
        refine Finset.sum_eq_zero ?_
        intro t ht
        have ht' : t < n := Finset.mem_range.mp ht
        rw [entry_eq _ q1 q2 hi ht', q4 _ (idx_lt hi ht'), zero_mul]
      simp only [opMultCol, storeEntry, hsum, q5, q6, at_natCast s.res.pMxRes q1 q2 hi hk,
        wr_natCast]
      refine ⟨q1, q2, ?_, ?_, trivial, ?_⟩
      · rw [List.length_set]
        exact q3
      · intro idx hidx
        rw [getD_set]
        split
        · rfl
        · exact q4 idx hidx
      · push_cast
        ring

/-- `matrix_opAdd(hMxs, hMxsSize, &hMxs[0])`: the first operand is zeroed by
`adjustMatrixDims` before the loops read it, so the result is the sum of the other
operands. -/
theorem matrix_opAdd_self_sum (a : Mx) (others : List Mx) {r c : Nat} (ha : a.Shaped r c)
    (hall : ∀ m ∈ others, m.Shaped r c) (h : Heap) :
    ∃ R, matrix_opAdd_self a others ((others.length + 1 : Nat) : Int) h
        = (Status.SUCCESS, some R, h) ∧ R.Shaped r c
      ∧ ∀ i j, i < r → j < c → R.entry i j = (others.map (fun m => m.entry i j)).sum := by
  have hsize : (getSize a.rows a.cols).toNat = r * c := by
    unfold getSize
    rw [ha.1, ha.2.1, ← Nat.cast_mul, Int.toNat_natCast]
  have hrn : a.rows.toNat = r := by rw [ha.1, Int.toNat_natCast]
  have hcn : a.cols.toNat = c := by rw [ha.2.1, Int.toNat_natCast]
  have key := foldl_range_inv
    (fun st (resRow : Nat) => (List.range c).foldl
      (fun (st : ResSt) (resCol : Nat) =>
        storeEntry st resRow resCol
          (opAddSum (st.pMxRes :: others) ((others.length + 1 : Nat) : Int) resRow resCol))
      st)
    (fun i (st : ResSt) => st.pMxRes.rows = (r : Int) ∧ st.pMxRes.cols = (c : Int)
      ∧ r * c ≤ st.pMxRes.entries.length
      ∧ FilledTo st.pMxRes.entries (fun i j => i * c + j)
          (fun i j => (others.map (fun m => m.entry i j)).sum) c i 0
      ∧ ∀ i' j', i' < r → j' < c → ¬ (i' < i ∨ (i' = i ∧ j' < 0)) →
          st.pMxRes.entries.getD (i' * c + j') 0 = 0)
    ⟨⟨(List.range (r * c)).foldl (fun es (i : Nat) => wr es (i : Int) 0) a.entries,
        a.rows, a.cols, 1⟩, 1, Boolean.TRUE⟩ r
    ⟨ha.1, ha.2.1, by
        show r * c ≤ List.length (List.foldl _ _ _)
        rw [foldl_wr_length _ (fun _ _ => 0)]
        exact ha.2.2,
      FilledTo.zero _ _ _ _,
      fun i' j' hi' hj' _ => zeroLoop_getD (r * c) a.entries ha.2.2 _ (idx_lt hi' hj')⟩ ?_
  · obtain ⟨k1, k2, k3, k4, _⟩ := key
    apply Exists.intro
    refine ⟨?_, ?_, ?_⟩
    · unfold matrix_opAdd_self
      rw [adjustMatrixDims_self]
    · exact ⟨by simpa only [hsize, hrn, hcn] using k1, by simpa only [hsize, hrn, hcn] using k2,
        by simpa only [hsize, hrn, hcn] using k3⟩
    · intro i j hi hj
      refine Eq.trans (entry_eq _ (by simpa only [hsize, hrn, hcn] using k1)
        (by simpa only [hsize, hrn, hcn] using k2) hi hj) ?_
      simpa only [hsize, hrn, hcn] using k4 i j hj (Or.inl hi)
  · intro i st hi ⟨g1, g2, g3, g4, g5⟩
    have inner := foldl_range_inv
      (fun (st : ResSt) (resCol : Nat) =>
        storeEntry st (i : Int) resCol
          (opAddSum (st.pMxRes :: others) ((others.length + 1 : Nat) : Int) (i : Int) resCol))
      (fun k (s : ResSt) => s.pMxRes.rows = (r : Int) ∧ s.pMxRes.cols = (c : Int)
        ∧ r * c ≤ s.pMxRes.entries.length
        ∧ FilledTo s.pMxRes.entries (fun i j => i * c + j)
            (fun i j => (others.map (fun m => m.entry i j)).sum) c i k
        ∧ ∀ i' j', i' < r → j' < c → ¬ (i' < i ∨ (i' = i ∧ j' < k)) →
            s.pMxRes.entries.getD (i' * c + j') 0 = 0)
      st c ⟨g1, g2, g3, g4, g5⟩ ?_
    · obtain ⟨q1, q2, q3, q4, q5⟩ := inner
      refine ⟨q1, q2, q3, q4.nextRow, ?_⟩
      intro i' j' hi' hj' hnot
      refine q5 i' j' hi' hj' ?_
      intro hh
      apply hnot
      rcases hh with hh | ⟨hh, _⟩
      · exact Or.inl (by omega)
      · exact Or.inl (by omega)
    · intro k s hk ⟨q1, q2, q3, q4, q5⟩
      have hsum : opAddSum (s.pMxRes :: others) ((others.length + 1 : Nat) : Int) (i : Int)
          (k : Int) = (others.map (fun m => m.entry i k)).sum := by
        have hall' : ∀ m ∈ s.pMxRes :: others, m.Shaped r c := by
          intro m hm
          rcases List.mem_cons.mp hm with e | e
          · rw [e]
            exact ⟨q1, q2, q3⟩
          · exact hall m e
        have := opAddSum_eq (s.pMxRes :: others) hall' hi hk
        rw [List.length_cons] at this
        rw [this, List.map_cons, List.sum_cons, entry_eq _ q1 q2 hi hk,
          q5 i k hi hk (by omega), zero_add]
      simp only [storeEntry, hsum, at_natCast s.pMxRes q1 q2 hi hk, wr_natCast]
      refine ⟨q1, q2, ?_, ?_, ?_⟩
      · rw [List.length_set]
        exact q3
      · refine FilledTo.step q4 ?_ ?_ _ rfl
        · have := idx_lt hi hk
          omega
        · intro i' j' hj' hpos e
          have := idx_inj hj' hk e
          omega
      · intro i' j' hi' hj' hnot
        rw [getD_set_ne]
        · exact q5 i' j' hi' hj' (fun hh => hnot (by
            rcases hh with hh | ⟨hh, hh2⟩
            · exact Or.inl hh
            · exact Or.inr ⟨hh, by omega⟩))
        · intro e
          have := idx_inj hk hj' e
          exact hnot (Or.inr ⟨this.1.symm, by omega⟩)

/-- A checked loop whose every step succeeds on the states the unchecked loop reaches
yields the result of the unchecked loop. -/
theorem foldlM_range_some {σ : Type} (fC : σ → Nat → Option σ) (f : σ → Nat → σ)
    (P : Nat → σ → Prop) (s0 : σ) (n : Nat) (h0 : P 0 s0)
    (hstep : ∀ k s, k < n → P k s → fC s k = some (f s k) ∧ P (k + 1) (f s k)) :
    (List.range n).foldlM fC s0 = some ((List.range n).foldl f s0)
      ∧ P n ((List.range n).foldl f s0) := by
  induction n with
  | zero => exact ⟨rfl, h0⟩
  | succ n ih =>
    obtain ⟨e, p⟩ := ih (fun k s hk hp => hstep k s (Nat.lt_succ_of_lt hk) hp)
    obtain ⟨e1, p1⟩ := hstep n _ (Nat.lt_succ_self n) p
    rw [List.range_succ, List.foldlM_append, List.foldl_append, e]
    refine ⟨?_, ?_⟩
    · show (List.foldlM fC ((List.range n).foldl f s0) [n]) = _
      rw [List.foldlM_cons, e1]
      rfl
    · exact p1

/-- In a shaped matrix every in-range coordinate has a usable `at()` index. -/
theorem atInBounds_of_shaped (m : Mx) {r c i j : Nat} (hm : m.Shaped r c) (hi : i < r)
    (hj : j < c) : atInBounds m (i : Int) (j : Int) := by
  have hlt := idx_lt hi hj
  have hlen := hm.2.2
  unfold atInBounds getSize
  rw [at_natCast m hm.1 hm.2.1 hi hj, hm.1, hm.2.1]
  refine ⟨by omega, by omega, ?_, ?_⟩
  · exact_mod_cast hlt
  · exact_mod_cast lt_of_lt_of_le hlt hlen

/-- The checked store succeeds on a shaped result and keeps it shaped. -/
theorem storeEntryChk_eq (st : ResSt) {r c i j : Nat} (hs : st.pMxRes.Shaped r c) (hi : i < r)
    (hj : j < c) (v : ℚ) :
    storeEntryChk st (i : Int) (j : Int) v = some (storeEntry st (i : Int) (j : Int) v)
      ∧ (storeEntry st (i : Int) (j : Int) v).pMxRes.Shaped r c := by
  refine ⟨?_, ⟨hs.1, hs.2.1, ?_⟩⟩
  · unfold storeEntryChk
    rw [if_pos (atInBounds_of_shaped _ hs hi hj)]
  · simp only [storeEntry, wr_length]
    exact hs.2.2

/-- The operands of a list of shaped matrices are shaped. -/
theorem operand_shaped (ops : List Mx) {r c : Nat} (hall : ∀ m ∈ ops, m.Shaped r c) (i : Nat)
    (hi : i < ops.length) : (operand ops i).Shaped r c := by
  unfold operand
  rw [List.getD_eq_getElem _ _ hi]
  exact hall _ (List.getElem_mem _)

/-- The checked sum loop of `matrix_opAdd` succeeds on shaped operands. -/
theorem opAddSumChk_eq (ops : List Mx) {r c i j : Nat} (hall : ∀ m ∈ ops, m.Shaped r c)
    (hi : i < r) (hj : j < c) :
    opAddSumChk ops (ops.length : Int) (i : Int) (j : Int)
      = some (opAddSum ops (ops.length : Int) (i : Int) (j : Int)) := by
  unfold opAddSumChk opAddSum
  rw [Int.toNat_natCast]
  refine (foldlM_range_some _ _ (fun _ _ => True) 0 ops.length trivial ?_).1
  intro k s hk _
  refine ⟨?_, trivial⟩
  rw [if_pos (atInBounds_of_shaped _ (operand_shaped ops hall k hk) hi hj)]

/-- The checked sum loop of `matrix_opSub` succeeds on shaped operands. -/
theorem opSubSumChk_eq (ops : List Mx) {r c i j : Nat} (hall : ∀ m ∈ ops, m.Shaped r c)
    (hi : i < r) (hj : j < c) :
    opSubSumChk ops (ops.length : Int) (i : Int) (j : Int)
      = some (opSubSum ops (ops.length : Int) (i : Int) (j : Int)) := by
  unfold opSubSumChk opSubSum
  rw [Int.toNat_natCast]
  refine (foldlM_range_some _ _ (fun _ _ => True) 0 ops.length trivial ?_).1
  intro k s hk _
  refine ⟨?_, trivial⟩
  rw [if_pos (atInBounds_of_shaped _ (operand_shaped ops hall k hk) hi hj)]

/-- The checked sum loop of `matrix_opMult` succeeds on shaped operands. -/
theorem opMultSumChk_eq (a b : Mx) {r k c i j : Nat} (ha : a.Shaped r k) (hb : b.Shaped k c)
    (hi : i < r) (hj : j < c) :
    opMultSumChk a b (i : Int) (j : Int) = some (opMultSum a b (i : Int) (j : Int)) := by
  unfold opMultSumChk opMultSum
  rw [ha.2.1, Int.toNat_natCast]
  refine (foldlM_range_some _ _ (fun _ _ => True) 0 k trivial ?_).1
  intro t s ht _
  refine ⟨?_, trivial⟩
  rw [if_pos ⟨atInBounds_of_shaped _ ha hi ht, atInBounds_of_shaped _ hb ht hj⟩]

/-- A checked result loop that stores `val i j` at `(i, j)` succeeds on a shaped
result. -/
theorem resLoopChk_eq (valC : Nat → Nat → Option ℚ) (val : Nat → Nat → ℚ) (r c : Nat)
    (hval : ∀ i j, i < r → j < c → valC i j = some (val i j))
    (st0 : ResSt) (hs : st0.pMxRes.Shaped r c) :
    (List.range r).foldlM
      (fun st (resRow : Nat) => (List.range c).foldlM
        (fun st (resCol : Nat) =>
          (valC resRow resCol).bind
            (fun sum => storeEntryChk st (resRow : Int) (resCol : Int) sum)) st) st0
      = some (resLoop val r c st0) := by
  unfold resLoop
  refine (foldlM_range_some _ _ (fun _ (st : ResSt) => st.pMxRes.Shaped r c) st0 r hs ?_).1
  intro i st hi hst
  refine foldlM_range_some _ _ (fun _ (st : ResSt) => st.pMxRes.Shaped r c) st c hst ?_
  intro j s hj hsj
  obtain ⟨e, p⟩ := storeEntryChk_eq s hsj hi hj (val i j)
  refine ⟨?_, p⟩
  rw [hval i j hi hj]
  exact e

/-- The checked `matrix_opAdd` never meets an out-of-bounds index. -/
theorem matrix_opAddChk_eq (ops : List Mx) {r c : Nat} (hne : ops ≠ [])
    (hall : ∀ m ∈ ops, m.Shaped r c) (res : Option Mx) (hres : ValidHandle res) (h : Heap) :
    matrix_opAddChk ops (ops.length : Int) res h
      = some (matrix_opAdd ops (ops.length : Int) res h) := by
  have h0 := operand_zero_shaped ops hne hall
  unfold matrix_opAddChk matrix_opAdd
  simp only [h0.1, h0.2.1]
  rcases adjustMatrixDims_cases res hres r c h with ⟨m, h1, e, hm, _, _⟩ | ⟨h1, e, _, _⟩
  · simp only [e, Int.toNat_natCast]
    have key := resLoopChk_eq
      (fun i j => opAddSumChk ops (ops.length : Int) (i : Int) (j : Int))
      (fun i j => opAddSum ops (ops.length : Int) (i : Int) (j : Int)) r c
      (fun i j hi hj => opAddSumChk_eq ops hall hi hj)
      { pMxRes := m, maxLength := 1, isFirstNewEntry := Boolean.TRUE } hm
    rw [key]
    rfl
  · simp only [e]

/-- The checked `matrix_opSub` never meets an out-of-bounds index. -/
theorem matrix_opSubChk_eq (ops : List Mx) {r c : Nat} (hne : ops ≠ [])
    (hall : ∀ m ∈ ops, m.Shaped r c) (res : Option Mx) (hres : ValidHandle res) (h : Heap) :
    matrix_opSubChk ops (ops.length : Int) res h
      = some (matrix_opSub ops (ops.length : Int) res h) := by
  have h0 := operand_zero_shaped ops hne hall
  unfold matrix_opSubChk matrix_opSub
  simp only [h0.1, h0.2.1]
  rcases adjustMatrixDims_cases res hres r c h with ⟨m, h1, e, hm, _, _⟩ | ⟨h1, e, _, _⟩
  · simp only [e, Int.toNat_natCast]
    have key := resLoopChk_eq
      (fun i j => opSubSumChk ops (ops.length : Int) (i : Int) (j : Int))
      (fun i j => opSubSum ops (ops.length : Int) (i : Int) (j : Int)) r c
      (fun i j hi hj => opSubSumChk_eq ops hall hi hj)
      { pMxRes := m, maxLength := 1, isFirstNewEntry := Boolean.TRUE } hm
    rw [key]
    rfl
  · simp only [e]

/-- The checked `matrix_opMult` never meets an out-of-bounds index. -/
theorem matrix_opMultChk_eq (a b : Mx) {r k c : Nat} (ha : a.Shaped r k) (hb : b.Shaped k c)
    (res : Option Mx) (hres : ValidHandle res) (h : Heap) :
    matrix_opMultChk a b res h = some (matrix_opMult a b res h) := by
  unfold matrix_opMultChk matrix_opMult
  rw [ha.1, hb.2.1]
  rcases adjustMatrixDims_cases res hres r c h with ⟨m, h1, e, hm, _, _⟩ | ⟨h1, e, _, _⟩
  · simp only [e, Int.toNat_natCast]
    have key := foldlM_range_some (opMultRowChk a b) (opMultRow a b)
      (fun i (st : MultSt) => st.resRow = (i : Int) ∧ st.res.pMxRes.Shaped r c)
      { res := { pMxRes := m, maxLength := 1, isFirstNewEntry := Boolean.TRUE },
        resRow := 0, resCol := 0 } r ⟨rfl, hm⟩ ?_
    · rw [key.1]
      rfl
    · intro i st hi ⟨g1, g2⟩
      unfold opMultRowChk opMultRow
      rw [hb.2.1, Int.toNat_natCast]
      have inner := foldlM_range_some (opMultColChk a b (i : Int)) (opMultCol a b (i : Int))
        (fun j (s : MultSt) => s.resRow = (i : Int) ∧ s.resCol = (j : Int)
          ∧ s.res.pMxRes.Shaped r c)
        { st with resCol := 0 } c ⟨g1, rfl, g2⟩ ?_
      · obtain ⟨e1, q1, _, q3⟩ := inner
        rw [e1]
        refine ⟨rfl, ?_, q3⟩
        simp only [q1]
        push_cast
        ring
      · intro j s hj ⟨q1, q2, q3⟩
        obtain ⟨e2, p2⟩ := storeEntryChk_eq s.res q3 hi hj (opMultSum a b (i : Int) (j : Int))
        refine ⟨?_, q1, ?_, ?_⟩
        · unfold opMultColChk opMultCol
          rw [opMultSumChk_eq a b ha hb hi hj, q1, q2]
          show (storeEntryChk s.res (i : Int) (j : Int) _).map _ = _
          rw [e2]
          rfl
        · simp only [opMultCol, q2]
          push_cast
          ring
        · simp only [opMultCol, q1, q2]
          exact p2
  · simp only [e]

/-- The checked `matrix_opTrans` never meets an out-of-bounds index. -/
theorem matrix_opTransChk_eq (a : Mx) {r c : Nat} (ha : a.Shaped r c)
    (res : Option Mx) (hres : ValidHandle res) (h : Heap) :
    matrix_opTransChk a res h = some (matrix_opTrans a res h) := by
  unfold matrix_opTransChk matrix_opTrans
  rw [ha.1, ha.2.1]
  rcases adjustMatrixDims_cases res hres c r h with ⟨m, h1, e, hm, _, _⟩ | ⟨h1, e, _, _⟩
  · simp only [e, Int.toNat_natCast]
    have key := foldlM_range_some
      (fun (res : Mx) (i : Nat) => (List.range c).foldlM
        (fun (res : Mx) (j : Nat) =>
          if atInBounds res j i ∧ atInBounds a i j then
            some { res with entries := wr res.entries (at_ res j i) (rd a.entries (at_ a i j)) }
          else none)
        res)
      (fun (res : Mx) (i : Nat) => (List.range c).foldl
        (fun (res : Mx) (j : Nat) =>
          { res with entries := wr res.entries (at_ res j i) (rd a.entries (at_ a i j)) })
        res)
      (fun _ (res : Mx) => res.Shaped c r) m r hm ?_
    · rw [key.1]
      rfl
    · intro i st hi hst
      refine foldlM_range_some _ _ (fun _ (res : Mx) => res.Shaped c r) st c hst ?_
      intro j s hj hs
      refine ⟨?_, ⟨hs.1, hs.2.1, ?_⟩⟩
      · rw [if_pos ⟨atInBounds_of_shaped _ hs hj hi, atInBounds_of_shaped _ ha hi hj⟩]
      · simp only [wr_length]
        exact hs.2.2
  · simp only [e]

/-- The checked filling of one submatrix row succeeds: the trackers stay inside the
`tr x (M - 1)` submatrix while the column `col < M` is skipped. -/
theorem subFillRowChk_eq (pMx : Mx) {N M : Nat} (hp : pMx.Shaped N M) (col row : Nat)
    (hcol : col < M) (hrow : row < N) (tr i L : Nat) (hi : i < tr) (hL : tr * (M - 1) ≤ L)
    (st : SubSt) (h1 : st.pMxSub.rows = (tr : Int)) (h2 : st.pMxSub.cols = ((M - 1 : Nat) : Int))
    (h3 : st.pMxSub.entries.length = L) (h4 : st.mxSub_row = (i : Int)) :
    subFillRowChk pMx (col : Int) st (row : Int) = some (subFillRow pMx (col : Int) st (row : Int))
      ∧ (subFillRow pMx (col : Int) st (row : Int)).pMxSub.rows = (tr : Int)
      ∧ (subFillRow pMx (col : Int) st (row : Int)).pMxSub.cols = ((M - 1 : Nat) : Int)
      ∧ (subFillRow pMx (col : Int) st (row : Int)).pMxSub.entries.length = L
      ∧ (subFillRow pMx (col : Int) st (row : Int)).mxSub_row = ((i + 1 : Nat) : Int) := by
  unfold subFillRowChk subFillRow
  rw [hp.2.1, Int.toNat_natCast]
  have inner := foldlM_range_some (subFillColChk pMx (col : Int) (row : Int))
    (subFillCol pMx (col : Int) (row : Int))
    (fun c' (s : SubSt) =>
      s.mxSub_col = ((if c' ≤ col then c' else c' - 1 : Nat) : Int)
      ∧ s.pMxSub.rows = (tr : Int) ∧ s.pMxSub.cols = ((M - 1 : Nat) : Int)
      ∧ s.pMxSub.entries.length = L ∧ s.mxSub_row = (i : Int))
    { st with mxSub_col := 0 } M ⟨by simp, h1, h2, h3, h4⟩ ?_
  · obtain ⟨e, _, g1, g2, g3, g4⟩ := inner
    rw [e]
    refine ⟨rfl, g1, g2, g3, ?_⟩
    simp only [g4]
    push_cast
    ring
  · intro c' s hc' ⟨gc, g1, g2, g3, g4⟩
    beta_reduce
    unfold subFillColChk subFillCol
    by_cases hcc : c' = col
    · rw [if_pos (by rw [hcc]), if_pos (by rw [hcc])]
      subst hcc
      rw [if_pos (le_refl _)] at gc
      rw [if_neg (by omega)]
      exact ⟨rfl, by simpa using gc, g1, g2, g3, g4⟩
    · have hne : ¬ ((c' : Int) = (col : Int)) := by
        intro e
        exact hcc (by exact_mod_cast e)
      rw [if_neg hne, if_neg hne]
      have hsub : s.pMxSub.Shaped tr (M - 1) := ⟨g1, g2, by omega⟩
      have hsrc := atInBounds_of_shaped pMx hp hrow hc'
      by_cases hlt : c' < col
      · rw [if_pos (by omega)] at gc
        have hk : c' < M - 1 := by omega
        have hdst : atInBounds s.pMxSub s.mxSub_row s.mxSub_col := by
          rw [g4, gc]
          exact atInBounds_of_shaped _ hsub hi hk
        rw [if_pos ⟨hdst, hsrc⟩, if_pos (by omega)]
        refine ⟨rfl, ?_, g1, g2, ?_, g4⟩
        · simp only [gc]
          push_cast
          ring
        · simp only [wr_length, g3]
      · have hgt : col < c' := by omega
        rw [if_neg (by omega)] at gc
        have hk : c' - 1 < M - 1 := by omega
        have hdst : atInBounds s.pMxSub s.mxSub_row s.mxSub_col := by
          rw [g4, gc]
          exact atInBounds_of_shaped _ hsub hi hk
        rw [if_pos ⟨hdst, hsrc⟩, if_neg (by omega)]
        refine ⟨rfl, ?_, g1, g2, ?_, g4⟩
        · simp only [gc]
          have e1 : c' + 1 - 1 = (c' - 1) + 1 := by omega
          rw [e1]
          push_cast
          ring
        · simp only [wr_length, g3]

/-- The checked filling of a minor of `opDet` succeeds. -/
theorem opDetSubChk_eq (pMx : Mx) {N M : Nat} (hp : pMx.Shaped N M) (col : Nat) (hcol : col < M)
    (sub0 : Mx) (hs : sub0.Shaped (N - 1) (M - 1)) :
    opDetSubChk pMx (col : Int) sub0 = some (opDetSub pMx (col : Int) sub0) := by
  unfold opDetSubChk opDetSub
  rw [hp.1, Int.toNat_natCast]
  have key := foldlM_range_some
    (fun st (k : Nat) => subFillRowChk pMx (col : Int) st ((k : Int) + 1))
    (fun st (k : Nat) => subFillRow pMx (col : Int) st ((k : Int) + 1))
    (fun k (st : SubSt) => st.pMxSub.rows = ((N - 1 : Nat) : Int)
      ∧ st.pMxSub.cols = ((M - 1 : Nat) : Int)
      ∧ st.pMxSub.entries.length = sub0.entries.length ∧ st.mxSub_row = (k : Int))
    { pMxSub := sub0, mxSub_row := 0, mxSub_col := 0 } (N - 1) ⟨hs.1, hs.2.1, rfl, rfl⟩ ?_
  · rw [key.1]
    rfl
  · intro k st hk ⟨g1, g2, g3, g4⟩
    have := subFillRowChk_eq pMx hp col (k + 1) hcol (by omega) (N - 1) k sub0.entries.length
      hk hs.2.2 st g1 g2 g3 g4
    rw [Nat.cast_add, Nat.cast_one] at this
    exact this

/-- The checked filling of a minor of `opAdjugate` succeeds. -/
theorem opAdjSubChk_eq (pMx : Mx) {N M : Nat} (hp : pMx.Shaped N M) (row col : Nat)
    (hrow : row < N) (hcol : col < M) (sub0 : Mx) (hs : sub0.Shaped (N - 1) (M - 1)) :
    opAdjSubChk pMx (row : Int) (col : Int) sub0
      = some (opAdjSub pMx (row : Int) (col : Int) sub0) := by
  unfold opAdjSubChk opAdjSub
  rw [hp.1, Int.toNat_natCast]
  have key := foldlM_range_some
    (fun st (_row : Nat) =>
      if (_row : Int) = (row : Int) then some st
      else subFillRowChk pMx (col : Int) st (_row : Int))
    (fun st (_row : Nat) =>
      if (_row : Int) = (row : Int) then st else subFillRow pMx (col : Int) st (_row : Int))
    (fun k (st : SubSt) => st.pMxSub.rows = ((N - 1 : Nat) : Int)
      ∧ st.pMxSub.cols = ((M - 1 : Nat) : Int)
      ∧ st.pMxSub.entries.length = sub0.entries.length
      ∧ st.mxSub_row = ((if k ≤ row then k else k - 1 : Nat) : Int))
    { pMxSub := sub0, mxSub_row := 0, mxSub_col := 0 } N ⟨hs.1, hs.2.1, rfl, by simp⟩ ?_
  · rw [key.1]
    rfl
  · intro k st hk ⟨g1, g2, g3, g4⟩
    beta_reduce
    by_cases hkr : k = row
    · rw [if_pos (by rw [hkr]), if_pos (by rw [hkr])]
      rw [if_pos (show k ≤ row by omega)] at g4
      refine ⟨rfl, g1, g2, g3, ?_⟩
      rw [if_neg (show ¬ k + 1 ≤ row by omega)]
      simpa using g4
    · have hne : ¬ ((k : Int) = (row : Int)) := by
        intro e
        exact hkr (by exact_mod_cast e)
      rw [if_neg hne, if_neg hne]
      by_cases hlt : k < row
      · rw [if_pos (show k ≤ row by omega)] at g4
        rw [if_pos (show k + 1 ≤ row by omega)]
        exact subFillRowChk_eq pMx hp col k hcol hk (N - 1) k sub0.entries.length (by omega)
          hs.2.2 st g1 g2 g3 g4
      · rw [if_neg (show ¬ k ≤ row by omega)] at g4
        rw [if_neg (show ¬ k + 1 ≤ row by omega)]
        have e1 : k + 1 - 1 = (k - 1) + 1 := by omega
        rw [e1]
        exact subFillRowChk_eq pMx hp col k hcol hk (N - 1) (k - 1) sub0.entries.length
          (by omega) hs.2.2 st g1 g2 g3 g4

/-- The checked `col` loop of `opDet` succeeds when the checked recursive call succeeds
on every `n x n` minor. -/
theorem opDetColsChk_eq (recC : Mx → Status → Heap → Option (ℚ × Status × Heap))
    (rec : Mx → Status → Heap → ℚ × Status × Heap) (n : Nat) (m : Mx)
    (hm : m.Shaped (n + 1) (n + 1))
    (hrec : ∀ sub : Mx, sub.Shaped n n → ∀ mem h, recC sub mem h = some (rec sub mem h))
    (l : List Nat) (hl : ∀ col ∈ l, col < n + 1) :
    ∀ sum mem h, opDetColsChk recC m l sum mem h = some (opDetCols rec m l sum mem h) := by
  induction l with
  | nil =>
    intro sum mem h
    rfl
  | cons col rest ih =>
    intro sum mem h
    have hcol : col < n + 1 := hl col (List.mem_cons_self _ _)
    have hrest : ∀ c ∈ rest, c < n + 1 := fun c hc => hl c (List.mem_cons_of_mem _ hc)
    have hr1 : m.rows - 1 = (n : Int) := by rw [hm.1]; push_cast; ring
    have hc1 : m.cols - 1 = (n : Int) := by rw [hm.2.1]; push_cast; ring
    unfold opDetColsChk opDetCols
    rw [hr1, hc1]
    rcases matrix_initDims_cases (n : Int) (n : Int) h with ⟨h1, e1, _, _⟩ | ⟨h1, e1, _, _⟩
    · simp only [e1]
      have h0 : atInBounds m 0 (col : Int) :=
        atInBounds_of_shaped m hm (show 0 < n + 1 by omega) hcol
      rw [if_pos h0, opDetSubChk_eq m hm col hcol _ (initDims_shaped n n)]
      obtain ⟨ss, _⟩ := opDetSub_toMatrix m hm col hcol _ (initDims_shaped n n)
      simp only [hrec _ ss mem h1]
      exact ih hrest _ _ _
    · simp only [e1]

/-- The checked `opDet` on an `n x n` matrix (`n ≥ 2`) never meets an out-of-bounds
index. -/
theorem opDetAuxChk_eq : ∀ n, 2 ≤ n → ∀ m : Mx, m.Shaped n n → ∀ mem h,
    opDetAuxChk n m mem h = some (opDetAux n m mem h) := by
  intro n
  induction n with
  | zero => intro hn; omega
  | succ n ih =>
    intro hn m hm mem h
    by_cases h2 : n + 1 = 2
    · have hn1 : n = 1 := by omega
      subst hn1
      have hr : m.rows = 2 := by rw [hm.1]; rfl
      have hc : m.cols = 2 := by rw [hm.2.1]; rfl
      have b00 := atInBounds_of_shaped m hm (show 0 < 2 by omega) (show 0 < 2 by omega)
      have b01 := atInBounds_of_shaped m hm (show 0 < 2 by omega) (show 1 < 2 by omega)
      have b10 := atInBounds_of_shaped m hm (show 1 < 2 by omega) (show 0 < 2 by omega)
      have b11 := atInBounds_of_shaped m hm (show 1 < 2 by omega) (show 1 < 2 by omega)
      simp only [Nat.cast_zero, Nat.cast_one] at b00 b01 b10 b11
      simp only [opDetAuxChk, opDetAux, hr, hc, and_self, if_true]
      rw [if_pos ⟨b00, b01, b10, b11⟩]
    · have hn2 : 2 ≤ n := by omega
      have hr : ¬ (m.rows = 2 ∧ m.cols = 2) := by
        rw [hm.1]
        intro hh
        have := hh.1
        omega
      simp only [opDetAuxChk, opDetAux, hr, if_false]
      exact opDetColsChk_eq (opDetAuxChk n) (opDetAux n) n m hm
        (fun sub hs mem h => ih hn2 sub hs mem h)
        (List.range m.cols.toNat)
        (fun col hc => by
          rw [hm.2.1, Int.toNat_natCast] at hc
          exact List.mem_range.mp hc) 0 mem h

/-- The checked `opDet` agrees with `opDet` on square matrices of size at least 2. -/
theorem opDetChk_eq (n : Nat) (hn : 2 ≤ n) (m : Mx) (hm : m.Shaped n n) (mem : Status)
    (h : Heap) : opDetChk m mem h = some (opDet m mem h) := by
  unfold opDetChk opDet
  rw [hm.2.1, Int.toNat_natCast]
  exact opDetAuxChk_eq n hn m hm mem h

/-- The checked `col` loop of `opAdjugate` succeeds and keeps the matrix of cofactors
shaped. -/
theorem opAdjColsChk_eq (m : Mx) (n : Nat) (hn : 2 ≤ n) (hm : m.Shaped (n + 1) (n + 1))
    (row : Nat) (hrow : row < n + 1) (l : List Nat) (hl : ∀ col ∈ l, col < n + 1) :
    ∀ (st : CofSt) (h : Heap), st.pMxOfCofactors.Shaped (n + 1) (n + 1) →
      opAdjColsChk m row l st h = some (opAdjCols m row l st h)
      ∧ ∀ st1 h1, opAdjCols m row l st h = (some st1, h1) →
          st1.pMxOfCofactors.Shaped (n + 1) (n + 1) := by
  induction l with
  | nil =>
    intro st h hst
    refine ⟨rfl, ?_⟩
    intro st1 h1 e
    simp only [opAdjCols, Prod.mk.injEq, Option.some.injEq] at e
    rw [← e.1]
    exact hst
  | cons col rest ih =>
    intro st h hst
    have hcol : col < n + 1 := hl col (List.mem_cons_self _ _)
    have hrest : ∀ c ∈ rest, c < n + 1 := fun c hc => hl c (List.mem_cons_of_mem _ hc)
    have hr1 : m.rows - 1 = (n : Int) := by rw [hm.1]; push_cast; ring
    have hc1 : m.cols - 1 = (n : Int) := by rw [hm.2.1]; push_cast; ring
    unfold opAdjColsChk opAdjCols
    rw [hr1, hc1]
    rcases matrix_initDims_cases (n : Int) (n : Int) h with ⟨h1, e1, _, _⟩ | ⟨h1, e1, _, _⟩
    · obtain ⟨ss, _⟩ := opAdjSub_toMatrix m hm row col hrow hcol _ (initDims_shaped n n)
      have hsub := opAdjSubChk_eq m hm row col hrow hcol _ (initDims_shaped n n)
      simp only [Nat.add_sub_cancel] at hsub
      have hdet := opDetChk_eq n hn _ ss Status.SUCCESS h1
      simp only [e1, hsub, hdet]
      by_cases hF : (opDet (opAdjSub m (row : Int) (col : Int)
          { entries := zeroBuf (getSize (n : Int) (n : Int)), rows := (n : Int),
            cols := (n : Int), maxLength := 1 }) Status.SUCCESS h1).2.1 = Status.FAILURE
      · rw [if_pos hF, if_pos hF]
        refine ⟨rfl, ?_⟩
        intro st1 h2 e
        simp only [Prod.mk.injEq] at e
        exact absurd e.1 (by simp)
      · rw [if_neg hF, if_neg hF, if_pos (atInBounds_of_shaped _ hst hrow hcol)]
        refine ih hrest _ _ ⟨hst.1, hst.2.1, ?_⟩
        simp only [wr_length]
        exact hst.2.2
    · simp only [e1]
      refine ⟨trivial, ?_⟩
      intro st1 h2 e
      simp only [Prod.mk.injEq] at e
      exact absurd e.1 (by simp)

/-- The checked `row` loop of `opAdjugate` succeeds and keeps the matrix of cofactors
shaped. -/
theorem opAdjRowsChk_eq (m : Mx) (n : Nat) (hn : 2 ≤ n) (hm : m.Shaped (n + 1) (n + 1))
    (l : List Nat) (hl : ∀ row ∈ l, row < n + 1) :
    ∀ (st : CofSt) (h : Heap), st.pMxOfCofactors.Shaped (n + 1) (n + 1) →
      opAdjRowsChk m l st h = some (opAdjRows m l st h)
      ∧ ∀ st1 h1, opAdjRows m l st h = (some st1, h1) →
          st1.pMxOfCofactors.Shaped (n + 1) (n + 1) := by
  induction l with
  | nil =>
    intro st h hst
    refine ⟨rfl, ?_⟩
    intro st1 h1 e
    simp only [opAdjRows, Prod.mk.injEq, Option.some.injEq] at e
    rw [← e.1]
    exact hst
  | cons row rest ih =>
    intro st h hst
    have hrow : row < n + 1 := hl row (List.mem_cons_self _ _)
    have hrest : ∀ c ∈ rest, c < n + 1 := fun c hc => hl c (List.mem_cons_of_mem _ hc)
    obtain ⟨ec, pc⟩ := opAdjColsChk_eq m n hn hm row hrow (List.range m.cols.toNat)
      (fun col hc => by
        rw [hm.2.1, Int.toNat_natCast] at hc
        exact List.mem_range.mp hc) st h hst
    unfold opAdjRowsChk opAdjRows
    rw [ec]
    rcases hres : opAdjCols m row (List.range m.cols.toNat) st h with ⟨_ | st1, h1⟩
    · simp only
      refine ⟨trivial, ?_⟩
      intro st2 h2 e
      simp only [Prod.mk.injEq] at e
      exact absurd e.1 (by simp)
    · simp only
      exact ih hrest st1 h1 (pc st1 h1 hres)

/-- The checked `opAdjugate` on a square matrix never meets an out-of-bounds index. -/
theorem opAdjugateChk_eq (m : Mx) (n : Nat) (hn : 1 ≤ n) (hm : m.Shaped n n)
    (res : Option Mx) (hres : ValidHandle res) (h : Heap) :
    opAdjugateChk m res h = some (opAdjugate m res h) := by
  unfold opAdjugateChk opAdjugate
  rw [hm.1, hm.2.1]
  rcases adjustMatrixDims_cases res hres n n h with ⟨R0, h1, e, hR0, _, _⟩ | ⟨h1, e, _, _⟩
  swap
  · simp only [e]
  simp only [e, hR0.1, hR0.2.1]
  by_cases h1n : n = 1
  · subst h1n
    simp only [Nat.cast_one, and_self, if_true]
  have hn1 : ¬ (((n : Nat) : Int) = 1) := by
    intro hh
    exact h1n (by exact_mod_cast hh)
  simp only [hn1, false_and, if_false]
  by_cases h2n : n = 2
  · subst h2n
    have b01 := atInBounds_of_shaped R0 hR0 (show 0 < 2 by omega) (show 1 < 2 by omega)
    have b10 := atInBounds_of_shaped R0 hR0 (show 1 < 2 by omega) (show 0 < 2 by omega)
    have b00 := atInBounds_of_shaped R0 hR0 (show 0 < 2 by omega) (show 0 < 2 by omega)
    have b11 := atInBounds_of_shaped R0 hR0 (show 1 < 2 by omega) (show 1 < 2 by omega)
    simp only [Nat.cast_zero, Nat.cast_one] at b00 b01 b10 b11
    simp only [Nat.cast_ofNat, and_self, if_true, b01, b10, b00, b11]
  have hn2 : ¬ (((n : Nat) : Int) = 2) := by
    intro hh
    exact h2n (by exact_mod_cast hh)
  simp only [hn2, false_and, if_false]
  obtain ⟨k, rfl⟩ : ∃ k, n = k + 1 := ⟨n - 1, by omega⟩
  have hk : 2 ≤ k := by omega
  rcases matrix_initDims_cases ((k + 1 : Nat) : Int) ((k + 1 : Nat) : Int) h1 with
    ⟨h2, e2, _, _⟩ | ⟨h2, e2, _, _⟩
  swap
  · simp only [e2]
  simp only [e2, Int.toNat_natCast]
  obtain ⟨er, pr⟩ := opAdjRowsChk_eq m k hk hm (List.range (k + 1))
    (fun row hr => List.mem_range.mp hr)
    { pMxOfCofactors := { entries := zeroBuf (getSize ((k + 1 : Nat) : Int) ((k + 1 : Nat) : Int)),
                          rows := ((k + 1 : Nat) : Int), cols := ((k + 1 : Nat) : Int),
                          maxLength := 1 },
      maxLength := 1, firstNewNum := Boolean.TRUE } h2 (initDims_shaped (k + 1) (k + 1))
  rw [er]
  rcases hrows : opAdjRows m (List.range (k + 1))
      { pMxOfCofactors := { entries := zeroBuf (getSize ((k + 1 : Nat) : Int) ((k + 1 : Nat) : Int)),
                            rows := ((k + 1 : Nat) : Int), cols := ((k + 1 : Nat) : Int),
                            maxLength := 1 },
        maxLength := 1, firstNewNum := Boolean.TRUE } h2 with ⟨_ | st, h3⟩
  · simp only
  · simp only
    have hst := pr st h3 hrows
    have hcof : ({ st.pMxOfCofactors with maxLength := st.maxLength } : Mx).Shaped (k + 1) (k + 1) :=
      ⟨hst.1, hst.2.1, hst.2.2⟩
    rw [matrix_opTransChk_eq _ hcof (some R0) (validHandle_some R0 hR0) h3]
    rcases hT : matrix_opTrans { st.pMxOfCofactors with maxLength := st.maxLength } (some R0) h3
      with ⟨s, res', h4⟩
    cases s <;> rfl

/-- The checked `matrix_opDet` on a square matrix never meets an out-of-bounds index. -/
theorem matrix_opDetChk_eq (n : Nat) (hn : 1 ≤ n) (m : Mx) (hm : m.Shaped n n) (h : Heap) :
    matrix_opDetChk m h = some (matrix_opDet m h) := by
  unfold matrix_opDetChk matrix_opDet
  by_cases h1 : m.rows = 1 ∧ m.cols = 1
  · rw [if_pos h1, if_pos h1]
  · rw [if_neg h1, if_neg h1]
    have h2 : 2 ≤ n := by
      rcases Nat.lt_or_ge n 2 with hlt | hge
      · exfalso
        apply h1
        have e : n = 1 := by omega
        subst e
        exact ⟨hm.1, hm.2.1⟩
      · exact hge
    exact opDetChk_eq n h2 m hm Status.SUCCESS h

/-- With `rnd = id` the rounded power loop is the exact one. -/
theorem opPowLoopRnd_id (a : Mx) :
    ∀ (n : Nat) (acc : Mx) (h : Heap), opPowLoopRnd id a n acc h = opPowLoop a n acc h := by
  intro n
  induction n with
  | zero => intro acc h; rfl
  | succ n ih =>
    intro acc h
    show (match matrix_opMultRnd id a acc none h with
      | (Status.SUCCESS, some pMxResTemp, h1) =>
        opPowLoopRnd id a n pMxResTemp (matrix_destroy (some acc) h1).2.2
      | (_, _, h1) => (none, (matrix_destroy (some acc) h1).2.2))
      = (match matrix_opMult a acc none h with
      | (Status.SUCCESS, some pMxResTemp, h1) =>
        opPowLoop a n pMxResTemp (matrix_destroy (some acc) h1).2.2
      | (_, _, h1) => (none, (matrix_destroy (some acc) h1).2.2))
    have e : matrix_opMultRnd id a acc none h = matrix_opMult a acc none h := rfl
    rw [e]
    rcases matrix_opMult a acc none h with ⟨s, r, h1⟩
    cases s
    · rfl
    · cases r with
      | none => rfl
      | some m => exact ih m _

/-- With `rnd = id` the rounded operations are the exact ones. -/
theorem matrix_opPowRnd_id :
    matrix_opMultRnd id = matrix_opMult ∧ matrix_opPowRnd id = matrix_opPow := by
  refine ⟨rfl, ?_⟩
  funext a p r h
  unfold matrix_opPowRnd matrix_opPow
  have e : ∀ x y z w, matrix_opMultRnd id x y z w = matrix_opMult x y z w := fun _ _ _ _ => rfl
  simp only [e, opPowLoopRnd_id]

/-- When no allocation fails, `matrix_opMultRnd` into an empty handle stores the product
computed on a fresh zeroed matrix, whatever the state of the allocator. -/
theorem matrix_opMultRnd_fresh (rnd : ℚ → ℚ) (a b : Mx) (h : Heap) (hok : h.ok) :
    ∃ h1, matrix_opMultRnd rnd a b none h = (Status.SUCCESS, some (multRndFresh rnd a b), h1)
      ∧ h1.ok := by
  rcases matrix_initDims_cases a.rows b.cols h with ⟨h1, e1, _, k1⟩ | ⟨h1, _, _, k1⟩
  · refine ⟨h1, ?_, k1 hok⟩
    unfold matrix_opMultRnd adjustMatrixDims
    simp only [e1]
    rfl
  · exact absurd hok k1

/-- When no allocation fails, the loop of `matrix_opPowRnd` multiplies the accumulator
by `hMx` on the left once per iteration. -/
theorem opPowLoopRnd_fresh (rnd : ℚ → ℚ) (a : Mx) :
    ∀ (n : Nat) (acc : Mx) (h : Heap), h.ok →
      ∃ h1, opPowLoopRnd rnd a n acc h = (some ((multRndFresh rnd a)^[n] acc), h1) ∧ h1.ok := by
  intro n
  induction n with
  | zero => intro acc h hok; exact ⟨h, rfl, hok⟩
  | succ n ih =>
    intro acc h hok
    obtain ⟨h1, e, k1⟩ := matrix_opMultRnd_fresh rnd a acc h hok
    obtain ⟨h2, e2, k2⟩ := ih (multRndFresh rnd a acc) _ (matrix_destroy_ok (some acc) h1 k1)
    refine ⟨h2, ?_, k2⟩
    show (match matrix_opMultRnd rnd a acc none h with
      | (Status.SUCCESS, some pMxResTemp, h1) =>
        opPowLoopRnd rnd a n pMxResTemp (matrix_destroy (some acc) h1).2.2
      | (_, _, h1) => (none, (matrix_destroy (some acc) h1).2.2)) = _
    rw [e]
    simp only [e2, Function.iterate_succ_apply]

/-- When no allocation fails, `matrix_opPowRnd` with an exponent `k ≥ 2` yields `hMx`
times itself, multiplied `k - 2` more times by `hMx` on the left. -/
theorem matrix_opPowRnd_fresh (rnd : ℚ → ℚ) (a : Mx) (k : Nat) (hk : 2 ≤ k) (res : Option Mx)
    (hres : k = 2 → res = none) (h : Heap) (hok : h.ok) :
    ∃ h1, matrix_opPowRnd rnd a (k : Int) res h
        = (Status.SUCCESS, some ((multRndFresh rnd a)^[k - 2] (multRndFresh rnd a a)), h1)
      ∧ h1.ok := by
  unfold matrix_opPowRnd
  rw [if_neg (by omega)]
  by_cases h2 : k = 2
  · subst h2
    rw [if_pos (show ((2 : Nat) : Int) = 2 from rfl), hres rfl]
    exact matrix_opMultRnd_fresh rnd a a h hok
  · rw [if_neg (by omega)]
    obtain ⟨h1, e, k1⟩ := matrix_opMultRnd_fresh rnd a a h hok
    obtain ⟨h2, e2, k2⟩ := opPowLoopRnd_fresh rnd a (k - 2) (multRndFresh rnd a a) h1 k1
    have hiters : ((k : Int) - 2).toNat = k - 2 := by omega
    simp only [e, hiters, e2, matrix_move]
    exact ⟨_, rfl, matrix_destroy_ok _ _ k2⟩

/-- A checked loop keeps an invariant along every successful run. -/
theorem foldlM_range_pres {σ : Type} (fC : σ → Nat → Option σ) (P : σ → Prop)
    (hpres : ∀ j s s', fC s j = some s' → P s → P s') (s0 : σ) (h0 : P s0) :
    ∀ (n : Nat) (s : σ), (List.range n).foldlM fC s0 = some s → P s := by
  intro n
  induction n with
  | zero =>
    intro s e
    have : s0 = s := by simpa using e
    exact this ▸ h0
  | succ n ih =>
    intro s e
    rw [List.range_succ, List.foldlM_append] at e
    rcases hq : (List.range n).foldlM fC s0 with _ | q
    · rw [hq] at e
      exact absurd e (by simp)
    · rw [hq] at e
      have e' : fC q n = some s := by simpa [List.foldlM_cons] using e
      exact hpres n q s e' (ih q hq)

/-- A checked loop one of whose steps fails on every state satisfying the invariant
yields `none`. -/
theorem foldlM_range_none {σ : Type} (fC : σ → Nat → Option σ) (P : σ → Prop)
    (hpres : ∀ j s s', fC s j = some s' → P s → P s') (k : Nat)
    (hnone : ∀ s, P s → fC s k = none) (s0 : σ) (h0 : P s0) :
    ∀ n : Nat, k < n → (List.range n).foldlM fC s0 = none := by
  intro n
  induction n with
  | zero => intro hk; exact absurd hk (Nat.not_lt_zero k)
  | succ n ih =>
    intro hk
    rw [List.range_succ, List.foldlM_append]
    rcases hq : (List.range n).foldlM fC s0 with _ | q
    · rfl
    · have hkn : k = n := by
        rcases Nat.lt_or_ge k n with hlt | hge
        · rw [ih hlt] at hq
          exact absurd hq (by simp)
        · omega
      subst hkn
      have hPq := foldlM_range_pres fC P hpres s0 h0 k q hq
      show List.foldlM fC q [k] = none
      rw [List.foldlM_cons, hnone q hPq]
      rfl

/-- The checked copy loops of `matrix_newMatrix` succeed when no dimension grows and
the array of new entries is long enough. -/
theorem newMatrixCopyChk_eq (p : Mx) {R C r c : Nat} (hp : p.Shaped R C) (hr : r ≤ R)
    (hc : c ≤ C) (entries : List ℚ) (hlen : r * c ≤ entries.length) :
    newMatrixCopyChk p entries (r : Int) (c : Int)
      = some (newMatrixCopy p entries (r : Int) (c : Int)) := by
  unfold newMatrixCopyChk newMatrixCopy
  simp only [Int.toNat_natCast]
  have key := foldlM_range_some
    (fun (st : Mx × Int) (i : Nat) => (List.range c).foldlM
      (fun (st : Mx × Int) (j : Nat) =>
        if atInBounds st.1 i j ∧ 0 ≤ at2 (r : Int) (c : Int) i j
            ∧ at2 (r : Int) (c : Int) i j < (entries.length : Int) then
          let numLength := calcEntryLength (rd entries (at2 (r : Int) (c : Int) i j))
          some ({ st.1 with
                  entries := wr st.1.entries (at_ st.1 i j)
                    (rd entries (at2 (r : Int) (c : Int) i j)) },
                if i = 0 ∧ j = 0 then numLength
                else if numLength > st.2 then numLength else st.2)
        else none)
      st)
    (fun (st : Mx × Int) (i : Nat) => (List.range c).foldl
      (fun (st : Mx × Int) (j : Nat) =>
        let numLength := calcEntryLength (rd entries (at2 (r : Int) (c : Int) i j))
        ({ st.1 with
           entries := wr st.1.entries (at_ st.1 i j)
             (rd entries (at2 (r : Int) (c : Int) i j)) },
         if i = 0 ∧ j = 0 then numLength
         else if numLength > st.2 then numLength else st.2))
      st)
    (fun _ (st : Mx × Int) => st.1.Shaped R C) (p, 1) r hp ?_
  · rw [key.1]
    rfl
  · intro i st hi hst
    beta_reduce
    refine foldlM_range_some _ _ (fun _ (s : Mx × Int) => s.1.Shaped R C) st c hst ?_
    intro j s hj hs
    beta_reduce
    have hb := atInBounds_of_shaped s.1 hs (lt_of_lt_of_le hi hr) (lt_of_lt_of_le hj hc)
    have h2 := at2_natCast (r := r) (c := c) hi hj
    have hlt := idx_lt hi hj
    rw [if_pos ⟨hb, by rw [h2]; omega, by rw [h2]; exact_mod_cast lt_of_lt_of_le hlt hlen⟩]
    refine ⟨rfl, hs.1, hs.2.1, ?_⟩
    simp only [wr_length]
    exact hs.2.2

/-- The checked copy loops of `matrix_newMatrix` meet a store outside the buffer as
soon as a dimension grows. -/
theorem newMatrixCopyChk_none (p : Mx) {R C r c : Nat} (hp : p.rows = (R : Int) ∧ p.cols = (C : Int))
    (hr1 : 1 ≤ r) (hc1 : 1 ≤ c) (hgrow : R < r ∨ C < c) (entries : List ℚ) :
    newMatrixCopyChk p entries (r : Int) (c : Int) = none := by
  unfold newMatrixCopyChk
  simp only [Int.toNat_natCast]
  have inner_pres : ∀ (i : Nat) (j : Nat) (s s' : Mx × Int),
      (if atInBounds s.1 i j ∧ 0 ≤ at2 (r : Int) (c : Int) i j
            ∧ at2 (r : Int) (c : Int) i j < (entries.length : Int) then
          let numLength := calcEntryLength (rd entries (at2 (r : Int) (c : Int) i j))
          some ({ s.1 with
                  entries := wr s.1.entries (at_ s.1 i j)
                    (rd entries (at2 (r : Int) (c : Int) i j)) },
                if i = 0 ∧ j = 0 then numLength
                else if numLength > s.2 then numLength else s.2)
        else none) = some s' →
      (s.1.rows = (R : Int) ∧ s.1.cols = (C : Int)) →
      (s'.1.rows = (R : Int) ∧ s'.1.cols = (C : Int)) := by
    intro i j s s' e hs
    split at e
    · simp only [Option.some.injEq] at e
      rw [← e]
      exact hs
    · exact absurd e (by simp)
  have outer_pres : ∀ (i : Nat) (s s' : Mx × Int),
      (List.range c).foldlM
        (fun (st : Mx × Int) (j : Nat) =>
          if atInBounds st.1 i j ∧ 0 ≤ at2 (r : Int) (c : Int) i j
              ∧ at2 (r : Int) (c : Int) i j < (entries.length : Int) then
            let numLength := calcEntryLength (rd entries (at2 (r : Int) (c : Int) i j))
            some ({ st.1 with
                    entries := wr st.1.entries (at_ st.1 i j)
                      (rd entries (at2 (r : Int) (c : Int) i j)) },
                  if i = 0 ∧ j = 0 then numLength
                  else if numLength > st.2 then numLength else st.2)
          else none) s = some s' →
      (s.1.rows = (R : Int) ∧ s.1.cols = (C : Int)) →
      (s'.1.rows = (R : Int) ∧ s'.1.cols = (C : Int)) := by
    intro i s s' e hs
    exact foldlM_range_pres _ (fun (x : Mx × Int) => x.1.rows = (R : Int) ∧ x.1.cols = (C : Int))
      (fun j x x' ex hx => inner_pres i j x x' ex hx) s hs c s' e
  have bad : ∀ (i j : Nat) (s : Mx × Int), (s.1.rows = (R : Int) ∧ s.1.cols = (C : Int)) →
      (R ≤ i ∨ C ≤ j) → ¬ atInBounds s.1 (i : Int) (j : Int) := by
    intro i j s hs hij hb
    apply hb.1
    unfold at_
    rw [hs.1, hs.2, if_pos (by omega)]
  rcases hgrow with hR | hC
  · have step := foldlM_range_none
      (fun (st : Mx × Int) (i : Nat) => (List.range c).foldlM
        (fun (st : Mx × Int) (j : Nat) =>
          if atInBounds st.1 i j ∧ 0 ≤ at2 (r : Int) (c : Int) i j
              ∧ at2 (r : Int) (c : Int) i j < (entries.length : Int) then
            let numLength := calcEntryLength (rd entries (at2 (r : Int) (c : Int) i j))
            some ({ st.1 with
                    entries := wr st.1.entries (at_ st.1 i j)
                      (rd entries (at2 (r : Int) (c : Int) i j)) },
                  if i = 0 ∧ j = 0 then numLength
                  else if numLength > st.2 then numLength else st.2)
          else none)
        st)
      (fun (x : Mx × Int) => x.1.rows = (R : Int) ∧ x.1.cols = (C : Int))
      (fun i s s' e hs => outer_pres i s s' e hs) R ?_ (p, 1) hp r hR
    · rw [step]
      rfl
    · intro s hs
      beta_reduce
      refine foldlM_range_none _
        (fun (x : Mx × Int) => x.1.rows = (R : Int) ∧ x.1.cols = (C : Int))
        (fun j x x' ex hx => inner_pres R j x x' ex hx) 0 ?_ s hs c (by omega)
      intro x hx
      beta_reduce
      rw [if_neg (fun hh => bad R 0 x hx (Or.inl (le_refl R)) hh.1)]
  · have step := foldlM_range_none
      (fun (st : Mx × Int) (i : Nat) => (List.range c).foldlM
        (fun (st : Mx × Int) (j : Nat) =>
          if atInBounds st.1 i j ∧ 0 ≤ at2 (r : Int) (c : Int) i j
              ∧ at2 (r : Int) (c : Int) i j < (entries.length : Int) then
            let numLength := calcEntryLength (rd entries (at2 (r : Int) (c : Int) i j))
            some ({ st.1 with
                    entries := wr st.1.entries (at_ st.1 i j)
                      (rd entries (at2 (r : Int) (c : Int) i j)) },
                  if i = 0 ∧ j = 0 then numLength
                  else if numLength > st.2 then numLength else st.2)
          else none)
        st)
      (fun (x : Mx × Int) => x.1.rows = (R : Int) ∧ x.1.cols = (C : Int))
      (fun i s s' e hs => outer_pres i s s' e hs) 0 ?_ (p, 1) hp r (by omega)
    · rw [step]
      rfl
    · intro s hs
      beta_reduce
      refine foldlM_range_none _
        (fun (x : Mx × Int) => x.1.rows = (R : Int) ∧ x.1.cols = (C : Int))
        (fun j x x' ex hx => inner_pres 0 j x x' ex hx) C ?_ s hs c hC
      intro x hx
      beta_reduce
      rw [if_neg (fun hh => bad 0 C x hx (Or.inr (le_refl C)) hh.1)]

/-- The checked `matrix_newMatrix` succeeds, with the result of the plain run, when no
dimension grows and the array of new entries is long enough. -/
theorem matrix_newMatrixChk_eq (a : Mx) (ha : a.WellSized) (entries : List ℚ) (rows cols : Int)
    (hrows : 1 ≤ rows) (hcols : 1 ≤ cols) (hr : rows ≤ a.rows) (hc : cols ≤ a.cols)
    (hlen : rows * cols ≤ (entries.length : Int)) (h : Heap) :
    matrix_newMatrixChk a entries rows cols h = some (matrix_newMatrix a entries rows cols h)
      ∧ (matrix_newMatrix a entries rows cols h).1 = Status.SUCCESS := by
  obtain ⟨sa, _, _⟩ := ha.toShaped
  have er : ((rows.toNat : Nat) : Int) = rows := Int.toNat_of_nonneg (by omega)
  have ec : ((cols.toNat : Nat) : Int) = cols := Int.toNat_of_nonneg (by omega)
  have hsz : ¬ getSize a.rows a.cols < getSize rows cols := by
    unfold getSize
    have : rows * cols ≤ a.rows * a.cols :=
      mul_le_mul hr hc (by omega) (by omega)
    omega
  have hlen' : rows.toNat * cols.toNat ≤ entries.length := by
    have : ((rows.toNat * cols.toNat : Nat) : Int) ≤ (entries.length : Int) := by
      rw [Nat.cast_mul, er, ec]
      exact hlen
    exact_mod_cast this
  have key := newMatrixCopyChk_eq a sa (r := rows.toNat) (c := cols.toNat) (by omega) (by omega)
    entries hlen'
  rw [er, ec] at key
  unfold matrix_newMatrixChk matrix_newMatrix
  rw [if_neg hsz, if_neg hsz, key]
  exact ⟨rfl, rfl⟩

/-- Whenever `matrix_newMatrix` is asked for more rows or more columns than the matrix
has, the checked run meets a store outside the buffer, unless the call fails on its
allocation before the copy. -/
theorem matrix_newMatrixChk_growth (a : Mx) (ha : a.WellSized) (entries : List ℚ)
    (rows cols : Int) (hrows : 1 ≤ rows) (hcols : 1 ≤ cols)
    (hgrow : a.rows < rows ∨ a.cols < cols) (h : Heap) :
    ∀ x, matrix_newMatrixChk a entries rows cols h = some x → x.1 = Status.FAILURE := by
  obtain ⟨sa, _, _⟩ := ha.toShaped
  have er : ((rows.toNat : Nat) : Int) = rows := Int.toNat_of_nonneg (by omega)
  have ec : ((cols.toNat : Nat) : Int) = cols := Int.toNat_of_nonneg (by omega)
  have hg : a.rows.toNat < rows.toNat ∨ a.cols.toNat < cols.toNat := by
    have := ha.1
    have := ha.2.1
    omega
  have none1 : ∀ buf : List ℚ,
      newMatrixCopyChk { a with entries := buf } entries rows cols = none := by
    intro buf
    have := newMatrixCopyChk_none ({ a with entries := buf } : Mx)
      (R := a.rows.toNat) (C := a.cols.toNat) (r := rows.toNat) (c := cols.toNat)
      ⟨sa.1, sa.2.1⟩ (by omega) (by omega) hg entries
    rw [er, ec] at this
    exact this
  intro x e
  unfold matrix_newMatrixChk at e
  split at e
  · rcases hm : h.malloc with ⟨b, h1⟩
    rw [hm] at e
    cases b with
    | false =>
      simp only [Option.some.injEq] at e
      rw [← e]
    | true =>
      rw [none1] at e
      exact absurd e (by simp)
  · have hn : newMatrixCopyChk a entries rows cols = none := none1 a.entries
    rw [hn] at e
    exact absurd e (by simp)

/-- `matrix_opSub(hMxs, hMxsSize, &hMxs[0])`: the first operand is zeroed by
`adjustMatrixDims` before the loops read it, so the result is zero minus the other
operands. -/
theorem matrix_opSub_self_diff (a : Mx) (others : List Mx) {r c : Nat} (ha : a.Shaped r c)
    (hall : ∀ m ∈ others, m.Shaped r c) (h : Heap) :
    ∃ R, matrix_opSub_self a others ((others.length + 1 : Nat) : Int) h
        = (Status.SUCCESS, some R, h) ∧ R.Shaped r c
      ∧ ∀ i j, i < r → j < c → R.entry i j = others.foldl (fun acc m => acc - m.entry i j) 0 := by
  have hsize : (getSize a.rows a.cols).toNat = r * c := by
    unfold getSize
    rw [ha.1, ha.2.1, ← Nat.cast_mul, Int.toNat_natCast]
  have hrn : a.rows.toNat = r := by rw [ha.1, Int.toNat_natCast]
  have hcn : a.cols.toNat = c := by rw [ha.2.1, Int.toNat_natCast]
  have key := foldl_range_inv
    (fun st (resRow : Nat) => (List.range c).foldl
      (fun (st : ResSt) (resCol : Nat) =>
        storeEntry st resRow resCol
          (opSubSum (st.pMxRes :: others) ((others.length + 1 : Nat) : Int) resRow resCol))
      st)
    (fun i (st : ResSt) => st.pMxRes.rows = (r : Int) ∧ st.pMxRes.cols = (c : Int)
      ∧ r * c ≤ st.pMxRes.entries.length
      ∧ FilledTo st.pMxRes.entries (fun i j => i * c + j)
          (fun i j => others.foldl (fun acc m => acc - m.entry i j) 0) c i 0
      ∧ ∀ i' j', i' < r → j' < c → ¬ (i' < i ∨ (i' = i ∧ j' < 0)) →
          st.pMxRes.entries.getD (i' * c + j') 0 = 0)
    ⟨⟨(List.range (r * c)).foldl (fun es (i : Nat) => wr es (i : Int) 0) a.entries,
        a.rows, a.cols, 1⟩, 1, Boolean.TRUE⟩ r
    ⟨ha.1, ha.2.1, by
        show r * c ≤ List.length (List.foldl _ _ _)
        rw [foldl_wr_length _ (fun _ _ => 0)]
        exact ha.2.2,
      FilledTo.zero _ _ _ _,
      fun i' j' hi' hj' _ => zeroLoop_getD (r * c) a.entries ha.2.2 _ (idx_lt hi' hj')⟩ ?_
  · obtain ⟨k1, k2, k3, k4, _⟩ := key
    apply Exists.intro
    refine ⟨?_, ?_, ?_⟩
    · unfold matrix_opSub_self
      rw [adjustMatrixDims_self]
    · exact ⟨by simpa only [hsize, hrn, hcn] using k1, by simpa only [hsize, hrn, hcn] using k2,
        by simpa only [hsize, hrn, hcn] using k3⟩
    · intro i j hi hj
      refine Eq.trans (entry_eq _ (by simpa only [hsize, hrn, hcn] using k1)
        (by simpa only [hsize, hrn, hcn] using k2) hi hj) ?_
      simpa only [hsize, hrn, hcn] using k4 i j hj (Or.inl hi)
  · intro i st hi ⟨g1, g2, g3, g4, g5⟩
    have inner := foldl_range_inv
      (fun (st : ResSt) (resCol : Nat) =>
        storeEntry st (i : Int) resCol
          (opSubSum (st.pMxRes :: others) ((others.length + 1 : Nat) : Int) (i : Int) resCol))
      (fun k (s : ResSt) => s.pMxRes.rows = (r : Int) ∧ s.pMxRes.cols = (c : Int)
        ∧ r * c ≤ s.pMxRes.entries.length
        ∧ FilledTo s.pMxRes.entries (fun i j => i * c + j)
            (fun i j => others.foldl (fun acc m => acc - m.entry i j) 0) c i k
        ∧ ∀ i' j', i' < r → j' < c → ¬ (i' < i ∨ (i' = i ∧ j' < k)) →
            s.pMxRes.entries.getD (i' * c + j') 0 = 0)
      st c ⟨g1, g2, g3, g4, g5⟩ ?_
    · obtain ⟨q1, q2, q3, q4, q5⟩ := inner
      refine ⟨q1, q2, q3, q4.nextRow, ?_⟩
      intro i' j' hi' hj' hnot
      refine q5 i' j' hi' hj' ?_
      intro hh
      apply hnot
      rcases hh with hh | ⟨hh, _⟩
      · exact Or.inl (by omega)
      · exact Or.inl (by omega)
    · intro k s hk ⟨q1, q2, q3, q4, q5⟩
      have hsum : opSubSum (s.pMxRes :: others) ((others.length + 1 : Nat) : Int) (i : Int)
          (k : Int) = others.foldl (fun acc m => acc - m.entry i k) 0 := by
        have hall' : ∀ m ∈ s.pMxRes :: others, m.Shaped r c := by
          intro m hm
          rcases List.mem_cons.mp hm with e | e
          · rw [e]
            exact ⟨q1, q2, q3⟩
          · exact hall m e
        have := opSubSum_eq s.pMxRes others hall' hi hk
        rw [List.length_cons] at this
        rw [this, entry_eq _ q1 q2 hi hk, q5 i k hi hk (by omega)]
      simp only [storeEntry, hsum, at_natCast s.pMxRes q1 q2 hi hk, wr_natCast]
      refine ⟨q1, q2, ?_, ?_, ?_⟩
      · rw [List.length_set]
        exact q3
      · refine FilledTo.step q4 ?_ ?_ _ rfl
        · have := idx_lt hi hk
          omega
        · intro i' j' hj' hpos e
          have := idx_inj hj' hk e
          omega
      · intro i' j' hi' hj' hnot
        rw [getD_set_ne]
        · exact q5 i' j' hi' hj' (fun hh => hnot (by
            rcases hh with hh | ⟨hh, hh2⟩
            · exact Or.inl hh
            · exact Or.inr ⟨hh, by omega⟩))
        · intro e
          have := idx_inj hk hj' e
          exact hnot (Or.inr ⟨this.1.symm, by omega⟩)

/-! ## The claims -/

/-- C1: for every `n ≥ 1` and every `n x n` matrix `A`, when no allocation fails,
`matrix_opDet` sets the status to `SUCCESS` and returns the determinant of `A`, the
signed sum over all permutations of the products of entries; `det([[1,2],[3,4]]) = -2`
and `det([[1,2,3],[4,5,6],[7,8,10]]) = -3`. -/
theorem C1_matrix_opDet_determinant :
    (∀ (n : Nat) (A : Mx) (h : Heap), 1 ≤ n → A.Shaped n n → h.ok →
      (matrix_opDet A h).2.1 = Status.SUCCESS
      ∧ (matrix_opDet A h).1
          = ∑ σ : Equiv.Perm (Fin n),
              ((Equiv.Perm.sign σ : ℤ) : ℚ) * ∏ i : Fin n, A.entry (σ i).val i.val)
    ∧ (matrix_opDet ⟨[1, 2, 3, 4], 2, 2, 1⟩ ⟨[], 0, 0⟩).1 = -2
    ∧ (matrix_opDet ⟨[1, 2, 3, 4, 5, 6, 7, 8, 10], 3, 3, 1⟩ ⟨[], 0, 0⟩).1 = -3 := by
  have gen : ∀ (n : Nat) (A : Mx) (h : Heap), 1 ≤ n → A.Shaped n n → h.ok →
      (matrix_opDet A h).2.1 = Status.SUCCESS
      ∧ (matrix_opDet A h).1 = Matrix.det (A.toMatrix n n) := by
    intro n A h hn hA hok
    obtain ⟨v, s, _, _⟩ := (matrix_opDet_spec n hn A hA h).of_ok hok
    exact ⟨s, v⟩
  refine ⟨?_, ?_, ?_⟩
  · intro n A h hn hA hok
    obtain ⟨s, v⟩ := gen n A h hn hA hok
    refine ⟨s, ?_⟩
    rw [v, Matrix.det_apply']
    rfl
  · rw [(gen 2 ⟨[1, 2, 3, 4], 2, 2, 1⟩ ⟨[], 0, 0⟩ (by decide) (by decide) (by decide)).2,
      Matrix.det_fin_two]
    simp [Mx.toMatrix, Mx.entry, matrix_getEntry, at_, rd]
    norm_num
  · rw [(gen 3 ⟨[1, 2, 3, 4, 5, 6, 7, 8, 10], 3, 3, 1⟩ ⟨[], 0, 0⟩ (by decide) (by decide)
      (by decide)).2, Matrix.det_fin_three]
    simp [Mx.toMatrix, Mx.entry, matrix_getEntry, at_, rd]
    norm_num

/-- Witness of C1: a `2 x 2` matrix, with an allocator whose next requests succeed. -/
theorem C1_witness :
    (matrix_opDet ⟨[2, 0, 1, 3], 2, 2, 1⟩ ⟨[true, true], 0, 0⟩).2.1 = Status.SUCCESS
    ∧ (matrix_opDet ⟨[2, 0, 1, 3], 2, 2, 1⟩ ⟨[true, true], 0, 0⟩).1
        = ∑ σ : Equiv.Perm (Fin 2), ((Equiv.Perm.sign σ : ℤ) : ℚ)
            * ∏ i : Fin 2, (⟨[2, 0, 1, 3], 2, 2, 1⟩ : Mx).entry (σ i).val i.val :=
  C1_matrix_opDet_determinant.1 2 ⟨[2, 0, 1, 3], 2, 2, 1⟩ ⟨[true, true], 0, 0⟩
    (by decide) (by decide) (by decide)

/-- C2: for every `n ≥ 1` and every `n x n` matrix `A` with `det(A) ≠ 0`, when no
allocation fails, `matrix_opInv` succeeds and `matrix_opMult(A, result)` is the
`n x n` identity matrix (exactly, entries being exact numbers). -/
theorem C2_matrix_opInv_right_inverse (n : Nat) (A : Mx) (res res2 : Option Mx) (h : Heap)
    (hn : 1 ≤ n) (hA : A.Shaped n n) (hdet : Matrix.det (A.toMatrix n n) ≠ 0)
    (hres : ValidHandle res) (hres2 : ValidHandle res2) (hok : h.ok) :
    ∃ inv h1, matrix_opInv A res h = (Status.SUCCESS, Boolean.FALSE, some inv, h1)
      ∧ ∃ P h2, matrix_opMult A inv res2 h1 = (Status.SUCCESS, some P, h2)
        ∧ P.rows = (n : Int) ∧ P.cols = (n : Int)
        ∧ ∀ i j : Nat, i < n → j < n →
            matrix_getEntry P (i : Int) (j : Int)
              = (Status.SUCCESS, if i = j then 1 else 0) := by
  obtain ⟨inv, h1, e1, k1, s1, m1⟩ := matrix_opInv_ok A n hn hA hdet res hres h hok
  obtain ⟨P, h2, e2, _, s2, m2⟩ := matrix_opMult_toMatrix A inv hA s1 res2 hres2 h1 k1
  refine ⟨inv, h1, e1, P, h2, e2, s2.1, s2.2.1, ?_⟩
  intro i j hi hj
  rw [getEntry_eq P s2.1 s2.2.1 hi hj]
  congr 1
  have hone : P.toMatrix n n = 1 := by
    rw [m2, m1, Matrix.mul_smul, Matrix.mul_adjugate, smul_smul, inv_mul_cancel₀ hdet, one_smul]
  rw [entry_of_toMatrix hone hi hj, Matrix.one_apply]
  simp only [Fin.mk.injEq]

/-- Witness of C2: the matrix `[[2,1],[1,1]]`, of determinant 1, with empty result handles. -/
theorem C2_witness :
    ∃ inv h1, matrix_opInv ⟨[2, 1, 1, 1], 2, 2, 1⟩ none ⟨[], 0, 0⟩
        = (Status.SUCCESS, Boolean.FALSE, some inv, h1)
      ∧ ∃ P h2, matrix_opMult ⟨[2, 1, 1, 1], 2, 2, 1⟩ inv none h1 = (Status.SUCCESS, some P, h2)
        ∧ P.rows = ((2 : Nat) : Int) ∧ P.cols = ((2 : Nat) : Int)
        ∧ ∀ i j : Nat, i < 2 → j < 2 →
            matrix_getEntry P (i : Int) (j : Int)
              = (Status.SUCCESS, if i = j then 1 else 0) :=
  C2_matrix_opInv_right_inverse 2 ⟨[2, 1, 1, 1], 2, 2, 1⟩ none none ⟨[], 0, 0⟩
    (by decide) (by decide)
    (by
      rw [Matrix.det_fin_two]
      simp [Mx.toMatrix, Mx.entry, matrix_getEntry, at_, rd]
      norm_num)
    validHandle_none validHandle_none (by decide)

/-- C3: for every `n ≥ 1` and all `n x n` matrices `A` and `B`, the determinant of
`matrix_opMult(A, B)` equals `det(A) * det(B)` (exactly, entries being exact numbers;
the determinants are the values `matrix_opDet` returns when no allocation fails). -/
theorem C3_det_mult (n : Nat) (A B : Mx) (res : Option Mx) (h hP hA hB : Heap)
    (hn : 1 ≤ n) (sA : A.Shaped n n) (sB : B.Shaped n n) (hres : ValidHandle res)
    (hok : h.ok) (okP : hP.ok) (okA : hA.ok) (okB : hB.ok) :
    ∃ P h1, matrix_opMult A B res h = (Status.SUCCESS, some P, h1)
      ∧ (matrix_opDet P hP).2.1 = Status.SUCCESS
      ∧ (matrix_opDet P hP).1 = (matrix_opDet A hA).1 * (matrix_opDet B hB).1 := by
  obtain ⟨P, h1, e, _, sP, mP⟩ := matrix_opMult_toMatrix A B sA sB res hres h hok
  obtain ⟨vP, stP, _, _⟩ := (matrix_opDet_spec n hn P sP hP).of_ok okP
  obtain ⟨vA, _, _, _⟩ := (matrix_opDet_spec n hn A sA hA).of_ok okA
  obtain ⟨vB, _, _, _⟩ := (matrix_opDet_spec n hn B sB hB).of_ok okB
  exact ⟨P, h1, e, stP, by rw [vP, vA, vB, mP, Matrix.det_mul]⟩

/-- Witness of C3: two `2 x 2` matrices and an empty result handle. -/
theorem C3_witness :
    ∃ P h1, matrix_opMult ⟨[1, 2, 3, 4], 2, 2, 1⟩ ⟨[0, 1, 1, 0], 2, 2, 1⟩ none ⟨[], 0, 0⟩
        = (Status.SUCCESS, some P, h1)
      ∧ (matrix_opDet P ⟨[], 0, 0⟩).2.1 = Status.SUCCESS
      ∧ (matrix_opDet P ⟨[], 0, 0⟩).1
          = (matrix_opDet ⟨[1, 2, 3, 4], 2, 2, 1⟩ ⟨[], 0, 0⟩).1
            * (matrix_opDet ⟨[0, 1, 1, 0], 2, 2, 1⟩ ⟨[], 0, 0⟩).1 :=
  C3_det_mult 2 ⟨[1, 2, 3, 4], 2, 2, 1⟩ ⟨[0, 1, 1, 0], 2, 2, 1⟩ none ⟨[], 0, 0⟩ ⟨[], 0, 0⟩
    ⟨[], 0, 0⟩ ⟨[], 0, 0⟩ (by decide) (by decide) (by decide) validHandle_none
    (by decide) (by decide) (by decide) (by decide)

/-- C4: for every `a` (`r x k`) and `b` (`k x c`) and a result handle that is empty or
holds a matrix of any shape, when no allocation fails `matrix_opMult` returns `SUCCESS`
and the result has `r` rows, `c` columns and entry `(i, j)` equal to the sum over
`t < k` of `a(i,t) * b(t,j)`; `mult([[1,2,3],[4,5,6]], [[7,8],[9,10],[11,12]])` is
`[[58,64],[139,154]]`. -/
theorem C4_matrix_opMult_entries :
    (∀ (r k c : Nat) (a b : Mx) (res : Option Mx) (h : Heap),
      a.Shaped r k → b.Shaped k c → ValidHandle res → h.ok →
      ∃ R h1, matrix_opMult a b res h = (Status.SUCCESS, some R, h1)
        ∧ R.rows = (r : Int) ∧ R.cols = (c : Int)
        ∧ ∀ i j : Nat, i < r → j < c →
            matrix_getEntry R (i : Int) (j : Int)
              = (Status.SUCCESS, ∑ t in Finset.range k, a.entry i t * b.entry t j))
    ∧ ∃ R h1, matrix_opMult ⟨[1, 2, 3, 4, 5, 6], 2, 3, 1⟩ ⟨[7, 8, 9, 10, 11, 12], 3, 2, 2⟩
          none ⟨[], 0, 0⟩ = (Status.SUCCESS, some R, h1)
        ∧ R.rows = 2 ∧ R.cols = 2
        ∧ matrix_getEntry R 0 0 = (Status.SUCCESS, 58)
        ∧ matrix_getEntry R 0 1 = (Status.SUCCESS, 64)
        ∧ matrix_getEntry R 1 0 = (Status.SUCCESS, 139)
        ∧ matrix_getEntry R 1 1 = (Status.SUCCESS, 154) := by
  have gen : ∀ (r k c : Nat) (a b : Mx) (res : Option Mx) (h : Heap),
      a.Shaped r k → b.Shaped k c → ValidHandle res → h.ok →
      ∃ R h1, matrix_opMult a b res h = (Status.SUCCESS, some R, h1)
        ∧ R.rows = (r : Int) ∧ R.cols = (c : Int)
        ∧ ∀ i j : Nat, i < r → j < c →
            matrix_getEntry R (i : Int) (j : Int)
              = (Status.SUCCESS, ∑ t in Finset.range k, a.entry i t * b.entry t j) := by
    intro r k c a b res h ha hb hres hok
    obtain ⟨R, h1, e, _, _, s, hent⟩ := matrix_opMult_ok a b ha hb res hres h hok
    refine ⟨R, h1, e, s.1, s.2.1, ?_⟩
    intro i j hi hj
    rw [getEntry_eq R s.1 s.2.1 hi hj, hent i j hi hj]
  refine ⟨gen, ?_⟩
  obtain ⟨R, h1, e, hr, hc, hent⟩ := gen 2 3 2 ⟨[1, 2, 3, 4, 5, 6], 2, 3, 1⟩
    ⟨[7, 8, 9, 10, 11, 12], 3, 2, 2⟩ none ⟨[], 0, 0⟩ (by decide) (by decide) validHandle_none
    (by decide)
  refine ⟨R, h1, e, hr, hc, ?_, ?_, ?_, ?_⟩
  · have := hent 0 0 (by decide) (by decide)
    simp only [Nat.cast_zero] at this
    rw [this]
    simp [Finset.sum_range_succ, Mx.entry, matrix_getEntry, at_, rd]
    norm_num
  · have := hent 0 1 (by decide) (by decide)
    simp only [Nat.cast_zero, Nat.cast_one] at this
    rw [this]
    simp [Finset.sum_range_succ, Mx.entry, matrix_getEntry, at_, rd]
    norm_num
  · have := hent 1 0 (by decide) (by decide)
    simp only [Nat.cast_zero, Nat.cast_one] at this
    rw [this]
    simp [Finset.sum_range_succ, Mx.entry, matrix_getEntry, at_, rd]
    norm_num
  · have := hent 1 1 (by decide) (by decide)
    simp only [Nat.cast_one] at this
    rw [this]
    simp [Finset.sum_range_succ, Mx.entry, matrix_getEntry, at_, rd]
    norm_num

/-- Witness of C4: a `1 x 2` by `2 x 1` product written into a handle holding a `2 x 2` matrix. -/
theorem C4_witness :
    ∃ R h1, matrix_opMult ⟨[1, 2], 1, 2, 1⟩ ⟨[3, 4], 2, 1, 1⟩ (some ⟨[9, 9, 9, 9], 2, 2, 1⟩)
        ⟨[], 0, 0⟩ = (Status.SUCCESS, some R, h1)
      ∧ R.rows = ((1 : Nat) : Int) ∧ R.cols = ((1 : Nat) : Int)
      ∧ ∀ i j : Nat, i < 1 → j < 1 →
          matrix_getEntry R (i : Int) (j : Int)
            = (Status.SUCCESS, ∑ t in Finset.range 2,
                (⟨[1, 2], 1, 2, 1⟩ : Mx).entry i t * (⟨[3, 4], 2, 1, 1⟩ : Mx).entry t j) :=
  C4_matrix_opMult_entries.1 1 2 1 ⟨[1, 2], 1, 2, 1⟩ ⟨[3, 4], 2, 1, 1⟩
    (some ⟨[9, 9, 9, 9], 2, 2, 1⟩) ⟨[], 0, 0⟩ (by decide) (by decide)
    (by decide) (by decide)

/-- C5 (as stated) fails on the code: the identity matrix has a non-zero
determinant and `matrix_opInv` succeeds on it, yet the flag it reports is `FALSE`;
the singular matrix `[[1,2],[2,4]]` has determinant 0 and the flag reported is `TRUE`. -/
theorem C5_counterexample :
    (Matrix.det ((⟨[1, 0, 0, 1], 2, 2, 1⟩ : Mx).toMatrix 2 2) ≠ 0
      ∧ (matrix_opInv ⟨[1, 0, 0, 1], 2, 2, 1⟩ none ⟨[], 0, 0⟩).1 = Status.SUCCESS
      ∧ (matrix_opInv ⟨[1, 0, 0, 1], 2, 2, 1⟩ none ⟨[], 0, 0⟩).2.1 ≠ Boolean.TRUE)
    ∧ (Matrix.det ((⟨[1, 2, 2, 4], 2, 2, 1⟩ : Mx).toMatrix 2 2) = 0
      ∧ (matrix_opInv ⟨[1, 2, 2, 4], 2, 2, 1⟩ none ⟨[], 0, 0⟩).2.1 ≠ Boolean.FALSE) := by
  have d1 : Matrix.det ((⟨[1, 0, 0, 1], 2, 2, 1⟩ : Mx).toMatrix 2 2) ≠ 0 := by
    rw [Matrix.det_fin_two]
    simp [Mx.toMatrix, Mx.entry, matrix_getEntry, at_, rd]
  have d2 : Matrix.det ((⟨[1, 2, 2, 4], 2, 2, 1⟩ : Mx).toMatrix 2 2) = 0 := by
    rw [Matrix.det_fin_two]
    simp [Mx.toMatrix, Mx.entry, matrix_getEntry, at_, rd]
    norm_num
  refine ⟨⟨d1, ?_⟩, d2, ?_⟩
  · obtain ⟨R, h1, e, _⟩ := matrix_opInv_ok ⟨[1, 0, 0, 1], 2, 2, 1⟩ 2 (by decide) (by decide) d1
      none validHandle_none ⟨[], 0, 0⟩ (by decide)
    rw [e]
    exact ⟨rfl, fun hh => Boolean.noConfusion hh⟩
  · rcases matrix_opInv_cases ⟨[1, 2, 2, 4], 2, 2, 1⟩ 2 (by decide) (by decide) none
      validHandle_none ⟨[], 0, 0⟩ with ⟨_, _, _, c4⟩ | ⟨_, _, _, c4, _⟩ | ⟨_, c2, _⟩
    · exact absurd (by decide) c4
    · rw [c4]; decide
    · exact absurd d2 c2

/-- C5 (amended): for every square matrix `a`, when no allocation fails, the flag
`*pMxIsInvertible` reported by `matrix_opInv` is `TRUE` when `det(a) = 0` (with
return value `FAILURE`), and `FALSE` when `det(a) ≠ 0`, in which case the call
returns `SUCCESS` and the result holds the inverse, adjugate over determinant;
`invert([[1,0],[0,1]])` reports the flag `FALSE` with result `[[1,0],[0,1]]`. -/
theorem C5_matrix_opInv_flag :
    (∀ (n : Nat) (a : Mx) (res : Option Mx) (h : Heap),
      1 ≤ n → a.Shaped n n → ValidHandle res → h.ok →
      (Matrix.det (a.toMatrix n n) = 0 →
        (matrix_opInv a res h).1 = Status.FAILURE
        ∧ (matrix_opInv a res h).2.1 = Boolean.TRUE)
      ∧ (Matrix.det (a.toMatrix n n) ≠ 0 →
        (matrix_opInv a res h).1 = Status.SUCCESS
        ∧ (matrix_opInv a res h).2.1 = Boolean.FALSE
        ∧ ∃ R, (matrix_opInv a res h).2.2.1 = some R ∧ R.rows = (n : Int) ∧ R.cols = (n : Int)
          ∧ R.toMatrix n n
              = (Matrix.det (a.toMatrix n n))⁻¹ • Matrix.adjugate (a.toMatrix n n)))
    ∧ ∃ R h1, matrix_opInv ⟨[1, 0, 0, 1], 2, 2, 1⟩ none ⟨[], 0, 0⟩
          = (Status.SUCCESS, Boolean.FALSE, some R, h1)
        ∧ R.rows = 2 ∧ R.cols = 2
        ∧ matrix_getEntry R 0 0 = (Status.SUCCESS, 1)
        ∧ matrix_getEntry R 0 1 = (Status.SUCCESS, 0)
        ∧ matrix_getEntry R 1 0 = (Status.SUCCESS, 0)
        ∧ matrix_getEntry R 1 1 = (Status.SUCCESS, 1) := by
  refine ⟨?_, ?_⟩
  · intro n a res h hn ha hres hok
    refine ⟨?_, ?_⟩
    · intro hz
      rcases matrix_opInv_cases a n hn ha res hres h with
        ⟨_, _, _, c4⟩ | ⟨_, _, c3, c4, _⟩ | ⟨_, c2, _⟩
      · exact absurd hok c4
      · exact ⟨c3, c4⟩
      · exact absurd hz c2
    · intro hnz
      obtain ⟨R, h1, e, _, s, m⟩ := matrix_opInv_ok a n hn ha hnz res hres h hok
      rw [e]
      exact ⟨rfl, rfl, R, rfl, s.1, s.2.1, m⟩
  · have d1 : Matrix.det ((⟨[1, 0, 0, 1], 2, 2, 1⟩ : Mx).toMatrix 2 2) ≠ 0 := by
      rw [Matrix.det_fin_two]
      simp [Mx.toMatrix, Mx.entry, matrix_getEntry, at_, rd]
    obtain ⟨R, h1, e, _, s, m⟩ := matrix_opInv_ok ⟨[1, 0, 0, 1], 2, 2, 1⟩ 2 (by decide)
      (by decide) d1 none validHandle_none ⟨[], 0, 0⟩ (by decide)
    have hr : R.rows = 2 := s.1
    have hc : R.cols = 2 := s.2.1
    have g := fun (i j : Nat) (hi : i < 2) (hj : j < 2) =>
      (getEntry_eq R s.1 s.2.1 hi hj).trans
        (congrArg (Prod.mk Status.SUCCESS) (entry_of_toMatrix m hi hj))
    have g00 := g 0 0 (by decide) (by decide)
    have g01 := g 0 1 (by decide) (by decide)
    have g10 := g 1 0 (by decide) (by decide)
    have g11 := g 1 1 (by decide) (by decide)
    simp only [Nat.cast_zero, Nat.cast_one] at g00 g01 g10 g11
    refine ⟨R, h1, e, hr, hc, ?_, ?_, ?_, ?_⟩
    · rw [g00, Matrix.det_fin_two, Matrix.adjugate_fin_two]
      simp [Mx.toMatrix, Mx.entry, matrix_getEntry, at_, rd]
    · rw [g01, Matrix.det_fin_two, Matrix.adjugate_fin_two]
      simp [Mx.toMatrix, Mx.entry, matrix_getEntry, at_, rd]
    · rw [g10, Matrix.det_fin_two, Matrix.adjugate_fin_two]
      simp [Mx.toMatrix, Mx.entry, matrix_getEntry, at_, rd]
    · rw [g11, Matrix.det_fin_two, Matrix.adjugate_fin_two]
      simp [Mx.toMatrix, Mx.entry, matrix_getEntry, at_, rd]

/-- Witness of the amended C5 at the singular matrix `[[1,2],[2,4]]`. -/
theorem C5_witness :
    (Matrix.det ((⟨[1, 2, 2, 4], 2, 2, 1⟩ : Mx).toMatrix 2 2) = 0 →
      (matrix_opInv ⟨[1, 2, 2, 4], 2, 2, 1⟩ none ⟨[], 0, 0⟩).1 = Status.FAILURE
      ∧ (matrix_opInv ⟨[1, 2, 2, 4], 2, 2, 1⟩ none ⟨[], 0, 0⟩).2.1 = Boolean.TRUE)
    ∧ (Matrix.det ((⟨[1, 2, 2, 4], 2, 2, 1⟩ : Mx).toMatrix 2 2) ≠ 0 →
      (matrix_opInv ⟨[1, 2, 2, 4], 2, 2, 1⟩ none ⟨[], 0, 0⟩).1 = Status.SUCCESS
      ∧ (matrix_opInv ⟨[1, 2, 2, 4], 2, 2, 1⟩ none ⟨[], 0, 0⟩).2.1 = Boolean.FALSE
      ∧ ∃ R, (matrix_opInv ⟨[1, 2, 2, 4], 2, 2, 1⟩ none ⟨[], 0, 0⟩).2.2.1 = some R
        ∧ R.rows = ((2 : Nat) : Int) ∧ R.cols = ((2 : Nat) : Int)
        ∧ R.toMatrix 2 2
            = (Matrix.det ((⟨[1, 2, 2, 4], 2, 2, 1⟩ : Mx).toMatrix 2 2))⁻¹
              • Matrix.adjugate ((⟨[1, 2, 2, 4], 2, 2, 1⟩ : Mx).toMatrix 2 2)) :=
  C5_matrix_opInv_flag.1 2 ⟨[1, 2, 2, 4], 2, 2, 1⟩ none ⟨[], 0, 0⟩ (by decide) (by decide)
    validHandle_none (by decide)

/-- C6: for every square matrix, `matrix_opInv` distinguishes its three outcomes as
its header documents: it returns `SUCCESS` with `*pMxIsInvertible == FALSE` exactly
when no allocation of the call failed and the determinant is non-zero; `FAILURE` with
`TRUE` exactly when no allocation failed and the determinant is 0; `FAILURE` with
`FALSE` exactly when an allocation failed. -/
theorem C6_matrix_opInv_outcomes (n : Nat) (a : Mx) (res : Option Mx) (h : Heap)
    (hn : 1 ≤ n) (ha : a.Shaped n n) (hres : ValidHandle res) :
    (((matrix_opInv a res h).1 = Status.SUCCESS ∧ (matrix_opInv a res h).2.1 = Boolean.FALSE)
        ↔ ((matrix_opInv a res h).2.2.2.failed = h.failed
            ∧ Matrix.det (a.toMatrix n n) ≠ 0))
    ∧ (((matrix_opInv a res h).1 = Status.FAILURE ∧ (matrix_opInv a res h).2.1 = Boolean.TRUE)
        ↔ ((matrix_opInv a res h).2.2.2.failed = h.failed
            ∧ Matrix.det (a.toMatrix n n) = 0))
    ∧ (((matrix_opInv a res h).1 = Status.FAILURE ∧ (matrix_opInv a res h).2.1 = Boolean.FALSE)
        ↔ h.failed < (matrix_opInv a res h).2.2.2.failed) := by
  rcases matrix_opInv_cases a n hn ha res hres h with
    ⟨c1, c2, c3, _⟩ | ⟨c1, c2, c3, c4, _⟩ | ⟨c1, c2, c3, c4, _⟩
  · rw [c2, c3]
    refine ⟨⟨fun hh => ?_, fun hh => ?_⟩, ⟨fun hh => ?_, fun hh => ?_⟩, fun _ => c1, fun _ => ⟨rfl, rfl⟩⟩
    · exact absurd hh.1 (by decide)
    · omega
    · exact absurd hh.2 (by decide)
    · omega
  · rw [c3, c4]
    refine ⟨⟨fun hh => ?_, fun hh => ?_⟩, ⟨fun _ => ⟨c1, c2⟩, fun _ => ⟨rfl, rfl⟩⟩,
      fun hh => ?_, fun hh => ?_⟩
    · exact absurd hh.1 (by decide)
    · exact absurd c2 hh.2
    · exact absurd hh.2 (by decide)
    · omega
  · rw [c3, c4]
    refine ⟨⟨fun _ => ⟨c1, c2⟩, fun _ => ⟨rfl, rfl⟩⟩, ⟨fun hh => ?_, fun hh => ?_⟩,
      fun hh => ?_, fun hh => ?_⟩
    · exact absurd hh.1 (by decide)
    · exact absurd hh.2 c2
    · exact absurd hh.1 (by decide)
    · omega

/-- Witness of C6: a `3 x 3` matrix and an allocator whose fourth request fails. -/
theorem C6_witness :
    (((matrix_opInv ⟨[1, 2, 3, 4, 5, 6, 7, 8, 10], 3, 3, 2⟩ none ⟨[true, true, true, false], 0, 0⟩).1
          = Status.SUCCESS
        ∧ (matrix_opInv ⟨[1, 2, 3, 4, 5, 6, 7, 8, 10], 3, 3, 2⟩ none
            ⟨[true, true, true, false], 0, 0⟩).2.1 = Boolean.FALSE)
        ↔ ((matrix_opInv ⟨[1, 2, 3, 4, 5, 6, 7, 8, 10], 3, 3, 2⟩ none
              ⟨[true, true, true, false], 0, 0⟩).2.2.2.failed
              = (⟨[true, true, true, false], 0, 0⟩ : Heap).failed
            ∧ Matrix.det ((⟨[1, 2, 3, 4, 5, 6, 7, 8, 10], 3, 3, 2⟩ : Mx).toMatrix 3 3) ≠ 0))
    ∧ (((matrix_opInv ⟨[1, 2, 3, 4, 5, 6, 7, 8, 10], 3, 3, 2⟩ none
            ⟨[true, true, true, false], 0, 0⟩).1 = Status.FAILURE
        ∧ (matrix_opInv ⟨[1, 2, 3, 4, 5, 6, 7, 8, 10], 3, 3, 2⟩ none
            ⟨[true, true, true, false], 0, 0⟩).2.1 = Boolean.TRUE)
        ↔ ((matrix_opInv ⟨[1, 2, 3, 4, 5, 6, 7, 8, 10], 3, 3, 2⟩ none
              ⟨[true, true, true, false], 0, 0⟩).2.2.2.failed
              = (⟨[true, true, true, false], 0, 0⟩ : Heap).failed
            ∧ Matrix.det ((⟨[1, 2, 3, 4, 5, 6, 7, 8, 10], 3, 3, 2⟩ : Mx).toMatrix 3 3) = 0))
    ∧ (((matrix_opInv ⟨[1, 2, 3, 4, 5, 6, 7, 8, 10], 3, 3, 2⟩ none
            ⟨[true, true, true, false], 0, 0⟩).1 = Status.FAILURE
        ∧ (matrix_opInv ⟨[1, 2, 3, 4, 5, 6, 7, 8, 10], 3, 3, 2⟩ none
            ⟨[true, true, true, false], 0, 0⟩).2.1 = Boolean.FALSE)
        ↔ (⟨[true, true, true, false], 0, 0⟩ : Heap).failed
            < (matrix_opInv ⟨[1, 2, 3, 4, 5, 6, 7, 8, 10], 3, 3, 2⟩ none
                ⟨[true, true, true, false], 0, 0⟩).2.2.2.failed) :=
  C6_matrix_opInv_outcomes 3 ⟨[1, 2, 3, 4, 5, 6, 7, 8, 10], 3, 3, 2⟩ none
    ⟨[true, true, true, false], 0, 0⟩ (by decide) (by decide) validHandle_none

/-- C7: for every `k ≥ 1` and every sequence of `k` matrices of one shape `r x c`, and
a result handle that is empty or holds a matrix of any shape, when no allocation
fails `matrix_opAdd` returns `SUCCESS` and the result is `r x c` with entry `(i, j)`
the sum of the operands' entries `(i, j)` accumulated in operand order;
`add([[1,1],[1,1]], [[2,2],[2,2]], [[3,3],[3,3]]) = [[6,6],[6,6]]`. -/
theorem C7_matrix_opAdd_entries :
    (∀ (r c : Nat) (ops : List Mx) (res : Option Mx) (h : Heap),
      ops ≠ [] → (∀ m ∈ ops, m.Shaped r c) → ValidHandle res → h.ok →
      ∃ R h1, matrix_opAdd ops (ops.length : Int) res h = (Status.SUCCESS, some R, h1)
        ∧ R.rows = (r : Int) ∧ R.cols = (c : Int)
        ∧ ∀ i j : Nat, i < r → j < c →
            matrix_getEntry R (i : Int) (j : Int)
              = (Status.SUCCESS, ops.foldl (fun sum m => sum + m.entry i j) 0))
    ∧ ∃ R h1, matrix_opAdd
          [⟨[1, 1, 1, 1], 2, 2, 1⟩, ⟨[2, 2, 2, 2], 2, 2, 1⟩, ⟨[3, 3, 3, 3], 2, 2, 1⟩] 3
          none ⟨[], 0, 0⟩ = (Status.SUCCESS, some R, h1)
        ∧ R.rows = 2 ∧ R.cols = 2
        ∧ matrix_getEntry R 0 0 = (Status.SUCCESS, 6)
        ∧ matrix_getEntry R 0 1 = (Status.SUCCESS, 6)
        ∧ matrix_getEntry R 1 0 = (Status.SUCCESS, 6)
        ∧ matrix_getEntry R 1 1 = (Status.SUCCESS, 6) := by
  have gen : ∀ (r c : Nat) (ops : List Mx) (res : Option Mx) (h : Heap),
      ops ≠ [] → (∀ m ∈ ops, m.Shaped r c) → ValidHandle res → h.ok →
      ∃ R h1, matrix_opAdd ops (ops.length : Int) res h = (Status.SUCCESS, some R, h1)
        ∧ R.rows = (r : Int) ∧ R.cols = (c : Int)
        ∧ ∀ i j : Nat, i < r → j < c →
            matrix_getEntry R (i : Int) (j : Int)
              = (Status.SUCCESS, ops.foldl (fun sum m => sum + m.entry i j) 0) := by
    intro r c ops res h hne hall hres hok
    obtain ⟨R, h1, e, _, s, hent⟩ := matrix_opAdd_ok ops hne hall res hres h hok
    refine ⟨R, h1, e, s.1, s.2.1, ?_⟩
    intro i j hi hj
    rw [getEntry_eq R s.1 s.2.1 hi hj, hent i j hi hj, foldl_add_eq_sum, zero_add]
  refine ⟨gen, ?_⟩
  obtain ⟨R, h1, e, hr, hc, hent⟩ := gen 2 2
    [⟨[1, 1, 1, 1], 2, 2, 1⟩, ⟨[2, 2, 2, 2], 2, 2, 1⟩, ⟨[3, 3, 3, 3], 2, 2, 1⟩]
    none ⟨[], 0, 0⟩ (by simp) (by decide) validHandle_none (by decide)
  refine ⟨R, h1, e, hr, hc, ?_, ?_, ?_, ?_⟩
  · have := hent 0 0 (by decide) (by decide)
    simp only [Nat.cast_zero] at this
    rw [this]
    simp [Mx.entry, matrix_getEntry, at_, rd]
    norm_num
  · have := hent 0 1 (by decide) (by decide)
    simp only [Nat.cast_zero, Nat.cast_one] at this
    rw [this]
    simp [Mx.entry, matrix_getEntry, at_, rd]
    norm_num
  · have := hent 1 0 (by decide) (by decide)
    simp only [Nat.cast_zero, Nat.cast_one] at this
    rw [this]
    simp [Mx.entry, matrix_getEntry, at_, rd]
    norm_num
  · have := hent 1 1 (by decide) (by decide)
    simp only [Nat.cast_one] at this
    rw [this]
    simp [Mx.entry, matrix_getEntry, at_, rd]
    norm_num

/-- Witness of C7: two `1 x 2` operands added into a handle holding a `1 x 1` matrix. -/
theorem C7_witness :
    ∃ R h1, matrix_opAdd [⟨[1, 2], 1, 2, 1⟩, ⟨[3, 4], 1, 2, 1⟩]
        (([⟨[1, 2], 1, 2, 1⟩, ⟨[3, 4], 1, 2, 1⟩] : List Mx).length : Int)
        (some ⟨[0], 1, 1, 1⟩) ⟨[true], 0, 0⟩ = (Status.SUCCESS, some R, h1)
      ∧ R.rows = ((1 : Nat) : Int) ∧ R.cols = ((2 : Nat) : Int)
      ∧ ∀ i j : Nat, i < 1 → j < 2 →
          matrix_getEntry R (i : Int) (j : Int)
            = (Status.SUCCESS,
                ([⟨[1, 2], 1, 2, 1⟩, ⟨[3, 4], 1, 2, 1⟩] : List Mx).foldl
                  (fun sum m => sum + m.entry i j) 0) :=
  C7_matrix_opAdd_entries.1 1 2 [⟨[1, 2], 1, 2, 1⟩, ⟨[3, 4], 1, 2, 1⟩] (some ⟨[0], 1, 1, 1⟩)
    ⟨[true], 0, 0⟩ (by simp) (by decide)
    (by decide) (by decide)

/-- C8: for every `k ≥ 1`, every sequence of `k` matrices of one shape and every
permutation of that sequence, `matrix_opAdd` produces the same result entries: the
sum does not depend on operand order (exactly, entries being exact numbers). -/
theorem C8_matrix_opAdd_perm (r c : Nat) (ops ops' : List Mx) (res res' : Option Mx)
    (h h' : Heap) (hne : ops ≠ []) (hperm : ops.Perm ops') (hall : ∀ m ∈ ops, m.Shaped r c)
    (hres : ValidHandle res) (hres' : ValidHandle res') (hok : h.ok) (hok' : h'.ok) :
    ∃ R h1 R' h1', matrix_opAdd ops (ops.length : Int) res h = (Status.SUCCESS, some R, h1)
      ∧ matrix_opAdd ops' (ops'.length : Int) res' h' = (Status.SUCCESS, some R', h1')
      ∧ R.rows = R'.rows ∧ R.cols = R'.cols
      ∧ ∀ i j : Nat, i < r → j < c →
          matrix_getEntry R (i : Int) (j : Int) = matrix_getEntry R' (i : Int) (j : Int) := by
  have hne' : ops' ≠ [] := by
    intro hh
    rw [hh] at hperm
    exact hne hperm.eq_nil
  have hall' : ∀ m ∈ ops', m.Shaped r c := fun m hm => hall m (hperm.mem_iff.mpr hm)
  obtain ⟨R, h1, e, _, s, hent⟩ := matrix_opAdd_ok ops hne hall res hres h hok
  obtain ⟨R', h1', e', _, s', hent'⟩ := matrix_opAdd_ok ops' hne' hall' res' hres' h' hok'
  refine ⟨R, h1, R', h1', e, e', by rw [s.1, s'.1], by rw [s.2.1, s'.2.1], ?_⟩
  intro i j hi hj
  rw [getEntry_eq R s.1 s.2.1 hi hj, getEntry_eq R' s'.1 s'.2.1 hi hj, hent i j hi hj,
    hent' i j hi hj, (hperm.map (fun m => m.entry i j)).sum_eq]

/-- Witness of C8: three `1 x 2` operands and a rotation of them. -/
theorem C8_witness :
    ∃ R h1 R' h1', matrix_opAdd [⟨[1, 2], 1, 2, 1⟩, ⟨[3, 4], 1, 2, 1⟩, ⟨[5, 7], 1, 2, 1⟩]
          (([⟨[1, 2], 1, 2, 1⟩, ⟨[3, 4], 1, 2, 1⟩, ⟨[5, 7], 1, 2, 1⟩] : List Mx).length : Int)
          none ⟨[], 0, 0⟩ = (Status.SUCCESS, some R, h1)
      ∧ matrix_opAdd [⟨[5, 7], 1, 2, 1⟩, ⟨[1, 2], 1, 2, 1⟩, ⟨[3, 4], 1, 2, 1⟩]
          (([⟨[5, 7], 1, 2, 1⟩, ⟨[1, 2], 1, 2, 1⟩, ⟨[3, 4], 1, 2, 1⟩] : List Mx).length : Int)
          none ⟨[], 0, 0⟩ = (Status.SUCCESS, some R', h1')
      ∧ R.rows = R'.rows ∧ R.cols = R'.cols
      ∧ ∀ i j : Nat, i < 1 → j < 2 →
          matrix_getEntry R (i : Int) (j : Int) = matrix_getEntry R' (i : Int) (j : Int) :=
  C8_matrix_opAdd_perm 1 2 [⟨[1, 2], 1, 2, 1⟩, ⟨[3, 4], 1, 2, 1⟩, ⟨[5, 7], 1, 2, 1⟩]
    [⟨[5, 7], 1, 2, 1⟩, ⟨[1, 2], 1, 2, 1⟩, ⟨[3, 4], 1, 2, 1⟩] none none ⟨[], 0, 0⟩ ⟨[], 0, 0⟩
    (by simp) (by decide) (by decide) validHandle_none validHandle_none (by decide) (by decide)

/-- C9: for every `k ≥ 1` and every sequence of `k` matrices of one shape, when no
allocation fails `matrix_opSub` returns `SUCCESS` and result entry `(i, j)` equals
`operand[0](i,j) - operand[1](i,j) - ... - operand[k-1](i,j)` evaluated left to right;
with a single operand the result equals that operand. -/
theorem C9_matrix_opSub_entries (r c : Nat) (m0 : Mx) (rest : List Mx) (res : Option Mx)
    (h : Heap) (hall : ∀ m ∈ m0 :: rest, m.Shaped r c) (hres : ValidHandle res) (hok : h.ok) :
    ∃ R h1, matrix_opSub (m0 :: rest) ((m0 :: rest).length : Int) res h
        = (Status.SUCCESS, some R, h1)
      ∧ R.rows = (r : Int) ∧ R.cols = (c : Int)
      ∧ (∀ i j : Nat, i < r → j < c →
          matrix_getEntry R (i : Int) (j : Int)
            = (Status.SUCCESS, rest.foldl (fun acc m => acc - m.entry i j) (m0.entry i j)))
      ∧ (rest = [] → ∀ i j : Nat, i < r → j < c →
          matrix_getEntry R (i : Int) (j : Int) = matrix_getEntry m0 (i : Int) (j : Int)) := by
  obtain ⟨R, h1, e, _, s, hent⟩ := matrix_opSub_ok m0 rest hall res hres h hok
  have h0 := hall m0 (by simp)
  refine ⟨R, h1, e, s.1, s.2.1, ?_, ?_⟩
  · intro i j hi hj
    rw [getEntry_eq R s.1 s.2.1 hi hj, hent i j hi hj]
  · intro hnil i j hi hj
    rw [getEntry_eq R s.1 s.2.1 hi hj, getEntry_eq m0 h0.1 h0.2.1 hi hj, hent i j hi hj, hnil]
    rfl

/-- Witness of C9: three `1 x 2` operands. -/
theorem C9_witness :
    ∃ R h1, matrix_opSub
        (⟨[9, 8], 1, 2, 1⟩ :: [⟨[3, 4], 1, 2, 1⟩, ⟨[5, 7], 1, 2, 1⟩])
        (((⟨[9, 8], 1, 2, 1⟩ : Mx) :: [⟨[3, 4], 1, 2, 1⟩, ⟨[5, 7], 1, 2, 1⟩]).length : Int)
        none ⟨[], 0, 0⟩ = (Status.SUCCESS, some R, h1)
      ∧ R.rows = ((1 : Nat) : Int) ∧ R.cols = ((2 : Nat) : Int)
      ∧ (∀ i j : Nat, i < 1 → j < 2 →
          matrix_getEntry R (i : Int) (j : Int)
            = (Status.SUCCESS,
                ([⟨[3, 4], 1, 2, 1⟩, ⟨[5, 7], 1, 2, 1⟩] : List Mx).foldl
                  (fun acc m => acc - m.entry i j) ((⟨[9, 8], 1, 2, 1⟩ : Mx).entry i j)))
      ∧ (([⟨[3, 4], 1, 2, 1⟩, ⟨[5, 7], 1, 2, 1⟩] : List Mx) = [] →
          ∀ i j : Nat, i < 1 → j < 2 →
            matrix_getEntry R (i : Int) (j : Int)
              = matrix_getEntry ⟨[9, 8], 1, 2, 1⟩ (i : Int) (j : Int)) :=
  C9_matrix_opSub_entries 1 2 ⟨[9, 8], 1, 2, 1⟩ [⟨[3, 4], 1, 2, 1⟩, ⟨[5, 7], 1, 2, 1⟩] none
    ⟨[], 0, 0⟩ (by decide) validHandle_none (by decide)

/-- C10 (as stated) fails on the code in `double` arithmetic. For
`A = [[1 - 2^-27, 1 + 2^-27], [0, 0]]`, `matrix_opPow(A, 3)` has entry `(0,1)` equal to
`1 - 2^-27`, while `mult(mult(A,A),A)` has entry `(0,1)` equal to `1 - 2^-27 - 2^-53`:
the code computes `mult(A, mult(A,A))`, with `A` as the left operand, and rounding
makes the two orders differ. -/
theorem C10_counterexample :
    matrix_opPowRnd roundDouble ⟨[1 - 1 / 134217728, 1 + 1 / 134217728, 0, 0], 2, 2, 1⟩ 3 none
        ⟨[], 0, 0⟩
      = (Status.SUCCESS,
          some ⟨[9007199053414401 / 9007199254740992, 134217727 / 134217728, 0, 0], 2, 2, 1⟩,
          ⟨[], 2, 0⟩)
    ∧ matrix_opMultRnd roundDouble ⟨[1 - 1 / 134217728, 1 + 1 / 134217728, 0, 0], 2, 2, 1⟩
        ⟨[1 - 1 / 134217728, 1 + 1 / 134217728, 0, 0], 2, 2, 1⟩ none ⟨[], 0, 0⟩
      = (Status.SUCCESS, some ⟨[67108863 / 67108864, 1, 0, 0], 2, 2, 1⟩, ⟨[], 2, 0⟩)
    ∧ matrix_opMultRnd roundDouble ⟨[67108863 / 67108864, 1, 0, 0], 2, 2, 1⟩
        ⟨[1 - 1 / 134217728, 1 + 1 / 134217728, 0, 0], 2, 2, 1⟩ none ⟨[], 2, 0⟩
      = (Status.SUCCESS,
          some ⟨[9007199053414401 / 9007199254740992, 9007199187632127 / 9007199254740992,
                 0, 0], 2, 2, 1⟩,
          ⟨[], 4, 0⟩)
    ∧ matrix_getEntry
          ⟨[9007199053414401 / 9007199254740992, 134217727 / 134217728, 0, 0], 2, 2, 1⟩ 0 1
        ≠ matrix_getEntry
          ⟨[9007199053414401 / 9007199254740992, 9007199187632127 / 9007199254740992, 0, 0],
            2, 2, 1⟩ 0 1
    ∧ roundDouble (1 / 10) = 3602879701896397 / 36028797018963968 := by
  refine ⟨?_, ?_, ?_, ?_, ?_⟩ <;> decide!

/-- C10 (amended): for every square matrix `A`, when no allocation fails,
`matrix_opPow(A,1)` is a copy of `A`, `matrix_opPow(A,2)` is `mult(A,A)`,
`matrix_opPow(A,3)` is `mult(A, mult(A,A))`, and for every exponent `k ≥ 3`
`matrix_opPow(A,k)` is `A` multiplied by the running accumulator,
`mult(A, matrix_opPow(A,k-1))`: the same matrix object, entry for entry, whatever
rounding `rnd` the arithmetic applies (`roundDouble` for `double`s, `id` for exact
numbers). In exact arithmetic this has the same entries as
`mult(matrix_opPow(A,k-1), A)`. -/
theorem C10_matrix_opPow_left (rnd : ℚ → ℚ) (n : Nat) (A : Mx) (res : Option Mx) (h : Heap)
    (hA : A.Shaped n n) (hres : ValidHandle res) (hok : h.ok) :
    (matrix_opPowRnd rnd A 1 res h = matrix_copy res A h
      ∧ ∃ R h1, matrix_copy res A h = (Status.SUCCESS, some R, h1)
        ∧ R.rows = A.rows ∧ R.cols = A.cols ∧ R.maxLength = A.maxLength
        ∧ ∀ i j : Nat, i < n → j < n →
            matrix_getEntry R (i : Int) (j : Int) = matrix_getEntry A (i : Int) (j : Int))
    ∧ matrix_opPowRnd rnd A 2 res h = matrix_opMultRnd rnd A A res h
    ∧ (∃ P h1 M h2 M2 h3, matrix_opPowRnd rnd A 3 res h = (Status.SUCCESS, some P, h1)
        ∧ matrix_opMultRnd rnd A A none h = (Status.SUCCESS, some M, h2)
        ∧ matrix_opMultRnd rnd A M none h2 = (Status.SUCCESS, some M2, h3)
        ∧ P = M2)
    ∧ (∀ k : Nat, 3 ≤ k →
        ∃ P h1 Q h2 M h3, matrix_opPowRnd rnd A (k : Int) res h = (Status.SUCCESS, some P, h1)
          ∧ matrix_opPowRnd rnd A ((k : Int) - 1) none h = (Status.SUCCESS, some Q, h2)
          ∧ matrix_opMultRnd rnd A Q none h2 = (Status.SUCCESS, some M, h3)
          ∧ P = M)
    ∧ (matrix_opMultRnd id = matrix_opMult ∧ matrix_opPowRnd id = matrix_opPow)
    ∧ (∀ k : Nat, 3 ≤ k →
        ∃ P h1 Q h2 M h3, matrix_opPow A (k : Int) res h = (Status.SUCCESS, some P, h1)
          ∧ matrix_opPow A ((k : Int) - 1) none h = (Status.SUCCESS, some Q, h2)
          ∧ matrix_opMult Q A none h2 = (Status.SUCCESS, some M, h3)
          ∧ P.rows = M.rows ∧ P.cols = M.cols
          ∧ ∀ i j : Nat, i < n → j < n →
              matrix_getEntry P (i : Int) (j : Int) = matrix_getEntry M (i : Int) (j : Int)) := by
  refine ⟨⟨?_, ?_⟩, ?_, ?_, ?_, matrix_opPowRnd_id, ?_⟩
  · unfold matrix_opPowRnd
    rw [if_pos rfl]
  · obtain ⟨R, h1, e, _, s, ml, hent⟩ := matrix_copy_ok A hA res hres h hok
    refine ⟨R, h1, e, by rw [s.1, hA.1], by rw [s.2.1, hA.2.1], ml, ?_⟩
    intro i j hi hj
    rw [getEntry_eq R s.1 s.2.1 hi hj, getEntry_eq A hA.1 hA.2.1 hi hj, hent i j hi hj]
  · unfold matrix_opPowRnd
    rw [if_neg (by decide), if_pos rfl]
  · obtain ⟨h1, e, _⟩ := matrix_opPowRnd_fresh rnd A 3 (by decide) res (fun e => absurd e (by decide)) h hok
    obtain ⟨h2, eM, k2⟩ := matrix_opMultRnd_fresh rnd A A h hok
    obtain ⟨h3, eM2, _⟩ := matrix_opMultRnd_fresh rnd A (multRndFresh rnd A A) h2 k2
    exact ⟨_, h1, _, h2, _, h3, e, eM, eM2, rfl⟩
  · intro k hk
    obtain ⟨h1, e, _⟩ := matrix_opPowRnd_fresh rnd A k (by omega) res (fun e => absurd e (by omega)) h hok
    obtain ⟨h2, eQ, k2⟩ :=
      matrix_opPowRnd_fresh rnd A (k - 1) (by omega) none (fun _ => rfl) h hok
    have hcast : ((k - 1 : Nat) : Int) = (k : Int) - 1 := by omega
    rw [hcast] at eQ
    obtain ⟨h3, eM, _⟩ := matrix_opMultRnd_fresh rnd A _ h2 k2
    refine ⟨_, h1, _, h2, _, h3, e, eQ, eM, ?_⟩
    rw [← Function.iterate_succ_apply' (multRndFresh rnd A)]
    congr 1
    omega
  · have same : ∀ {R S : Mx}, R.Shaped n n → S.Shaped n n →
        R.toMatrix n n = S.toMatrix n n →
        R.rows = S.rows ∧ R.cols = S.cols ∧ ∀ i j : Nat, i < n → j < n →
          matrix_getEntry R (i : Int) (j : Int) = matrix_getEntry S (i : Int) (j : Int) := by
      intro R S sR sS hRS
      refine ⟨by rw [sR.1, sS.1], by rw [sR.2.1, sS.2.1], ?_⟩
      intro i j hi hj
      rw [getEntry_eq R sR.1 sR.2.1 hi hj, getEntry_eq S sS.1 sS.2.1 hi hj,
        entry_eq_of_toMatrix_eq hRS hi hj]
    intro k hk
    obtain ⟨P, h1, e, _, sP, mP⟩ := matrix_opPow_ok A hA k (by omega) res hres h hok
    obtain ⟨Q, h2, eQ, k2, sQ, mQ⟩ :=
      matrix_opPow_ok A hA (k - 1) (by omega) none validHandle_none h hok
    have hcast : ((k - 1 : Nat) : Int) = (k : Int) - 1 := by omega
    rw [hcast] at eQ
    obtain ⟨M, h3, eM, _, sM, mM⟩ :=
      matrix_opMult_toMatrix Q A sQ hA none validHandle_none h2 k2
    have hPM : P.toMatrix n n = M.toMatrix n n := by
      rw [mP, mM, mQ, ← pow_succ, Nat.sub_add_cancel (by omega)]
    obtain ⟨q1, q2, q3⟩ := same sP sM hPM
    exact ⟨P, h1, Q, h2, M, h3, e, eQ, eM, q1, q2, q3⟩

/-- Witness of C10 (amended): `A = [[1 - 2^-27, 1 + 2^-27], [0, 0]]` in `double`
arithmetic, an empty result handle, exponent 3. -/
theorem C10_witness :
    ∃ P h1 M h2 M2 h3,
      matrix_opPowRnd roundDouble ⟨[1 - 1 / 134217728, 1 + 1 / 134217728, 0, 0], 2, 2, 1⟩ 3
          none ⟨[], 0, 0⟩ = (Status.SUCCESS, some P, h1)
      ∧ matrix_opMultRnd roundDouble ⟨[1 - 1 / 134217728, 1 + 1 / 134217728, 0, 0], 2, 2, 1⟩
          ⟨[1 - 1 / 134217728, 1 + 1 / 134217728, 0, 0], 2, 2, 1⟩ none ⟨[], 0, 0⟩
          = (Status.SUCCESS, some M, h2)
      ∧ matrix_opMultRnd roundDouble ⟨[1 - 1 / 134217728, 1 + 1 / 134217728, 0, 0], 2, 2, 1⟩
          M none h2 = (Status.SUCCESS, some M2, h3)
      ∧ P = M2 :=
  (C10_matrix_opPow_left roundDouble 2
    ⟨[1 - 1 / 134217728, 1 + 1 / 134217728, 0, 0], 2, 2, 1⟩ none ⟨[], 0, 0⟩
    (by decide) validHandle_none (by decide)).2.2.1

/-- C11: for every matrix `a` (`r x c`) and a result handle that is empty or holds a
matrix of any shape, when no allocation fails `matrix_opTrans` returns `SUCCESS` and
the result has `c` rows and `r` columns, entry `(j, i)` of the result equals entry
`(i, j)` of `a`, and the result's `maxLength` (displayWidth) equals that of `a`;
`transpose([[1,2,3],[4,5,6]]) = [[1,4],[2,5],[3,6]]`. -/
theorem C11_matrix_opTrans_entries :
    (∀ (r c : Nat) (a : Mx) (res : Option Mx) (h : Heap),
      a.Shaped r c → ValidHandle res → h.ok →
      ∃ R h1, matrix_opTrans a res h = (Status.SUCCESS, some R, h1)
        ∧ R.rows = (c : Int) ∧ R.cols = (r : Int) ∧ R.maxLength = a.maxLength
        ∧ ∀ i j : Nat, i < r → j < c →
            matrix_getEntry R (j : Int) (i : Int) = matrix_getEntry a (i : Int) (j : Int))
    ∧ matrix_opTrans ⟨[1, 2, 3, 4, 5, 6], 2, 3, 1⟩ none ⟨[], 0, 0⟩
        = (Status.SUCCESS, some ⟨[1, 4, 2, 5, 3, 6], 3, 2, 1⟩, ⟨[], 2, 0⟩) := by
  refine ⟨?_, by decide⟩
  intro r c a res h ha hres hok
  rcases matrix_opTrans_cases a ha res hres h with ⟨R, h1, e, s, hent, _, _⟩ | ⟨_, _, _, k⟩
  · refine ⟨R, h1, e, s.1, s.2.1, matrix_opTrans_maxLength a res h R h1 e, ?_⟩
    intro i j hi hj
    rw [getEntry_eq R s.1 s.2.1 hj hi, getEntry_eq a ha.1 ha.2.1 hi hj, hent i j hi hj]
  · exact absurd hok k

/-- Witness of C11: a `1 x 2` matrix transposed into a handle holding a `1 x 1` matrix. -/
theorem C11_witness :
    ∃ R h1, matrix_opTrans ⟨[5, 6], 1, 2, 1⟩ (some ⟨[0], 1, 1, 1⟩) ⟨[true], 0, 0⟩
        = (Status.SUCCESS, some R, h1)
      ∧ R.rows = ((2 : Nat) : Int) ∧ R.cols = ((1 : Nat) : Int)
      ∧ R.maxLength = (⟨[5, 6], 1, 2, 1⟩ : Mx).maxLength
      ∧ ∀ i j : Nat, i < 1 → j < 2 →
          matrix_getEntry R (j : Int) (i : Int)
            = matrix_getEntry ⟨[5, 6], 1, 2, 1⟩ (i : Int) (j : Int) :=
  C11_matrix_opTrans_entries.1 1 2 ⟨[5, 6], 1, 2, 1⟩ (some ⟨[0], 1, 1, 1⟩) ⟨[true], 0, 0⟩
    (by decide) (by decide) (by decide)

/-- C12: for every matrix `A` of any shape, `transpose(transpose(A))` has the rows and
columns of `A` and equals `A` entry for entry: whenever the two calls of
`matrix_opTrans` return `SUCCESS`, and they do when no allocation fails. -/
theorem C12_transpose_involution (r c : Nat) (A : Mx) (res res2 : Option Mx) (h h' : Heap)
    (hA : A.Shaped r c) (hres : ValidHandle res) (hres2 : ValidHandle res2) :
    (h.ok → h'.ok → ∃ T h1 TT h2, matrix_opTrans A res h = (Status.SUCCESS, some T, h1)
        ∧ matrix_opTrans T res2 h' = (Status.SUCCESS, some TT, h2))
    ∧ ∀ T h1 TT h2, matrix_opTrans A res h = (Status.SUCCESS, some T, h1) →
        matrix_opTrans T res2 h' = (Status.SUCCESS, some TT, h2) →
        TT.rows = A.rows ∧ TT.cols = A.cols
        ∧ ∀ i j : Nat, i < r → j < c →
            matrix_getEntry TT (i : Int) (j : Int) = matrix_getEntry A (i : Int) (j : Int) := by
  refine ⟨?_, ?_⟩
  · intro hok hok'
    rcases matrix_opTrans_cases A hA res hres h with ⟨T, h1, e, s, _, _, _⟩ | ⟨_, _, _, k⟩
    · rcases matrix_opTrans_cases T s res2 hres2 h' with ⟨TT, h2, e2, _, _, _, _⟩ | ⟨_, _, _, k⟩
      · exact ⟨T, h1, TT, h2, e, e2⟩
      · exact absurd hok' k
    · exact absurd hok k
  · intro T h1 TT h2 e e2
    obtain ⟨s, _, hent⟩ := matrix_opTrans_success A hA res hres h T h1 e
    obtain ⟨s2, _, hent2⟩ := matrix_opTrans_success T s res2 hres2 h' TT h2 e2
    refine ⟨by rw [s2.1, hA.1], by rw [s2.2.1, hA.2.1], ?_⟩
    intro i j hi hj
    rw [getEntry_eq TT s2.1 s2.2.1 hi hj, getEntry_eq A hA.1 hA.2.1 hi hj, hent2 j i hj hi,
      hent i j hi hj]

/-- Witness of C12: a `2 x 3` matrix, transposed twice into empty handles. -/
theorem C12_witness :
    (Heap.ok ⟨[], 0, 0⟩ → Heap.ok ⟨[], 0, 0⟩ → ∃ T h1 TT h2,
        matrix_opTrans ⟨[1, 2, 3, 4, 5, 6], 2, 3, 1⟩ none ⟨[], 0, 0⟩ = (Status.SUCCESS, some T, h1)
        ∧ matrix_opTrans T none ⟨[], 0, 0⟩ = (Status.SUCCESS, some TT, h2))
    ∧ ∀ T h1 TT h2,
        matrix_opTrans ⟨[1, 2, 3, 4, 5, 6], 2, 3, 1⟩ none ⟨[], 0, 0⟩
          = (Status.SUCCESS, some T, h1) →
        matrix_opTrans T none ⟨[], 0, 0⟩ = (Status.SUCCESS, some TT, h2) →
        TT.rows = (⟨[1, 2, 3, 4, 5, 6], 2, 3, 1⟩ : Mx).rows
        ∧ TT.cols = (⟨[1, 2, 3, 4, 5, 6], 2, 3, 1⟩ : Mx).cols
        ∧ ∀ i j : Nat, i < 2 → j < 3 →
            matrix_getEntry TT (i : Int) (j : Int)
              = matrix_getEntry ⟨[1, 2, 3, 4, 5, 6], 2, 3, 1⟩ (i : Int) (j : Int) :=
  C12_transpose_involution 2 3 ⟨[1, 2, 3, 4, 5, 6], 2, 3, 1⟩ none none ⟨[], 0, 0⟩ ⟨[], 0, 0⟩
    (by decide) (by decide) (by decide)

/-- C13: for every `n ≥ 1`, `matrix_opDet` of the `n x n` identity matrix (any matrix
object whose entry `(i, j)` is 1 when `i = j` and 0 otherwise) returns 1, with status
`SUCCESS`, when no allocation fails. -/
theorem C13_det_identity (n : Nat) (A : Mx) (h : Heap) (hn : 1 ≤ n) (hA : A.Shaped n n)
    (hid : ∀ i j : Nat, i < n → j < n →
      matrix_getEntry A (i : Int) (j : Int) = (Status.SUCCESS, if i = j then 1 else 0))
    (hok : h.ok) :
    (matrix_opDet A h).1 = 1 ∧ (matrix_opDet A h).2.1 = Status.SUCCESS := by
  obtain ⟨v, s, _, _⟩ := (matrix_opDet_spec n hn A hA h).of_ok hok
  refine ⟨?_, s⟩
  have hone : A.toMatrix n n = 1 := by
    ext i j
    simp only [Mx.toMatrix, Matrix.of_apply, Matrix.one_apply]
    have := hid i.val j.val i.isLt j.isLt
    rw [getEntry_eq A hA.1 hA.2.1 i.isLt j.isLt] at this
    simp only [Prod.mk.injEq, true_and] at this
    rw [this]
    simp only [Fin.ext_iff]
  rw [v, hone, Matrix.det_one]

/-- Witness of C13: the `3 x 3` identity matrix. -/
theorem C13_witness :
    (matrix_opDet ⟨[1, 0, 0, 0, 1, 0, 0, 0, 1], 3, 3, 1⟩ ⟨[], 0, 0⟩).1 = 1
    ∧ (matrix_opDet ⟨[1, 0, 0, 0, 1, 0, 0, 0, 1], 3, 3, 1⟩ ⟨[], 0, 0⟩).2.1 = Status.SUCCESS :=
  C13_det_identity 3 ⟨[1, 0, 0, 0, 1, 0, 0, 0, 1], 3, 3, 1⟩ ⟨[], 0, 0⟩ (by decide) (by decide)
    (by
      intro i j hi hj
      interval_cases i <;> interval_cases j <;> decide)
    (by decide)

/-- C14: for every `n ≥ 2` and every `n x n` matrix `A` with two identical rows, when
no allocation fails `matrix_opDet(A)` returns exactly 0 (with status `SUCCESS`), so
`matrix_canBeInv(A)` is `FALSE` and `matrix_opInv(A)` produces no inverse: it returns
`FAILURE` with the determinant-is-zero flag set. -/
theorem C14_identical_rows (n : Nat) (A : Mx) (res : Option Mx) (h : Heap) (i1 i2 : Nat)
    (hn : 2 ≤ n) (hA : A.Shaped n n) (h1 : i1 < n) (h2 : i2 < n) (hne : i1 ≠ i2)
    (hrows : ∀ j : Nat, j < n →
      matrix_getEntry A (i1 : Int) (j : Int) = matrix_getEntry A (i2 : Int) (j : Int))
    (hres : ValidHandle res) (hok : h.ok) :
    (matrix_opDet A h).1 = 0 ∧ (matrix_opDet A h).2.1 = Status.SUCCESS
    ∧ (matrix_canBeInv A h).1 = Boolean.FALSE ∧ (matrix_canBeInv A h).2.1 = Status.SUCCESS
    ∧ (matrix_opInv A res h).1 = Status.FAILURE
    ∧ (matrix_opInv A res h).2.1 = Boolean.TRUE := by
  have hdet : Matrix.det (A.toMatrix n n) = 0 := by
    refine Matrix.det_zero_of_row_eq (i := ⟨i1, h1⟩) (j := ⟨i2, h2⟩)
      (by simpa [Fin.ext_iff] using hne) ?_
    funext j
    simp only [Mx.toMatrix, Matrix.of_apply]
    have := hrows j.val j.isLt
    rw [getEntry_eq A hA.1 hA.2.1 h1 j.isLt, getEntry_eq A hA.1 hA.2.1 h2 j.isLt] at this
    simpa using this
  obtain ⟨v, s, _, _⟩ := (matrix_opDet_spec n (by omega) A hA h).of_ok hok
  have hv : (matrix_opDet A h).1 = 0 := by rw [v, hdet]
  refine ⟨hv, s, ?_, ?_, ?_⟩
  · unfold matrix_canBeInv
    simp only [s, hv, if_true, ne_eq, not_true_eq_false, if_false]
  · unfold matrix_canBeInv
    exact s
  · rcases matrix_opInv_cases A n (by omega) hA res hres h with
      ⟨_, _, _, c4⟩ | ⟨_, _, c3, c4, _⟩ | ⟨_, c2, _⟩
    · exact absurd hok c4
    · exact ⟨c3, c4⟩
    · exact absurd hdet c2

/-- Witness of C14: a `3 x 3` matrix whose first and third rows are equal. -/
theorem C14_witness :
    (matrix_opDet ⟨[1, 2, 3, 4, 5, 6, 1, 2, 3], 3, 3, 1⟩ ⟨[], 0, 0⟩).1 = 0
    ∧ (matrix_opDet ⟨[1, 2, 3, 4, 5, 6, 1, 2, 3], 3, 3, 1⟩ ⟨[], 0, 0⟩).2.1 = Status.SUCCESS
    ∧ (matrix_canBeInv ⟨[1, 2, 3, 4, 5, 6, 1, 2, 3], 3, 3, 1⟩ ⟨[], 0, 0⟩).1 = Boolean.FALSE
    ∧ (matrix_canBeInv ⟨[1, 2, 3, 4, 5, 6, 1, 2, 3], 3, 3, 1⟩ ⟨[], 0, 0⟩).2.1 = Status.SUCCESS
    ∧ (matrix_opInv ⟨[1, 2, 3, 4, 5, 6, 1, 2, 3], 3, 3, 1⟩ none ⟨[], 0, 0⟩).1 = Status.FAILURE
    ∧ (matrix_opInv ⟨[1, 2, 3, 4, 5, 6, 1, 2, 3], 3, 3, 1⟩ none ⟨[], 0, 0⟩).2.1 = Boolean.TRUE :=
  C14_identical_rows 3 ⟨[1, 2, 3, 4, 5, 6, 1, 2, 3], 3, 3, 1⟩ none ⟨[], 0, 0⟩ 0 2
    (by decide) (by decide) (by decide) (by decide) (by decide)
    (by
      intro j hj
      interval_cases j <;> decide)
    (by decide) (by decide)

/-- C15 (as stated) fails on the code for a negative coordinate: in a `2 x 2` matrix
the coordinate `(1, -1)` lies outside `[0,2) x [0,2)`, yet `matrix_getEntry` returns
`SUCCESS` with the entry stored at index `1 * 2 - 1 = 1`. -/
theorem C15_counterexample :
    ¬ ((0 : Int) ≤ 1 ∧ (1 : Int) < 2 ∧ (0 : Int) ≤ -1 ∧ (-1 : Int) < 2)
    ∧ matrix_getEntry ⟨[1, 2, 3, 4], 2, 2, 1⟩ 1 (-1) = (Status.SUCCESS, 2)
    ∧ matrix_getEntry ⟨[1, 2, 3, 4], 2, 2, 1⟩ 1 (-1) ≠ (Status.FAILURE, 0) := by
  decide

/-- C15 (amended): for every matrix `m` and every pair of integers `(row, col)`: if
`0 ≤ row < rows` and `0 ≤ col < cols`, `matrix_getEntry` returns `SUCCESS` and the
value stored at `buffer[row*cols+col]`; if `row ≥ rows` or `col ≥ cols` it returns
`FAILURE` and sets the output to the sentinel 0. -/
theorem C15_matrix_getEntry_bounds (m : Mx) (row col : Int) :
    (0 ≤ row ∧ row < m.rows ∧ 0 ≤ col ∧ col < m.cols →
      matrix_getEntry m row col
        = (Status.SUCCESS, m.entries.getD (row * m.cols + col).toNat 0))
    ∧ (row ≥ m.rows ∨ col ≥ m.cols →
      matrix_getEntry m row col = (Status.FAILURE, 0)) := by
  refine ⟨?_, ?_⟩
  · intro hin
    have hnn : 0 ≤ row * m.cols + col := by
      have : 0 ≤ row * m.cols := Int.mul_nonneg hin.1 (by omega)
      omega
    have hat : at_ m row col = row * m.cols + col := by
      unfold at_
      rw [if_neg (show ¬ (row ≥ m.rows ∨ col ≥ m.cols) by omega)]
    unfold matrix_getEntry
    simp only [hat]
    rw [if_pos (show row * m.cols + col ≠ -1 by omega)]
    unfold rd
    rw [if_neg (show ¬ (row * m.cols + col < 0) by omega)]
  · intro hout
    have hat : at_ m row col = -1 := by
      unfold at_
      rw [if_pos hout]
    unfold matrix_getEntry
    simp only [hat]
    rfl

/-- Witness of C15 (amended): coordinates `(1, 1)` and `(0, 2)` of a `2 x 2` matrix. -/
theorem C15_witness :
    matrix_getEntry ⟨[1, 2, 3, 4], 2, 2, 1⟩ 1 1
        = (Status.SUCCESS,
            (⟨[1, 2, 3, 4], 2, 2, 1⟩ : Mx).entries.getD
              ((1 : Int) * (⟨[1, 2, 3, 4], 2, 2, 1⟩ : Mx).cols + 1).toNat 0)
    ∧ matrix_getEntry ⟨[1, 2, 3, 4], 2, 2, 1⟩ 0 2 = (Status.FAILURE, 0) :=
  ⟨(C15_matrix_getEntry_bounds ⟨[1, 2, 3, 4], 2, 2, 1⟩ 1 1).1 (by decide),
   (C15_matrix_getEntry_bounds ⟨[1, 2, 3, 4], 2, 2, 1⟩ 0 2).2 (by decide)⟩

/-- C16 (as stated) fails on the code for a negative coordinate: in a `2 x 2` matrix
the coordinate `(1, -1)` lies outside `[0,2) x [0,2)`, yet `matrix_setEntry` returns
`SUCCESS` and overwrites the entry stored at index 1. -/
theorem C16_counterexample :
    ¬ ((0 : Int) ≤ 1 ∧ (1 : Int) < 2 ∧ (0 : Int) ≤ -1 ∧ (-1 : Int) < 2)
    ∧ matrix_setEntry ⟨[1, 2, 3, 4], 2, 2, 1⟩ 1 (-1) 9
        = (Status.SUCCESS, ⟨[1, 9, 3, 4], 2, 2, 1⟩)
    ∧ matrix_setEntry ⟨[1, 2, 3, 4], 2, 2, 1⟩ 1 (-1) 9
        ≠ (Status.FAILURE, ⟨[1, 2, 3, 4], 2, 2, 1⟩) := by
  decide

/-- C16 (amended): for every matrix `m`, every value `v` and every coordinate
`(row, col)` with `row ≥ rows` or `col ≥ cols`, `matrix_setEntry` returns `FAILURE` and
mutates nothing: the matrix object (entries, rows, cols and `maxLength`) is as before
the call. -/
theorem C16_matrix_setEntry_out_of_bounds (m : Mx) (row col : Int) (v : ℚ)
    (hout : row ≥ m.rows ∨ col ≥ m.cols) :
    matrix_setEntry m row col v = (Status.FAILURE, m) := by
  have hat : at_ m row col = -1 := by
    unfold at_
    rw [if_pos hout]
  unfold matrix_setEntry
  simp only [hat]
  rfl

/-- Witness of C16 (amended): coordinate `(2, 0)` of a `2 x 2` matrix. -/
theorem C16_witness :
    matrix_setEntry ⟨[1, 2, 3, 4], 2, 2, 1⟩ 2 0 9 = (Status.FAILURE, ⟨[1, 2, 3, 4], 2, 2, 1⟩) :=
  C16_matrix_setEntry_out_of_bounds ⟨[1, 2, 3, 4], 2, 2, 1⟩ 2 0 9 (by decide)

/-- C17: for every matrix `m` (`r x c`), value `v` and in-bounds coordinate `(i, j)`,
`matrix_setEntry` returns `SUCCESS`, a following `matrix_getEntry(m, i, j)` returns `v`,
and the write is a single in-place write: the matrix object differs from the one
before the call only in buffer position `i * c + j`, so every other entry and the
rows and cols are unchanged. -/
theorem C17_matrix_setEntry_in_bounds (r c : Nat) (m : Mx) (i j : Nat) (v : ℚ)
    (hm : m.Shaped r c) (hi : i < r) (hj : j < c) :
    (matrix_setEntry m (i : Int) (j : Int) v).1 = Status.SUCCESS
    ∧ (matrix_setEntry m (i : Int) (j : Int) v).2
        = { m with entries := m.entries.set (i * c + j) v }
    ∧ matrix_getEntry (matrix_setEntry m (i : Int) (j : Int) v).2 (i : Int) (j : Int)
        = (Status.SUCCESS, v)
    ∧ (matrix_setEntry m (i : Int) (j : Int) v).2.rows = m.rows
    ∧ (matrix_setEntry m (i : Int) (j : Int) v).2.cols = m.cols
    ∧ (∀ i' j' : Nat, i' < r → j' < c → (i', j') ≠ (i, j) →
        matrix_getEntry (matrix_setEntry m (i : Int) (j : Int) v).2 (i' : Int) (j' : Int)
          = matrix_getEntry m (i' : Int) (j' : Int))
    ∧ (∀ k : Nat, k ≠ i * c + j →
        (matrix_setEntry m (i : Int) (j : Int) v).2.entries.getD k 0 = m.entries.getD k 0) := by
  have hidx := at_natCast m hm.1 hm.2.1 hi hj
  have hlt := idx_lt hi hj
  have e : matrix_setEntry m (i : Int) (j : Int) v
      = (Status.SUCCESS, { m with entries := m.entries.set (i * c + j) v }) := by
    unfold matrix_setEntry
    simp only [hidx]
    rw [if_pos (by omega), wr_natCast]
  rw [e]
  have hlen : i * c + j < m.entries.length := by have := hm.2.2; omega
  have hget : ∀ i' j' : Nat, i' < r → j' < c →
      matrix_getEntry { m with entries := m.entries.set (i * c + j) v } (i' : Int) (j' : Int)
        = (Status.SUCCESS, (m.entries.set (i * c + j) v).getD (i' * c + j') 0) :=
    fun i' j' hi' hj' =>
      getEntry_getD { m with entries := m.entries.set (i * c + j) v } hm.1 hm.2.1 hi' hj'
  refine ⟨rfl, rfl, ?_, rfl, rfl, ?_, ?_⟩
  · show matrix_getEntry { m with entries := m.entries.set (i * c + j) v } (i : Int) (j : Int) = _
    rw [hget i j hi hj, getD_set_self _ _ _ hlen]
  · intro i' j' hi' hj' hne
    show matrix_getEntry { m with entries := m.entries.set (i * c + j) v } (i' : Int) (j' : Int)
      = _
    rw [hget i' j' hi' hj', getEntry_getD m hm.1 hm.2.1 hi' hj', getD_set_ne]
    intro heq
    have := idx_inj hj hj' heq
    exact hne (by rw [this.1, this.2])
  · intro k hk
    exact getD_set_ne _ _ _ _ (fun heq => hk heq.symm)

/-- Witness of C17: writing 9 at `(1, 0)` of a `2 x 2` matrix. -/
theorem C17_witness :
    (matrix_setEntry ⟨[1, 2, 3, 4], 2, 2, 1⟩ ((1 : Nat) : Int) ((0 : Nat) : Int) 9).1
      = Status.SUCCESS
    ∧ (matrix_setEntry ⟨[1, 2, 3, 4], 2, 2, 1⟩ ((1 : Nat) : Int) ((0 : Nat) : Int) 9).2
        = { (⟨[1, 2, 3, 4], 2, 2, 1⟩ : Mx) with
            entries := (⟨[1, 2, 3, 4], 2, 2, 1⟩ : Mx).entries.set (1 * 2 + 0) 9 }
    ∧ matrix_getEntry
        (matrix_setEntry ⟨[1, 2, 3, 4], 2, 2, 1⟩ ((1 : Nat) : Int) ((0 : Nat) : Int) 9).2
        ((1 : Nat) : Int) ((0 : Nat) : Int) = (Status.SUCCESS, 9)
    ∧ (matrix_setEntry ⟨[1, 2, 3, 4], 2, 2, 1⟩ ((1 : Nat) : Int) ((0 : Nat) : Int) 9).2.rows
        = (⟨[1, 2, 3, 4], 2, 2, 1⟩ : Mx).rows
    ∧ (matrix_setEntry ⟨[1, 2, 3, 4], 2, 2, 1⟩ ((1 : Nat) : Int) ((0 : Nat) : Int) 9).2.cols
        = (⟨[1, 2, 3, 4], 2, 2, 1⟩ : Mx).cols
    ∧ (∀ i' j' : Nat, i' < 2 → j' < 2 → (i', j') ≠ (1, 0) →
        matrix_getEntry
          (matrix_setEntry ⟨[1, 2, 3, 4], 2, 2, 1⟩ ((1 : Nat) : Int) ((0 : Nat) : Int) 9).2
          (i' : Int) (j' : Int)
          = matrix_getEntry ⟨[1, 2, 3, 4], 2, 2, 1⟩ (i' : Int) (j' : Int))
    ∧ (∀ k : Nat, k ≠ 1 * 2 + 0 →
        (matrix_setEntry ⟨[1, 2, 3, 4], 2, 2, 1⟩ ((1 : Nat) : Int) ((0 : Nat) : Int) 9).2.entries.getD
          k 0 = (⟨[1, 2, 3, 4], 2, 2, 1⟩ : Mx).entries.getD k 0) :=
  C17_matrix_setEntry_in_bounds 2 2 ⟨[1, 2, 3, 4], 2, 2, 1⟩ 1 0 9 (by decide) (by decide)
    (by decide)

/-- C18 on the code: a `3 x 3` matrix holding 7 everywhere is assigned the `2 x 2`
entries `[1,2,3,4]`; no allocation is needed. The copy loop indexes the destination
with the old column count 3, so the buffer becomes `[1,2,7,3,4,7,7,7,7]` and, with the
new dimensions, entries `(1,0)` and `(1,1)` read 7 and 3 instead of 3 and 4. -/
theorem C18_newMatrix_shape_change :
    matrix_newMatrix ⟨[7, 7, 7, 7, 7, 7, 7, 7, 7], 3, 3, 1⟩ [1, 2, 3, 4] 2 2 ⟨[], 0, 0⟩
      = (Status.SUCCESS, ⟨[1, 2, 7, 3, 4, 7, 7, 7, 7], 2, 2, 1⟩, ⟨[], 0, 0⟩)
    ∧ matrix_getEntry ⟨[1, 2, 7, 3, 4, 7, 7, 7, 7], 2, 2, 1⟩ 1 0 = (Status.SUCCESS, 7)
    ∧ matrix_getEntry ⟨[1, 2, 7, 3, 4, 7, 7, 7, 7], 2, 2, 1⟩ 1 1 = (Status.SUCCESS, 3)
    ∧ ([1, 2, 3, 4] : List ℚ).getD (1 * 2 + 0) 0 = 3
    ∧ ([1, 2, 3, 4] : List ℚ).getD (1 * 2 + 1) 0 = 4 := by
  decide

/-- C19: when the given rows and cols equal the current rows and cols of the matrix
(as when `matrix_initDims(rows, cols)` is followed by `matrix_newMatrix` with the same
dimensions) and `entries` holds at least `rows*cols` values, `matrix_newMatrix` returns
`SUCCESS` without allocating (the allocator state is untouched), leaves rows and cols
unchanged, and afterwards `matrix_getEntry` finds at every in-range `(i, j)` the value
`entries[i*cols+j]`. -/
theorem C19_matrix_newMatrix_same_dims (r c : Nat) (hMx : Mx) (entries : List ℚ) (h : Heap)
    (hm : hMx.Shaped r c) (hlen : r * c ≤ entries.length) :
    (matrix_newMatrix hMx entries (r : Int) (c : Int) h).1 = Status.SUCCESS
    ∧ (matrix_newMatrix hMx entries (r : Int) (c : Int) h).2.2 = h
    ∧ (matrix_newMatrix hMx entries (r : Int) (c : Int) h).2.1.rows = hMx.rows
    ∧ (matrix_newMatrix hMx entries (r : Int) (c : Int) h).2.1.cols = hMx.cols
    ∧ ∀ i j : Nat, i < r → j < c →
        (matrix_getEntry (matrix_newMatrix hMx entries (r : Int) (c : Int) h).2.1
            (i : Int) (j : Int)).1 = Status.SUCCESS
        ∧ entries[i * c + j]?
            = some (matrix_getEntry (matrix_newMatrix hMx entries (r : Int) (c : Int) h).2.1
                (i : Int) (j : Int)).2 := by
  have e : matrix_newMatrix hMx entries (r : Int) (c : Int) h
      = (Status.SUCCESS, newMatrixCopy hMx entries (r : Int) (c : Int), h) := by
    unfold matrix_newMatrix
    rw [if_neg (by rw [hm.1, hm.2.1]; exact lt_irrefl _)]
  obtain ⟨s, hent⟩ := newMatrixCopy_same_dims hMx hm entries
  rw [e]
  refine ⟨rfl, rfl, by rw [hm.1]; exact s.1, by rw [hm.2.1]; exact s.2.1, ?_⟩
  intro i j hi hj
  have hlt : i * c + j < entries.length := lt_of_lt_of_le (idx_lt hi hj) hlen
  have hg : matrix_getEntry (newMatrixCopy hMx entries (r : Int) (c : Int)) (i : Int) (j : Int)
      = (Status.SUCCESS, entries.getD (i * c + j) 0) := by
    rw [getEntry_eq _ s.1 s.2.1 hi hj, hent i j hi hj]
  show (matrix_getEntry (newMatrixCopy hMx entries (r : Int) (c : Int)) (i : Int) (j : Int)).1 = _
    ∧ _ = some (matrix_getEntry (newMatrixCopy hMx entries (r : Int) (c : Int))
        (i : Int) (j : Int)).2
  rw [hg]
  refine ⟨rfl, ?_⟩
  rw [List.getD_eq_getElem?_getD, List.getElem?_eq_getElem hlt]
  rfl

/-- Witness of C19: a zeroed `2 x 2` matrix, as `matrix_initDims(2, 2)` returns it,
assigned four entries; the allocator would fail the next request. -/
theorem C19_witness :
    (matrix_newMatrix ⟨[0, 0, 0, 0], 2, 2, 1⟩ [1, 2, 3, 4] ((2 : Nat) : Int) ((2 : Nat) : Int)
        ⟨[false], 2, 0⟩).1 = Status.SUCCESS
    ∧ (matrix_newMatrix ⟨[0, 0, 0, 0], 2, 2, 1⟩ [1, 2, 3, 4] ((2 : Nat) : Int) ((2 : Nat) : Int)
        ⟨[false], 2, 0⟩).2.2 = ⟨[false], 2, 0⟩
    ∧ (matrix_newMatrix ⟨[0, 0, 0, 0], 2, 2, 1⟩ [1, 2, 3, 4] ((2 : Nat) : Int) ((2 : Nat) : Int)
        ⟨[false], 2, 0⟩).2.1.rows = (⟨[0, 0, 0, 0], 2, 2, 1⟩ : Mx).rows
    ∧ (matrix_newMatrix ⟨[0, 0, 0, 0], 2, 2, 1⟩ [1, 2, 3, 4] ((2 : Nat) : Int) ((2 : Nat) : Int)
        ⟨[false], 2, 0⟩).2.1.cols = (⟨[0, 0, 0, 0], 2, 2, 1⟩ : Mx).cols
    ∧ ∀ i j : Nat, i < 2 → j < 2 →
        (matrix_getEntry
            (matrix_newMatrix ⟨[0, 0, 0, 0], 2, 2, 1⟩ [1, 2, 3, 4] ((2 : Nat) : Int)
              ((2 : Nat) : Int) ⟨[false], 2, 0⟩).2.1 (i : Int) (j : Int)).1 = Status.SUCCESS
        ∧ ([1, 2, 3, 4] : List ℚ)[i * 2 + j]?
            = some (matrix_getEntry
                (matrix_newMatrix ⟨[0, 0, 0, 0], 2, 2, 1⟩ [1, 2, 3, 4] ((2 : Nat) : Int)
                  ((2 : Nat) : Int) ⟨[false], 2, 0⟩).2.1 (i : Int) (j : Int)).2 :=
  C19_matrix_newMatrix_same_dims 2 2 ⟨[0, 0, 0, 0], 2, 2, 1⟩ [1, 2, 3, 4] ⟨[false], 2, 0⟩
    (by decide) (by decide)

/-- C21: for every source matrix (`r x c`) and every destination handle (empty, or
holding a matrix of any size), when no allocation fails `matrix_copy` returns
`SUCCESS` and the destination then has the rows, cols, `maxLength` and every logical
entry of the source; `matrix_initCopy` likewise returns a new matrix with the rows,
cols, `maxLength` and entries of its source. -/
theorem C21_matrix_copy (r c : Nat) (src : Mx) (dest : Option Mx) (h : Heap)
    (hs : src.Shaped r c) (hdest : ValidHandle dest) (hok : h.ok) :
    (∃ R h1, matrix_copy dest src h = (Status.SUCCESS, some R, h1)
      ∧ R.rows = src.rows ∧ R.cols = src.cols ∧ R.maxLength = src.maxLength
      ∧ ∀ i j : Nat, i < r → j < c →
          matrix_getEntry R (i : Int) (j : Int) = matrix_getEntry src (i : Int) (j : Int))
    ∧ (∃ R h1, matrix_initCopy src h = (some R, h1)
      ∧ R.rows = src.rows ∧ R.cols = src.cols ∧ R.maxLength = src.maxLength
      ∧ ∀ i j : Nat, i < r → j < c →
          matrix_getEntry R (i : Int) (j : Int) = matrix_getEntry src (i : Int) (j : Int)) := by
  refine ⟨?_, ?_⟩
  · obtain ⟨R, h1, e, _, s, ml, hent⟩ := matrix_copy_ok src hs dest hdest h hok
    refine ⟨R, h1, e, by rw [s.1, hs.1], by rw [s.2.1, hs.2.1], ml, ?_⟩
    intro i j hi hj
    rw [getEntry_eq R s.1 s.2.1 hi hj, getEntry_eq src hs.1 hs.2.1 hi hj, hent i j hi hj]
  · obtain ⟨R, h1, e, _, s, ml, hent⟩ := matrix_initCopy_ok src hs h hok
    refine ⟨R, h1, e, by rw [s.1, hs.1], by rw [s.2.1, hs.2.1], ml, ?_⟩
    intro i j hi hj
    rw [getEntry_eq R s.1 s.2.1 hi hj, getEntry_eq src hs.1 hs.2.1 hi hj, hent i j hi hj]

/-- Witness of C21: a `2 x 2` source copied into a handle holding a `1 x 1` matrix. -/
theorem C21_witness :
    (∃ R h1, matrix_copy (some ⟨[9], 1, 1, 1⟩) ⟨[1, 2, 3, 4], 2, 2, 1⟩ ⟨[true, true], 4, 0⟩
        = (Status.SUCCESS, some R, h1)
      ∧ R.rows = (⟨[1, 2, 3, 4], 2, 2, 1⟩ : Mx).rows
      ∧ R.cols = (⟨[1, 2, 3, 4], 2, 2, 1⟩ : Mx).cols
      ∧ R.maxLength = (⟨[1, 2, 3, 4], 2, 2, 1⟩ : Mx).maxLength
      ∧ ∀ i j : Nat, i < 2 → j < 2 →
          matrix_getEntry R (i : Int) (j : Int)
            = matrix_getEntry ⟨[1, 2, 3, 4], 2, 2, 1⟩ (i : Int) (j : Int))
    ∧ (∃ R h1, matrix_initCopy ⟨[1, 2, 3, 4], 2, 2, 1⟩ ⟨[true, true], 4, 0⟩ = (some R, h1)
      ∧ R.rows = (⟨[1, 2, 3, 4], 2, 2, 1⟩ : Mx).rows
      ∧ R.cols = (⟨[1, 2, 3, 4], 2, 2, 1⟩ : Mx).cols
      ∧ R.maxLength = (⟨[1, 2, 3, 4], 2, 2, 1⟩ : Mx).maxLength
      ∧ ∀ i j : Nat, i < 2 → j < 2 →
          matrix_getEntry R (i : Int) (j : Int)
            = matrix_getEntry ⟨[1, 2, 3, 4], 2, 2, 1⟩ (i : Int) (j : Int)) :=
  C21_matrix_copy 2 2 ⟨[1, 2, 3, 4], 2, 2, 1⟩ (some ⟨[9], 1, 1, 1⟩) ⟨[true, true], 4, 0⟩
    (by decide) (by decide) (by decide)

/-- C22: `matrix_move` with an empty source returns `FAILURE` and leaves the
destination handle, its matrix and the allocator as they were. With a source holding
`s` it returns `SUCCESS`, the destination then holds exactly `s`, the source handle
is empty, and the matrix the destination held before (if any) has been destroyed:
its two blocks are freed. `matrix_initMove` returns the matrix of the source and
empties the source, or returns `NULL` when the source is empty. -/
theorem C22_matrix_move (dest : Option Mx) (d s : Mx) (h : Heap) :
    matrix_move dest none h = (Status.FAILURE, dest, none, h)
    ∧ matrix_move dest (some s) h
        = (Status.SUCCESS, some s, none, (matrix_destroy dest h).2.2)
    ∧ (matrix_move (some d) (some s) h).2.2.2.live = h.live - 2
    ∧ (matrix_move none (some s) h).2.2.2 = h
    ∧ matrix_initMove (some s) = (some s, none)
    ∧ matrix_initMove none = (none, none) := by
  refine ⟨rfl, rfl, ?_, rfl, rfl, rfl⟩
  show h.live - 1 - 1 = h.live - 2
  omega

/-- C23: `matrix_destroy` on an empty handle returns `FAILURE`, leaves it empty and
frees nothing; on a handle holding a matrix it returns `SUCCESS`, leaves the handle
empty and frees the two blocks of the matrix; destroying the same handle a second
time returns `FAILURE` and changes nothing. -/
theorem C23_matrix_destroy (m : Mx) (h : Heap) :
    matrix_destroy none h = (Status.FAILURE, none, h)
    ∧ (matrix_destroy (some m) h).1 = Status.SUCCESS
    ∧ (matrix_destroy (some m) h).2.1 = none
    ∧ (matrix_destroy (some m) h).2.2.live = h.live - 2
    ∧ matrix_destroy (matrix_destroy (some m) h).2.1 (matrix_destroy (some m) h).2.2
        = (Status.FAILURE, none, (matrix_destroy (some m) h).2.2) := by
  refine ⟨rfl, rfl, rfl, ?_, rfl⟩
  show h.live - 1 - 1 = h.live - 2
  omega

/-- C24: for every square matrix (`n x n`, `n ≥ 1`) and every allocator state,
`matrix_canBeInv` returns `TRUE` if and only if no allocation of the call failed and
the determinant is non-zero; when an allocation fails it returns `FALSE` with the
status `FAILURE`; when none fails and the determinant is 0 it returns `FALSE` with the
status `SUCCESS`. -/
theorem C24_matrix_canBeInv (n : Nat) (A : Mx) (h : Heap) (hn : 1 ≤ n) (hA : A.Shaped n n) :
    ((matrix_canBeInv A h).1 = Boolean.TRUE ↔
        (matrix_canBeInv A h).2.2.failed = h.failed ∧ Matrix.det (A.toMatrix n n) ≠ 0)
    ∧ (h.failed < (matrix_canBeInv A h).2.2.failed →
        (matrix_canBeInv A h).1 = Boolean.FALSE ∧ (matrix_canBeInv A h).2.1 = Status.FAILURE)
    ∧ ((matrix_canBeInv A h).2.2.failed = h.failed ∧ Matrix.det (A.toMatrix n n) = 0 →
        (matrix_canBeInv A h).1 = Boolean.FALSE ∧ (matrix_canBeInv A h).2.1 = Status.SUCCESS) := by
  obtain ⟨p1, p2, p3, _⟩ := matrix_opDet_spec n hn A hA h
  unfold matrix_canBeInv
  simp only
  refine ⟨⟨?_, ?_⟩, ?_, ?_⟩
  · intro ht
    by_cases hs : (matrix_opDet A h).2.1 = Status.SUCCESS
    · have hf : (matrix_opDet A h).2.2.failed = h.failed := by
        rcases Nat.lt_or_ge h.failed (matrix_opDet A h).2.2.failed with hlt | hge
        · have := (p3 hlt).1
          rw [hs] at this
          exact absurd this (by decide)
        · omega
      refine ⟨hf, ?_⟩
      rw [← (p2 hf).1]
      intro h0
      rw [if_pos hs, if_neg (not_not.mpr h0)] at ht
      exact absurd ht (by decide)
    · rw [if_neg hs] at ht
      exact absurd ht (by decide)
  · intro ⟨hf, hd⟩
    obtain ⟨v, s⟩ := p2 hf
    rw [if_pos s, if_pos (by rw [v]; exact hd)]
  · intro hlt
    have s := (p3 hlt).1
    refine ⟨?_, s⟩
    rw [if_neg (by rw [s]; decide)]
  · intro ⟨hf, hd⟩
    obtain ⟨v, s⟩ := p2 hf
    refine ⟨?_, s⟩
    rw [if_pos s, if_neg (not_not.mpr (by rw [v]; exact hd))]

/-- Witness of C24: a `3 x 3` matrix when the first allocation fails. -/
theorem C24_witness :
    (matrix_canBeInv ⟨[1, 2, 3, 4, 5, 6, 7, 8, 10], 3, 3, 2⟩ ⟨[false], 0, 0⟩).1 = Boolean.FALSE
    ∧ (matrix_canBeInv ⟨[1, 2, 3, 4, 5, 6, 7, 8, 10], 3, 3, 2⟩ ⟨[false], 0, 0⟩).2.1
        = Status.FAILURE :=
  (C24_matrix_canBeInv 3 ⟨[1, 2, 3, 4, 5, 6, 7, 8, 10], 3, 3, 2⟩ ⟨[false], 0, 0⟩
    (by decide) (by decide)).2.1 (by decide)

/-- C25: `matrix_canBeAdd(a, b)` and `matrix_canBeSub(a, b)` return `TRUE` if and only
if `a` and `b` have the same rows and the same cols, and `matrix_canBeMult(a, b)`
returns `TRUE` if and only if the cols of `a` equal the rows of `b`; otherwise they
return `FALSE`. -/
theorem C25_canBe (a b : Mx) :
    (matrix_canBeAdd a b = Boolean.TRUE ↔ a.rows = b.rows ∧ a.cols = b.cols)
    ∧ (matrix_canBeSub a b = Boolean.TRUE ↔ a.rows = b.rows ∧ a.cols = b.cols)
    ∧ (matrix_canBeMult a b = Boolean.TRUE ↔ a.cols = b.rows)
    ∧ (matrix_canBeAdd a b = Boolean.FALSE ↔ ¬ (a.rows = b.rows ∧ a.cols = b.cols))
    ∧ (matrix_canBeSub a b = Boolean.FALSE ↔ ¬ (a.rows = b.rows ∧ a.cols = b.cols))
    ∧ (matrix_canBeMult a b = Boolean.FALSE ↔ ¬ (a.cols = b.rows)) := by
  unfold matrix_canBeAdd matrix_canBeSub matrix_canBeMult
  refine ⟨?_, ?_, ?_, ?_, ?_, ?_⟩ <;> split <;> simp_all

/-- C26 on the code: a `4 x 4` matrix, the fifth allocation request fails (the second
`2 x 2` minor inside the first `3 x 3` minor). The inner call returns 0 with the status
`FAILURE`, but the outer `col` loop goes on: it allocates the three remaining `3 x 3`
minors and their minors (the two oracle entries after the failure are consumed) and
returns the partial sum `-2*60 + 3*12 - 4*(-42) = 84` instead of 0. -/
theorem C26_opDet_nested_failure :
    matrix_opDet ⟨[1, 2, 3, 4, 5, 6, 7, 8, 2, 6, 4, 8, 3, 1, 1, 2], 4, 4, 1⟩
        ⟨[true, true, true, true, false, true, true], 0, 0⟩
      = (84, Status.FAILURE, ⟨[], 0, 1⟩) := by
  with_unfolding_all decide

/-- C27: whenever `matrix_opAdd`, `matrix_opSub`, `matrix_opMult`, `matrix_opTrans` or
`matrix_opPow` (any exponent) returns `FAILURE`, the result handle after the call is
the result handle before the call: an existing result matrix keeps its rows, cols,
entries and `maxLength`, and an empty handle stays empty. -/
theorem C27_failure_keeps_result (hMxs : List Mx) (hMxsSize : Int) (hMx1 hMx2 : Mx)
    (power : Int) (res : Option Mx) (h : Heap) :
    ((matrix_opAdd hMxs hMxsSize res h).1 = Status.FAILURE →
        (matrix_opAdd hMxs hMxsSize res h).2.1 = res)
    ∧ ((matrix_opSub hMxs hMxsSize res h).1 = Status.FAILURE →
        (matrix_opSub hMxs hMxsSize res h).2.1 = res)
    ∧ ((matrix_opMult hMx1 hMx2 res h).1 = Status.FAILURE →
        (matrix_opMult hMx1 hMx2 res h).2.1 = res)
    ∧ ((matrix_opTrans hMx1 res h).1 = Status.FAILURE →
        (matrix_opTrans hMx1 res h).2.1 = res)
    ∧ ((matrix_opPow hMx1 power res h).1 = Status.FAILURE →
        (matrix_opPow hMx1 power res h).2.1 = res) :=
  ⟨matrix_opAdd_failure hMxs hMxsSize res h, matrix_opSub_failure hMxs hMxsSize res h,
   matrix_opMult_failure hMx1 hMx2 res h, matrix_opTrans_failure hMx1 res h,
   matrix_opPow_failure hMx1 power res h⟩

/-- Witness of C27: each operation on a failing allocator, with an empty result handle
and with a result handle holding a matrix too small for the result; the power
operation fails inside its loop. -/
theorem C27_witness :
    (matrix_opAdd [⟨[1, 2], 1, 2, 1⟩, ⟨[3, 4], 1, 2, 1⟩] 2 none ⟨[false], 4, 0⟩).2.1 = none
    ∧ (matrix_opSub [⟨[1, 2], 1, 2, 1⟩, ⟨[3, 4], 1, 2, 1⟩] 2 (some ⟨[9], 1, 1, 1⟩)
        ⟨[false], 6, 0⟩).2.1 = some ⟨[9], 1, 1, 1⟩
    ∧ (matrix_opMult ⟨[1, 2], 1, 2, 1⟩ ⟨[3, 4], 1, 2, 1⟩ (some ⟨[9], 1, 1, 1⟩)
        ⟨[false], 6, 0⟩).2.1 = some ⟨[9], 1, 1, 1⟩
    ∧ (matrix_opTrans ⟨[1, 2], 1, 2, 1⟩ none ⟨[true, false], 2, 0⟩).2.1 = none
    ∧ (matrix_opPow ⟨[1, 2], 1, 2, 1⟩ 3 (some ⟨[9], 1, 1, 1⟩)
        ⟨[true, true, false], 4, 0⟩).2.1 = some ⟨[9], 1, 1, 1⟩ :=
  ⟨(C27_failure_keeps_result [⟨[1, 2], 1, 2, 1⟩, ⟨[3, 4], 1, 2, 1⟩] 2 ⟨[1, 2], 1, 2, 1⟩
      ⟨[3, 4], 1, 2, 1⟩ 3 none ⟨[false], 4, 0⟩).1 (by decide),
   (C27_failure_keeps_result [⟨[1, 2], 1, 2, 1⟩, ⟨[3, 4], 1, 2, 1⟩] 2 ⟨[1, 2], 1, 2, 1⟩
      ⟨[3, 4], 1, 2, 1⟩ 3 (some ⟨[9], 1, 1, 1⟩) ⟨[false], 6, 0⟩).2.1 (by decide),
   (C27_failure_keeps_result [⟨[1, 2], 1, 2, 1⟩, ⟨[3, 4], 1, 2, 1⟩] 2 ⟨[1, 2], 1, 2, 1⟩
      ⟨[3, 4], 1, 2, 1⟩ 3 (some ⟨[9], 1, 1, 1⟩) ⟨[false], 6, 0⟩).2.2.1 (by decide),
   (C27_failure_keeps_result [⟨[1, 2], 1, 2, 1⟩, ⟨[3, 4], 1, 2, 1⟩] 2 ⟨[1, 2], 1, 2, 1⟩
      ⟨[3, 4], 1, 2, 1⟩ 3 none ⟨[true, false], 2, 0⟩).2.2.2.1 (by decide),
   (C27_failure_keeps_result [⟨[1, 2], 1, 2, 1⟩, ⟨[3, 4], 1, 2, 1⟩] 2 ⟨[1, 2], 1, 2, 1⟩
      ⟨[3, 4], 1, 2, 1⟩ 3 (some ⟨[9], 1, 1, 1⟩) ⟨[true, true, false], 4, 0⟩).2.2.2.2
      (by with_unfolding_all decide)⟩

/-- C28 on the code: the inverse of the `4 x 4` identity into an existing `4 x 4` result,
with four blocks live before the call (operand and result). The first 36 allocation
requests succeed (32 for the determinant, 2 for the matrix of cofactors, 2 for the first
`3 x 3` minor in `opAdjugate`) and the next one fails inside `opDet` of that minor.
`opAdjugate` then destroys the matrix of cofactors and returns `FAILURE` without
destroying the minor: six blocks are live after the call. -/
theorem C28_opAdjugate_leak :
    matrix_opInv ⟨[1, 0, 0, 0, 0, 1, 0, 0, 0, 0, 1, 0, 0, 0, 0, 1], 4, 4, 1⟩
        (some ⟨[0, 0, 0, 0, 0, 0, 0, 0, 0, 0, 0, 0, 0, 0, 0, 0], 4, 4, 1⟩)
        ⟨List.replicate 36 true ++ [false], 4, 0⟩
      = (Status.FAILURE, Boolean.FALSE,
          some ⟨[0, 0, 0, 0, 0, 0, 0, 0, 0, 0, 0, 0, 0, 0, 0, 0], 4, 4, 1⟩, ⟨[], 6, 1⟩) := by
  set_option maxRecDepth 100000 in
  with_unfolding_all decide

/-- C29 (as stated) fails on the code: a `1 x 1` matrix copied into a handle holding a
`3 x 3` matrix keeps the buffer of 9 entries; a `2 x 2` matrix copied into the same
handle afterwards replaces that buffer by one of 4 entries, because the size test
compares the logical sizes `1 < 4`. -/
theorem C29_counterexample :
    matrix_copy (some ⟨[7, 7, 7, 7, 7, 7, 7, 7, 7], 3, 3, 1⟩) ⟨[5], 1, 1, 1⟩ ⟨[], 0, 0⟩
      = (Status.SUCCESS, some ⟨[5, 7, 7, 7, 7, 7, 7, 7, 7], 1, 1, 1⟩, ⟨[], 0, 0⟩)
    ∧ matrix_copy (some ⟨[5, 7, 7, 7, 7, 7, 7, 7, 7], 1, 1, 1⟩) ⟨[1, 2, 3, 4], 2, 2, 1⟩
        ⟨[], 0, 0⟩
      = (Status.SUCCESS, some ⟨[1, 2, 3, 4], 2, 2, 1⟩, ⟨[], 0, 0⟩)
    ∧ ([1, 2, 3, 4] : List ℚ).length < ([5, 7, 7, 7, 7, 7, 7, 7, 7] : List ℚ).length := by
  decide

/-- C29 (amended): for each single operation on a handle holding a matrix `p`
(`adjustMatrixDims`, `matrix_copy`, `matrix_newMatrix`): when the requested `rows*cols`
does not exceed the current `rows*cols` of `p`, or the call fails, the buffer keeps its
capacity; when the requested size exceeds the current `rows*cols` and the call succeeds,
the capacity afterwards is exactly the requested `rows*cols`. -/
theorem C29_capacity (p src : Mx) (entries : List ℚ) (rows cols : Int) (h : Heap) :
    (∃ m, (adjustMatrixDims (some p) rows cols h).2.1 = some m
      ∧ m.entries.length
          = if getSize p.rows p.cols < getSize rows cols
              ∧ (adjustMatrixDims (some p) rows cols h).1 = Status.SUCCESS
            then (getSize rows cols).toNat else p.entries.length)
    ∧ (∃ m, (matrix_copy (some p) src h).2.1 = some m
      ∧ m.entries.length
          = if getSize p.rows p.cols < getSize src.rows src.cols
              ∧ (matrix_copy (some p) src h).1 = Status.SUCCESS
            then (getSize src.rows src.cols).toNat else p.entries.length)
    ∧ (matrix_newMatrix p entries rows cols h).2.1.entries.length
      = if getSize p.rows p.cols < getSize rows cols
          ∧ (matrix_newMatrix p entries rows cols h).1 = Status.SUCCESS
        then (getSize rows cols).toNat else p.entries.length :=
  ⟨adjustMatrixDims_capacity p rows cols h, matrix_copy_capacity p src h,
   matrix_newMatrix_capacity p entries rows cols h⟩

/-- C30 (as stated) fails on the code: for the `2 x 2` matrix `[[1,2],[2,4]]` of
determinant 0, `matrix_opInv` reports the determinant-is-zero outcome, but an existing
result `[[5,6],[7,8]]` has been zeroed by `adjustMatrixDims`, and an empty result handle
holds a new zero matrix (two more blocks are live). -/
theorem C30_counterexample :
    matrix_opInv ⟨[1, 2, 2, 4], 2, 2, 1⟩ (some ⟨[5, 6, 7, 8], 2, 2, 1⟩) ⟨[], 4, 0⟩
      = (Status.FAILURE, Boolean.TRUE, some ⟨[0, 0, 0, 0], 2, 2, 1⟩, ⟨[], 4, 0⟩)
    ∧ matrix_opInv ⟨[1, 2, 2, 4], 2, 2, 1⟩ none ⟨[], 2, 0⟩
      = (Status.FAILURE, Boolean.TRUE, some ⟨[0, 0, 0, 0], 2, 2, 1⟩, ⟨[], 4, 0⟩) := by
  with_unfolding_all decide

/-- C30 (amended): for every square matrix `a` (`n x n`) with determinant 0 and every
result handle, when no allocation fails `matrix_opInv` reports the determinant-is-zero
outcome (`FAILURE` with the flag `TRUE`) and the result handle then holds the matrix
`adjustMatrixDims` prepared: `n` rows, `n` cols, `maxLength` 1 and every entry 0. -/
theorem C30_matrix_opInv_singular_result (n : Nat) (A : Mx) (res : Option Mx) (h : Heap)
    (hn : 1 ≤ n) (hA : A.Shaped n n) (hdet : Matrix.det (A.toMatrix n n) = 0)
    (hres : ValidHandle res) (hok : h.ok) :
    ∃ m h1, matrix_opInv A res h = (Status.FAILURE, Boolean.TRUE, some m, h1)
      ∧ m.rows = (n : Int) ∧ m.cols = (n : Int) ∧ m.maxLength = 1
      ∧ ∀ i j : Nat, i < n → j < n →
          matrix_getEntry m (i : Int) (j : Int) = (Status.SUCCESS, 0) := by
  rcases adjustMatrixDims_cases res hres n n h with ⟨m, h1, e, _, _, k1⟩ | ⟨_, _, _, k⟩
  · obtain ⟨s, hml, hz⟩ := adjustMatrixDims_zero res hres n n h m h1 e
    obtain ⟨v, st, _, _⟩ := (matrix_opDet_spec n hn A hA h1).of_ok (k1 hok)
    refine ⟨m, (matrix_opDet A h1).2.2, ?_, s.1, s.2.1, hml, ?_⟩
    · unfold matrix_opInv
      rw [hA.1, hA.2.1, e]
      simp only
      rw [if_neg (by rw [st]; decide), if_pos (by rw [v]; exact hdet)]
    · intro i j hi hj
      rw [getEntry_eq _ s.1 s.2.1 hi hj, hz i j hi hj]
  · exact absurd hok k

/-- Witness of C30 (amended): the `2 x 2` matrix `[[1,2],[2,4]]` and an existing result
`[[5,6],[7,8]]`. -/
theorem C30_witness :
    ∃ m h1, matrix_opInv ⟨[1, 2, 2, 4], 2, 2, 1⟩ (some ⟨[5, 6, 7, 8], 2, 2, 1⟩) ⟨[], 4, 0⟩
        = (Status.FAILURE, Boolean.TRUE, some m, h1)
      ∧ m.rows = ((2 : Nat) : Int) ∧ m.cols = ((2 : Nat) : Int) ∧ m.maxLength = 1
      ∧ ∀ i j : Nat, i < 2 → j < 2 →
          matrix_getEntry m (i : Int) (j : Int) = (Status.SUCCESS, 0) :=
  C30_matrix_opInv_singular_result 2 ⟨[1, 2, 2, 4], 2, 2, 1⟩ (some ⟨[5, 6, 7, 8], 2, 2, 1⟩)
    ⟨[], 4, 0⟩ (by decide) (by decide)
    (by simp [Matrix.det_fin_two, Mx.toMatrix, Mx.entry, matrix_getEntry, at_, rd]; norm_num)
    (by decide) (by decide)

/-- C31: for every `n = k + 1 ≥ 3` and every `n x n` matrix `a` with non-zero
determinant, when no allocation fails `opAdjugate` (the adjugate `matrix_opInv` builds
before it divides by the determinant) returns `SUCCESS` with an `n x n` result whose
entry `(j, i)` is `(-1)^(i+j) * det(minor(a, i, j))`, where the minor deletes row `i`
and column `j` and keeps the order of the remaining rows and columns. -/
theorem C31_opAdjugate_cofactors (k : Nat) (A : Mx) (res : Option Mx) (h : Heap)
    (hk : 2 ≤ k) (hA : A.Shaped (k + 1) (k + 1))
    (hdet : Matrix.det (A.toMatrix (k + 1) (k + 1)) ≠ 0)
    (hres : ValidHandle res) (hok : h.ok) :
    ∃ R h1, opAdjugate A res h = (Status.SUCCESS, some R, h1)
      ∧ R.rows = ((k + 1 : Nat) : Int) ∧ R.cols = ((k + 1 : Nat) : Int)
      ∧ ∀ i j : Nat, i < k + 1 → j < k + 1 →
          matrix_getEntry R (j : Int) (i : Int)
            = (Status.SUCCESS, (-1) ^ (i + j) * Matrix.det (minorMat2 A k i j)) := by
  rcases opAdjugate_cases A (k + 1) (by omega) hA hdet res hres h with
    ⟨R, h1, e, s, hadj, _, _⟩ | ⟨_, _, _, _, hno⟩
  · refine ⟨R, h1, e, s.1, s.2.1, ?_⟩
    intro i j hi hj
    rw [getEntry_eq R s.1 s.2.1 hj hi, entry_of_toMatrix hadj hj hi,
      Matrix.adjugate_fin_succ_eq_det_submatrix,
      ← minorMat2_eq_submatrix A k ⟨i, hi⟩ ⟨j, hj⟩]
  · exact absurd hok hno

/-- Witness of C31: the `3 x 3` matrix `[[2,0,0],[0,3,0],[0,0,4]]`. -/
theorem C31_witness :
    ∃ R h1, opAdjugate ⟨[2, 0, 0, 0, 3, 0, 0, 0, 4], 3, 3, 1⟩ none ⟨[], 0, 0⟩
        = (Status.SUCCESS, some R, h1)
      ∧ R.rows = ((2 + 1 : Nat) : Int) ∧ R.cols = ((2 + 1 : Nat) : Int)
      ∧ ∀ i j : Nat, i < 2 + 1 → j < 2 + 1 →
          matrix_getEntry R (j : Int) (i : Int)
            = (Status.SUCCESS,
                (-1) ^ (i + j)
                  * Matrix.det (minorMat2 ⟨[2, 0, 0, 0, 3, 0, 0, 0, 4], 3, 3, 1⟩ 2 i j)) :=
  C31_opAdjugate_cofactors 2 ⟨[2, 0, 0, 0, 3, 0, 0, 0, 4], 3, 3, 1⟩ none ⟨[], 0, 0⟩
    (by decide) (by decide)
    (by
      rw [Matrix.det_fin_three]
      simp only [toMatrix_apply]
      with_unfolding_all decide)
    (by decide) (by decide)

/-- C32: for every square matrix `a` (`n x n`) with non-zero determinant, when no
allocation fails `matrix_opInv` returns `SUCCESS` with an `n x n` result whose entry
`(i, j)` is `adjugate(a)(i, j) / det(a)`; the inverse of a `1 x 1` matrix `[x]` is
`[1/x]`, and the inverse of `[[p,q],[r,s]]` is `[[s,-q],[-r,p]] / (p*s - q*r)`. -/
theorem C32_matrix_opInv_entries (n : Nat) (A A1 A2 : Mx) (res : Option Mx) (h : Heap)
    (hres : ValidHandle res) (hok : h.ok) :
    (1 ≤ n → A.Shaped n n → Matrix.det (A.toMatrix n n) ≠ 0 →
      ∃ R h1, matrix_opInv A res h = (Status.SUCCESS, Boolean.FALSE, some R, h1)
        ∧ R.rows = (n : Int) ∧ R.cols = (n : Int)
        ∧ ∀ (i j : Nat) (hi : i < n) (hj : j < n),
            matrix_getEntry R (i : Int) (j : Int)
              = (Status.SUCCESS,
                  Matrix.adjugate (A.toMatrix n n) ⟨i, hi⟩ ⟨j, hj⟩
                    / Matrix.det (A.toMatrix n n)))
    ∧ (A1.Shaped 1 1 → A1.entry 0 0 ≠ 0 →
      ∃ R h1, matrix_opInv A1 res h = (Status.SUCCESS, Boolean.FALSE, some R, h1)
        ∧ matrix_getEntry R 0 0 = (Status.SUCCESS, 1 / A1.entry 0 0))
    ∧ (A2.Shaped 2 2 → A2.entry 0 0 * A2.entry 1 1 - A2.entry 0 1 * A2.entry 1 0 ≠ 0 →
      ∃ R h1, matrix_opInv A2 res h = (Status.SUCCESS, Boolean.FALSE, some R, h1)
        ∧ matrix_getEntry R 0 0
          = (Status.SUCCESS,
              A2.entry 1 1 / (A2.entry 0 0 * A2.entry 1 1 - A2.entry 0 1 * A2.entry 1 0))
        ∧ matrix_getEntry R 0 1
          = (Status.SUCCESS,
              -A2.entry 0 1 / (A2.entry 0 0 * A2.entry 1 1 - A2.entry 0 1 * A2.entry 1 0))
        ∧ matrix_getEntry R 1 0
          = (Status.SUCCESS,
              -A2.entry 1 0 / (A2.entry 0 0 * A2.entry 1 1 - A2.entry 0 1 * A2.entry 1 0))
        ∧ matrix_getEntry R 1 1
          = (Status.SUCCESS,
              A2.entry 0 0 / (A2.entry 0 0 * A2.entry 1 1 - A2.entry 0 1 * A2.entry 1 0))) := by
  have gen : ∀ (n : Nat) (A : Mx), 1 ≤ n → A.Shaped n n → Matrix.det (A.toMatrix n n) ≠ 0 →
      ∃ R h1, matrix_opInv A res h = (Status.SUCCESS, Boolean.FALSE, some R, h1)
        ∧ R.rows = (n : Int) ∧ R.cols = (n : Int)
        ∧ ∀ (i j : Nat) (hi : i < n) (hj : j < n),
            matrix_getEntry R (i : Int) (j : Int)
              = (Status.SUCCESS,
                  Matrix.adjugate (A.toMatrix n n) ⟨i, hi⟩ ⟨j, hj⟩
                    / Matrix.det (A.toMatrix n n)) := by
    intro n A hn hA hdet
    obtain ⟨R, h1, e, _, s, hinv⟩ := matrix_opInv_ok A n hn hA hdet res hres h hok
    refine ⟨R, h1, e, s.1, s.2.1, ?_⟩
    intro i j hi hj
    rw [getEntry_eq R s.1 s.2.1 hi hj, entry_of_toMatrix hinv hi hj, Matrix.smul_apply,
      smul_eq_mul, inv_mul_eq_div]
  refine ⟨gen n A, ?_, ?_⟩
  · intro hA1 hx
    have hd : Matrix.det (A1.toMatrix 1 1) = A1.entry 0 0 := by
      rw [Matrix.det_fin_one]
      rfl
    obtain ⟨R, h1, e, _, _, hent⟩ := gen 1 A1 (le_refl 1) hA1 (by rw [hd]; exact hx)
    refine ⟨R, h1, e, ?_⟩
    have := hent 0 0 (by decide) (by decide)
    rw [hd, Matrix.adjugate_fin_one] at this
    simpa using this
  · intro hA2 hx
    have hd : Matrix.det (A2.toMatrix 2 2)
        = A2.entry 0 0 * A2.entry 1 1 - A2.entry 0 1 * A2.entry 1 0 := by
      rw [Matrix.det_fin_two]
      rfl
    obtain ⟨R, h1, e, _, _, hent⟩ := gen 2 A2 (by decide) hA2 (by rw [hd]; exact hx)
    refine ⟨R, h1, e, ?_, ?_, ?_, ?_⟩
    · have := hent 0 0 (by decide) (by decide)
      rw [hd, Matrix.adjugate_fin_two] at this
      simpa [toMatrix_apply] using this
    · have := hent 0 1 (by decide) (by decide)
      rw [hd, Matrix.adjugate_fin_two] at this
      simpa [toMatrix_apply] using this
    · have := hent 1 0 (by decide) (by decide)
      rw [hd, Matrix.adjugate_fin_two] at this
      simpa [toMatrix_apply] using this
    · have := hent 1 1 (by decide) (by decide)
      rw [hd, Matrix.adjugate_fin_two] at this
      simpa [toMatrix_apply] using this

/-- Witness of C32: the `2 x 2` matrix `[[4,7],[2,6]]` of determinant 10. -/
theorem C32_witness :
    ∃ R h1, matrix_opInv ⟨[4, 7, 2, 6], 2, 2, 1⟩ none ⟨[], 0, 0⟩
        = (Status.SUCCESS, Boolean.FALSE, some R, h1)
      ∧ matrix_getEntry R 0 0
        = (Status.SUCCESS,
            (⟨[4, 7, 2, 6], 2, 2, 1⟩ : Mx).entry 1 1
              / ((⟨[4, 7, 2, 6], 2, 2, 1⟩ : Mx).entry 0 0 * (⟨[4, 7, 2, 6], 2, 2, 1⟩ : Mx).entry 1 1
                - (⟨[4, 7, 2, 6], 2, 2, 1⟩ : Mx).entry 0 1
                  * (⟨[4, 7, 2, 6], 2, 2, 1⟩ : Mx).entry 1 0))
      ∧ matrix_getEntry R 0 1
        = (Status.SUCCESS,
            -(⟨[4, 7, 2, 6], 2, 2, 1⟩ : Mx).entry 0 1
              / ((⟨[4, 7, 2, 6], 2, 2, 1⟩ : Mx).entry 0 0 * (⟨[4, 7, 2, 6], 2, 2, 1⟩ : Mx).entry 1 1
                - (⟨[4, 7, 2, 6], 2, 2, 1⟩ : Mx).entry 0 1
                  * (⟨[4, 7, 2, 6], 2, 2, 1⟩ : Mx).entry 1 0))
      ∧ matrix_getEntry R 1 0
        = (Status.SUCCESS,
            -(⟨[4, 7, 2, 6], 2, 2, 1⟩ : Mx).entry 1 0
              / ((⟨[4, 7, 2, 6], 2, 2, 1⟩ : Mx).entry 0 0 * (⟨[4, 7, 2, 6], 2, 2, 1⟩ : Mx).entry 1 1
                - (⟨[4, 7, 2, 6], 2, 2, 1⟩ : Mx).entry 0 1
                  * (⟨[4, 7, 2, 6], 2, 2, 1⟩ : Mx).entry 1 0))
      ∧ matrix_getEntry R 1 1
        = (Status.SUCCESS,
            (⟨[4, 7, 2, 6], 2, 2, 1⟩ : Mx).entry 0 0
              / ((⟨[4, 7, 2, 6], 2, 2, 1⟩ : Mx).entry 0 0 * (⟨[4, 7, 2, 6], 2, 2, 1⟩ : Mx).entry 1 1
                - (⟨[4, 7, 2, 6], 2, 2, 1⟩ : Mx).entry 0 1
                  * (⟨[4, 7, 2, 6], 2, 2, 1⟩ : Mx).entry 1 0)) :=
  (C32_matrix_opInv_entries 2 ⟨[4, 7, 2, 6], 2, 2, 1⟩ ⟨[5], 1, 1, 1⟩ ⟨[4, 7, 2, 6], 2, 2, 1⟩
    none ⟨[], 0, 0⟩ (by decide) (by decide)).2.2 (by decide) (by with_unfolding_all decide)

/-- C33: the determinant is the Laplace expansion along row 0. With no allocation
failure, for `n = k + 1 ≥ 3` the value of `matrix_opDet(m)` is the sum over the columns
`c` of `(+1 for even c, -1 for odd c) * m(0,c) * det(minor(m,0,c))`, where the minor
deletes row 0 and column `c`, and the determinant of that minor is what the recursive
call returns for the minor the code builds; for `n = 2` the value is
`m(0,0)*m(1,1) - m(1,0)*m(0,1)`; for `n = 1` it is `m(0,0)`. -/
theorem C33_laplace_row_zero (k : Nat) (m m2 m1 : Mx) (h : Heap) (hok : h.ok) :
    (2 ≤ k → m.Shaped (k + 1) (k + 1) →
      (matrix_opDet m h).2.1 = Status.SUCCESS
      ∧ (matrix_opDet m h).1
        = ∑ c in Finset.range (k + 1),
            (if c % 2 = 0 then 1 else -1) * m.entry 0 c * Matrix.det (minorMat m k c)
      ∧ ∀ (c : Nat) (sub0 : Mx), c < k + 1 → sub0.Shaped k k →
          (opDet (opDetSub m (c : Int) sub0) Status.SUCCESS h).1
            = Matrix.det (minorMat m k c))
    ∧ (m2.Shaped 2 2 →
      (matrix_opDet m2 h).2.1 = Status.SUCCESS
      ∧ (matrix_opDet m2 h).1 = m2.entry 0 0 * m2.entry 1 1 - m2.entry 1 0 * m2.entry 0 1)
    ∧ (m1.Shaped 1 1 →
      (matrix_opDet m1 h).2.1 = Status.SUCCESS ∧ (matrix_opDet m1 h).1 = m1.entry 0 0) := by
  refine ⟨?_, ?_, ?_⟩
  · intro hk hm
    obtain ⟨v, s, _, _⟩ := (matrix_opDet_spec (k + 1) (by omega) m hm h).of_ok hok
    refine ⟨s, ?_, ?_⟩
    · rw [v, ← laplace_row_zero, list_range_map_sum]
      refine Finset.sum_congr rfl ?_
      intro c _
      rw [neg_one_pow_ite]
    · intro c sub0 hc hs
      obtain ⟨ss, hmat⟩ := opDetSub_toMatrix m hm c hc sub0 hs
      obtain ⟨v2, _, _, _⟩ := (opDet_spec k hk _ ss Status.SUCCESS h).of_ok hok
      rw [v2, hmat]
  · intro hm
    obtain ⟨v, s, _, _⟩ := (matrix_opDet_spec 2 (by decide) m2 hm h).of_ok hok
    refine ⟨s, ?_⟩
    rw [v, Matrix.det_fin_two]
    simp only [toMatrix_apply]
    show m2.entry 0 0 * m2.entry 1 1 - m2.entry 0 1 * m2.entry 1 0 = _
    rw [mul_comm (m2.entry 0 1) (m2.entry 1 0)]
  · intro hm
    obtain ⟨v, s, _, _⟩ := (matrix_opDet_spec 1 (by decide) m1 hm h).of_ok hok
    refine ⟨s, ?_⟩
    rw [v, Matrix.det_fin_one]
    rfl

/-- Witness of C33: a `3 x 3` matrix, with no allocation failure. -/
theorem C33_witness :
    (matrix_opDet ⟨[1, 2, 3, 4, 5, 6, 7, 8, 10], 3, 3, 2⟩ ⟨[], 0, 0⟩).2.1 = Status.SUCCESS
    ∧ (matrix_opDet ⟨[1, 2, 3, 4, 5, 6, 7, 8, 10], 3, 3, 2⟩ ⟨[], 0, 0⟩).1
      = ∑ c in Finset.range (2 + 1),
          (if c % 2 = 0 then 1 else -1)
            * (⟨[1, 2, 3, 4, 5, 6, 7, 8, 10], 3, 3, 2⟩ : Mx).entry 0 c
            * Matrix.det (minorMat ⟨[1, 2, 3, 4, 5, 6, 7, 8, 10], 3, 3, 2⟩ 2 c)
    ∧ ∀ (c : Nat) (sub0 : Mx), c < 2 + 1 → sub0.Shaped 2 2 →
        (opDet (opDetSub ⟨[1, 2, 3, 4, 5, 6, 7, 8, 10], 3, 3, 2⟩ (c : Int) sub0)
            Status.SUCCESS ⟨[], 0, 0⟩).1
          = Matrix.det (minorMat ⟨[1, 2, 3, 4, 5, 6, 7, 8, 10], 3, 3, 2⟩ 2 c) :=
  (C33_laplace_row_zero 2 ⟨[1, 2, 3, 4, 5, 6, 7, 8, 10], 3, 3, 2⟩ ⟨[1, 2, 3, 4], 2, 2, 1⟩
    ⟨[5], 1, 1, 1⟩ ⟨[], 0, 0⟩ (by decide)).1 (by decide) (by decide)

/-- C34: under the documented preconditions every index computed through `at()` inside
`matrix_opAdd`, `matrix_opSub`, `matrix_opMult`, `matrix_opTrans`, `opDet` and
`opAdjugate` is in bounds. The checked executions stop with `none` at the first `at()`
whose value is the `-1` sentinel or lies outside `[0, rows*cols)` of the buffer it is
used on; under the preconditions (operands of add/sub of one shape, `a.cols = b.rows`
for mult, a square matrix with `n ≥ 1` for determinant and adjugate, result handle
empty or valid) they run to the end with the result of the plain execution, for every
allocator behaviour. Without the preconditions the check does fire (last conjunct:
a 1x2 times a 1x1 matrix). -/
theorem C34_at_indices_in_bounds (ops : List Mx) (a b m : Mx) (r c k n : Nat)
    (mem : Status) (res : Option Mx) (h : Heap) (hres : ValidHandle res) :
    (ops ≠ [] → (∀ x ∈ ops, x.Shaped r c) →
        matrix_opAddChk ops (ops.length : Int) res h
          = some (matrix_opAdd ops (ops.length : Int) res h)
        ∧ matrix_opSubChk ops (ops.length : Int) res h
          = some (matrix_opSub ops (ops.length : Int) res h))
    ∧ (a.Shaped r k → b.Shaped k c →
        matrix_opMultChk a b res h = some (matrix_opMult a b res h))
    ∧ (a.Shaped r c → matrix_opTransChk a res h = some (matrix_opTrans a res h))
    ∧ (1 ≤ n → m.Shaped n n →
        matrix_opDetChk m h = some (matrix_opDet m h)
        ∧ opAdjugateChk m res h = some (opAdjugate m res h))
    ∧ (2 ≤ n → m.Shaped n n → opDetChk m mem h = some (opDet m mem h))
    ∧ matrix_opMultChk ⟨[1, 2], 1, 2, 1⟩ ⟨[3], 1, 1, 1⟩ none ⟨[], 0, 0⟩ = none := by
  refine ⟨fun hne hall => ⟨matrix_opAddChk_eq ops hne hall res hres h,
      matrix_opSubChk_eq ops hne hall res hres h⟩,
    fun ha hb => matrix_opMultChk_eq a b ha hb res hres h,
    fun ha => matrix_opTransChk_eq a ha res hres h,
    fun hn hm => ⟨matrix_opDetChk_eq n hn m hm h, opAdjugateChk_eq m n hn hm res hres h⟩,
    fun hn hm => opDetChk_eq n hn m hm mem h, ?_⟩
  with_unfolding_all decide

/-- Witness of C34: the checked adjugate of the 3x3 matrix `diag(2, 3, 4)` into an empty
handle runs through every `at()` of `opAdjugate`, `opDet` and `matrix_opTrans`. -/
theorem C34_witness :
    ValidHandle none ∧ (1 ≤ 3) ∧ Mx.Shaped ⟨[2, 0, 0, 0, 3, 0, 0, 0, 4], 3, 3, 1⟩ 3 3
      ∧ opAdjugateChk ⟨[2, 0, 0, 0, 3, 0, 0, 0, 4], 3, 3, 1⟩ none ⟨[], 0, 0⟩
          = some (opAdjugate ⟨[2, 0, 0, 0, 3, 0, 0, 0, 4], 3, 3, 1⟩ none ⟨[], 0, 0⟩) :=
  ⟨by decide, by decide, by decide,
    ((C34_at_indices_in_bounds [] ⟨[1], 1, 1, 1⟩ ⟨[1], 1, 1, 1⟩
      ⟨[2, 0, 0, 0, 3, 0, 0, 0, 4], 3, 3, 1⟩ 1 1 1 3 Status.SUCCESS none ⟨[], 0, 0⟩
      (by decide)).2.2.2.1 (by decide) (by decide)).2⟩

/-- C36 on the code: `matrix_setEntry` writes the entry and leaves `maxLength` as it
was. Setting entry `(0, 0)` of `[[1,2],[3,4]]` (`maxLength` 1) to 100 returns `SUCCESS`
with `maxLength` still 1, although the formatted width of 100 is 3. -/
theorem C36_setEntry_keeps_maxLength :
    matrix_setEntry ⟨[1, 2, 3, 4], 2, 2, 1⟩ 0 0 100
      = (Status.SUCCESS, ⟨[100, 2, 3, 4], 2, 2, 1⟩)
    ∧ matrix_getEntry ⟨[100, 2, 3, 4], 2, 2, 1⟩ 0 0 = (Status.SUCCESS, 100)
    ∧ calcEntryLength 100 = 3
    ∧ (⟨[100, 2, 3, 4], 2, 2, 1⟩ : Mx).maxLength = 1 := by
  with_unfolding_all decide

/-- C37: with no allocation failure, for a `1 x 1` matrix `[x]` the adjugate
`opAdjugate` builds has the single entry 1 if `x ≠ 0` and 0 otherwise; for a `2 x 2`
matrix `[[p,q],[r,s]]` it is `[[s,-q],[-r,p]]`. -/
theorem C37_opAdjugate_small (A1 A2 : Mx) (res : Option Mx) (h : Heap)
    (hres : ValidHandle res) (hok : h.ok) :
    (A1.Shaped 1 1 →
      ∃ R h1, opAdjugate A1 res h = (Status.SUCCESS, some R, h1)
        ∧ R.rows = 1 ∧ R.cols = 1
        ∧ matrix_getEntry R 0 0 = (Status.SUCCESS, if A1.entry 0 0 ≠ 0 then 1 else 0))
    ∧ (A2.Shaped 2 2 →
      ∃ R h1, opAdjugate A2 res h = (Status.SUCCESS, some R, h1)
        ∧ R.rows = 2 ∧ R.cols = 2
        ∧ matrix_getEntry R 0 0 = (Status.SUCCESS, A2.entry 1 1)
        ∧ matrix_getEntry R 0 1 = (Status.SUCCESS, -A2.entry 0 1)
        ∧ matrix_getEntry R 1 0 = (Status.SUCCESS, -A2.entry 1 0)
        ∧ matrix_getEntry R 1 1 = (Status.SUCCESS, A2.entry 0 0)) := by
  refine ⟨?_, ?_⟩
  · intro hA
    rcases adjustMatrixDims_cases res hres 1 1 h with ⟨R0, h1, e, hR0, _, _⟩ | ⟨_, _, _, hno⟩
    swap
    · exact absurd hok hno
    have hlen : 0 < R0.entries.length := by have := hR0.2.2; omega
    have e0 : A1.entry 0 0 = rd A1.entries 0 := by
      rw [entry_eq A1 hA.1 hA.2.1 (show 0 < 1 by decide) (show 0 < 1 by decide)]
      exact (rd_natCast A1.entries 0).symm
    refine ⟨{ R0 with entries := wr R0.entries 0 (if rd A1.entries 0 ≠ 0 then 1 else 0) }, h1,
      ?_, hR0.1, hR0.2.1, ?_⟩
    · unfold opAdjugate
      rw [hA.1, hA.2.1]
      simp only [Nat.cast_one] at e ⊢
      simp only [e]
      rw [if_pos ⟨hR0.1, hR0.2.1⟩]
    · refine Eq.trans (getEntry_getD _ hR0.1 hR0.2.1 (show 0 < 1 by decide)
        (show 0 < 1 by decide)) ?_
      show (Status.SUCCESS, (wr R0.entries ((0 : Nat) : Int) _).getD 0 0) = _
      rw [wr_natCast, getD_set_self _ _ _ hlen, e0]
  · intro hA
    rcases adjustMatrixDims_cases res hres 2 2 h with ⟨R0, h1, e, hR0, _, _⟩ | ⟨_, _, _, hno⟩
    swap
    · exact absurd hok hno
    obtain ⟨s, hadj⟩ := opAdjugate2x2_spec A2 R0 hA hR0
    refine ⟨opAdjugate2x2 A2 R0, h1, ?_, s.1, s.2.1, ?_, ?_, ?_, ?_⟩
    · unfold opAdjugate
      rw [hA.1, hA.2.1]
      simp only [e]
      rw [if_neg (by rw [hR0.1]; intro q; exact absurd q.1 (by decide)),
        if_pos ⟨hR0.1, hR0.2.1⟩]
    · have := getEntry_eq _ s.1 s.2.1 (show 0 < 2 by decide) (show 0 < 2 by decide)
      rw [entry_of_toMatrix hadj (show 0 < 2 by decide) (show 0 < 2 by decide),
        Matrix.adjugate_fin_two] at this
      simpa [toMatrix_apply] using this
    · have := getEntry_eq _ s.1 s.2.1 (show 0 < 2 by decide) (show 1 < 2 by decide)
      rw [entry_of_toMatrix hadj (show 0 < 2 by decide) (show 1 < 2 by decide),
        Matrix.adjugate_fin_two] at this
      simpa [toMatrix_apply] using this
    · have := getEntry_eq _ s.1 s.2.1 (show 1 < 2 by decide) (show 0 < 2 by decide)
      rw [entry_of_toMatrix hadj (show 1 < 2 by decide) (show 0 < 2 by decide),
        Matrix.adjugate_fin_two] at this
      simpa [toMatrix_apply] using this
    · have := getEntry_eq _ s.1 s.2.1 (show 1 < 2 by decide) (show 1 < 2 by decide)
      rw [entry_of_toMatrix hadj (show 1 < 2 by decide) (show 1 < 2 by decide),
        Matrix.adjugate_fin_two] at this
      simpa [toMatrix_apply] using this

/-- Witness of C37: the `1 x 1` matrix `[0]`, whose adjugate entry is 0. -/
theorem C37_witness :
    ∃ R h1, opAdjugate ⟨[0], 1, 1, 1⟩ (some ⟨[7, 7, 7, 7], 2, 2, 1⟩) ⟨[], 0, 0⟩
        = (Status.SUCCESS, some R, h1)
      ∧ R.rows = 1 ∧ R.cols = 1
      ∧ matrix_getEntry R 0 0
        = (Status.SUCCESS, if (⟨[0], 1, 1, 1⟩ : Mx).entry 0 0 ≠ 0 then 1 else 0) :=
  (C37_opAdjugate_small ⟨[0], 1, 1, 1⟩ ⟨[1, 2, 3, 4], 2, 2, 1⟩ (some ⟨[7, 7, 7, 7], 2, 2, 1⟩)
    ⟨[], 0, 0⟩ (by decide) (by decide)).1 (by decide)

/-- C38: for every `n ≥ 1` and every `n x n` matrix, whatever the allocator does,
`matrix_opDet` returns within a nesting depth of `n` calls, and `opDet` (`n ≥ 2`) within
`n - 1`: every recursive call is on a minor with one row and one column less
(`n ≥ 3`), and the `2 x 2` case makes no call. The calls of `opDet` that `opAdjugate`
makes on its `(n-1) x (n-1)` minors return within depth `n - 2` (`n ≥ 3`); the other
loops of the adjugate and of the inverse are bounded `for` loops. The bound `n` is
reached: a `3 x 3` determinant does not return within depth 2 (last conjunct). -/
theorem C38_opDet_terminates (n : Nat) (m : Mx) (mem : Status) (h : Heap)
    (hn : 1 ≤ n) (hm : m.Shaped n n) :
    matrix_opDetBounded n m h = some (matrix_opDet m h)
    ∧ (2 ≤ n → opDetBounded (n - 1) m mem h = some (opDet m mem h))
    ∧ (3 ≤ n → ∀ (col : Nat) (sub0 : Mx), col < n → sub0.Shaped (n - 1) (n - 1) →
        (opDetSub m (col : Int) sub0).Shaped (n - 1) (n - 1))
    ∧ (3 ≤ n → ∀ (row col : Nat) (sub0 : Mx), row < n → col < n →
        sub0.Shaped (n - 1) (n - 1) →
        opDetBounded (n - 2) (opAdjSub m (row : Int) (col : Int) sub0) mem h
          = some (opDet (opAdjSub m (row : Int) (col : Int) sub0) mem h))
    ∧ matrix_opDetBounded 2 ⟨[1, 2, 3, 4, 5, 6, 7, 8, 10], 3, 3, 2⟩ ⟨[], 0, 0⟩ = none := by
  have hop : ∀ k, 2 ≤ k → ∀ (x : Mx), x.Shaped k k → ∀ d, k - 1 ≤ d → ∀ mem h,
      opDetBounded d x mem h = some (opDet x mem h) := by
    intro k hk x hx d hd mem h
    rw [opDetBounded_eq k hk x hx d hd mem h]
    unfold opDet
    rw [hx.2.1, Int.toNat_natCast]
  refine ⟨?_, ?_, ?_, ?_, by with_unfolding_all decide⟩
  · obtain ⟨d, rfl⟩ : ∃ d, n = d + 1 := ⟨n - 1, by omega⟩
    unfold matrix_opDet
    show (if m.rows = 1 ∧ m.cols = 1 then some (rd m.entries 0, Status.SUCCESS, h)
      else opDetBounded d m Status.SUCCESS h) = _
    by_cases h1 : m.rows = 1 ∧ m.cols = 1
    · rw [if_pos h1, if_pos h1]
    · rw [if_neg h1, if_neg h1]
      have hd : 2 ≤ d + 1 := by
        rcases Nat.lt_or_ge d 1 with hlt | hge
        · have hd0 : d = 0 := by omega
          subst hd0
          exact absurd ⟨hm.1, hm.2.1⟩ h1
        · omega
      exact hop (d + 1) hd m hm d (by omega) Status.SUCCESS h
  · intro h2
    exact hop n h2 m hm (n - 1) (le_refl _) mem h
  · intro _ col sub0 hcol hs
    exact (opDetSub_spec m hm col hcol sub0 hs).1
  · intro h3 row col sub0 hrow hcol hs
    exact hop (n - 1) (by omega) _ (opAdjSub_spec m hm row col hrow hcol sub0 hs).1 (n - 2)
      (by omega) mem h

/-- Witness of C38: a `3 x 3` matrix; the second allocation request fails. -/
theorem C38_witness :
    matrix_opDetBounded 3 ⟨[1, 2, 3, 4, 5, 6, 7, 8, 10], 3, 3, 2⟩ ⟨[true, false], 0, 0⟩
      = some (matrix_opDet ⟨[1, 2, 3, 4, 5, 6, 7, 8, 10], 3, 3, 2⟩ ⟨[true, false], 0, 0⟩) :=
  (C38_opDet_terminates 3 ⟨[1, 2, 3, 4, 5, 6, 7, 8, 10], 3, 3, 2⟩ Status.SUCCESS
    ⟨[true, false], 0, 0⟩ (by decide) (by decide)).1

/-- C39 (as stated) fails on the code: with `a = [[1,2],[3,4]]`, `matrix_opMult(a, a, &a)`
leaves `a` all zeros, while the product computed into a separate handle is
`[[7,10],[15,22]]`; with `b = [[10,20],[30,40]]`, `matrix_opAdd([a, b], &a)` leaves `a`
equal to `b`, while the sum computed into a separate handle is `[[11,22],[33,44]]`. -/
theorem C39_counterexample :
    matrix_opMult_self ⟨[1, 2, 3, 4], 2, 2, 1⟩ ⟨[], 2, 0⟩
      = (Status.SUCCESS, some ⟨[0, 0, 0, 0], 2, 2, 1⟩, ⟨[], 2, 0⟩)
    ∧ matrix_opMult ⟨[1, 2, 3, 4], 2, 2, 1⟩ ⟨[1, 2, 3, 4], 2, 2, 1⟩ none ⟨[], 2, 0⟩
      = (Status.SUCCESS, some ⟨[7, 10, 15, 22], 2, 2, 2⟩, ⟨[], 4, 0⟩)
    ∧ matrix_opAdd_self ⟨[1, 2, 3, 4], 2, 2, 1⟩ [⟨[10, 20, 30, 40], 2, 2, 2⟩] 2 ⟨[], 4, 0⟩
      = (Status.SUCCESS, some ⟨[10, 20, 30, 40], 2, 2, 2⟩, ⟨[], 4, 0⟩)
    ∧ matrix_opAdd [⟨[1, 2, 3, 4], 2, 2, 1⟩, ⟨[10, 20, 30, 40], 2, 2, 2⟩] 2 none ⟨[], 4, 0⟩
      = (Status.SUCCESS, some ⟨[11, 22, 33, 44], 2, 2, 2⟩, ⟨[], 6, 0⟩) := by
  set_option maxRecDepth 100000 in
  with_unfolding_all decide

/-- C39 (amended): `matrix_opAdd`, `matrix_opSub` and `matrix_opMult` do not read the
sources before they overwrite the destination: each zeroes the destination
(`adjustMatrixDims`) and then reads the operands. When no allocation fails and the
result handle is empty or holds a matrix that is none of the operands, whatever its
shape and contents, the result is the sum, the difference or the product. When the
result handle holds the very same matrix as the first operand, that operand is read as
zeros: `matrix_opMult(a, a, &a)` leaves the `n x n` matrix `a` all zeros,
`matrix_opAdd([a, b1, ..., bk], &a)` leaves `a` equal to `b1 + ... + bk` and
`matrix_opSub([a, b1, ..., bk], &a)` leaves `a` equal to `0 - b1 - ... - bk`. -/
theorem C39_result_aliasing (a b : Mx) (others : List Mx) (n r k c : Nat) (res : Option Mx)
    (h : Heap) :
    (a.Shaped n n →
      ∃ R, matrix_opMult_self a h = (Status.SUCCESS, some R, h)
        ∧ R.rows = (n : Int) ∧ R.cols = (n : Int)
        ∧ ∀ i j : Nat, i < n → j < n →
            matrix_getEntry R (i : Int) (j : Int) = (Status.SUCCESS, 0))
    ∧ (a.Shaped r c → (∀ m ∈ others, m.Shaped r c) →
      ∃ R, matrix_opAdd_self a others ((others.length + 1 : Nat) : Int) h
          = (Status.SUCCESS, some R, h)
        ∧ R.rows = (r : Int) ∧ R.cols = (c : Int)
        ∧ ∀ i j : Nat, i < r → j < c →
            matrix_getEntry R (i : Int) (j : Int)
              = (Status.SUCCESS, (others.map (fun m => m.entry i j)).sum))
    ∧ (a.Shaped r c → (∀ m ∈ others, m.Shaped r c) →
      ∃ R, matrix_opSub_self a others ((others.length + 1 : Nat) : Int) h
          = (Status.SUCCESS, some R, h)
        ∧ R.rows = (r : Int) ∧ R.cols = (c : Int)
        ∧ ∀ i j : Nat, i < r → j < c →
            matrix_getEntry R (i : Int) (j : Int)
              = (Status.SUCCESS, others.foldl (fun acc m => acc - m.entry i j) 0))
    ∧ (a.Shaped r k → b.Shaped k c → ValidHandle res → h.ok →
      ∃ R h1, matrix_opMult a b res h = (Status.SUCCESS, some R, h1)
        ∧ ∀ i j : Nat, i < r → j < c →
            matrix_getEntry R (i : Int) (j : Int)
              = (Status.SUCCESS, ∑ t in Finset.range k, a.entry i t * b.entry t j))
    ∧ (a.Shaped r c → (∀ m ∈ others, m.Shaped r c) → ValidHandle res → h.ok →
      ∃ R h1, matrix_opAdd (a :: others) (((a :: others).length : Nat) : Int) res h
          = (Status.SUCCESS, some R, h1)
        ∧ ∀ i j : Nat, i < r → j < c →
            matrix_getEntry R (i : Int) (j : Int)
              = (Status.SUCCESS, a.entry i j + (others.map (fun m => m.entry i j)).sum))
    ∧ (a.Shaped r c → (∀ m ∈ others, m.Shaped r c) → ValidHandle res → h.ok →
      ∃ R h1, matrix_opSub (a :: others) (((a :: others).length : Nat) : Int) res h
          = (Status.SUCCESS, some R, h1)
        ∧ ∀ i j : Nat, i < r → j < c →
            matrix_getEntry R (i : Int) (j : Int)
              = (Status.SUCCESS,
                  others.foldl (fun acc m => acc - m.entry i j) (a.entry i j))) := by
  refine ⟨?_, ?_, ?_, ?_, ?_, ?_⟩
  · intro ha
    obtain ⟨R, e, s, hent⟩ := matrix_opMult_self_zero a ha h
    refine ⟨R, e, s.1, s.2.1, ?_⟩
    intro i j hi hj
    rw [getEntry_eq R s.1 s.2.1 hi hj, hent i j hi hj]
  · intro ha hall
    obtain ⟨R, e, s, hent⟩ := matrix_opAdd_self_sum a others ha hall h
    refine ⟨R, e, s.1, s.2.1, ?_⟩
    intro i j hi hj
    rw [getEntry_eq R s.1 s.2.1 hi hj, hent i j hi hj]
  · intro ha hall
    obtain ⟨R, e, s, hent⟩ := matrix_opSub_self_diff a others ha hall h
    refine ⟨R, e, s.1, s.2.1, ?_⟩
    intro i j hi hj
    rw [getEntry_eq R s.1 s.2.1 hi hj, hent i j hi hj]
  · intro ha hb hres hok
    obtain ⟨R, h1, e, _, _, s, hent⟩ := matrix_opMult_ok a b ha hb res hres h hok
    refine ⟨R, h1, e, ?_⟩
    intro i j hi hj
    rw [getEntry_eq R s.1 s.2.1 hi hj, hent i j hi hj]
  · intro ha hall hres hok
    have hall' : ∀ m ∈ a :: others, m.Shaped r c := by
      intro m hm
      rcases List.mem_cons.mp hm with e | e
      · rw [e]
        exact ha
      · exact hall m e
    obtain ⟨R, h1, e, _, s, hent⟩ :=
      matrix_opAdd_ok (a :: others) (List.cons_ne_nil _ _) hall' res hres h hok
    refine ⟨R, h1, e, ?_⟩
    intro i j hi hj
    rw [getEntry_eq R s.1 s.2.1 hi hj, hent i j hi hj, List.map_cons, List.sum_cons]
  · intro ha hall hres hok
    have hall' : ∀ m ∈ a :: others, m.Shaped r c := by
      intro m hm
      rcases List.mem_cons.mp hm with e | e
      · rw [e]
        exact ha
      · exact hall m e
    obtain ⟨R, h1, e, _, s, hent⟩ := matrix_opSub_ok a others hall' res hres h hok
    refine ⟨R, h1, e, ?_⟩
    intro i j hi hj
    rw [getEntry_eq R s.1 s.2.1 hi hj, hent i j hi hj]

/-- Witness of C39 (amended): `matrix_opMult(a, a, &a)` for `a = [[1,2],[3,4]]`. -/
theorem C39_witness :
    ∃ R, matrix_opMult_self ⟨[1, 2, 3, 4], 2, 2, 1⟩ ⟨[], 2, 0⟩
        = (Status.SUCCESS, some R, ⟨[], 2, 0⟩)
      ∧ R.rows = ((2 : Nat) : Int) ∧ R.cols = ((2 : Nat) : Int)
      ∧ ∀ i j : Nat, i < 2 → j < 2 →
          matrix_getEntry R (i : Int) (j : Int) = (Status.SUCCESS, 0) :=
  (C39_result_aliasing ⟨[1, 2, 3, 4], 2, 2, 1⟩ ⟨[1, 2, 3, 4], 2, 2, 1⟩ [] 2 2 2 2 none
    ⟨[], 2, 0⟩).1 (by decide)

/-- C40 on the code: on the documented examples `calcEntryLength` returns the width of
the printed string (`1024` has 4, `1.5` has 3, `-425.73` has 7), but for `10.0000001`,
which is not an integer and is rendered `10.000000`, its loop strips the six zeros, the
point and then the last digit of the integer part and returns 1, while `matrix_print`
shows `10`, of length 2. -/
theorem C40_calcEntryLength_strips_integer_digits :
    calcEntryLength 1024 = 4
    ∧ calcEntryLength (3 / 2) = 3 ∧ printedEntry (3 / 2) = ['1', '.', '5']
    ∧ calcEntryLength (-42573 / 100) = 7
    ∧ printedEntry (-42573 / 100) = ['-', '4', '2', '5', '.', '7', '3']
    ∧ fmtF (100000001 / 10000000) = ['1', '0', '.', '0', '0', '0', '0', '0', '0']
    ∧ calcEntryLength (100000001 / 10000000) = 1
    ∧ printedEntry (100000001 / 10000000) = ['1', '0'] := by
  set_option maxRecDepth 100000 in
  with_unfolding_all decide
